import Mathlib

/-!
Blocked SME2 compute kernels: depthwise 3x3 convolution and interleaved GEMM.

Shallow embedding of the two assembly kernels

* `sme2_fp32_nhwc_3x3_s1_output3x3_mla_depthfirst_direct_impl`
  (`arm_conv/depthwise/.../generic_direct.cpp`), and
* `sme2_interleaved_nomerge_fp16fp32fp16_mopa_1VLx4VL`
  (`arm_gemm/.../generic.cpp`),

and of the tensor memory manager exercised by `tests/validation/NEON/UNIT/TensorAllocator.cpp`,
whose implementation is not among the sources and is modelled from the specification.

Conventions of the embedding.

* Arithmetic is exact: register lanes hold elements of a linearly ordered field `R`; `fmla` is
  `acc + a * b`, `fmax`/`fmin` are `max`/`min`.
* A conversion to half precision is a rounding function `cvt` on `R`.  Infinite clamp bounds are
  `none`; the conversion of the upper bound in the GEMM constructor overflows to plus infinity.
* `W` is the number of 32-bit lanes of a vector (`cntw`).  A vector register is a function from the
  lane index to its value, a predicate register a function from the lane index to `Bool`.
* A pointer is modelled by the memory that is read through it, indexed by the element offset from
  the pointer; pointer registers hold element offsets (`addvl x, x, #1` adds `W` floats).  Address
  arithmetic is done in `Int`/`Nat`: the 64-bit wrap-around of the registers is a ring
  homomorphism, so it commutes with these computations.
* Stores are recorded as a list of events, in program order.
* Read-only operands (input, parameters, `A`, `B`, bias) do not alias the written buffers.
-/

/-- Vector register: lane index to value. -/
abbrev ZReg (R : Type) := Nat → R

/-- Predicate register: lane index to activity. -/
abbrev PReg := Nat → Bool

section VectorOps

variable {R : Type} [LinearOrderedField R]

/-- Instruction `whilelt p.s, x, n`: lane `l` is active when `x + l < n`. -/
def whilelt (x n : Nat) : PReg := fun l => decide (x + l < n)

/-- Instruction `fmla zd, p3/M, zn, zm` under an all-true predicate. -/
def fmla (zd zn zm : ZReg R) : ZReg R := fun l => zd l + zn l * zm l

/-- Instruction `fmax zd, p3/M, zd, zm` under an all-true predicate. -/
def fmax (zd zm : ZReg R) : ZReg R := fun l => max (zd l) (zm l)

/-- Instruction `fmin zd, p3/M, zd, zm` under an all-true predicate. -/
def fmin (zd zm : ZReg R) : ZReg R := fun l => min (zd l) (zm l)

/-- Instruction `fclamp zd, zn, zm`: `min (max zd zn) zm`, lane by lane. -/
def fclamp (zd zn zm : ZReg R) : ZReg R := fun l => min (max (zd l) (zn l)) (zm l)

/-- Instruction `ld1w { z }, p/Z, [x]` on memory indexed by integer float offsets. -/
def ld1w (mem : Int → R) (p : PReg) (x : Int) : ZReg R :=
  fun l => if p l then mem (x + (l : Int)) else 0

/-- Instruction `ld1w { z }, p3/Z, [x]` (all lanes) on memory indexed by natural float offsets. -/
def ld1w_all (mem : Nat → R) (x : Nat) : ZReg R := fun l => mem (x + l)

/-- Instruction `ld1rw { z }, p3/Z, [x]`: broadcast of one value. -/
def ld1rw (v : R) : ZReg R := fun _ => v

/-- Instruction `st1w { z }, p, [x]`: one store event per active lane, lanes `0 .. W-1`. -/
def st1w (W : Nat) (z : ZReg R) (p : PReg) (x : Int) : List (Int × R) :=
  ((List.range W).filter (fun l => p l)).map (fun (l : Nat) => (x + (l : Int), z l))

end VectorOps

namespace arm_conv
namespace depthwise

variable {R : Type} [LinearOrderedField R]

/-- Argument block `Args` of the depthwise kernel.  `inptr` and `params` are the memories read
through the pointers; `outptr` is write-only and is represented by the store events, whose
addresses are float offsets from `outptr`. -/
structure Args (R : Type) where
  n_tile_rows : Nat
  n_tile_cols : Nat
  inptr : Int → R
  ld_input_row : Int
  ld_input_col : Int
  ld_output_row : Int
  ld_output_col : Int
  params : Nat → R
  min : R
  max : R

/-- Registers live across the channel loop of one tile. -/
@[ext]
structure Regs (R : Type) where
  x4 : Int
  x7 : Int
  x8 : Int
  x17 : Int
  x5 : Int
  x16 : Int
  x15 : Int
  x14 : Int
  x13 : Int
  x6 : Nat
  x20 : Int
  x21 : Nat
  x22 : Nat
  x27 : Int
  x25 : Int
  x26 : Int
  x24 : Int
  x23 : Int
  p2 : PReg
  z0 : ZReg R
  z1 : ZReg R
  z2 : ZReg R
  z3 : ZReg R
  z4 : ZReg R
  z5 : ZReg R
  z6 : ZReg R
  z7 : ZReg R
  z8 : ZReg R
  z25 : ZReg R
  z9 : ZReg R
  z10 : ZReg R
  z11 : ZReg R
  z12 : ZReg R
  z13 : ZReg R
  z15 : ZReg R
  z14 : ZReg R

/-- Labels `1:` to `4:` before the branch `bge 4f`: tile offsets, parameter loads and the first
five input loads of a tile `(x2, x3)`.  The prefetches (`rprfm`) have no architectural effect. -/
def tile_loop_head (W n_channels : Nat) (a : Args R) (x2 x3 : Nat) : Regs R :=
  let x22 : Int := 3
  let x21 := a.ld_input_row
  let x4 := a.ld_input_col
  let x5 : Int := 0
  let x20 := (x2 : Int) * x21
  let x6 : Nat := 0
  let x20 := (x3 : Int) * x4 + x20
  let x7 := x4 + x4
  let x20 := x20 * x22
  let x8 := x7 + x4
  let x5 := x5 + x20
  let x17 := x8 + x4
  let x16 := x5 + x21
  let x15 := x16 + x21
  let x14 := x15 + x21
  let x13 := x14 + x21
  -- 2: Tile loop: Prefetch input rows: End
  let x23 := a.ld_output_row
  let x21 : Int := 3
  let z25 := ld1w_all a.params x6
  let x6 := x6 + W
  let x27 := a.ld_output_col
  let x22 := W
  let z0 := ld1w_all a.params x6
  let z1 := ld1w_all a.params (x6 + W)
  let z2 := ld1w_all a.params (x6 + 2 * W)
  let z3 := ld1w_all a.params (x6 + 3 * W)
  let x6 := x6 + 4 * W
  let x26 : Int := 0
  let p2 := whilelt 0 n_channels
  let z4 := ld1w_all a.params x6
  let z5 := ld1w_all a.params (x6 + W)
  let z6 := ld1w_all a.params (x6 + 2 * W)
  let z7 := ld1w_all a.params (x6 + 3 * W)
  let x6 := x6 + 4 * W
  let x20 := (x2 : Int) * x23
  let z15 := ld1rw a.min
  let x20 := (x3 : Int) * x27 + x20
  let x25 := x27 + x27
  let z14 := ld1rw a.max
  let x20 := x20 * x21
  let x21 : Nat := 0
  let z8 := ld1w_all a.params x6
  let x26 := x26 + x20
  let x20 : Int := 0 - (x22 : Int)
  let z9 := ld1w a.inptr p2 (x15 + x7)
  let x24 := x26 + x23
  let z10 := ld1w a.inptr p2 x5
  let x6 := x6 + W
  let x23 := x24 + x23
  let z11 := ld1w a.inptr p2 (x5 + x17)
  let z12 := ld1w a.inptr p2 x13
  let z13 := ld1w a.inptr p2 (x16 + x7)
  { x4 := x4, x7 := x7, x8 := x8, x17 := x17, x5 := x5, x16 := x16, x15 := x15, x14 := x14,
    x13 := x13, x6 := x6, x20 := x20, x21 := x21, x22 := x22, x27 := x27, x25 := x25,
    x26 := x26, x24 := x24, x23 := x23, p2 := p2, z0 := z0, z1 := z1, z2 := z2, z3 := z3,
    z4 := z4, z5 := z5, z6 := z6, z7 := z7, z8 := z8, z25 := z25, z9 := z9, z10 := z10,
    z11 := z11, z12 := z12, z13 := z13, z15 := z15, z14 := z14 }

/-- Label `3:`, one pass of the channel loop: the registers after the pass, the store events of
the pass, and the outcome of `cmp x22, n_channels` read by `blt 3b`. -/
def channel_loop (W n_channels : Nat) (a : Args R) (s : Regs R) :
    Regs R × List (Int × R) × Bool :=
  let x4 := s.x4
  let x7 := s.x7
  let x8 := s.x8
  let x17 := s.x17
  let x5 := s.x5
  let x16 := s.x16
  let x15 := s.x15
  let x14 := s.x14
  let x13 := s.x13
  let x6 := s.x6
  let p2 := s.p2
  let z0 := s.z0
  let z1 := s.z1
  let z2 := s.z2
  let z3 := s.z3
  let z4 := s.z4
  let z5 := s.z5
  let z6 := s.z6
  let z7 := s.z7
  let z8 := s.z8
  let z25 := s.z25
  let z9 := s.z9
  let z10 := s.z10
  let z11 := s.z11
  let z12 := s.z12
  let z13 := s.z13
  let z15 := s.z15
  let z14 := s.z14
  let z28 := fmla z25 z7 z9
  let z23 := fmla z25 z8 z9
  let p1 := whilelt s.x22 n_channels
  let x21 := s.x21 + W
  let z29 := fmla z25 z6 z9
  let z30 := fmla z25 z5 z9
  let x22 := s.x22 + W
  let p0 := p2
  let z31 := fmla z25 z4 z9
  let z16 := fmla z25 z3 z9
  let x20 := s.x20 + (W : Int)
  let z17 := fmla z25 z2 z9
  let z19 := fmla z25 z0 z9
  let z28 := fmla z28 z4 z13
  let z23 := fmla z23 z0 z10
  let z10 := ld1w a.inptr p2 (x15 + x8)
  let z29 := fmla z29 z2 z11
  let z20 := ld1w a.inptr p2 (x15 + x4)
  let z30 := fmla z30 z2 z13
  let z31 := fmla z31 z1 z13
  let z16 := fmla z16 z0 z13
  let z17 := fmla z17 z6 z12
  let z21 := ld1w a.inptr p2 (x13 + x17)
  let z18 := fmla z25 z1 z9
  let z28 := fmla z28 z6 z20
  let z23 := fmla z23 z5 z13
  let z25 := ld1w_all a.params x6
  let x6 := x6 + W
  let z29 := fmla z29 z3 z13
  let z27 := ld1w a.inptr p2 (x5 + x4)
  let z30 := fmla z30 z4 z20
  let z19 := fmla z19 z8 z21
  let z24 := ld1w a.inptr p2 (x5 + x8)
  let z31 := fmla z31 z3 z20
  let z18 := fmla z18 z0 z20
  let z17 := fmla z17 z1 z20
  let z28 := fmla z28 z0 z27
  let z23 := fmla z23 z7 z20
  let z21 := ld1w a.inptr p2 x16
  let z29 := fmla z29 z1 z24
  let z16 := fmla z16 z4 z10
  let z19 := fmla z19 z1 z10
  let z31 := fmla z31 z5 z10
  let z18 := fmla z18 z2 z10
  let z30 := fmla z30 z0 z21
  let z28 := fmla z28 z2 z24
  let z23 := fmla z23 z1 z27
  let z13 := ld1w a.inptr p2 (x16 + x17)
  let z20 := ld1w a.inptr p2 x14
  let z29 := fmla z29 z7 z10
  let z16 := fmla z16 z2 z13
  let z28 := fmla z28 z8 z10
  let z17 := fmla z17 z3 z20
  let z27 := ld1w a.inptr p2 (x14 + x7)
  let z23 := fmla z23 z3 z21
  let z29 := fmla z29 z5 z13
  let z22 := ld1w a.inptr p2 (x14 + x17)
  let z30 := fmla z30 z6 z20
  let z20 := ld1w a.inptr p2 (x13 + x4)
  let z18 := fmla z18 z4 z27
  let z19 := fmla z19 z3 z27
  let z21 := ld1w a.inptr p2 (x16 + x4)
  let z31 := fmla z31 z7 z27
  let z16 := fmla z16 z6 z27
  let z17 := fmla z17 z5 z27
  let z30 := fmla z30 z8 z27
  let z28 := fmla z28 z3 z21
  let z19 := fmla z19 z5 z22
  let z18 := fmla z18 z6 z20
  let z16 := fmla z16 z8 z22
  let z31 := fmla z31 z0 z21
  let z9 := ld1w a.inptr p2 (x16 + x8)
  let x16 := x16 + (W : Int)
  let z17 := fmla z17 z7 z20
  let z20 := ld1w a.inptr p2 (x13 + x8)
  let z23 := fmla z23 z4 z21
  let z30 := fmla z30 z1 z21
  let z21 := ld1w a.inptr p2 (x14 + x4)
  let z28 := fmla z28 z5 z9
  let z29 := fmla z29 z4 z9
  let z18 := fmla z18 z8 z20
  let z19 := fmla z19 z7 z20
  let z12 := ld1w a.inptr p2 (x14 + x8)
  let x14 := x14 + (W : Int)
  let z31 := fmla z31 z2 z9
  let z16 := fmla z16 z1 z9
  let z20 := ld1w a.inptr p2 (x5 + x7)
  let x5 := x5 + (W : Int)
  let z17 := fmla z17 z4 z21
  let z30 := fmla z30 z7 z21
  let z10 := ld1w a.inptr p1 x5
  let z18 := fmla z18 z3 z21
  let z23 := fmla z23 z2 z20
  let z19 := fmla z19 z4 z12
  let z31 := fmla z31 z6 z21
  let z11 := ld1w a.inptr p2 x15
  let z28 := fmla z28 z1 z20
  let z29 := fmla z29 z0 z20
  let z20 := ld1w a.inptr p2 (x15 + x17)
  let x15 := x15 + (W : Int)
  let z16 := fmla z16 z7 z12
  let z9 := ld1w a.inptr p1 (x15 + x7)
  let z18 := fmla z18 z5 z12
  let z23 := fmla z23 z6 z11
  let z17 := fmla z17 z0 z11
  let z19 := fmla z19 z2 z20
  let z31 := fmla z31 z8 z12
  let z13 := ld1w a.inptr p2 (x13 + x7)
  let z30 := fmla z30 z3 z11
  let p2 := whilelt x21 n_channels
  let z29 := fmla z29 z8 z20
  let z16 := fmla z16 z5 z20
  let z0 := ld1w_all a.params x6
  let z1 := ld1w_all a.params (x6 + W)
  let z2 := ld1w_all a.params (x6 + 2 * W)
  let z3 := ld1w_all a.params (x6 + 3 * W)
  let x6 := x6 + 4 * W
  let z23 := fmax z23 z15
  let x13 := x13 + (W : Int)
  let lt := decide (x22 < n_channels)
  let z11 := ld1w a.inptr p1 (x5 + x17)
  let z17 := fmla z17 z8 z13
  let z18 := fmla z18 z7 z13
  let z12 := ld1w a.inptr p1 x13
  let z19 := fmla z19 z6 z13
  let z4 := ld1w_all a.params x6
  let z5 := ld1w_all a.params (x6 + W)
  let z6 := ld1w_all a.params (x6 + 2 * W)
  let z7 := ld1w_all a.params (x6 + 3 * W)
  let x6 := x6 + 4 * W
  let z28 := fclamp z28 z15 z14
  let z29 := fclamp z29 z15 z14
  let z30 := fclamp z30 z15 z14
  let z31 := fclamp z31 z15 z14
  let z13 := ld1w a.inptr p1 (x16 + x7)
  let z23 := fmin z23 z14
  let z8 := ld1w_all a.params x6
  let x6 := x6 + W
  let z16 := fclamp z16 z15 z14
  let z17 := fclamp z17 z15 z14
  let z18 := fclamp z18 z15 z14
  let z19 := fclamp z19 z15 z14
  let x27 := s.x27
  let x25 := s.x25
  let x26 := s.x26
  let x24 := s.x24
  let x23 := s.x23
  let st := st1w W z30 p0 x24
  let st := st ++ st1w W z23 p0 x26
  let st := st ++ st1w W z28 p0 (x26 + x27)
  let st := st ++ st1w W z29 p0 (x26 + x25)
  let x26 := x26 + (W : Int)
  let st := st ++ st1w W z31 p0 (x24 + x27)
  let st := st ++ st1w W z16 p0 (x24 + x25)
  let x24 := x24 + (W : Int)
  let st := st ++ st1w W z17 p0 x23
  let st := st ++ st1w W z18 p0 (x23 + x27)
  let st := st ++ st1w W z19 p0 (x23 + x25)
  let x23 := x23 + (W : Int)
  ({ x4 := x4, x7 := x7, x8 := x8, x17 := x17, x5 := x5, x16 := x16, x15 := x15, x14 := x14,
     x13 := x13, x6 := x6, x20 := x20, x21 := x21, x22 := x22, x27 := x27, x25 := x25,
     x26 := x26, x24 := x24, x23 := x23, p2 := p2, z0 := z0, z1 := z1, z2 := z2, z3 := z3,
     z4 := z4, z5 := z5, z6 := z6, z7 := z7, z8 := z8, z25 := z25, z9 := z9, z10 := z10,
     z11 := z11, z12 := z12, z13 := z13, z15 := z15, z14 := z14 }, st, lt)

/-- Label `4:`, the channel tail of tile `(x2, x3)`: the store events of the last channel block,
the tile indices of the next tile, and the outcome of `cmp x2, x21` read by `blt 1b`. -/
def channel_tail (W : Nat) (a : Args R) (x2 x3 : Nat) (s : Regs R) :
    List (Int × R) × (Nat × Nat) × Bool :=
  let x4 := s.x4
  let x7 := s.x7
  let x8 := s.x8
  let x17 := s.x17
  let x5 := s.x5
  let x16 := s.x16
  let x15 := s.x15
  let x14 := s.x14
  let x13 := s.x13
  let p2 := s.p2
  let z0 := s.z0
  let z1 := s.z1
  let z2 := s.z2
  let z3 := s.z3
  let z4 := s.z4
  let z5 := s.z5
  let z6 := s.z6
  let z7 := s.z7
  let z8 := s.z8
  let z25 := s.z25
  let z9 := s.z9
  let z10 := s.z10
  let z11 := s.z11
  let z12 := s.z12
  let z13 := s.z13
  let z15 := s.z15
  let z14 := s.z14
  let z20 := fmla z25 z7 z9
  let z24 := fmla z25 z8 z9
  let x3 := x3
  let p0 := p2
  let z21 := fmla z25 z6 z9
  let z22 := fmla z25 z5 z9
  let x2 := x2
  let z23 := fmla z25 z4 z9
  let z28 := fmla z25 z3 z9
  let x22 := a.n_tile_cols
  let z29 := fmla z25 z2 z9
  let z31 := fmla z25 z0 z9
  let x21 := a.n_tile_rows
  let x3 := x3 + 1
  let z20 := fmla z20 z4 z13
  let z24 := fmla z24 z0 z10
  let z19 := ld1w a.inptr p2 (x15 + x8)
  let x20 := x2 + 1
  let z21 := fmla z21 z2 z11
  let z18 := ld1w a.inptr p2 (x15 + x4)
  let z22 := fmla z22 z2 z13
  let lt := decide (x3 < x22)
  let z23 := fmla z23 z1 z13
  let z28 := fmla z28 z0 z13
  let x2 := if lt then x2 else x20
  let x3 := if lt then x3 else 0
  let z29 := fmla z29 z6 z12
  let z16 := ld1w a.inptr p2 (x13 + x17)
  let z30 := fmla z25 z1 z9
  let lt := decide (x2 < x21)
  let z20 := fmla z20 z6 z18
  let z24 := fmla z24 z5 z13
  let z21 := fmla z21 z3 z13
  let z17 := ld1w a.inptr p2 (x5 + x4)
  let z22 := fmla z22 z4 z18
  let z31 := fmla z31 z8 z16
  let z16 := ld1w a.inptr p2 (x5 + x8)
  let z23 := fmla z23 z3 z18
  let z30 := fmla z30 z0 z18
  let z29 := fmla z29 z1 z18
  let z20 := fmla z20 z0 z17
  let z24 := fmla z24 z7 z18
  let z18 := ld1w a.inptr p2 x16
  let z21 := fmla z21 z1 z16
  let z28 := fmla z28 z4 z19
  let z31 := fmla z31 z1 z19
  let z23 := fmla z23 z5 z19
  let z30 := fmla z30 z2 z19
  let z22 := fmla z22 z0 z18
  let z20 := fmla z20 z2 z16
  let z24 := fmla z24 z1 z17
  let z17 := ld1w a.inptr p2 (x16 + x17)
  let z16 := ld1w a.inptr p2 x14
  let z21 := fmla z21 z7 z19
  let z28 := fmla z28 z2 z17
  let z20 := fmla z20 z8 z19
  let z29 := fmla z29 z3 z16
  let z19 := ld1w a.inptr p2 (x14 + x7)
  let z24 := fmla z24 z3 z18
  let z21 := fmla z21 z5 z17
  let z18 := ld1w a.inptr p2 (x14 + x17)
  let z22 := fmla z22 z6 z16
  let z16 := ld1w a.inptr p2 (x13 + x4)
  let z30 := fmla z30 z4 z19
  let z31 := fmla z31 z3 z19
  let z17 := ld1w a.inptr p2 (x16 + x4)
  let z23 := fmla z23 z7 z19
  let z28 := fmla z28 z6 z19
  let z29 := fmla z29 z5 z19
  let z22 := fmla z22 z8 z19
  let z20 := fmla z20 z3 z17
  let z31 := fmla z31 z5 z18
  let z30 := fmla z30 z6 z16
  let z28 := fmla z28 z8 z18
  let z23 := fmla z23 z0 z17
  let z18 := ld1w a.inptr p2 (x16 + x8)
  let z29 := fmla z29 z7 z16
  let z16 := ld1w a.inptr p2 (x13 + x8)
  let z24 := fmla z24 z4 z17
  let z22 := fmla z22 z1 z17
  let z17 := ld1w a.inptr p2 (x14 + x4)
  let z20 := fmla z20 z5 z18
  let z21 := fmla z21 z4 z18
  let z30 := fmla z30 z8 z16
  let z31 := fmla z31 z7 z16
  let z19 := ld1w a.inptr p2 (x14 + x8)
  let z23 := fmla z23 z2 z18
  let z28 := fmla z28 z1 z18
  let z16 := ld1w a.inptr p2 (x5 + x7)
  let z29 := fmla z29 z4 z17
  let z22 := fmla z22 z7 z17
  let z30 := fmla z30 z3 z17
  let z24 := fmla z24 z2 z16
  let z31 := fmla z31 z4 z19
  let z23 := fmla z23 z6 z17
  let z18 := ld1w a.inptr p2 x15
  let z20 := fmla z20 z1 z16
  let z21 := fmla z21 z0 z16
  let z17 := ld1w a.inptr p2 (x15 + x17)
  let z28 := fmla z28 z7 z19
  let z30 := fmla z30 z5 z19
  let z24 := fmla z24 z6 z18
  let z29 := fmla z29 z0 z18
  let z31 := fmla z31 z2 z17
  let z23 := fmla z23 z8 z19
  let z16 := ld1w a.inptr p2 (x13 + x7)
  let z22 := fmla z22 z3 z18
  let z21 := fmla z21 z8 z17
  let z28 := fmla z28 z5 z17
  let z24 := fmax z24 z15
  let z29 := fmla z29 z8 z16
  let z30 := fmla z30 z7 z16
  let z31 := fmla z31 z6 z16
  let z20 := fclamp z20 z15 z14
  let z21 := fclamp z21 z15 z14
  let z22 := fclamp z22 z15 z14
  let z23 := fclamp z23 z15 z14
  let z24 := fmin z24 z14
  let z28 := fclamp z28 z15 z14
  let z29 := fclamp z29 z15 z14
  let z30 := fclamp z30 z15 z14
  let z31 := fclamp z31 z15 z14
  let x27 := s.x27
  let x25 := s.x25
  let x26 := s.x26
  let x24 := s.x24
  let x23 := s.x23
  let st := st1w W z22 p0 x24
  let st := st ++ st1w W z24 p0 x26
  let st := st ++ st1w W z20 p0 (x26 + x27)
  let st := st ++ st1w W z21 p0 (x26 + x25)
  let st := st ++ st1w W z23 p0 (x24 + x27)
  let st := st ++ st1w W z28 p0 (x24 + x25)
  let st := st ++ st1w W z29 p0 x23
  let st := st ++ st1w W z30 p0 (x23 + x27)
  let st := st ++ st1w W z31 p0 (x23 + x25)
  (st, (x2, x3), lt)

/-- The channel loop `3: ... blt 3b` as a do-while: `none` when the fuel runs out. -/
def channel_loop_run (W n_channels : Nat) (a : Args R) :
    Nat → Regs R → Option (Regs R × List (Int × R))
  | 0, _ => none
  | fuel + 1, s =>
    let r := channel_loop W n_channels a s
    if r.2.2 then
      (channel_loop_run W n_channels a fuel r.1).map (fun q => (q.1, r.2.1 ++ q.2))
    else some (r.1, r.2.1)

/-- One pass of the tile loop for tile `(x2, x3)`, label `1:` up to the branch `blt 1b`: the
head, the channel loop (skipped by `bge 4f` when `cntw >= n_channels`) and the channel tail. -/
def tile_loop (W n_channels : Nat) (a : Args R) (x2 x3 : Nat) :
    Option (List (Int × R) × (Nat × Nat) × Bool) :=
  let s := tile_loop_head W n_channels a x2 x3
  let ge := decide (n_channels ≤ s.x22)
  let r := if ge then some (s, []) else channel_loop_run W n_channels a (n_channels + 1) s
  r.map (fun q =>
    let t := channel_tail W a x2 x3 q.1
    (q.2 ++ t.1, t.2.1, t.2.2))

/-- The tile loop `1: ... blt 1b` as a do-while from tile `(x2, x3)`: `none` when the fuel runs
out. -/
def tile_loop_run (W n_channels : Nat) (a : Args R) :
    Nat → Nat → Nat → Option (List (Int × R))
  | 0, _, _ => none
  | fuel + 1, x2, x3 =>
    match tile_loop W n_channels a x2 x3 with
    | none => none
    | some (st, (x2n, x3n), lt) =>
      if lt then (tile_loop_run W n_channels a fuel x2n x3n).map (fun q => st ++ q)
      else some st

/-- The kernel: the store events it issues, as (float offset from `outptr`, value), in program
order; `W` is the vector length in 32-bit lanes.  The tile loop starts at `x2 = x3 = 0`. -/
def sme2_fp32_nhwc_3x3_s1_output3x3_mla_depthfirst_direct_impl (W : Nat) (a : Args R)
    (n_channels : Nat) : Option (List (Int × R)) :=
  tile_loop_run W n_channels a ((a.n_tile_rows + 1) * (a.n_tile_cols + 1)) 0 0

/-- Registers at the entry of the pass of the channel loop (or of the channel tail) that handles
channel block `b` of tile `(x2, x3)`: the state of `tile_loop_head` with every channel pointer
advanced by `b` vectors and the parameters of block `b` loaded. -/
def chan_entry (W n_channels : Nat) (a : Args R) (x2 x3 b : Nat) : Regs R :=
  let h := tile_loop_head W n_channels a x2 x3
  let p := whilelt (b * W) n_channels
  let o : Int := ((b * W : Nat) : Int)
  { h with
    x5 := h.x5 + o, x16 := h.x16 + o, x15 := h.x15 + o, x14 := h.x14 + o, x13 := h.x13 + o,
    x6 := 10 * W * (b + 1), x20 := h.x20 + o, x21 := b * W, x22 := (b + 1) * W,
    x26 := h.x26 + o, x24 := h.x24 + o, x23 := h.x23 + o, p2 := p,
    z25 := ld1w_all a.params (10 * W * b),
    z0 := ld1w_all a.params (10 * W * b + W),
    z1 := ld1w_all a.params (10 * W * b + 2 * W),
    z2 := ld1w_all a.params (10 * W * b + 3 * W),
    z3 := ld1w_all a.params (10 * W * b + 4 * W),
    z4 := ld1w_all a.params (10 * W * b + 5 * W),
    z5 := ld1w_all a.params (10 * W * b + 6 * W),
    z6 := ld1w_all a.params (10 * W * b + 7 * W),
    z7 := ld1w_all a.params (10 * W * b + 8 * W),
    z8 := ld1w_all a.params (10 * W * b + 9 * W),
    z9 := ld1w a.inptr p (h.x15 + o + h.x7),
    z10 := ld1w a.inptr p (h.x5 + o),
    z11 := ld1w a.inptr p (h.x5 + o + h.x17),
    z12 := ld1w a.inptr p (h.x13 + o),
    z13 := ld1w a.inptr p (h.x16 + o + h.x7) }

/-- Bias of channel `ch`: `params` holds, per block of `W` channels, one bias vector followed by
the nine weight vectors. -/
def bias_of (W : Nat) (a : Args R) (ch : Nat) : R := a.params (10 * W * (ch / W) + ch % W)

/-- Weight `k` (`k = 3 * kr + kc`) of channel `ch`. -/
def weight_of (W : Nat) (a : Args R) (k ch : Nat) : R :=
  a.params (10 * W * (ch / W) + (1 + k) * W + ch % W)

/-- Input element at `(row, col, ch)` of the NHWC tensor behind `inptr`. -/
def input_at (a : Args R) (row col ch : Nat) : R :=
  a.inptr ((row : Int) * a.ld_input_row + (col : Int) * a.ld_input_col + (ch : Int))

/-- Naive 3x3 stride-1 reference convolution for output position `(r, c)` of tile `(i, j)`. -/
def conv_ref (W : Nat) (a : Args R) (i j r c ch : Nat) : R :=
  bias_of W a ch + ∑ kr in Finset.range 3, ∑ kc in Finset.range 3,
    weight_of W a (3 * kr + kc) ch * input_at a (3 * i + r + kr) (3 * j + c + kc) ch

/-- Float offset from `outptr` of output position `(r, c)` of tile `(i, j)`, channel `ch`. -/
def out_offset (a : Args R) (i j r c ch : Nat) : Int :=
  ((3 * i + r : Nat) : Int) * a.ld_output_row + ((3 * j + c : Nat) : Int) * a.ld_output_col
    + (ch : Int)

/-- Expected store events of one output position for channel block `b`. -/
def pos_stores (W n_channels : Nat) (a : Args R) (i j b r c : Nat) : List (Int × R) :=
  ((List.range W).filter (fun l => decide (b * W + l < n_channels))).map
    (fun (l : Nat) => (out_offset a i j r c (b * W + l),
      min (max (conv_ref W a i j r c (b * W + l)) a.min) a.max))

/-- Expected store events of channel block `b` of tile `(i, j)`, in the order of the nine `st1w`
instructions. -/
def block_stores (W n_channels : Nat) (a : Args R) (i j b : Nat) : List (Int × R) :=
  pos_stores W n_channels a i j b 1 0 ++ pos_stores W n_channels a i j b 0 0
    ++ pos_stores W n_channels a i j b 0 1 ++ pos_stores W n_channels a i j b 0 2
    ++ pos_stores W n_channels a i j b 1 1 ++ pos_stores W n_channels a i j b 1 2
    ++ pos_stores W n_channels a i j b 2 0 ++ pos_stores W n_channels a i j b 2 1
    ++ pos_stores W n_channels a i j b 2 2

/-- Expected store events of tile `(i, j)`: channel blocks `0 .. (n_channels - 1) / W`. -/
def tile_stores (W n_channels : Nat) (a : Args R) (i j : Nat) : List (Int × R) :=
  (List.range ((n_channels - 1) / W + 1)).flatMap (fun b => block_stores W n_channels a i j b)

/-- Control skeleton of the tile loop: the tiles visited from `(x2, x3)`, `none` when the fuel
runs out. -/
def tile_seq (rows cols : Nat) : Nat → Nat → Nat → Option (List (Nat × Nat))
  | 0, _, _ => none
  | fuel + 1, x2, x3 =>
    let x3n := x3 + 1
    let lt := decide (x3n < cols)
    let x2n := if lt then x2 else x2 + 1
    let x3n := if lt then x3n else 0
    if x2n < rows then (tile_seq rows cols fuel x2n x3n).map (fun q => (x2, x3) :: q)
    else some [(x2, x3)]

/-- Tiles visited by the tile loop, in order. -/
def visited_tiles (rows cols : Nat) : List (Nat × Nat) :=
  if rows = 0 then [(0, 0)]
  else (List.range rows).flatMap (fun i => (List.range (max 1 cols)).map (fun j => (i, j)))

/-- Tiles still to be visited when the tile loop is at tile `(i, j)`: the rest of row `i`, then
the rows below. -/
def tiles_rest (rows cols i j : Nat) : List (Nat × Nat) :=
  (List.range' j (max 1 cols - j)).map (fun j' => (i, j'))
    ++ (List.range' (i + 1) (rows - (i + 1))).flatMap
        (fun i' => (List.range (max 1 cols)).map (fun j' => (i', j')))

/-- A concrete argument block: one tile, one channel, unit-stride 5x5 input. -/
def sample_args : Args ℚ :=
  { n_tile_rows := 1, n_tile_cols := 1, inptr := fun x => (x : ℚ), ld_input_row := 5,
    ld_input_col := 1, ld_output_row := 3, ld_output_col := 1,
    params := fun k => (k : ℚ), min := 0, max := 100 }

/-- Arguments of a single-tile call on a zero input with zero parameters whose lower clamp
bound, one, is above the upper bound, zero. -/
def crossed_bounds_args : Args ℚ :=
  { n_tile_rows := 1, n_tile_cols := 1, inptr := fun _ => 0, ld_input_row := 5,
    ld_input_col := 1, ld_output_row := 3, ld_output_col := 1,
    params := fun _ => 0, min := 1, max := 0 }

/-- The tile loop `1: ... blt 1b` observed at label `1:`: the tile indices `(x2, x3)` that each
pass stores to `tile_i` and `tile_j`, in order; `none` when the fuel runs out. -/
def tile_loop_tiles (W n_channels : Nat) (a : Args R) :
    Nat → Nat → Nat → Option (List (Nat × Nat))
  | 0, _, _ => none
  | fuel + 1, x2, x3 =>
    match tile_loop W n_channels a x2 x3 with
    | none => none
    | some (_, (x2n, x3n), lt) =>
      if lt then (tile_loop_tiles W n_channels a fuel x2n x3n).map (fun q => (x2, x3) :: q)
      else some [(x2, x3)]

/-- Tiles processed by the kernel, in order: the tile loop starts at `x2 = x3 = 0`. -/
def processed_tiles (W : Nat) (a : Args R) (n_channels : Nat) : Option (List (Nat × Nat)) :=
  tile_loop_tiles W n_channels a ((a.n_tile_rows + 1) * (a.n_tile_cols + 1)) 0 0

/-- Arguments of a call on two rows of three tiles: an 8x11x1 input and a 6x9x1 output. -/
def grid_args : Args ℚ :=
  { n_tile_rows := 2, n_tile_cols := 3, inptr := fun x => (x : ℚ), ld_input_row := 11,
    ld_input_col := 1, ld_output_row := 9, ld_output_col := 1,
    params := fun k => (k : ℚ), min := 0, max := 100 }

/-- The nine output positions `(r, c)` of a tile in the order of the nine `st1w` instructions of
the channel loop and of the channel tail. -/
def store_order : List (Nat × Nat) :=
  [(1, 0), (0, 0), (0, 1), (0, 2), (1, 1), (1, 2), (2, 0), (2, 1), (2, 2)]

/-- Label `3:` with the instruction `fmla zd, p3/M, zn, zm` as the parameter `mla` (destination
and accumulator, first factor, second factor): the instruction sequence of `channel_loop`,
whatever the multiply-accumulate instruction computes from its three operand vectors. -/
def channel_loop_mla (mla : ZReg R → ZReg R → ZReg R → ZReg R) (W n_channels : Nat)
    (a : Args R) (s : Regs R) :
    Regs R × List (Int × R) × Bool :=
  let x4 := s.x4
  let x7 := s.x7
  let x8 := s.x8
  let x17 := s.x17
  let x5 := s.x5
  let x16 := s.x16
  let x15 := s.x15
  let x14 := s.x14
  let x13 := s.x13
  let x6 := s.x6
  let p2 := s.p2
  let z0 := s.z0
  let z1 := s.z1
  let z2 := s.z2
  let z3 := s.z3
  let z4 := s.z4
  let z5 := s.z5
  let z6 := s.z6
  let z7 := s.z7
  let z8 := s.z8
  let z25 := s.z25
  let z9 := s.z9
  let z10 := s.z10
  let z11 := s.z11
  let z12 := s.z12
  let z13 := s.z13
  let z15 := s.z15
  let z14 := s.z14
  let z28 := mla z25 z7 z9
  let z23 := mla z25 z8 z9
  let p1 := whilelt s.x22 n_channels
  let x21 := s.x21 + W
  let z29 := mla z25 z6 z9
  let z30 := mla z25 z5 z9
  let x22 := s.x22 + W
  let p0 := p2
  let z31 := mla z25 z4 z9
  let z16 := mla z25 z3 z9
  let x20 := s.x20 + (W : Int)
  let z17 := mla z25 z2 z9
  let z19 := mla z25 z0 z9
  let z28 := mla z28 z4 z13
  let z23 := mla z23 z0 z10
  let z10 := ld1w a.inptr p2 (x15 + x8)
  let z29 := mla z29 z2 z11
  let z20 := ld1w a.inptr p2 (x15 + x4)
  let z30 := mla z30 z2 z13
  let z31 := mla z31 z1 z13
  let z16 := mla z16 z0 z13
  let z17 := mla z17 z6 z12
  let z21 := ld1w a.inptr p2 (x13 + x17)
  let z18 := mla z25 z1 z9
  let z28 := mla z28 z6 z20
  let z23 := mla z23 z5 z13
  let z25 := ld1w_all a.params x6
  let x6 := x6 + W
  let z29 := mla z29 z3 z13
  let z27 := ld1w a.inptr p2 (x5 + x4)
  let z30 := mla z30 z4 z20
  let z19 := mla z19 z8 z21
  let z24 := ld1w a.inptr p2 (x5 + x8)
  let z31 := mla z31 z3 z20
  let z18 := mla z18 z0 z20
  let z17 := mla z17 z1 z20
  let z28 := mla z28 z0 z27
  let z23 := mla z23 z7 z20
  let z21 := ld1w a.inptr p2 x16
  let z29 := mla z29 z1 z24
  let z16 := mla z16 z4 z10
  let z19 := mla z19 z1 z10
  let z31 := mla z31 z5 z10
  let z18 := mla z18 z2 z10
  let z30 := mla z30 z0 z21
  let z28 := mla z28 z2 z24
  let z23 := mla z23 z1 z27
  let z13 := ld1w a.inptr p2 (x16 + x17)
  let z20 := ld1w a.inptr p2 x14
  let z29 := mla z29 z7 z10
  let z16 := mla z16 z2 z13
  let z28 := mla z28 z8 z10
  let z17 := mla z17 z3 z20
  let z27 := ld1w a.inptr p2 (x14 + x7)
  let z23 := mla z23 z3 z21
  let z29 := mla z29 z5 z13
  let z22 := ld1w a.inptr p2 (x14 + x17)
  let z30 := mla z30 z6 z20
  let z20 := ld1w a.inptr p2 (x13 + x4)
  let z18 := mla z18 z4 z27
  let z19 := mla z19 z3 z27
  let z21 := ld1w a.inptr p2 (x16 + x4)
  let z31 := mla z31 z7 z27
  let z16 := mla z16 z6 z27
  let z17 := mla z17 z5 z27
  let z30 := mla z30 z8 z27
  let z28 := mla z28 z3 z21
  let z19 := mla z19 z5 z22
  let z18 := mla z18 z6 z20
  let z16 := mla z16 z8 z22
  let z31 := mla z31 z0 z21
  let z9 := ld1w a.inptr p2 (x16 + x8)
  let x16 := x16 + (W : Int)
  let z17 := mla z17 z7 z20
  let z20 := ld1w a.inptr p2 (x13 + x8)
  let z23 := mla z23 z4 z21
  let z30 := mla z30 z1 z21
  let z21 := ld1w a.inptr p2 (x14 + x4)
  let z28 := mla z28 z5 z9
  let z29 := mla z29 z4 z9
  let z18 := mla z18 z8 z20
  let z19 := mla z19 z7 z20
  let z12 := ld1w a.inptr p2 (x14 + x8)
  let x14 := x14 + (W : Int)
  let z31 := mla z31 z2 z9
  let z16 := mla z16 z1 z9
  let z20 := ld1w a.inptr p2 (x5 + x7)
  let x5 := x5 + (W : Int)
  let z17 := mla z17 z4 z21
  let z30 := mla z30 z7 z21
  let z10 := ld1w a.inptr p1 x5
  let z18 := mla z18 z3 z21
  let z23 := mla z23 z2 z20
  let z19 := mla z19 z4 z12
  let z31 := mla z31 z6 z21
  let z11 := ld1w a.inptr p2 x15
  let z28 := mla z28 z1 z20
  let z29 := mla z29 z0 z20
  let z20 := ld1w a.inptr p2 (x15 + x17)
  let x15 := x15 + (W : Int)
  let z16 := mla z16 z7 z12
  let z9 := ld1w a.inptr p1 (x15 + x7)
  let z18 := mla z18 z5 z12
  let z23 := mla z23 z6 z11
  let z17 := mla z17 z0 z11
  let z19 := mla z19 z2 z20
  let z31 := mla z31 z8 z12
  let z13 := ld1w a.inptr p2 (x13 + x7)
  let z30 := mla z30 z3 z11
  let p2 := whilelt x21 n_channels
  let z29 := mla z29 z8 z20
  let z16 := mla z16 z5 z20
  let z0 := ld1w_all a.params x6
  let z1 := ld1w_all a.params (x6 + W)
  let z2 := ld1w_all a.params (x6 + 2 * W)
  let z3 := ld1w_all a.params (x6 + 3 * W)
  let x6 := x6 + 4 * W
  let z23 := fmax z23 z15
  let x13 := x13 + (W : Int)
  let lt := decide (x22 < n_channels)
  let z11 := ld1w a.inptr p1 (x5 + x17)
  let z17 := mla z17 z8 z13
  let z18 := mla z18 z7 z13
  let z12 := ld1w a.inptr p1 x13
  let z19 := mla z19 z6 z13
  let z4 := ld1w_all a.params x6
  let z5 := ld1w_all a.params (x6 + W)
  let z6 := ld1w_all a.params (x6 + 2 * W)
  let z7 := ld1w_all a.params (x6 + 3 * W)
  let x6 := x6 + 4 * W
  let z28 := fclamp z28 z15 z14
  let z29 := fclamp z29 z15 z14
  let z30 := fclamp z30 z15 z14
  let z31 := fclamp z31 z15 z14
  let z13 := ld1w a.inptr p1 (x16 + x7)
  let z23 := fmin z23 z14
  let z8 := ld1w_all a.params x6
  let x6 := x6 + W
  let z16 := fclamp z16 z15 z14
  let z17 := fclamp z17 z15 z14
  let z18 := fclamp z18 z15 z14
  let z19 := fclamp z19 z15 z14
  let x27 := s.x27
  let x25 := s.x25
  let x26 := s.x26
  let x24 := s.x24
  let x23 := s.x23
  let st := st1w W z30 p0 x24
  let st := st ++ st1w W z23 p0 x26
  let st := st ++ st1w W z28 p0 (x26 + x27)
  let st := st ++ st1w W z29 p0 (x26 + x25)
  let x26 := x26 + (W : Int)
  let st := st ++ st1w W z31 p0 (x24 + x27)
  let st := st ++ st1w W z16 p0 (x24 + x25)
  let x24 := x24 + (W : Int)
  let st := st ++ st1w W z17 p0 x23
  let st := st ++ st1w W z18 p0 (x23 + x27)
  let st := st ++ st1w W z19 p0 (x23 + x25)
  let x23 := x23 + (W : Int)
  ({ x4 := x4, x7 := x7, x8 := x8, x17 := x17, x5 := x5, x16 := x16, x15 := x15, x14 := x14,
     x13 := x13, x6 := x6, x20 := x20, x21 := x21, x22 := x22, x27 := x27, x25 := x25,
     x26 := x26, x24 := x24, x23 := x23, p2 := p2, z0 := z0, z1 := z1, z2 := z2, z3 := z3,
     z4 := z4, z5 := z5, z6 := z6, z7 := z7, z8 := z8, z25 := z25, z9 := z9, z10 := z10,
     z11 := z11, z12 := z12, z13 := z13, z15 := z15, z14 := z14 }, st, lt)

/-- Label `4:` with the instruction `fmla zd, p3/M, zn, zm` as the parameter `mla`: the instruction
sequence of `channel_tail`, whatever the multiply-accumulate instruction computes from its three
operand vectors. -/
def channel_tail_mla (mla : ZReg R → ZReg R → ZReg R → ZReg R) (W : Nat) (a : Args R)
    (x2 x3 : Nat) (s : Regs R) :
    List (Int × R) × (Nat × Nat) × Bool :=
  let x4 := s.x4
  let x7 := s.x7
  let x8 := s.x8
  let x17 := s.x17
  let x5 := s.x5
  let x16 := s.x16
  let x15 := s.x15
  let x14 := s.x14
  let x13 := s.x13
  let p2 := s.p2
  let z0 := s.z0
  let z1 := s.z1
  let z2 := s.z2
  let z3 := s.z3
  let z4 := s.z4
  let z5 := s.z5
  let z6 := s.z6
  let z7 := s.z7
  let z8 := s.z8
  let z25 := s.z25
  let z9 := s.z9
  let z10 := s.z10
  let z11 := s.z11
  let z12 := s.z12
  let z13 := s.z13
  let z15 := s.z15
  let z14 := s.z14
  let z20 := mla z25 z7 z9
  let z24 := mla z25 z8 z9
  let x3 := x3
  let p0 := p2
  let z21 := mla z25 z6 z9
  let z22 := mla z25 z5 z9
  let x2 := x2
  let z23 := mla z25 z4 z9
  let z28 := mla z25 z3 z9
  let x22 := a.n_tile_cols
  let z29 := mla z25 z2 z9
  let z31 := mla z25 z0 z9
  let x21 := a.n_tile_rows
  let x3 := x3 + 1
  let z20 := mla z20 z4 z13
  let z24 := mla z24 z0 z10
  let z19 := ld1w a.inptr p2 (x15 + x8)
  let x20 := x2 + 1
  let z21 := mla z21 z2 z11
  let z18 := ld1w a.inptr p2 (x15 + x4)
  let z22 := mla z22 z2 z13
  let lt := decide (x3 < x22)
  let z23 := mla z23 z1 z13
  let z28 := mla z28 z0 z13
  let x2 := if lt then x2 else x20
  let x3 := if lt then x3 else 0
  let z29 := mla z29 z6 z12
  let z16 := ld1w a.inptr p2 (x13 + x17)
  let z30 := mla z25 z1 z9
  let lt := decide (x2 < x21)
  let z20 := mla z20 z6 z18
  let z24 := mla z24 z5 z13
  let z21 := mla z21 z3 z13
  let z17 := ld1w a.inptr p2 (x5 + x4)
  let z22 := mla z22 z4 z18
  let z31 := mla z31 z8 z16
  let z16 := ld1w a.inptr p2 (x5 + x8)
  let z23 := mla z23 z3 z18
  let z30 := mla z30 z0 z18
  let z29 := mla z29 z1 z18
  let z20 := mla z20 z0 z17
  let z24 := mla z24 z7 z18
  let z18 := ld1w a.inptr p2 x16
  let z21 := mla z21 z1 z16
  let z28 := mla z28 z4 z19
  let z31 := mla z31 z1 z19
  let z23 := mla z23 z5 z19
  let z30 := mla z30 z2 z19
  let z22 := mla z22 z0 z18
  let z20 := mla z20 z2 z16
  let z24 := mla z24 z1 z17
  let z17 := ld1w a.inptr p2 (x16 + x17)
  let z16 := ld1w a.inptr p2 x14
  let z21 := mla z21 z7 z19
  let z28 := mla z28 z2 z17
  let z20 := mla z20 z8 z19
  let z29 := mla z29 z3 z16
  let z19 := ld1w a.inptr p2 (x14 + x7)
  let z24 := mla z24 z3 z18
  let z21 := mla z21 z5 z17
  let z18 := ld1w a.inptr p2 (x14 + x17)
  let z22 := mla z22 z6 z16
  let z16 := ld1w a.inptr p2 (x13 + x4)
  let z30 := mla z30 z4 z19
  let z31 := mla z31 z3 z19
  let z17 := ld1w a.inptr p2 (x16 + x4)
  let z23 := mla z23 z7 z19
  let z28 := mla z28 z6 z19
  let z29 := mla z29 z5 z19
  let z22 := mla z22 z8 z19
  let z20 := mla z20 z3 z17
  let z31 := mla z31 z5 z18
  let z30 := mla z30 z6 z16
  let z28 := mla z28 z8 z18
  let z23 := mla z23 z0 z17
  let z18 := ld1w a.inptr p2 (x16 + x8)
  let z29 := mla z29 z7 z16
  let z16 := ld1w a.inptr p2 (x13 + x8)
  let z24 := mla z24 z4 z17
  let z22 := mla z22 z1 z17
  let z17 := ld1w a.inptr p2 (x14 + x4)
  let z20 := mla z20 z5 z18
  let z21 := mla z21 z4 z18
  let z30 := mla z30 z8 z16
  let z31 := mla z31 z7 z16
  let z19 := ld1w a.inptr p2 (x14 + x8)
  let z23 := mla z23 z2 z18
  let z28 := mla z28 z1 z18
  let z16 := ld1w a.inptr p2 (x5 + x7)
  let z29 := mla z29 z4 z17
  let z22 := mla z22 z7 z17
  let z30 := mla z30 z3 z17
  let z24 := mla z24 z2 z16
  let z31 := mla z31 z4 z19
  let z23 := mla z23 z6 z17
  let z18 := ld1w a.inptr p2 x15
  let z20 := mla z20 z1 z16
  let z21 := mla z21 z0 z16
  let z17 := ld1w a.inptr p2 (x15 + x17)
  let z28 := mla z28 z7 z19
  let z30 := mla z30 z5 z19
  let z24 := mla z24 z6 z18
  let z29 := mla z29 z0 z18
  let z31 := mla z31 z2 z17
  let z23 := mla z23 z8 z19
  let z16 := ld1w a.inptr p2 (x13 + x7)
  let z22 := mla z22 z3 z18
  let z21 := mla z21 z8 z17
  let z28 := mla z28 z5 z17
  let z24 := fmax z24 z15
  let z29 := mla z29 z8 z16
  let z30 := mla z30 z7 z16
  let z31 := mla z31 z6 z16
  let z20 := fclamp z20 z15 z14
  let z21 := fclamp z21 z15 z14
  let z22 := fclamp z22 z15 z14
  let z23 := fclamp z23 z15 z14
  let z24 := fmin z24 z14
  let z28 := fclamp z28 z15 z14
  let z29 := fclamp z29 z15 z14
  let z30 := fclamp z30 z15 z14
  let z31 := fclamp z31 z15 z14
  let x27 := s.x27
  let x25 := s.x25
  let x26 := s.x26
  let x24 := s.x24
  let x23 := s.x23
  let st := st1w W z22 p0 x24
  let st := st ++ st1w W z24 p0 x26
  let st := st ++ st1w W z20 p0 (x26 + x27)
  let st := st ++ st1w W z21 p0 (x26 + x25)
  let st := st ++ st1w W z23 p0 (x24 + x27)
  let st := st ++ st1w W z28 p0 (x24 + x25)
  let st := st ++ st1w W z29 p0 x23
  let st := st ++ st1w W z30 p0 (x23 + x27)
  let st := st ++ st1w W z31 p0 (x23 + x25)
  (st, (x2, x3), lt)

/-- Arguments of a call with `n_tile_rows = 0` and two tile columns. -/
def no_rows_args : Args ℚ :=
  { n_tile_rows := 0, n_tile_cols := 2, inptr := fun x => (x : ℚ), ld_input_row := 7,
    ld_input_col := 1, ld_output_row := 6, ld_output_col := 1,
    params := fun k => (k : ℚ), min := 0, max := 100 }

end depthwise
end arm_conv

namespace arm_gemm

variable {R : Type} [LinearOrderedField R]

/-- The ZA accumulator array seen as the four 32-bit tiles `za0.s .. za3.s`:
tile, row (horizontal slice), column. -/
abbrev ZA (R : Type) := Nat → Nat → Nat → R

/-- Enumeration `Activation::Type`; `Other` stands for any enumerator value that the `switch`
of the constructor sends to `default`. -/
inductive ActivationType where
  | None
  | ReLU
  | BoundedReLU
  | Other (tag : Nat)
  deriving DecidableEq

/-- Struct `Activation` of `arm_gemm.hpp`, with the fields the constructor of `KernelArgs`
reads. -/
structure Activation (R : Type) where
  type : ActivationType
  param1 : R
  param2 : R

/-- Modelled from the spec: the helper `roundup` of `utils.hpp`, which is not among the sources;
`roundup a b` is `a` rounded up to a multiple of `b`. -/
def roundup (a b : Nat) : Nat := if a % b = 0 then a else a + b - a % b

/-- Struct `KernelArgs`.  Pointers to read-only operands are the memories behind them (element
offsets); `C` is `none` for `nullptr` and otherwise the element address of the output array;
`min`/`max` are `none` for minus/plus infinity. -/
structure KernelArgs (R : Type) where
  A : Nat → R
  B : Nat → R
  kstride_bytes : Nat
  C : Option Int
  ldcb : Int
  M : Nat
  N : Nat
  K : Nat
  min : Option R
  max : Option R
  bias : Option (Nat → R)
  accumulator_buffer : Nat → R
  flags : Nat

/-- Conversion `static_cast<__fp16>(x)` of the float `x` that the constructor stores as the
upper clamp bound, rounding to nearest with ties to even.  The largest finite half-precision
number is 65504 and the numbers of its binade are 32 apart, so every `x` of 65520 or more
converts to plus infinity (`none`); below 65520 the result is finite, `cvt x`, the
half-precision number nearest to `x`.  An `x` of -65520 or less converts to minus infinity,
which no value of the model can hold: the conversion is modelled for `x` above -65520. -/
def static_cast_fp16 (cvt : R → R) (x : R) : Option R :=
  if 65520 ≤ x then none else some (cvt x)

/-- Constructor `KernelArgs::KernelArgs`; `cvt` is the rounding of a float to the nearest
half-precision number, `sizeof(__fp16)` is 2. -/
def KernelArgs.init (cvt : R → R) (A B : Nat → R) (C : Option Int) (ldc : Int) (M N K : Nat)
    (bias : Option (Nat → R)) (act : Activation R) (accumulate : Bool)
    (accumulator_buffer : Nat → R) : KernelArgs R :=
  let flags : Nat := 0x0
  let flags := if accumulate then flags ||| (1 <<< 0) else flags
  let flags := if C = none then flags ||| (1 <<< 1) else flags
  let min : Option R := none
  let max : Option R := none
  let mm : Option R × Option R :=
    match act.type with
    | ActivationType.BoundedReLU => (some 0, static_cast_fp16 cvt act.param1)
    | ActivationType.ReLU => (some 0, max)
    | _ => (min, max)
  { A := A, B := B, kstride_bytes := roundup K 2 * 2, C := C, ldcb := ldc * 2,
    M := M, N := N, K := K, min := mm.1, max := mm.2, bias := bias,
    accumulator_buffer := accumulator_buffer, flags := flags }

/-- Instruction `fclamp` on one lane with the broadcast bounds of `KernelArgs`:
`min (max v lo) hi`, an infinite bound leaving the value unchanged. -/
def fclamp_h (v : R) (lo hi : Option R) : R :=
  let v := match lo with
    | none => v
    | some l => Max.max v l
  match hi with
    | none => v
    | some h => Min.min v h

/-- A store to the output array: block origin (`x28`, `x27`), row inside the block, half lane of
the register pair `{ z14.h-z15.h }`, element address and value. -/
structure CStore (R : Type) where
  x28 : Nat
  x27 : Nat
  row : Nat
  lane : Nat
  addr : Int
  val : R

/-- Loop-carried machine state of the kernel: flags `x13`, accumulator buffer read and write
pointers `x11`/`x10` (float offsets), `A` pointers `x24`/`x25` (element offsets), block origin
`x27` (column) and `x28` (row), the ZA array, the accumulator buffer memory, and the events:
floats read from and written to the accumulator buffer, stores to the output array. -/
structure State (R : Type) where
  x13 : Nat
  x11 : Nat
  x10 : Nat
  x24 : Nat
  x25 : Nat
  x27 : Nat
  x28 : Nat
  za : ZA R
  buf : Nat → R
  reads : List Nat
  writes : List (Nat × R)
  c_stores : List (CStore R)

/-- Instruction `ld1w { z.s-z.s }, pn9.b/Z, [x]`: four consecutive vectors of floats. -/
def ld1w_x4 (W : Nat) (buf : Nat → R) (x : Nat) : Nat → ZReg R := fun i c => buf (x + i * W + c)

/-- Float offsets touched by a four-vector load or store at `x`. -/
def addrs_x4 (W x : Nat) : List Nat := (List.range (4 * W)).map (fun k => x + k)

/-- Instruction `st1w { z.s-z.s }, pn9.b, [x]`: write events of four consecutive vectors. -/
def st1w_x4 (W : Nat) (z : Nat → ZReg R) (x : Nat) : List (Nat × R) :=
  (List.range (4 * W)).map (fun k => (x + k, z (k / W) (k % W)))

/-- Memory after a list of write events. -/
def mem_write (buf : Nat → R) (ev : List (Nat × R)) : Nat → R :=
  ev.foldl (fun m e => Function.update m e.1 e.2) buf

/-- Instruction `mova zaQh.s[x12, 0:3], { z.s-z.s }`: four rows of tile `q`. -/
def mova_to_za (q x12 : Nat) (z : Nat → ZReg R) (za : ZA R) : ZA R :=
  fun q' r c => if q' = q ∧ x12 ≤ r ∧ r < x12 + 4 then z (r - x12) c else za q' r c

/-- Instruction `mova { z.s-z.s }, zaQh.s[x12, 0:3]`: four rows of tile `q`. -/
def mova_from_za (q x12 : Nat) (za : ZA R) : Nat → ZReg R := fun i c => za q (x12 + i) c

/-- Loops `1:` (initial accumulator load from buffer) and `17:` (refill accumulators), the same
instruction sequence: from slice `x12` on, load sixteen vectors at `x11` into four rows of each
tile, advance `x11`. -/
def refill_loop (W : Nat) (x12 : Nat) (s : State R) : State R :=
  let za0 := ld1w_x4 W s.buf s.x11
  let za1 := ld1w_x4 W s.buf (s.x11 + 4 * W)
  let za2 := ld1w_x4 W s.buf (s.x11 + 8 * W)
  let za3 := ld1w_x4 W s.buf (s.x11 + 12 * W)
  let reads := s.reads ++ addrs_x4 W s.x11 ++ addrs_x4 W (s.x11 + 4 * W)
    ++ addrs_x4 W (s.x11 + 8 * W) ++ addrs_x4 W (s.x11 + 12 * W)
  let za := mova_to_za 0 x12 za0 s.za
  let x11 := s.x11 + 16 * W
  let za := mova_to_za 1 x12 za1 za
  let za := mova_to_za 2 x12 za2 za
  let za := mova_to_za 3 x12 za3 za
  let x12n := x12 + 4
  let s1 : State R := { s with za := za, x11 := x11, reads := reads }
  if x12n < W then refill_loop W x12n s1 else s1
termination_by W - x12
decreasing_by omega

/-- Loop `11:` (store to partial result buffer: store and refill). -/
def store_refill_loop (W : Nat) (x12 : Nat) (s : State R) : State R :=
  let l0 := ld1w_x4 W s.buf s.x11
  let z20 := mova_from_za 0 x12 s.za
  let z24 := mova_from_za 1 x12 s.za
  let l1 := ld1w_x4 W s.buf (s.x11 + 4 * W)
  let z4 := mova_from_za 2 x12 s.za
  let z28 := mova_from_za 3 x12 s.za
  let l2 := ld1w_x4 W s.buf (s.x11 + 8 * W)
  let l3 := ld1w_x4 W s.buf (s.x11 + 12 * W)
  let reads := s.reads ++ addrs_x4 W s.x11 ++ addrs_x4 W (s.x11 + 4 * W)
    ++ addrs_x4 W (s.x11 + 8 * W) ++ addrs_x4 W (s.x11 + 12 * W)
  let za := mova_to_za 0 x12 l0 s.za
  let x11 := s.x11 + 16 * W
  let za := mova_to_za 1 x12 l1 za
  let ev := st1w_x4 W z20 s.x10
  let za := mova_to_za 2 x12 l2 za
  let ev := ev ++ st1w_x4 W z24 (s.x10 + 4 * W)
  let za := mova_to_za 3 x12 l3 za
  let x12n := x12 + 4
  let ev := ev ++ st1w_x4 W z4 (s.x10 + 8 * W)
  let ev := ev ++ st1w_x4 W z28 (s.x10 + 12 * W)
  let x10 := s.x10 + 16 * W
  let s1 : State R :=
    { s with
      za := za, x11 := x11, x10 := x10, reads := reads, buf := mem_write s.buf ev,
      writes := s.writes ++ ev }
  if x12n < W then store_refill_loop W x12n s1 else s1
termination_by W - x12
decreasing_by omega

/-- Loop `13:` (store to partial result buffer: store only). -/
def store_only_loop (W : Nat) (x12 : Nat) (s : State R) : State R :=
  let z8 := mova_from_za 0 x12 s.za
  let z4 := mova_from_za 1 x12 s.za
  let z12 := mova_from_za 2 x12 s.za
  let z16 := mova_from_za 3 x12 s.za
  let ev := st1w_x4 W z8 s.x10
  let x12n := x12 + 4
  let ev := ev ++ st1w_x4 W z4 (s.x10 + 4 * W)
  let ev := ev ++ st1w_x4 W z12 (s.x10 + 8 * W)
  let ev := ev ++ st1w_x4 W z16 (s.x10 + 12 * W)
  let x10 := s.x10 + 16 * W
  let s1 : State R := { s with x10 := x10, buf := mem_write s.buf ev, writes := s.writes ++ ev }
  if x12n < W then store_only_loop W x12n s1 else s1
termination_by W - x12
decreasing_by omega

/-- Instruction `zip1 zd.h, zn.h, zm.h`: interleave the low halves of two vectors. -/
def zip1 (zn zm : ZReg R) : ZReg R := fun l => if l % 2 = 0 then zn (l / 2) else zm (l / 2)

/-- Instruction `zip2 zd.h, zn.h, zm.h`: interleave the high halves (lanes `W ..`) of two vectors
of `2 * W` halves. -/
def zip2 (W : Nat) (zn zm : ZReg R) : ZReg R :=
  fun l => if l % 2 = 0 then zn (W + l / 2) else zm (W + l / 2)

/-- Instruction `fmopa zaQ.s, p0/M, p0/M, zn.h, zm.h` (widening, two-way): every 32-bit element
`(r, c)` of the tile accumulates the products of the two halves of row container `r` of `zn` with
the two halves of column container `c` of `zm`. -/
def fmopa (q : Nat) (zn zm : ZReg R) (za : ZA R) : ZA R :=
  fun q' r c =>
    if q' = q then za q' r c + (zn (2 * r) * zm (2 * c) + zn (2 * r + 1) * zm (2 * c + 1))
    else za q' r c

/-- Instruction `ld1h { z.h }, p0/Z, [x]`: one vector of `2 * W` halves. -/
def ld1h (mem : Nat → R) (x : Nat) : ZReg R := fun l => mem (x + l)

/-- Instruction `ld1h { z.h-z.h }, pn9.b/Z, [x]` (also in the strided-register form): four
consecutive vectors of `2 * W` halves. -/
def ld1h_x4 (W : Nat) (mem : Nat → R) (x : Nat) : Nat → ZReg R :=
  fun q l => mem (x + q * (2 * W) + l)

/-- Instruction `bfc x, #0, #1`: clear bit 0 of a 64-bit register. -/
def bfc0 (x : Nat) : Nat := x &&& 0xFFFFFFFFFFFFFFFE

/-- Label `4:` (prepare accumulators: test for last block): bit 0 of the flags is cleared when the
block at (`x28`, `x27`) is the last one.  `x26 = N`, `x9 = M`. -/
def last_block_test (W : Nat) (a : KernelArgs R) (s : State R) : State R :=
  let x20 := s.x27
  let x21 := s.x28
  let x20 := x20 + 4 * W
  let x21 := x21 + W
  let lt := decide (x20 < a.N)
  let x20 := s.x13
  let x21 := if lt then s.x28 else x21
  let x13 := bfc0 s.x13
  let lt := decide (x21 < a.M)
  let x13 := if lt then x20 else x13
  { s with x13 := x13 }

/-- Label `3:` up to `5:`: reset of the `A` pointer and preparation of the accumulators. -/
def prepare_accumulators (W : Nat) (a : KernelArgs R) (s : State R) : State R :=
  let s : State R := { s with x24 := s.x25 }
  if s.x13.testBit 0 then last_block_test W a s
  else
    let za : ZA R := fun _ _ _ => 0
    match a.bias with
    | none => { s with za := za }
    | some bias =>
      let pn8 := whilelt s.x27 a.N
      let z29 : ZReg R := fun _ => 0
      let z2 : ZReg R := fun _ => 1
      let z30 : ZReg R := fun l => if pn8 l then bias (s.x27 + l) else 0
      let z31 : ZReg R := fun l => if pn8 (2 * W + l) then bias (s.x27 + (2 * W + l)) else 0
      let z22 := zip1 z30 z29
      let z30 := zip2 W z30 z29
      let z20 := zip1 z31 z29
      let z19 := zip2 W z31 z29
      let za := fmopa 0 z2 z22 za
      let za := fmopa 1 z2 z30 za
      let za := fmopa 2 z2 z20 za
      let za := fmopa 3 z2 z19 za
      last_block_test W a { s with za := za }

/-- Registers of the software-pipelined K loop: the ZA array, the operand pointers, four `A`
vectors (`z20`, `z31`, `z28`, `z22`) and four quadruples of `B` vectors (`{z16-z19}`,
`{z2,z6,z10,z14}`, `{z24-z27}`, `{z1,z5,z9,z13}`, named by their first register). -/
structure KRegs (R : Type) where
  za : ZA R
  x24 : Nat
  x23 : Nat
  z20 : ZReg R
  z31 : ZReg R
  z28 : ZReg R
  z22 : ZReg R
  z16 : Nat → ZReg R
  z2 : Nat → ZReg R
  z24 : Nat → ZReg R
  z1 : Nat → ZReg R

/-- The loads before label `6:`: operands of the first four reduction steps. -/
def k_preload (W : Nat) (a : KernelArgs R) (za : ZA R) (x24 x23 : Nat) : KRegs R :=
  let z20 := ld1h a.A x24
  let z16 := ld1h_x4 W a.B x23
  let z31 := ld1h a.A (x24 + 2 * W)
  let z2 := ld1h_x4 W a.B (x23 + 4 * (2 * W))
  let z28 := ld1h a.A (x24 + 2 * (2 * W))
  let z24 := ld1h_x4 W a.B (x23 + 8 * (2 * W))
  let z22 := ld1h a.A (x24 + 3 * (2 * W))
  let x24 := x24 + 4 * (2 * W)
  let z1 := ld1h_x4 W a.B (x23 + 12 * (2 * W))
  let x23 := x23 + 16 * (2 * W)
  { za := za, x24 := x24, x23 := x23, z20 := z20, z31 := z31, z28 := z28, z22 := z22,
    z16 := z16, z2 := z2, z24 := z24, z1 := z1 }

/-- Label `6:`, one pass of the K loop: four reduction steps on the loaded operands, interleaved
with the loads of the next four. -/
def k_loop_body (W : Nat) (a : KernelArgs R) (s : KRegs R) : KRegs R :=
  let x24 := s.x24
  let x23 := s.x23
  let za := fmopa 0 s.z20 (s.z16 0) s.za
  let za := fmopa 1 s.z20 (s.z16 1) za
  let za := fmopa 2 s.z20 (s.z16 2) za
  let za := fmopa 3 s.z20 (s.z16 3) za
  let z20 := ld1h a.A x24
  let za := fmopa 0 s.z31 (s.z2 0) za
  let z16 := ld1h_x4 W a.B x23
  let za := fmopa 1 s.z31 (s.z2 1) za
  let za := fmopa 2 s.z31 (s.z2 2) za
  let za := fmopa 3 s.z31 (s.z2 3) za
  let z31 := ld1h a.A (x24 + 2 * W)
  let za := fmopa 0 s.z28 (s.z24 0) za
  let z2 := ld1h_x4 W a.B (x23 + 4 * (2 * W))
  let za := fmopa 1 s.z28 (s.z24 1) za
  let za := fmopa 2 s.z28 (s.z24 2) za
  let za := fmopa 3 s.z28 (s.z24 3) za
  let z28 := ld1h a.A (x24 + 2 * (2 * W))
  let z24 := ld1h_x4 W a.B (x23 + 8 * (2 * W))
  let za := fmopa 0 s.z22 (s.z1 0) za
  let za := fmopa 1 s.z22 (s.z1 1) za
  let za := fmopa 2 s.z22 (s.z1 2) za
  let za := fmopa 3 s.z22 (s.z1 3) za
  let z22 := ld1h a.A (x24 + 3 * (2 * W))
  let x24 := x24 + 4 * (2 * W)
  let z1 := ld1h_x4 W a.B (x23 + 12 * (2 * W))
  let x23 := x23 + 16 * (2 * W)
  { za := za, x24 := x24, x23 := x23, z20 := z20, z31 := z31, z28 := z28, z22 := z22,
    z16 := z16, z2 := z2, z24 := z24, z1 := z1 }

/-- The K loop `6: ... bgt 6b`, entered with `x21` passes to run (`ble 7f` skips it when
`x21 = 0`, `subs x21, x21, #0x1` counts down). -/
def k_loop (W : Nat) (a : KernelArgs R) : Nat → KRegs R → KRegs R
  | 0, s => s
  | x21 + 1, s => k_loop W a x21 (k_loop_body W a s)

/-- Label `7:` (K loop tail): the last four pipelined reduction steps. -/
def k_loop_tail (s : KRegs R) : ZA R :=
  let za := fmopa 0 s.z20 (s.z16 0) s.za
  let za := fmopa 1 s.z20 (s.z16 1) za
  let za := fmopa 2 s.z20 (s.z16 2) za
  let za := fmopa 3 s.z20 (s.z16 3) za
  let za := fmopa 0 s.z31 (s.z2 0) za
  let za := fmopa 1 s.z31 (s.z2 1) za
  let za := fmopa 2 s.z31 (s.z2 2) za
  let za := fmopa 3 s.z31 (s.z2 3) za
  let za := fmopa 0 s.z28 (s.z24 0) za
  let za := fmopa 1 s.z28 (s.z24 1) za
  let za := fmopa 2 s.z28 (s.z24 2) za
  let za := fmopa 3 s.z28 (s.z24 3) za
  let za := fmopa 0 s.z22 (s.z1 0) za
  let za := fmopa 1 s.z22 (s.z1 1) za
  let za := fmopa 2 s.z22 (s.z1 2) za
  let za := fmopa 3 s.z22 (s.z1 3) za
  za

/-- Label `9:` (K oddments loop), entered with `x20` steps to run: one reduction step per pass;
the result is the ZA array and the pointers `x24`, `x23`. -/
def k_oddments (W : Nat) (a : KernelArgs R) : Nat → ZA R × Nat × Nat → ZA R × Nat × Nat
  | 0, s => s
  | x20 + 1, (za, x24, x23) =>
    let z10 := ld1h a.A x24
    let x24 := x24 + 2 * W
    let z19 := ld1h_x4 W a.B x23
    let x23 := x23 + 4 * (2 * W)
    let za := fmopa 0 z10 (z19 0) za
    let za := fmopa 1 z10 (z19 1) za
    let za := fmopa 2 z10 (z19 2) za
    let za := fmopa 3 z10 (z19 3) za
    k_oddments W a x20 (za, x24, x23)

/-- Label `5:` up to `10:`: the reduction of one block.  The panel of `B` for column `x27` starts
at byte `x27 * kstride_bytes`, element `x27 * (kstride_bytes / 2)`. -/
def k_reduce (W : Nat) (a : KernelArgs R) (s : State R) : State R :=
  let x20 := a.K
  let x23 : Nat := 0
  let x22 := a.kstride_bytes / 2
  let x20 := x20 + 1
  let x20 := x20 >>> 1
  let x21 := x20 >>> 2
  let x23 := s.x27 * x22 + x23
  let x20 := x20 &&& 3
  let r : ZA R × Nat × Nat :=
    if x21 = 0 then (s.za, s.x24, x23)
    else
      let x21 := x21 - 1
      let g := k_preload W a s.za s.x24 x23
      let g := k_loop W a x21 g
      (k_loop_tail g, g.x24, g.x23)
  let r := k_oddments W a x20 r
  { s with za := r.1, x24 := r.2.1 }

/-- Instruction `mova { z16.b-z19.b }, za0h.b[x12, 0:3]`, one of the four registers: vector `v`
of the ZA array is row `v / 4` of the 32-bit tile `v % 4`. -/
def za_b_slice (za : ZA R) (v : Nat) : ZReg R := fun c => za (v % 4) (v / 4) c

/-- Instruction `fcvt zd.h, { zn.s-zm.s }`: the converted elements of the first register fill the
low half of the destination, those of the second the high half. -/
def fcvt (cvt : R → R) (W : Nat) (zn zm : ZReg R) : ZReg R :=
  fun l => if l < W then cvt (zn l) else cvt (zm (l - W))

/-- Instruction `st1h { z14.h-z15.h }, p8, [x23]`: one event per active half lane of the pair. -/
def st1h_x2 (W : Nat) (x28 x27 row : Nat) (z14 z15 : ZReg R) (pn8 : PReg) (x23 : Int) :
    List (CStore R) :=
  ((List.range (2 * W)).filter (fun l => pn8 l)).map
      (fun (l : Nat) => ({ x28 := x28, x27 := x27, row := row, lane := l,
                           addr := x23 + (l : Int), val := z14 l } : CStore R))
    ++ ((List.range (2 * W)).filter (fun l => pn8 (2 * W + l))).map
      (fun (l : Nat) => ({ x28 := x28, x27 := x27, row := row, lane := 2 * W + l,
                           addr := x23 + ((2 * W + l : Nat) : Int), val := z15 l } : CStore R))

/-- Loop `15:` (store to output array: accumulator loop) from slice `x12` on: the store events.
`x20` is the row stride `ldcb / 2` in elements, `x22` the row bound. -/
def store_output_loop (W : Nat) (cvt : R → R) (a : KernelArgs R) (za : ZA R) (x28 x27 : Nat)
    (x20 x22 : Int) (x12 : Nat) (x23 : Int) : List (CStore R) :=
  let pn8 := whilelt x27 a.N
  let z16 := za_b_slice za x12
  let z17 := za_b_slice za (x12 + 1)
  let z18 := za_b_slice za (x12 + 2)
  let z19 := za_b_slice za (x12 + 3)
  let x12n := x12 + 4
  let z14 := fcvt cvt W z16 z17
  let z15 := fcvt cvt W z18 z19
  let z14 : ZReg R := fun l => fclamp_h (z14 l) a.min a.max
  let z15 : ZReg R := fun l => fclamp_h (z15 l) a.min a.max
  let ev := st1h_x2 W x28 x27 (x12 / 4) z14 z15 pn8 x23
  let x23 := x23 + x20
  if (x12n : Int) < x22 * 4 then ev ++ store_output_loop W cvt a za x28 x27 x20 x22 x12n x23
  else ev
termination_by (x22 * 4 - (x12 : Int)).toNat
decreasing_by omega

/-- Label `10:` up to `18:`: store of one block, to the accumulator buffer when bit 1 of the flags
is set (with refill when bit 0 is set), otherwise to the output array (followed by the refill of
the accumulators when bit 0 is set). -/
def store_block (W : Nat) (cvt : R → R) (a : KernelArgs R) (s : State R) : State R :=
  if s.x13.testBit 1 then
    if s.x13.testBit 0 then store_refill_loop W 0 s
    else store_only_loop W 0 s
  else
    let x23 : Int := a.C.getD 0
    let x22 : Int := (a.M : Int) - (s.x28 : Int)
    let x21 : Int := (W : Int)
    let x20 : Int := a.ldcb / 2
    let x22 := if x22 < x21 then x22 else x21
    let x23 := x23 + (s.x27 : Int)
    let x23 := (s.x28 : Int) * x20 + x23
    let ev := store_output_loop W cvt a s.za s.x28 s.x27 x20 x22 0 x23
    let s : State R := { s with c_stores := s.c_stores ++ ev }
    if s.x13.testBit 0 then refill_loop W 0 s else s

/-- Label `18:` (end block): advance `x27`, then `x28`; the Boolean is the branch back to `3:`. -/
def end_block (W : Nat) (a : KernelArgs R) (s : State R) : State R × Bool :=
  let x27 := s.x27 + 4 * W
  if x27 < a.N then ({ s with x27 := x27 }, true)
  else
    let x28 := s.x28 + W
    let x27 := 0
    let lt := decide (x28 < a.M)
    let x25 := s.x24
    ({ s with x27 := x27, x28 := x28, x25 := x25 }, lt)

/-- One pass of the M and N loop, label `3:` up to the branches of `18:`. -/
def block (W : Nat) (cvt : R → R) (a : KernelArgs R) (s : State R) : State R × Bool :=
  end_block W a (store_block W cvt a (k_reduce W a (prepare_accumulators W a s)))

/-- The M and N loop `3: ... blt 3b` as a do-while: `none` when the fuel runs out. -/
def mn_loop (W : Nat) (cvt : R → R) (a : KernelArgs R) : Nat → State R → Option (State R)
  | 0, _ => none
  | fuel + 1, s =>
    let r := block W cvt a s
    if r.2 then mn_loop W cvt a fuel r.1 else some r.1

/-- State at the start of the assembly: `SMSTART ZA` zeroes the ZA array, `x11` and `x10` point
to the accumulator buffer. -/
def initial_state (a : KernelArgs R) : State R :=
  { x13 := a.flags, x11 := 0, x10 := 0, x24 := 0, x25 := 0, x27 := 0, x28 := 0,
    za := fun _ _ _ => 0, buf := a.accumulator_buffer, reads := [], writes := [],
    c_stores := [] }

/-- Assembly of the kernel on constructed arguments: initial accumulator load when bit 0 of the
flags is set, then the M and N loop. -/
def kernel_asm (W : Nat) (cvt : R → R) (a : KernelArgs R) : Option (State R) :=
  let s := initial_state a
  let s := if s.x13.testBit 0 then refill_loop W 0 s else s
  mn_loop W cvt a ((a.M + 1) * (a.N + 1)) s

/-- The kernel `sme2_interleaved_nomerge_fp16fp32fp16_mopa_1VLx4VL`: the final machine state,
whose fields `c_stores`, `buf`, `reads` and `writes` are the effects of the call.  `W` is the
vector length in 32-bit lanes and `cvt` the conversion from single to half precision. -/
def sme2_interleaved_nomerge_fp16fp32fp16_mopa_1VLx4VL (W : Nat) (cvt : R → R)
    (A B : Nat → R) (C : Option Int) (ldc : Int) (M N K : Nat) (bias : Option (Nat → R))
    (act : Activation R) (accumulate : Bool) (accumulator_buffer : Nat → R) :
    Option (State R) :=
  kernel_asm W cvt
    (KernelArgs.init cvt A B C ldc M N K bias act accumulate accumulator_buffer)

/-- Float offset, inside a slot of the accumulator buffer, of element `(r, c)` of tile `q`: for
each group of four rows the four rows of tile 0, then of tile 1, tile 2 and tile 3. -/
def slot_off (W q r c : Nat) : Nat := (r / 4) * (16 * W) + q * (4 * W) + (r % 4) * W + c

/-- The four `mova` of one pass of a refill loop. -/
def refill_rows (W x12 : Nat) (buf : Nat → R) (x11 : Nat) (za : ZA R) : ZA R :=
  mova_to_za 3 x12 (ld1w_x4 W buf (x11 + 12 * W))
    (mova_to_za 2 x12 (ld1w_x4 W buf (x11 + 8 * W))
      (mova_to_za 1 x12 (ld1w_x4 W buf (x11 + 4 * W))
        (mova_to_za 0 x12 (ld1w_x4 W buf x11) za)))

/-- The write events of one pass of a store loop: four rows of each tile. -/
def store_rows_ev (W x12 : Nat) (za : ZA R) (x10 : Nat) : List (Nat × R) :=
  st1w_x4 W (mova_from_za 0 x12 za) x10 ++ st1w_x4 W (mova_from_za 1 x12 za) (x10 + 4 * W)
    ++ st1w_x4 W (mova_from_za 2 x12 za) (x10 + 8 * W)
    ++ st1w_x4 W (mova_from_za 3 x12 za) (x10 + 12 * W)

/-- Contribution of `n` reduction steps to element `(r, c)` of tile `q`, for operand pointers
`x24` (into `A`) and `x23` (into `B`). -/
def dot (W : Nat) (a : KernelArgs R) (x24 x23 n q r c : Nat) : R :=
  ∑ s in Finset.range n,
    (a.A (x24 + s * (2 * W) + 2 * r) * a.B (x23 + s * (8 * W) + q * (2 * W) + 2 * c)
      + a.A (x24 + s * (2 * W) + (2 * r + 1))
        * a.B (x23 + s * (8 * W) + q * (2 * W) + (2 * c + 1)))

/-- Number of reduction steps of one block: `(K + 1) >> 1`. -/
def ksteps (K : Nat) : Nat := (K + 1) / 2

/-- Value broadcast by the bias initialisation to column `c` of tile `q` of the block at column
`n`: zero for a null bias and for columns at or beyond `N`. -/
def bias_val (W : Nat) (a : KernelArgs R) (n q c : Nat) : R :=
  match a.bias with
  | none => 0
  | some b => if n + (q * W + c) < a.N then b (n + (q * W + c)) else 0

/-- Flags after the test for the last block at (`x28`, `x27`) = (`m`, `n`). -/
def flags_after_test (W : Nat) (a : KernelArgs R) (m n x13 : Nat) : Nat :=
  if (if n + 4 * W < a.N then m else m + W) < a.M then x13 else bfc0 x13

/-- Store events of row `r` of the block at (`m`, `n`) when the row starts at address `addr`:
one event per column `n + j < N`, `j < 4 * W`, with the converted and clamped value of
column `j % W` of tile `j / W`. -/
def row_stores (W : Nat) (cvt : R → R) (a : KernelArgs R) (za : ZA R) (m n r : Nat)
    (addr : Int) : List (CStore R) :=
  ((List.range (4 * W)).filter (fun j => decide (n + j < a.N))).map
    (fun (j : Nat) => ({ x28 := m, x27 := n, row := r, lane := j, addr := addr + (j : Int),
                         val := fclamp_h (cvt (za (j / W) r (j % W))) a.min a.max } : CStore R))

/-- Number of column blocks visited in each row of blocks: the do-while on `x27` runs for
`x27 = 0, 4W, ...` until `x27 + 4W >= N`. -/
def nblk_n (W N : Nat) : Nat := (N - 1) / (4 * W) + 1

/-- Number of row blocks visited: the do-while on `x28` runs until `x28 + W >= M`. -/
def nblk_m (W M : Nat) : Nat := (M - 1) / W + 1

/-- Size in floats of one slot of the accumulator buffer: `W / 4` passes of sixteen vectors. -/
def slot (W : Nat) : Nat := 16 * W * (W / 4)

/-- Accumulator value of element `(r, c)` of tile `q` before the first reduction step of the
block in row block `i`, column block `j`. -/
def acc_init (W : Nat) (a : KernelArgs R) (i j q r c : Nat) : R :=
  if a.flags.testBit 0 then
    a.accumulator_buffer ((i * nblk_n W a.N + j) * slot W + slot_off W q r c)
  else bias_val W a (4 * W * j) q c

/-- Accumulator value of element `(r, c)` of tile `q` after the reduction of block `(i, j)`. -/
def acc_final (W : Nat) (a : KernelArgs R) (i j q r c : Nat) : R :=
  acc_init W a i j q r c
    + dot W a (i * (ksteps a.K * (2 * W))) (4 * W * j * (a.kstride_bytes / 2)) (ksteps a.K) q r c

/-- Store events of block `(i, j)` to the output array. -/
def blk_stores (W : Nat) (cvt : R → R) (a : KernelArgs R) (i j : Nat) : List (CStore R) :=
  (List.range (max 1 (min (a.M - W * i) W))).flatMap
    (fun r => row_stores W cvt a (acc_final W a i j) (W * i) (4 * W * j) r
      (((W * i : Nat) : Int) * (a.ldcb / 2) + (a.C.getD 0 + ((4 * W * j : Nat) : Int))
        + (r : Int) * (a.ldcb / 2)))

/-- Store events of all blocks before block `(i, j)` in visit order. -/
def stores_upto (W : Nat) (cvt : R → R) (a : KernelArgs R) (i j : Nat) : List (CStore R) :=
  (List.range i).flatMap (fun i' => (List.range (nblk_n W a.N)).flatMap
      (fun j' => blk_stores W cvt a i' j'))
    ++ (List.range j).flatMap (fun j' => blk_stores W cvt a i j')

/-- Loop invariant of the M and N loop at the start of block `(i, j)`; with `i = nblk_m` and
`j = 0` it describes the state at the exit of the loop. -/
def Inv (W : Nat) (cvt : R → R) (a : KernelArgs R) (i j : Nat) (s : State R) : Prop :=
  s.x13 = (if i < nblk_m W a.M then a.flags else bfc0 a.flags) ∧
  s.x27 = 4 * W * j ∧ s.x28 = W * i ∧ s.x25 = i * (ksteps a.K * (2 * W)) ∧
  s.x11 = (if a.flags.testBit 0 then
      (if i < nblk_m W a.M then i * nblk_n W a.N + j + 1 else i * nblk_n W a.N + j) * slot W
    else 0) ∧
  s.x10 = (if a.flags.testBit 1 then (i * nblk_n W a.N + j) * slot W else 0) ∧
  (a.flags.testBit 0 = true → i < nblk_m W a.M → ∀ q r c, q < 4 → r < W →
    s.za q r c = a.accumulator_buffer ((i * nblk_n W a.N + j) * slot W + slot_off W q r c)) ∧
  (∀ k, (a.flags.testBit 1 = true → (i * nblk_n W a.N + j) * slot W ≤ k) →
    s.buf k = a.accumulator_buffer k) ∧
  (a.flags.testBit 1 = true → ∀ i' j' q r c, j' < nblk_n W a.N →
    i' * nblk_n W a.N + j' < i * nblk_n W a.N + j → q < 4 → r < W → c < W →
    s.buf ((i' * nblk_n W a.N + j') * slot W + slot_off W q r c) = acc_final W a i' j' q r c) ∧
  s.c_stores = (if a.flags.testBit 1 then [] else stores_upto W cvt a i j) ∧
  s.reads = (if a.flags.testBit 0 then
      List.range ((if i < nblk_m W a.M then i * nblk_n W a.N + j + 1
        else i * nblk_n W a.N + j) * slot W)
    else []) ∧
  s.writes = (if a.flags.testBit 1 then
      (List.range ((i * nblk_n W a.N + j) * slot W)).map (fun k => (k, s.buf k))
    else [])

/-- Block origin, row and lane of the store events a call issues when every block stores its
valid rows and columns: row blocks, column blocks, rows `r < min W (M - W * i)`, lanes
`l < min (4 * W) (N - 4 * W * j)`. -/
def rect_keys (W M N : Nat) : List (Nat × Nat × Nat × Nat) :=
  (List.range (nblk_m W M)).flatMap (fun i =>
    (List.range (nblk_n W N)).flatMap (fun j =>
      (List.range (min W (M - W * i))).flatMap (fun r =>
        (List.range (min (4 * W) (N - 4 * W * j))).map (fun l => (W * i, 4 * W * j, r, l)))))

/-- Operand memory holding the value one at every element, for concrete instances. -/
def ones : Nat → ℚ := fun _ => 1

/-- Activation of type `None`, for concrete instances. -/
def no_activation : Activation ℚ := { type := ActivationType.None, param1 := 0, param2 := 0 }

/-- Activation of type `BoundedReLU` with upper bound six, for concrete instances. -/
def bounded_relu : Activation ℚ :=
  { type := ActivationType.BoundedReLU, param1 := 6, param2 := 0 }

/-- Activation of type `BoundedReLU` whose upper bound, 70000, is above the half-precision
range. -/
def bounded_relu_above_range : Activation ℚ :=
  { type := ActivationType.BoundedReLU, param1 := 70000, param2 := 0 }

/-- Activation of type `BoundedReLU` whose upper bound, 2049, is not a half-precision number:
it lies halfway between its neighbours 2048 and 2050. -/
def bounded_relu_inexact : Activation ℚ :=
  { type := ActivationType.BoundedReLU, param1 := 2049, param2 := 0 }

/-- Rounding to half precision on the numbers from 2048 to 4096, where the half-precision
numbers are the even integers: the nearest even integer, a tie going to the one with the even
significand (the multiple of four); any other number is left as it is. -/
def round_fp16_binade_11 (x : ℚ) : ℚ :=
  if 2048 ≤ x ∧ x ≤ 4096 then
    let f : Int := ⌊x / 2⌋
    let d : ℚ := x / 2 - f
    if d < 1 / 2 then 2 * f
    else if 1 / 2 < d then 2 * (f + 1)
    else if f % 2 = 0 then 2 * f else 2 * (f + 1)
  else x

/-- State at label `3:` at the start of pass `t` of the M and N loop, passes counted from zero:
pass zero starts from the state after the initial accumulator load, each later pass from the
state the pass before it leaves. -/
def block_entry (W : Nat) (cvt : R → R) (a : KernelArgs R) : Nat → State R
  | 0 =>
    let s := initial_state a
    if s.x13.testBit 0 then refill_loop W 0 s else s
  | t + 1 => (block W cvt a (block_entry W cvt a t)).1

/-- Content of an interleaved `A` panel of reduction length `K`, in the order the kernel reads
it: row block `ib` starts at element `ib * (ksteps K * 2W)`, and step `s` of it holds, for each
row `r < W`, the elements `k0 + 2s` and `k0 + 2s + 1` of row `ib * W + r` of the matrix `m`; an
element at or beyond `K` is zero padding. -/
def a_panel_holds (W K k0 : Nat) (m : Nat → Nat → R) (A : Nat → R) : Prop :=
  ∀ ib s r e, s < ksteps K → r < W → e < 2 →
    A (ib * (ksteps K * (2 * W)) + s * (2 * W) + (2 * r + e))
      = if 2 * s + e < K then m (ib * W + r) (k0 + (2 * s + e)) else 0

/-- Content of an interleaved `B` panel of reduction length `K`, in the order the kernel reads
it: column block `jb` starts at element `4W * jb * roundup K 2`, and step `s` of it holds, for
each column `q * W + c` of the block, the elements `k0 + 2s` and `k0 + 2s + 1` of column
`4W * jb + q * W + c` of the matrix `m`; an element at or beyond `K` is zero padding. -/
def b_panel_holds (W K k0 : Nat) (m : Nat → Nat → R) (B : Nat → R) : Prop :=
  ∀ jb s q c e, s < ksteps K → q < 4 → c < W → e < 2 →
    B (4 * W * jb * roundup K 2 + s * (8 * W) + q * (2 * W) + (2 * c + e))
      = if 2 * s + e < K then m (k0 + (2 * s + e)) (4 * W * jb + (q * W + c)) else 0

/-- Matrix with the value one at every element, for concrete instances. -/
def ones_matrix : Nat → Nat → ℚ := fun _ _ => 1

/-- The clamp in the order the specification words it, `max(min(v, activationMax),
activationMin)`, a bound `none` being infinite; to be compared with `fclamp_h`. -/
def clamp_max_min (v : R) (lo hi : Option R) : R :=
  let v := match hi with
    | none => v
    | some h => Min.min v h
  match lo with
    | none => v
    | some l => Max.max v l

/-- One outer-product accumulation step of a plain reduction loop: step `s` accumulates, into
each of the four tiles, the widening outer product of `A` vector `s` (at `x24`) with the vector
of that tile in `B` vector group `s` (at `x23`). -/
def single_step (W : Nat) (a : KernelArgs R) (x24 x23 s : Nat) (za : ZA R) : ZA R :=
  let zn := ld1h a.A (x24 + s * (2 * W))
  let zm := ld1h_x4 W a.B (x23 + s * (4 * (2 * W)))
  fmopa 3 zn (zm 3) (fmopa 2 zn (zm 2) (fmopa 1 zn (zm 1) (fmopa 0 zn (zm 0) za)))

/-- Plain loop of `n` single steps `s = 0, 1, .., n - 1`, in increasing order, on the operands at
`x24` and `x23`: the reduction as the specification describes it, to be compared with
`k_reduce`. -/
def plain_k_loop (W : Nat) (a : KernelArgs R) (x24 x23 : Nat) : Nat → ZA R → ZA R
  | 0, za => za
  | n + 1, za => single_step W a x24 x23 n (plain_k_loop W a x24 x23 n za)

/-- State with all registers zero, the ZA array holding `q + 2 * r + 7 * c` at element `(r, c)`
of tile `q`, and a zero accumulator buffer; for concrete instances. -/
def sample_state : State ℚ :=
  { x13 := 0, x11 := 0, x10 := 0, x24 := 0, x25 := 0, x27 := 0, x28 := 0,
    za := fun q r c => (q : ℚ) + 2 * r + 7 * c, buf := fun _ => 0, reads := [], writes := [],
    c_stores := [] }

end arm_gemm

/-! ## Tensor memory manager -/

namespace arm_compute

/-- Modelled from the spec: `PaddingSize`, the per-dimension margins of the Padding of the data
model, in elements; the tests construct it as (top, right, bottom, left). -/
structure PaddingSize where
  top : Nat
  right : Nat
  bottom : Nat
  left : Nat
  deriving DecidableEq

/-- Modelled from the spec: ownership of a bound MemoryRegion. -/
inductive Ownership where
  | Owned
  | Imported
  deriving DecidableEq

/-- Modelled from the spec: the TensorBuffer of the data model as the tests see it through
`Tensor`, `TensorInfo` and `TensorAllocator`, which are not among the sources: the logical shape
(width, height, channels) and element size in bytes, the padding, the `resizable` flag, the
configured alignment in bytes (at least 1; `unspecified_alignment` when no alignment is
configured), whether a memory group is associated, the bound buffer pointer (`0` is `nullptr`)
and the ownership of the bound region. -/
structure Tensor where
  width : Nat
  height : Nat
  channels : Nat
  element_size : Nat
  padding : PaddingSize
  is_resizable : Bool
  alignment : Nat
  memory_group : Bool
  buffer : Nat
  ownership : Option Ownership
  deriving DecidableEq

/-- Modelled from the spec: the configured alignment of an allocator for which none was
specified (a default-constructed `Tensor`, `init(info)` without an alignment).  Such a tensor
has no alignment requirement: the positive case of `TEST_CASE(ImportMemory)` and
`TEST_CASE(ImportMemoryMallocPadded)` assert that the import of the pointer of a plain byte
array succeeds after `init(info)`.  It is the alignment one, to which every address is
aligned. -/
def unspecified_alignment : Nat := 1

/-- Modelled from the spec: a default-constructed `Tensor`, resizable, with no buffer bound and
no alignment specified. -/
def Tensor.empty : Tensor :=
  { width := 0, height := 0, channels := 0, element_size := 0,
    padding := { top := 0, right := 0, bottom := 0, left := 0 }, is_resizable := true,
    alignment := unspecified_alignment, memory_group := false, buffer := 0, ownership := none }

/-- Modelled from the spec: `arm_compute::utility::check_aligned`, address mod alignment is
zero, for an alignment of at least 1. -/
def check_aligned (ptr alignment : Nat) : Bool := ptr % alignment == 0

/-- Modelled from the spec: `TensorAllocator::init(info, alignment)` for a three-dimensional
`TensorInfo` without padding. -/
def TensorAllocator.init (t : Tensor) (width height channels element_size alignment : Nat) :
    Tensor :=
  { t with width := width, height := height, channels := channels,
           element_size := element_size,
           padding := { top := 0, right := 0, bottom := 0, left := 0 }, alignment := alignment }

/-- Modelled from the spec: `TensorAllocator::set_associated_memory_group`, binding the tensor to
an owning memory group. -/
def TensorAllocator.set_associated_memory_group (t : Tensor) : Tensor :=
  { t with memory_group := true }

/-- Modelled from the spec: `TensorAllocator::import_memory` (`import` of section 4.1): fails,
with no mutation, when the pointer is null, when it is not aligned to the configured alignment,
or when the tensor is bound to a memory group; otherwise binds the pointer as Imported and
clears `resizable`.  The result is the status and the tensor after the call. -/
def TensorAllocator.import_memory (t : Tensor) (memory : Nat) : Bool × Tensor :=
  if memory = 0 then (false, t)
  else if ¬ check_aligned memory t.alignment then (false, t)
  else if t.memory_group then (false, t)
  else (true, { t with buffer := memory, ownership := some Ownership.Imported,
                       is_resizable := false })

/-- Modelled from the spec: `TensorAllocator::free` (`free` of section 4.1): releases an Owned
region or drops the reference to an Imported one; in both cases the buffer pointer becomes null
and `resizable` is set. -/
def TensorAllocator.free (t : Tensor) : Tensor :=
  { t with buffer := 0, ownership := none, is_resizable := true }

/-- Modelled from the spec: strides in bytes of the three dimensions: the stride of a dimension
is the padded extent of the next-inner dimension times the stride of that dimension. -/
def Tensor.strides (t : Tensor) : Nat × Nat × Nat :=
  let stride_x := t.element_size
  let stride_y := (t.padding.left + t.width + t.padding.right) * stride_x
  let stride_z := (t.padding.top + t.height + t.padding.bottom) * stride_y
  (stride_x, stride_y, stride_z)

/-- Modelled from the spec: the padded byte extent of the tensor. -/
def Tensor.total_size (t : Tensor) : Nat := t.channels * t.strides.2.2

/-- Modelled from the spec: `TensorAllocator::allocate` (`allocate` of section 4.1): reserves an
Owned region of the padded byte extent from the system allocator `sys` (size and alignment to
address) and clears `resizable`; it fails (`none`, the `AllocationError`) when the system cannot
satisfy the request, that is, returns nothing, null or a misaligned address. -/
def TensorAllocator.allocate (sys : Nat → Nat → Option Nat) (t : Tensor) : Option Tensor :=
  match sys t.total_size t.alignment with
  | none => none
  | some p =>
    if p ≠ 0 ∧ check_aligned p t.alignment then
      some { t with buffer := p, ownership := some Ownership.Owned, is_resizable := false }
    else none

/-- Modelled from the spec: `TensorAllocator::alignment`. -/
def TensorAllocator.alignment (t : Tensor) : Nat := t.alignment

/-- Modelled from the spec: `TensorInfo::extend_padding` (`extend_padding` of section 4.1): only
while the tensor is resizable (`none` otherwise); every margin grows to the requested amount and
never shrinks; the strides follow the padding (`Tensor.strides`). -/
def TensorInfo.extend_padding (t : Tensor) (p : PaddingSize) : Option Tensor :=
  if t.is_resizable then
    some { t with padding := { top := max t.padding.top p.top,
                               right := max t.padding.right p.right,
                               bottom := max t.padding.bottom p.bottom,
                               left := max t.padding.left p.left } }
  else none

/-- The loop of `TEST_CASE(ImportMemory)` that looks for an alignment the pointer `data` does not
have: `while (check_aligned(data, required_alignment)) required_alignment += 1`; `none` when the
fuel runs out. -/
def misaligned_alignment (data : Nat) : Nat → Nat → Option Nat
  | 0, _ => none
  | fuel + 1, required_alignment =>
    if check_aligned data required_alignment then
      misaligned_alignment data fuel (required_alignment + 1)
    else some required_alignment

/-- The negative cases of `TEST_CASE(ImportMemory)` on the modelled allocator, for the buffer
pointer `data` and the alignment `default_alignment` of `init(info)`: the conjunction of the
assertions on `t1` (null pointer), `t2` (misaligned pointer) and `t3` (memory group); `none` when
the search for a misalignment runs out of fuel. -/
def ImportMemory_negative (default_alignment data : Nat) : Option Bool :=
  let t1 := TensorAllocator.init Tensor.empty 24 16 3 4 default_alignment
  let r1 := TensorAllocator.import_memory t1 0
  let a1 := !r1.1 && r1.2.is_resizable
  match misaligned_alignment data (data + 2) 339 with
  | none => none
  | some required_alignment =>
    let t2 := TensorAllocator.init Tensor.empty 24 16 3 4 required_alignment
    let r2 := TensorAllocator.import_memory t2 data
    let a2 := !r2.1 && r2.2.is_resizable
    let t3 := TensorAllocator.set_associated_memory_group Tensor.empty
    let r3 := TensorAllocator.import_memory t3 data
    let a3 := !r3.1 && r3.2.is_resizable
    some (a1 && a2 && a3)

/-- The positive case of `TEST_CASE(ImportMemory)` on the modelled allocator (`t4`, initialised
by `init(info)` without an alignment): import of `data`, then `free`; the conjunction of the
assertions. -/
def ImportMemory_positive (data : Nat) : Bool :=
  let t4 := TensorAllocator.init Tensor.empty 24 16 3 4 unspecified_alignment
  let r4 := TensorAllocator.import_memory t4 data
  let a1 := r4.1 && !r4.2.is_resizable && r4.2.buffer == data
  let t4 := TensorAllocator.free r4.2
  a1 && t4.is_resizable && t4.buffer == 0

/-- The allocator assertions of `TEST_CASE(ImportMemoryMalloc)` on the modelled allocator, for
the pointer `aligned_ptr` that `std::align` returns for the alignment 64: import, then `free`
(the activation run between them does not touch the allocator). -/
def ImportMemoryMalloc (aligned_ptr : Nat) : Bool :=
  let required_alignment := 64
  let tensor := TensorAllocator.init Tensor.empty 24 16 3 4 required_alignment
  let r := TensorAllocator.import_memory tensor aligned_ptr
  let a1 := r.1 && !r.2.is_resizable
  let tensor := TensorAllocator.free r.2
  a1 && tensor.is_resizable

/-- The assertions of `TEST_CASE(AlignedAlloc)` on the modelled allocator with the system
allocator `sys`: `none` when the allocation fails. -/
def AlignedAlloc (sys : Nat → Nat → Option Nat) : Option Bool :=
  let requested_alignment := 1024
  let t := TensorAllocator.init Tensor.empty 24 16 3 4 requested_alignment
  match TensorAllocator.allocate sys t with
  | none => none
  | some t =>
    some (t.buffer != 0 && TensorAllocator.alignment t == requested_alignment
      && check_aligned t.buffer requested_alignment)

/-- The tensor of `TEST_CASE(ImportMemoryMallocPadded)` after `init`: shape (24, 16, 3), F32,
no padding, no alignment specified. -/
def fresh_tensor : Tensor := TensorAllocator.init Tensor.empty 24 16 3 4 unspecified_alignment

/-- The padding `PaddingSize(3U, 5U, 2U, 4U)` of `TEST_CASE(ImportMemoryMallocPadded)`. -/
def enforced_padding : PaddingSize := { top := 3, right := 5, bottom := 2, left := 4 }

/-- The import and release of `TEST_CASE(ImportMemoryMallocPadded)` on the modelled allocator:
after `extend_padding`, import of the pointer `raw_data` of a plain byte array, then `free`
(the activation run between them does not touch the allocator); `none` when `extend_padding`
fails. -/
def ImportMemoryMallocPadded_import (raw_data : Nat) : Option Bool :=
  match TensorInfo.extend_padding fresh_tensor enforced_padding with
  | none => none
  | some tensor =>
    let r := TensorAllocator.import_memory tensor raw_data
    let a1 := r.1 && !r.2.is_resizable
    let tensor := TensorAllocator.free r.2
    some (a1 && tensor.is_resizable)

/-- The padding part of `TEST_CASE(ImportMemoryMallocPadded)` on the modelled allocator:
`extend_padding(PaddingSize(3, 5, 2, 4))` on a fresh tensor and the validation of
`padding()`. -/
def ImportMemoryMallocPadded_padding : Option Bool :=
  let t := fresh_tensor
  match TensorInfo.extend_padding t enforced_padding with
  | none => none
  | some t => some (t.padding == enforced_padding)

end arm_compute

/-! ## Depthwise kernel: proofs -/

namespace arm_conv
namespace depthwise

variable {R : Type} [LinearOrderedField R]

theorem blk_div (W b l : Nat) (h : l < W) : (b * W + l) / W = b := by
  have hW : 0 < W := by omega
  rw [Nat.add_comm, Nat.add_mul_div_right _ _ hW, Nat.div_eq_of_lt h, Nat.zero_add]

theorem blk_mod (W b l : Nat) (h : l < W) : (b * W + l) % W = l := by
  rw [Nat.add_comm, Nat.add_mul_mod_self_right, Nat.mod_eq_of_lt h]

theorem app_congr {α : Type} {l1 l2 r1 r2 : List α} (h1 : l1 = l2) (h2 : r1 = r2) :
    l1 ++ r1 = l2 ++ r2 := by rw [h1, h2]

theorem st1w_pos (W n_channels : Nat) (a : Args R) (i j b r c : Nat) (z : ZReg R) (x : Int)
    (hx : x = out_offset a i j r c (b * W))
    (hz : ∀ l, l < W → whilelt (b * W) n_channels l = true →
      z l = min (max (conv_ref W a i j r c (b * W + l)) a.min) a.max) :
    st1w W z (whilelt (b * W) n_channels) x = pos_stores W n_channels a i j b r c := by
  unfold st1w pos_stores
  have hf : (List.range W).filter (fun l => whilelt (b * W) n_channels l)
      = (List.range W).filter (fun l => decide (b * W + l < n_channels)) := rfl
  rw [hf]
  apply List.map_congr_left
  intro l hl
  rw [List.mem_filter, List.mem_range] at hl
  rw [hz l hl.1 hl.2, hx]
  simp only [out_offset, Prod.mk.injEq, and_true]
  push_cast
  ring

theorem chan_entry_zero (W n_channels : Nat) (a : Args R) (x2 x3 : Nat) :
    chan_entry W n_channels a x2 x3 0 = tile_loop_head W n_channels a x2 x3 := by
  apply Regs.ext <;> simp [chan_entry, tile_loop_head] <;> (try ring_nf)

theorem channel_loop_fst (W n_channels : Nat) (a : Args R) (s : Regs R) :
    (channel_loop W n_channels a s).1 =
      { s with
        x5 := s.x5 + (W : Int), x16 := s.x16 + (W : Int), x15 := s.x15 + (W : Int),
        x14 := s.x14 + (W : Int), x13 := s.x13 + (W : Int),
        x6 := s.x6 + W + 4 * W + 4 * W + W, x20 := s.x20 + (W : Int), x21 := s.x21 + W,
        x22 := s.x22 + W, x26 := s.x26 + (W : Int), x24 := s.x24 + (W : Int),
        x23 := s.x23 + (W : Int), p2 := whilelt (s.x21 + W) n_channels,
        z25 := ld1w_all a.params s.x6,
        z0 := ld1w_all a.params (s.x6 + W),
        z1 := ld1w_all a.params (s.x6 + W + W),
        z2 := ld1w_all a.params (s.x6 + W + 2 * W),
        z3 := ld1w_all a.params (s.x6 + W + 3 * W),
        z4 := ld1w_all a.params (s.x6 + W + 4 * W),
        z5 := ld1w_all a.params (s.x6 + W + 4 * W + W),
        z6 := ld1w_all a.params (s.x6 + W + 4 * W + 2 * W),
        z7 := ld1w_all a.params (s.x6 + W + 4 * W + 3 * W),
        z8 := ld1w_all a.params (s.x6 + W + 4 * W + 4 * W),
        z9 := ld1w a.inptr (whilelt s.x22 n_channels) (s.x15 + (W : Int) + s.x7),
        z10 := ld1w a.inptr (whilelt s.x22 n_channels) (s.x5 + (W : Int)),
        z11 := ld1w a.inptr (whilelt s.x22 n_channels) (s.x5 + (W : Int) + s.x17),
        z12 := ld1w a.inptr (whilelt s.x22 n_channels) (s.x13 + (W : Int)),
        z13 := ld1w a.inptr (whilelt s.x22 n_channels) (s.x16 + (W : Int) + s.x7) } := rfl

theorem channel_loop_lt (W n_channels : Nat) (a : Args R) (s : Regs R) :
    (channel_loop W n_channels a s).2.2 = decide (s.x22 + W < n_channels) := rfl

theorem channel_loop_entry (W n_channels : Nat) (a : Args R) (x2 x3 b : Nat) :
    (channel_loop W n_channels a (chan_entry W n_channels a x2 x3 b)).1
      = chan_entry W n_channels a x2 x3 (b + 1) := by
  rw [channel_loop_fst]
  apply Regs.ext <;> simp [chan_entry, tile_loop_head] <;> (try ring_nf)

set_option maxHeartbeats 4000000 in
theorem channel_loop_stores (W n_channels : Nat) (a : Args R) (x2 x3 b : Nat) :
    (channel_loop W n_channels a (chan_entry W n_channels a x2 x3 b)).2.1
      = block_stores W n_channels a x2 x3 b := by
  simp only [channel_loop, block_stores]
  have hp : (chan_entry W n_channels a x2 x3 b).p2 = whilelt (b * W) n_channels := rfl
  rw [hp]
  refine app_congr (app_congr (app_congr (app_congr (app_congr (app_congr (app_congr
    (app_congr ?_ ?_) ?_) ?_) ?_) ?_) ?_) ?_) ?_
  all_goals
    apply st1w_pos
    · simp only [chan_entry, tile_loop_head, out_offset]
      push_cast
      ring
    · intro l hl hq
      simp only [chan_entry, tile_loop_head, fclamp, fmax, fmin, fmla, ld1w, ld1w_all, ld1rw,
        hq, if_true, conv_ref, bias_of, weight_of, input_at, Finset.sum_range_succ,
        Finset.sum_range_zero, blk_div W b l hl, blk_mod W b l hl]
      push_cast
      ring_nf

set_option maxHeartbeats 4000000 in
theorem channel_tail_stores (W n_channels : Nat) (a : Args R) (x2 x3 b : Nat) :
    (channel_tail W a x2 x3 (chan_entry W n_channels a x2 x3 b)).1
      = block_stores W n_channels a x2 x3 b := by
  simp only [channel_tail, block_stores]
  have hp : (chan_entry W n_channels a x2 x3 b).p2 = whilelt (b * W) n_channels := rfl
  rw [hp]
  refine app_congr (app_congr (app_congr (app_congr (app_congr (app_congr (app_congr
    (app_congr ?_ ?_) ?_) ?_) ?_) ?_) ?_) ?_) ?_
  all_goals
    apply st1w_pos
    · simp only [chan_entry, tile_loop_head, out_offset]
      push_cast
      ring
    · intro l hl hq
      simp only [chan_entry, tile_loop_head, fclamp, fmax, fmin, fmla, ld1w, ld1w_all, ld1rw,
        hq, if_true, conv_ref, bias_of, weight_of, input_at, Finset.sum_range_succ,
        Finset.sum_range_zero, blk_div W b l hl, blk_mod W b l hl]
      push_cast
      ring_nf

theorem channel_tail_next (W : Nat) (a : Args R) (x2 x3 : Nat) (s : Regs R) :
    (channel_tail W a x2 x3 s).2 =
      ((if x3 + 1 < a.n_tile_cols then x2 else x2 + 1,
        if x3 + 1 < a.n_tile_cols then x3 + 1 else 0),
       decide ((if x3 + 1 < a.n_tile_cols then x2 else x2 + 1) < a.n_tile_rows)) := by
  simp only [channel_tail, decide_eq_true_eq]

theorem channel_loop_run_spec (W n_channels : Nat) (a : Args R) (x2 x3 : Nat) :
    ∀ (k b fuel : Nat), 1 ≤ k → k ≤ fuel →
      (∀ b', b ≤ b' → b' + 1 < b + k → (b' + 2) * W < n_channels) →
      ¬ ((b + k + 1) * W < n_channels) →
      channel_loop_run W n_channels a fuel (chan_entry W n_channels a x2 x3 b)
        = some (chan_entry W n_channels a x2 x3 (b + k),
            (List.range' b k).flatMap (fun b' => block_stores W n_channels a x2 x3 b')) := by
  intro k
  induction k with
  | zero => intro b fuel h; omega
  | succ k ih =>
    intro b fuel _ hf hlt hge
    obtain ⟨f, rfl⟩ : ∃ f, fuel = f + 1 := ⟨fuel - 1, by omega⟩
    have hx : (chan_entry W n_channels a x2 x3 b).x22 + W = (b + 2) * W := by
      show (b + 1) * W + W = (b + 2) * W
      ring
    rw [channel_loop_run, channel_loop_lt, channel_loop_entry, channel_loop_stores, hx]
    by_cases hk : k = 0
    · subst hk
      have hno : ¬ ((b + 2) * W < n_channels) := by simpa using hge
      simp [hno]
    · have hyes : (b + 2) * W < n_channels := hlt b (le_refl b) (by omega)
      have hrec := ih (b + 1) f (by omega) (by omega)
        (fun b' h1 h2 => hlt b' (by omega) (by omega))
        (by rw [show b + 1 + k + 1 = b + (k + 1) + 1 by omega]; exact hge)
      simp only [hyes, decide_True, if_true, hrec, Option.map_some']
      rw [show b + 1 + k = b + (k + 1) by omega, List.range'_succ, List.flatMap_cons]

theorem tile_loop_spec (W n_channels : Nat) (hW : 0 < W) (a : Args R) (x2 x3 : Nat) :
    tile_loop W n_channels a x2 x3 = some (tile_stores W n_channels a x2 x3,
      (if x3 + 1 < a.n_tile_cols then x2 else x2 + 1,
        if x3 + 1 < a.n_tile_cols then x3 + 1 else 0),
      decide ((if x3 + 1 < a.n_tile_cols then x2 else x2 + 1) < a.n_tile_rows)) := by
  have hx22 : (tile_loop_head W n_channels a x2 x3).x22 = W := rfl
  unfold tile_loop
  simp only [hx22]
  by_cases hn : n_channels ≤ W
  · have hL : (n_channels - 1) / W = 0 := Nat.div_eq_of_lt (by omega)
    simp only [hn, decide_True, if_true, Option.map_some', List.nil_append]
    rw [← chan_entry_zero, channel_tail_stores, channel_tail_next]
    simp [tile_stores, hL, List.range_succ]
  · have hL1 : 1 ≤ (n_channels - 1) / W := by
      rw [Nat.le_div_iff_mul_le hW]
      omega
    have hLle : (n_channels - 1) / W * W ≤ n_channels - 1 := Nat.div_mul_le_self _ _
    have hLlt : n_channels - 1 < ((n_channels - 1) / W + 1) * W := by
      have := Nat.lt_div_mul_add (a := n_channels - 1) hW
      rw [Nat.add_mul, Nat.one_mul]
      exact this
    have hrun := channel_loop_run_spec W n_channels a x2 x3 ((n_channels - 1) / W) 0
      (n_channels + 1) hL1
      (by
        have : (n_channels - 1) / W ≤ n_channels - 1 := Nat.div_le_self _ _
        omega)
      (by
        intro b' _ h2
        have h3 : (b' + 2) * W ≤ (n_channels - 1) / W * W :=
          Nat.mul_le_mul_right W (by omega)
        omega)
      (by
        rw [Nat.zero_add]
        omega)
    rw [chan_entry_zero] at hrun
    simp only [hn, decide_False, Bool.false_eq_true, if_false, hrun, Option.map_some',
      Nat.zero_add]
    rw [channel_tail_stores, channel_tail_next]
    simp only [tile_stores, List.range_eq_range', List.range'_concat, List.flatMap_append,
      List.flatMap_cons, List.flatMap_nil, List.append_nil, Nat.zero_add, Nat.one_mul]

theorem tile_loop_run_spec (W n_channels : Nat) (hW : 0 < W) (a : Args R) :
    ∀ (fuel x2 x3 : Nat),
      tile_loop_run W n_channels a fuel x2 x3
        = (tile_seq a.n_tile_rows a.n_tile_cols fuel x2 x3).map
            (fun ts => ts.flatMap (fun t => tile_stores W n_channels a t.1 t.2)) := by
  intro fuel
  induction fuel with
  | zero => intro x2 x3; rfl
  | succ f ih =>
    intro x2 x3
    rw [tile_loop_run, tile_loop_spec W n_channels hW, tile_seq]
    simp only [decide_eq_true_eq]
    by_cases h : (if x3 + 1 < a.n_tile_cols then x2 else x2 + 1) < a.n_tile_rows
    · simp only [h, if_true, ih, Option.map_map]
      congr 1
    · simp [h]

theorem length_flatMap_const {α β : Type} (f : α → List β) (c : Nat)
    (h : ∀ x, (f x).length = c) : ∀ l : List α, (l.flatMap f).length = l.length * c := by
  intro l
  induction l with
  | nil => simp
  | cons x xs ih =>
    rw [List.flatMap_cons, List.length_append, ih, h, List.length_cons]
    ring

theorem tiles_rest_length (rows cols i j : Nat) (hi : i < rows) (hj : j < max 1 cols) :
    (tiles_rest rows cols i j).length + j + i * max 1 cols = rows * max 1 cols := by
  unfold tiles_rest
  rw [List.length_append, List.length_map, List.length_range',
    length_flatMap_const _ (max 1 cols) (by intro x; simp), List.length_range']
  obtain ⟨d, rfl⟩ : ∃ d, rows = i + 1 + d := ⟨rows - (i + 1), by omega⟩
  rw [show i + 1 + d - (i + 1) = d by omega]
  have : max 1 cols - j + j = max 1 cols := by omega
  ring_nf
  ring_nf at this
  omega

theorem tile_seq_rest (rows cols : Nat) :
    ∀ (fuel i j : Nat), i < rows → j < max 1 cols →
      (tiles_rest rows cols i j).length ≤ fuel →
      tile_seq rows cols fuel i j = some (tiles_rest rows cols i j) := by
  intro fuel
  induction fuel with
  | zero =>
    intro i j hi hj hlen
    exfalso
    unfold tiles_rest at hlen
    rw [List.length_append, List.length_map, List.length_range'] at hlen
    omega
  | succ f ih =>
    intro i j hi hj hlen
    rw [tile_seq]
    simp only [decide_eq_true_eq]
    have hhead : tiles_rest rows cols i j = (i, j) ::
        ((List.range' (j + 1) (max 1 cols - (j + 1))).map (fun j' => (i, j'))
          ++ (List.range' (i + 1) (rows - (i + 1))).flatMap
              (fun i' => (List.range (max 1 cols)).map (fun j' => (i', j')))) := by
      unfold tiles_rest
      rw [show max 1 cols - j = (max 1 cols - (j + 1)) + 1 by omega, List.range'_succ]
      rfl
    by_cases hc : j + 1 < cols
    · have hj1 : j + 1 < max 1 cols := by omega
      have hrest : tiles_rest rows cols i j = (i, j) :: tiles_rest rows cols i (j + 1) := by
        rw [hhead]; rfl
      rw [hrest] at hlen ⊢
      simp only [hc, if_true, hi]
      rw [ih i (j + 1) hi hj1 (by simpa using hlen)]
      rfl
    · have hj1 : max 1 cols - (j + 1) = 0 := by omega
      simp only [hc, if_false]
      by_cases hr : i + 1 < rows
      · have hrest : tiles_rest rows cols i j = (i, j) :: tiles_rest rows cols (i + 1) 0 := by
          rw [hhead, hj1]
          unfold tiles_rest
          rw [show rows - (i + 1) = (rows - (i + 1 + 1)) + 1 by omega, List.range'_succ,
            List.flatMap_cons, List.range_eq_range']
          simp
        rw [hrest] at hlen ⊢
        simp only [hr, if_true]
        rw [ih (i + 1) 0 hr (by omega) (by simpa using hlen)]
        rfl
      · have hrest : tiles_rest rows cols i j = [(i, j)] := by
          rw [hhead, hj1, show rows - (i + 1) = 0 by omega]
          rfl
        rw [hrest]
        simp [hr]

theorem tile_seq_visited (rows cols : Nat) :
    tile_seq rows cols ((rows + 1) * (cols + 1)) 0 0 = some (visited_tiles rows cols) := by
  by_cases hr : rows = 0
  · subst hr
    simp [tile_seq, visited_tiles]
  · have hlen := tiles_rest_length rows cols 0 0 (by omega) (by omega)
    have hle : rows * max 1 cols ≤ (rows + 1) * (cols + 1) :=
      Nat.mul_le_mul (by omega) (by omega)
    rw [tile_seq_rest rows cols _ 0 0 (by omega) (by omega) (by omega)]
    unfold tiles_rest visited_tiles
    simp only [hr, if_false]
    obtain ⟨d, rfl⟩ : ∃ d, rows = d + 1 := ⟨rows - 1, by omega⟩
    rw [List.range_eq_range' (n := d + 1), List.range'_succ, List.flatMap_cons,
      List.range_eq_range']
    simp

/-- Store events of the whole kernel: every visited tile, in order. -/
theorem kernel_trace (W : Nat) (hW : 0 < W) (a : Args R) (n_channels : Nat) :
    sme2_fp32_nhwc_3x3_s1_output3x3_mla_depthfirst_direct_impl W a n_channels
      = some ((visited_tiles a.n_tile_rows a.n_tile_cols).flatMap
          (fun t => tile_stores W n_channels a t.1 t.2)) := by
  unfold sme2_fp32_nhwc_3x3_s1_output3x3_mla_depthfirst_direct_impl
  rw [tile_loop_run_spec W n_channels hW, tile_seq_visited]
  rfl

theorem mem_pos_stores (W n_channels : Nat) (a : Args R) (i j b r c : Nat) (e : Int × R) :
    e ∈ pos_stores W n_channels a i j b r c ↔
      ∃ l, l < W ∧ b * W + l < n_channels ∧
        e = (out_offset a i j r c (b * W + l),
          min (max (conv_ref W a i j r c (b * W + l)) a.min) a.max) := by
  unfold pos_stores
  simp only [List.mem_map, List.mem_filter, List.mem_range, decide_eq_true_eq]
  constructor
  · rintro ⟨l, ⟨h1, h2⟩, rfl⟩
    exact ⟨l, h1, h2, rfl⟩
  · rintro ⟨l, h1, h2, rfl⟩
    exact ⟨l, ⟨h1, h2⟩, rfl⟩

theorem mem_block_stores (W n_channels : Nat) (a : Args R) (i j b : Nat) (e : Int × R) :
    e ∈ block_stores W n_channels a i j b ↔
      ∃ r c, r < 3 ∧ c < 3 ∧ e ∈ pos_stores W n_channels a i j b r c := by
  unfold block_stores
  simp only [List.mem_append]
  constructor
  · intro h
    rcases h with (((((((h | h) | h) | h) | h) | h) | h) | h) | h
    · exact ⟨1, 0, by omega, by omega, h⟩
    · exact ⟨0, 0, by omega, by omega, h⟩
    · exact ⟨0, 1, by omega, by omega, h⟩
    · exact ⟨0, 2, by omega, by omega, h⟩
    · exact ⟨1, 1, by omega, by omega, h⟩
    · exact ⟨1, 2, by omega, by omega, h⟩
    · exact ⟨2, 0, by omega, by omega, h⟩
    · exact ⟨2, 1, by omega, by omega, h⟩
    · exact ⟨2, 2, by omega, by omega, h⟩
  · rintro ⟨r, c, hr, hc, h⟩
    interval_cases r <;> interval_cases c <;> simp only [h, true_or, or_true]

theorem mem_tile_stores (W n_channels : Nat) (hW : 0 < W) (a : Args R) (i j : Nat)
    (e : Int × R) :
    e ∈ tile_stores W n_channels a i j ↔
      ∃ r c ch, r < 3 ∧ c < 3 ∧ ch < n_channels ∧
        e = (out_offset a i j r c ch, min (max (conv_ref W a i j r c ch) a.min) a.max) := by
  unfold tile_stores
  simp only [List.mem_flatMap, List.mem_range, mem_block_stores, mem_pos_stores]
  constructor
  · rintro ⟨b, _, r, c, hr, hc, l, _, hl, he⟩
    exact ⟨r, c, b * W + l, hr, hc, hl, he⟩
  · rintro ⟨r, c, ch, hr, hc, hch, he⟩
    refine ⟨ch / W, ?_, r, c, hr, hc, ch % W, Nat.mod_lt _ hW, ?_, ?_⟩
    · exact Nat.lt_succ_of_le (Nat.div_le_div_right (by omega))
    · rw [Nat.div_add_mod' ch W]; exact hch
    · rw [Nat.div_add_mod' ch W]; exact he

theorem mem_visited_tiles (rows cols i j : Nat) (hi : i < rows) (hj : j < cols) :
    (i, j) ∈ visited_tiles rows cols := by
  unfold visited_tiles
  have hr : rows ≠ 0 := by omega
  simp only [hr, if_false, List.mem_flatMap, List.mem_range, List.mem_map, Prod.mk.injEq]
  exact ⟨i, hi, j, by omega, rfl, rfl⟩

/-- C1: with exact arithmetic the kernel terminates and its store events are, element for
element, the clamped values of the naive 3x3 stride-1 reference convolution: for every tile
`(i, j)`, output position `(r, c)` and channel `ch < n_channels` the value clamped and stored at
`out_offset` is `bias[ch] + sum over kr, kc of w[3*kr+kc][ch] * in[3i+r+kr][3j+c+kc][ch]`, and
every store event is of this form. -/
theorem depthwise_matches_reference_convolution (W : Nat) (hW : 0 < W) (a : Args R)
    (n_channels : Nat) :
    ∃ st, sme2_fp32_nhwc_3x3_s1_output3x3_mla_depthfirst_direct_impl W a n_channels = some st ∧
      (∀ i j r c ch, i < a.n_tile_rows → j < a.n_tile_cols → r < 3 → c < 3 →
        ch < n_channels →
        (out_offset a i j r c ch, min (max (conv_ref W a i j r c ch) a.min) a.max) ∈ st) ∧
      (∀ e ∈ st, ∃ i j r c ch, r < 3 ∧ c < 3 ∧ ch < n_channels ∧
        e = (out_offset a i j r c ch, min (max (conv_ref W a i j r c ch) a.min) a.max)) := by
  refine ⟨_, kernel_trace W hW a n_channels, ?_, ?_⟩
  · intro i j r c ch hi hj hr hc hch
    rw [List.mem_flatMap]
    exact ⟨(i, j), mem_visited_tiles _ _ i j hi hj,
      (mem_tile_stores W n_channels hW a i j _).2 ⟨r, c, ch, hr, hc, hch, rfl⟩⟩
  · intro e he
    rw [List.mem_flatMap] at he
    obtain ⟨t, _, ht⟩ := he
    obtain ⟨r, c, ch, hr, hc, hch, heq⟩ := (mem_tile_stores W n_channels hW a t.1 t.2 e).1 ht
    exact ⟨t.1, t.2, r, c, ch, hr, hc, hch, heq⟩

theorem depthwise_matches_reference_convolution_witness :
    0 < 4 ∧ ∃ st,
      sme2_fp32_nhwc_3x3_s1_output3x3_mla_depthfirst_direct_impl 4 sample_args 1 = some st ∧
      (∀ i j r c ch, i < sample_args.n_tile_rows → j < sample_args.n_tile_cols → r < 3 →
        c < 3 → ch < 1 →
        (out_offset sample_args i j r c ch,
          min (max (conv_ref 4 sample_args i j r c ch) sample_args.min) sample_args.max) ∈ st) ∧
      (∀ e ∈ st, ∃ i j r c ch, r < 3 ∧ c < 3 ∧ ch < 1 ∧
        e = (out_offset sample_args i j r c ch,
          min (max (conv_ref 4 sample_args i j r c ch) sample_args.min) sample_args.max)) :=
  ⟨by decide, depthwise_matches_reference_convolution 4 (by decide) sample_args 1⟩

theorem tile_loop_tiles_spec (W n_channels : Nat) (hW : 0 < W) (a : Args R) :
    ∀ (fuel x2 x3 : Nat),
      tile_loop_tiles W n_channels a fuel x2 x3
        = tile_seq a.n_tile_rows a.n_tile_cols fuel x2 x3 := by
  intro fuel
  induction fuel with
  | zero => intro x2 x3; rfl
  | succ f ih =>
    intro x2 x3
    rw [tile_loop_tiles, tile_loop_spec W n_channels hW, tile_seq]
    simp only [decide_eq_true_eq]
    by_cases h : (if x3 + 1 < a.n_tile_cols then x2 else x2 + 1) < a.n_tile_rows
    · simp only [h, if_true, ih]
    · simp [h]

theorem row_major_nodup (rows cols : Nat) :
    ((List.range rows).flatMap (fun i => (List.range cols).map (fun j => (i, j)))).Nodup := by
  rw [List.nodup_flatMap]
  constructor
  · intro i _
    apply List.Nodup.map _ (List.nodup_range _)
    intro j1 j2 h
    simpa using h
  · apply List.Pairwise.imp _ (List.pairwise_lt_range _)
    intro i1 i2 hlt
    simp only [Function.onFun, List.disjoint_left, List.mem_map, List.mem_range]
    rintro x ⟨j1, _, rfl⟩ ⟨j2, _, h⟩
    simp only [Prod.mk.injEq] at h
    omega

/-- C11: for `n_tile_rows >= 1` and `n_tile_cols >= 1` the tile loop terminates and the tiles it
processes are, in order, `(i, j)` for `i < n_tile_rows`, `j < n_tile_cols` in row-major order
(all columns of row `i` before row `i + 1`, starting at `(0, 0)`), each exactly once; the pass for
tile `(i, j)` continues with `(i, j + 1)` when `j + 1 < n_tile_cols` and with `(i + 1, 0)`
otherwise, and branches back exactly when the next row index is below `n_tile_rows`. -/
theorem tiles_processed_in_row_major_order (W : Nat) (hW : 0 < W) (a : Args R)
    (n_channels : Nat) (hr : 1 ≤ a.n_tile_rows) (hc : 1 ≤ a.n_tile_cols) :
    processed_tiles W a n_channels
      = some ((List.range a.n_tile_rows).flatMap
          (fun i => (List.range a.n_tile_cols).map (fun j => (i, j)))) ∧
    ((List.range a.n_tile_rows).flatMap
      (fun i => (List.range a.n_tile_cols).map (fun j => (i, j)))).Nodup ∧
    (∀ i j, (i, j) ∈ (List.range a.n_tile_rows).flatMap
        (fun i => (List.range a.n_tile_cols).map (fun j => (i, j)))
      ↔ i < a.n_tile_rows ∧ j < a.n_tile_cols) ∧
    (∀ i j, ∃ st, tile_loop W n_channels a i j
      = some (st, (if j + 1 < a.n_tile_cols then (i, j + 1) else (i + 1, 0)),
          decide ((if j + 1 < a.n_tile_cols then (i, j + 1) else (i + 1, 0)).1
            < a.n_tile_rows))) := by
  refine ⟨?_, row_major_nodup _ _, ?_, ?_⟩
  · unfold processed_tiles
    rw [tile_loop_tiles_spec W n_channels hW, tile_seq_visited]
    unfold visited_tiles
    have h0 : a.n_tile_rows ≠ 0 := by omega
    have h1 : max 1 a.n_tile_cols = a.n_tile_cols := by omega
    simp only [h0, if_false, h1]
  · intro i j
    simp only [List.mem_flatMap, List.mem_range, List.mem_map, Prod.mk.injEq]
    constructor
    · rintro ⟨i', hi, j', hj, rfl, rfl⟩
      exact ⟨hi, hj⟩
    · rintro ⟨hi, hj⟩
      exact ⟨i, hi, j, hj, rfl, rfl⟩
  · intro i j
    refine ⟨tile_stores W n_channels a i j, ?_⟩
    rw [tile_loop_spec W n_channels hW]
    by_cases h : j + 1 < a.n_tile_cols <;> simp [h]

theorem tiles_processed_in_row_major_order_witness :
    0 < 4 ∧ 1 ≤ grid_args.n_tile_rows ∧ 1 ≤ grid_args.n_tile_cols ∧
    (processed_tiles 4 grid_args 1
      = some ((List.range grid_args.n_tile_rows).flatMap
          (fun i => (List.range grid_args.n_tile_cols).map (fun j => (i, j)))) ∧
    ((List.range grid_args.n_tile_rows).flatMap
      (fun i => (List.range grid_args.n_tile_cols).map (fun j => (i, j)))).Nodup ∧
    (∀ i j, (i, j) ∈ (List.range grid_args.n_tile_rows).flatMap
        (fun i => (List.range grid_args.n_tile_cols).map (fun j => (i, j)))
      ↔ i < grid_args.n_tile_rows ∧ j < grid_args.n_tile_cols) ∧
    (∀ i j, ∃ st, tile_loop 4 1 grid_args i j
      = some (st, (if j + 1 < grid_args.n_tile_cols then (i, j + 1) else (i + 1, 0)),
          decide ((if j + 1 < grid_args.n_tile_cols then (i, j + 1) else (i + 1, 0)).1
            < grid_args.n_tile_rows)))) :=
  ⟨by decide, by decide, by decide,
    tiles_processed_in_row_major_order 4 (by decide) grid_args 1 (by decide) (by decide)⟩

theorem filter_lanes_lt (n a N : Nat) :
    (List.range n).filter (fun l => decide (a + l < N)) = List.range (min n (N - a)) := by
  induction n with
  | zero => simp
  | succ n ih =>
    rw [List.range_succ, List.filter_append, ih]
    by_cases h : a + n < N
    · have : min (n + 1) (N - a) = min n (N - a) + 1 := by omega
      rw [this, List.range_succ]
      have h2 : min n (N - a) = n := by omega
      simp [h, h2]
    · have : min (n + 1) (N - a) = min n (N - a) := by omega
      rw [this]
      simp [h]

theorem channel_blocks_eq (W n_channels : Nat) (hW : 0 < W) :
    max 1 ((n_channels + W - 1) / W) = (n_channels - 1) / W + 1 := by
  rcases Nat.eq_zero_or_pos n_channels with h | h
  · subst h
    have : (0 + W - 1) / W = 0 := Nat.div_eq_of_lt (by omega)
    rw [this]
    simp
  · have e : n_channels + W - 1 = (n_channels - 1) + W := by omega
    rw [e, Nat.add_div_right _ hW]
    exact Nat.max_eq_right (Nat.succ_le_succ (Nat.zero_le _))

theorem channel_blocks_cover (W n_channels : Nat) :
    ∀ k, (List.range k).flatMap (fun b =>
        (List.range (min W (n_channels - b * W))).map (fun l => b * W + l))
      = List.range (min (k * W) n_channels) := by
  intro k
  induction k with
  | zero => simp
  | succ k ih =>
    rw [List.range_succ, List.flatMap_append, ih, List.flatMap_cons, List.flatMap_nil,
      List.append_nil]
    have hmul : (k + 1) * W = k * W + W := by ring
    by_cases h : k * W ≤ n_channels
    · have e1 : min (k * W) n_channels = k * W := by omega
      have e2 : min ((k + 1) * W) n_channels = k * W + min W (n_channels - k * W) := by omega
      rw [e1, e2, List.range_add]
    · have e1 : min W (n_channels - k * W) = 0 := by omega
      have e2 : min ((k + 1) * W) n_channels = min (k * W) n_channels := by omega
      rw [e1, e2]
      simp

theorem pos_stores_eq (W n_channels : Nat) (a : Args R) (i j b r c : Nat) :
    pos_stores W n_channels a i j b r c
      = (List.range (min W (n_channels - b * W))).map (fun l =>
          (out_offset a i j r c (b * W + l),
            min (max (conv_ref W a i j r c (b * W + l)) a.min) a.max)) := by
  unfold pos_stores
  rw [filter_lanes_lt]

theorem block_stores_eq (W n_channels : Nat) (a : Args R) (i j b : Nat) :
    block_stores W n_channels a i j b
      = store_order.flatMap (fun p =>
          (List.range (min W (n_channels - b * W))).map (fun l =>
            (out_offset a i j p.1 p.2 (b * W + l),
              min (max (conv_ref W a i j p.1 p.2 (b * W + l)) a.min) a.max))) := by
  unfold block_stores store_order
  simp only [pos_stores_eq, List.flatMap_cons, List.flatMap_nil, List.append_nil,
    List.append_assoc]

theorem channel_loop_blocks (W n_channels : Nat) (hW : 0 < W) (a : Args R) (x2 x3 : Nat) :
    (if n_channels ≤ W then some (tile_loop_head W n_channels a x2 x3, [])
      else channel_loop_run W n_channels a (n_channels + 1)
        (tile_loop_head W n_channels a x2 x3))
      = some (chan_entry W n_channels a x2 x3 ((n_channels - 1) / W),
          (List.range ((n_channels - 1) / W)).flatMap
            (fun b => block_stores W n_channels a x2 x3 b)) := by
  by_cases hn : n_channels ≤ W
  · have hL : (n_channels - 1) / W = 0 := Nat.div_eq_of_lt (by omega)
    simp only [hn, if_true, hL, List.range_zero, List.flatMap_nil]
    rw [chan_entry_zero]
  · have hL1 : 1 ≤ (n_channels - 1) / W := by
      rw [Nat.le_div_iff_mul_le hW]
      omega
    have hLle : (n_channels - 1) / W * W ≤ n_channels - 1 := Nat.div_mul_le_self _ _
    have hLlt : n_channels - 1 < ((n_channels - 1) / W + 1) * W := by
      have := Nat.lt_div_mul_add (a := n_channels - 1) hW
      rw [Nat.add_mul, Nat.one_mul]
      exact this
    have hrun := channel_loop_run_spec W n_channels a x2 x3 ((n_channels - 1) / W) 0
      (n_channels + 1) hL1
      (by
        have : (n_channels - 1) / W ≤ n_channels - 1 := Nat.div_le_self _ _
        omega)
      (by
        intro b' _ h2
        have h3 : (b' + 2) * W ≤ (n_channels - 1) / W * W :=
          Nat.mul_le_mul_right W (by omega)
        omega)
      (by
        rw [Nat.zero_add]
        omega)
    rw [chan_entry_zero] at hrun
    simp only [hn, if_false, hrun, Nat.zero_add, List.range_eq_range']

/-- C16: for every `n_channels >= 0` and every vector length `W >= 1` the pass for a tile stores,
in `max(1, ceil(n_channels / W))` channel blocks, block `b` covering the channels
`b * W + l`, `l < min(W, n_channels - b * W)`: in each block each of the nine output positions
is stored for these channels and no other lane, so that every position is stored for exactly
the channels `0 .. n_channels - 1`, each once.  All blocks but the last are stored by the passes
of the channel loop and the last one by the channel tail, under the predicate
`whilelt` of its first channel. -/
theorem channels_stored_once_per_output_position (W : Nat) (hW : 0 < W) (a : Args R)
    (n_channels i j : Nat) :
    (∃ nxt lt, tile_loop W n_channels a i j = some (
        (List.range (max 1 ((n_channels + W - 1) / W))).flatMap (fun b =>
          store_order.flatMap (fun p =>
            (List.range (min W (n_channels - b * W))).map (fun l =>
              (out_offset a i j p.1 p.2 (b * W + l),
                min (max (conv_ref W a i j p.1 p.2 (b * W + l)) a.min) a.max)))),
        nxt, lt)) ∧
    (store_order.Nodup ∧ ∀ r c, (r, c) ∈ store_order ↔ r < 3 ∧ c < 3) ∧
    (List.range (max 1 ((n_channels + W - 1) / W))).flatMap (fun b =>
        (List.range (min W (n_channels - b * W))).map (fun l => b * W + l))
      = List.range n_channels ∧
    (if n_channels ≤ W then some (tile_loop_head W n_channels a i j, [])
      else channel_loop_run W n_channels a (n_channels + 1)
        (tile_loop_head W n_channels a i j))
      = some (chan_entry W n_channels a i j (max 1 ((n_channels + W - 1) / W) - 1),
          (List.range (max 1 ((n_channels + W - 1) / W) - 1)).flatMap (fun b =>
            store_order.flatMap (fun p =>
              (List.range (min W (n_channels - b * W))).map (fun l =>
                (out_offset a i j p.1 p.2 (b * W + l),
                  min (max (conv_ref W a i j p.1 p.2 (b * W + l)) a.min) a.max))))) ∧
    (channel_tail W a i j
        (chan_entry W n_channels a i j (max 1 ((n_channels + W - 1) / W) - 1))).1
      = store_order.flatMap (fun p =>
          (List.range
            (min W (n_channels - (max 1 ((n_channels + W - 1) / W) - 1) * W))).map (fun l =>
            (out_offset a i j p.1 p.2 ((max 1 ((n_channels + W - 1) / W) - 1) * W + l),
              min (max (conv_ref W a i j p.1 p.2
                ((max 1 ((n_channels + W - 1) / W) - 1) * W + l)) a.min) a.max))) ∧
    (chan_entry W n_channels a i j (max 1 ((n_channels + W - 1) / W) - 1)).p2
      = whilelt ((max 1 ((n_channels + W - 1) / W) - 1) * W) n_channels := by
  have hB := channel_blocks_eq W n_channels hW
  have hL : max 1 ((n_channels + W - 1) / W) - 1 = (n_channels - 1) / W := by omega
  refine ⟨?_, ⟨by decide, ?_⟩, ?_, ?_, ?_, ?_⟩
  · refine ⟨(if j + 1 < a.n_tile_cols then i else i + 1,
        if j + 1 < a.n_tile_cols then j + 1 else 0),
      decide ((if j + 1 < a.n_tile_cols then i else i + 1) < a.n_tile_rows), ?_⟩
    rw [tile_loop_spec W n_channels hW, hB]
    unfold tile_stores
    simp only [block_stores_eq]
  · intro r c
    unfold store_order
    constructor
    · intro h
      simp only [List.mem_cons, Prod.mk.injEq, List.mem_singleton, List.mem_nil_iff,
        or_false] at h
      omega
    · rintro ⟨hr, hc⟩
      interval_cases r <;> interval_cases c <;> simp
  · rw [channel_blocks_cover, hB]
    have hLlt : n_channels - 1 < ((n_channels - 1) / W + 1) * W := by
      have := Nat.lt_div_mul_add (a := n_channels - 1) hW
      rw [Nat.add_mul, Nat.one_mul]
      exact this
    have : min (((n_channels - 1) / W + 1) * W) n_channels = n_channels := by omega
    rw [this]
  · rw [hL, channel_loop_blocks W n_channels hW]
    simp only [block_stores_eq]
  · rw [hL, channel_tail_stores, block_stores_eq]
  · rw [hL]
    rfl

theorem channels_stored_once_per_output_position_witness :
    0 < 4 ∧
    ((∃ nxt lt, tile_loop 4 9 grid_args 1 2 = some (
        (List.range (max 1 ((9 + 4 - 1) / 4))).flatMap (fun b =>
          store_order.flatMap (fun p =>
            (List.range (min 4 (9 - b * 4))).map (fun l =>
              (out_offset grid_args 1 2 p.1 p.2 (b * 4 + l),
                min (max (conv_ref 4 grid_args 1 2 p.1 p.2 (b * 4 + l)) grid_args.min) grid_args.max)))),
        nxt, lt)) ∧
    (store_order.Nodup ∧ ∀ r c, (r, c) ∈ store_order ↔ r < 3 ∧ c < 3) ∧
    (List.range (max 1 ((9 + 4 - 1) / 4))).flatMap (fun b =>
        (List.range (min 4 (9 - b * 4))).map (fun l => b * 4 + l))
      = List.range 9 ∧
    (if 9 ≤ 4 then some (tile_loop_head 4 9 grid_args 1 2, [])
      else channel_loop_run 4 9 grid_args (9 + 1)
        (tile_loop_head 4 9 grid_args 1 2))
      = some (chan_entry 4 9 grid_args 1 2 (max 1 ((9 + 4 - 1) / 4) - 1),
          (List.range (max 1 ((9 + 4 - 1) / 4) - 1)).flatMap (fun b =>
            store_order.flatMap (fun p =>
              (List.range (min 4 (9 - b * 4))).map (fun l =>
                (out_offset grid_args 1 2 p.1 p.2 (b * 4 + l),
                  min (max (conv_ref 4 grid_args 1 2 p.1 p.2 (b * 4 + l)) grid_args.min) grid_args.max))))) ∧
    (channel_tail 4 grid_args 1 2
        (chan_entry 4 9 grid_args 1 2 (max 1 ((9 + 4 - 1) / 4) - 1))).1
      = store_order.flatMap (fun p =>
          (List.range
            (min 4 (9 - (max 1 ((9 + 4 - 1) / 4) - 1) * 4))).map (fun l =>
            (out_offset grid_args 1 2 p.1 p.2 ((max 1 ((9 + 4 - 1) / 4) - 1) * 4 + l),
              min (max (conv_ref 4 grid_args 1 2 p.1 p.2
                ((max 1 ((9 + 4 - 1) / 4) - 1) * 4 + l)) grid_args.min) grid_args.max))) ∧
    (chan_entry 4 9 grid_args 1 2 (max 1 ((9 + 4 - 1) / 4) - 1)).p2
      = whilelt ((max 1 ((9 + 4 - 1) / 4) - 1) * 4) 9) :=
  ⟨by decide, channels_stored_once_per_output_position 4 (by decide) grid_args 9 1 2⟩

theorem input_at_patch (a : Args R) (i j x y ch : Nat) :
    input_at a (3 * i + x) (3 * j + y) ch
      = a.inptr (3 * ((i : Int) * a.ld_input_row + (j : Int) * a.ld_input_col)
          + (x : Int) * a.ld_input_row + (y : Int) * a.ld_input_col + (ch : Int)) := by
  unfold input_at
  congr 1
  push_cast
  ring

theorem conv_ref_patch (W : Nat) (a : Args R) (inptr2 : Int → R) (i j r c ch : Nat)
    (hr : r < 3) (hc : c < 3)
    (h : ∀ x y : Nat, x < 5 → y < 5 →
      inptr2 (3 * ((i : Int) * a.ld_input_row + (j : Int) * a.ld_input_col)
          + (x : Int) * a.ld_input_row + (y : Int) * a.ld_input_col + (ch : Int))
        = a.inptr (3 * ((i : Int) * a.ld_input_row + (j : Int) * a.ld_input_col)
          + (x : Int) * a.ld_input_row + (y : Int) * a.ld_input_col + (ch : Int))) :
    conv_ref W { a with inptr := inptr2 } i j r c ch = conv_ref W a i j r c ch := by
  unfold conv_ref
  congr 1
  apply Finset.sum_congr rfl
  intro kr hkr
  apply Finset.sum_congr rfl
  intro kc hkc
  rw [Finset.mem_range] at hkr hkc
  congr 1
  rw [Nat.add_assoc, Nat.add_assoc (3 * j), input_at_patch, input_at_patch]
  exact h (r + kr) (c + kc) (by omega) (by omega)

theorem tile_stores_patch (W n_channels : Nat) (hW : 0 < W) (a : Args R) (inptr2 : Int → R)
    (i j : Nat)
    (h : ∀ x y ch : Nat, x < 5 → y < 5 → ch < n_channels →
      inptr2 (3 * ((i : Int) * a.ld_input_row + (j : Int) * a.ld_input_col)
          + (x : Int) * a.ld_input_row + (y : Int) * a.ld_input_col + (ch : Int))
        = a.inptr (3 * ((i : Int) * a.ld_input_row + (j : Int) * a.ld_input_col)
          + (x : Int) * a.ld_input_row + (y : Int) * a.ld_input_col + (ch : Int))) :
    tile_stores W n_channels { a with inptr := inptr2 } i j = tile_stores W n_channels a i j := by
  unfold tile_stores
  apply List.flatMap_congr
  intro b _
  simp only [block_stores_eq]
  apply List.flatMap_congr
  intro p hp
  apply List.map_congr_left
  intro l hl
  rw [List.mem_range] at hl
  have hp3 : p.1 < 3 ∧ p.2 < 3 := by
    unfold store_order at hp
    simp only [List.mem_cons, List.mem_singleton, List.mem_nil_iff, or_false] at hp
    rcases hp with h | h | h | h | h | h | h | h | h <;> subst h <;> decide
  rw [conv_ref_patch W a inptr2 i j p.1 p.2 (b * W + l) hp3.1 hp3.2
    (fun x y hx hy => h x y (b * W + l) hx hy (by omega))]
  rfl

theorem out_offset_base (a : Args R) (i j r c ch : Nat) :
    out_offset a i j r c ch
      = 3 * ((i : Int) * a.ld_output_row + (j : Int) * a.ld_output_col)
        + (r : Int) * a.ld_output_row + (c : Int) * a.ld_output_col + (ch : Int) := by
  unfold out_offset
  push_cast
  ring

/-- C17: for every tile `(i, j)` the pass computes the input base offset
`3 * (i * ld_input_row + j * ld_input_col)` (`x5`, with the four further row pointers and the
column offsets of the 5x5 patch) and the output base offset
`3 * (i * ld_output_row + j * ld_output_col)` (`x26`, with the two further row pointers `x24`,
`x23` and the column offsets `x27`, `x25`), once per tile: the channel loop only advances the
three output row pointers by one vector per pass.  The stores of the tile go exactly to
`base + r * ld_output_row + c * ld_output_col + ch` for `r, c < 3`, and the pass depends on the
input only through the 5x5 patch `base + x * ld_input_row + y * ld_input_col + ch`,
`x, y < 5`. -/
theorem tile_input_and_output_offsets (W : Nat) (hW : 0 < W) (a : Args R)
    (n_channels i j : Nat) :
    ((tile_loop_head W n_channels a i j).x5
        = 3 * ((i : Int) * a.ld_input_row + (j : Int) * a.ld_input_col) ∧
      (tile_loop_head W n_channels a i j).x16
        = (tile_loop_head W n_channels a i j).x5 + a.ld_input_row ∧
      (tile_loop_head W n_channels a i j).x15
        = (tile_loop_head W n_channels a i j).x5 + 2 * a.ld_input_row ∧
      (tile_loop_head W n_channels a i j).x14
        = (tile_loop_head W n_channels a i j).x5 + 3 * a.ld_input_row ∧
      (tile_loop_head W n_channels a i j).x13
        = (tile_loop_head W n_channels a i j).x5 + 4 * a.ld_input_row ∧
      (tile_loop_head W n_channels a i j).x4 = a.ld_input_col ∧
      (tile_loop_head W n_channels a i j).x7 = 2 * a.ld_input_col ∧
      (tile_loop_head W n_channels a i j).x8 = 3 * a.ld_input_col ∧
      (tile_loop_head W n_channels a i j).x17 = 4 * a.ld_input_col) ∧
    ((tile_loop_head W n_channels a i j).x26
        = 3 * ((i : Int) * a.ld_output_row + (j : Int) * a.ld_output_col) ∧
      (tile_loop_head W n_channels a i j).x24
        = (tile_loop_head W n_channels a i j).x26 + a.ld_output_row ∧
      (tile_loop_head W n_channels a i j).x23
        = (tile_loop_head W n_channels a i j).x26 + 2 * a.ld_output_row ∧
      (tile_loop_head W n_channels a i j).x27 = a.ld_output_col ∧
      (tile_loop_head W n_channels a i j).x25 = 2 * a.ld_output_col) ∧
    (∀ b, (channel_loop W n_channels a (chan_entry W n_channels a i j b)).1
        = chan_entry W n_channels a i j (b + 1) ∧
      (chan_entry W n_channels a i j b).x26
        = (tile_loop_head W n_channels a i j).x26 + ((b * W : Nat) : Int) ∧
      (chan_entry W n_channels a i j b).x24
        = (tile_loop_head W n_channels a i j).x24 + ((b * W : Nat) : Int) ∧
      (chan_entry W n_channels a i j b).x23
        = (tile_loop_head W n_channels a i j).x23 + ((b * W : Nat) : Int)) ∧
    (∃ st nxt lt, tile_loop W n_channels a i j = some (st, nxt, lt) ∧
      (∀ r c ch : Nat, r < 3 → c < 3 → ch < n_channels → ∃ v,
        ((tile_loop_head W n_channels a i j).x26 + (r : Int) * a.ld_output_row
          + (c : Int) * a.ld_output_col + (ch : Int), v) ∈ st) ∧
      (∀ e ∈ st, ∃ r c ch : Nat, r < 3 ∧ c < 3 ∧ ch < n_channels ∧
        e.1 = (tile_loop_head W n_channels a i j).x26 + (r : Int) * a.ld_output_row
          + (c : Int) * a.ld_output_col + (ch : Int)) ∧
      (∀ inptr2 : Int → R,
        (∀ x y ch : Nat, x < 5 → y < 5 → ch < n_channels →
          inptr2 ((tile_loop_head W n_channels a i j).x5 + (x : Int) * a.ld_input_row
              + (y : Int) * a.ld_input_col + (ch : Int))
            = a.inptr ((tile_loop_head W n_channels a i j).x5 + (x : Int) * a.ld_input_row
              + (y : Int) * a.ld_input_col + (ch : Int))) →
        tile_loop W n_channels { a with inptr := inptr2 } i j
          = tile_loop W n_channels a i j)) := by
  have hx5 : (tile_loop_head W n_channels a i j).x5
      = 3 * ((i : Int) * a.ld_input_row + (j : Int) * a.ld_input_col) := by
    show 0 + ((j : Int) * a.ld_input_col + (i : Int) * a.ld_input_row) * 3 = _
    ring
  have hx26 : (tile_loop_head W n_channels a i j).x26
      = 3 * ((i : Int) * a.ld_output_row + (j : Int) * a.ld_output_col) := by
    show 0 + ((j : Int) * a.ld_output_col + (i : Int) * a.ld_output_row) * 3 = _
    ring
  refine ⟨⟨hx5, rfl, ?_, ?_, ?_, rfl, ?_, ?_, ?_⟩, ⟨hx26, rfl, ?_, rfl, ?_⟩, ?_, ?_⟩
  · rw [hx5]
    show 0 + ((j : Int) * a.ld_input_col + (i : Int) * a.ld_input_row) * 3 + a.ld_input_row
      + a.ld_input_row = _
    ring
  · rw [hx5]
    show 0 + ((j : Int) * a.ld_input_col + (i : Int) * a.ld_input_row) * 3 + a.ld_input_row
      + a.ld_input_row + a.ld_input_row = _
    ring
  · rw [hx5]
    show 0 + ((j : Int) * a.ld_input_col + (i : Int) * a.ld_input_row) * 3 + a.ld_input_row
      + a.ld_input_row + a.ld_input_row + a.ld_input_row = _
    ring
  · show a.ld_input_col + a.ld_input_col = _
    ring
  · show a.ld_input_col + a.ld_input_col + a.ld_input_col = _
    ring
  · show a.ld_input_col + a.ld_input_col + a.ld_input_col + a.ld_input_col = _
    ring
  · rw [hx26]
    show 0 + ((j : Int) * a.ld_output_col + (i : Int) * a.ld_output_row) * 3 + a.ld_output_row
      + a.ld_output_row = _
    ring
  · show a.ld_output_col + a.ld_output_col = _
    ring
  · intro b
    exact ⟨channel_loop_entry W n_channels a i j b, rfl, rfl, rfl⟩
  · refine ⟨_, _, _, tile_loop_spec W n_channels hW a i j, ?_, ?_, ?_⟩
    · intro r c ch hr hc hch
      refine ⟨min (max (conv_ref W a i j r c ch) a.min) a.max, ?_⟩
      rw [mem_tile_stores W n_channels hW]
      refine ⟨r, c, ch, hr, hc, hch, ?_⟩
      rw [hx26, out_offset_base]
    · intro e he
      obtain ⟨r, c, ch, hr, hc, hch, heq⟩ := (mem_tile_stores W n_channels hW a i j e).1 he
      refine ⟨r, c, ch, hr, hc, hch, ?_⟩
      rw [heq, hx26, out_offset_base]
    · intro inptr2 h
      rw [tile_loop_spec W n_channels hW, tile_loop_spec W n_channels hW,
        tile_stores_patch W n_channels hW a inptr2 i j]
      intro x y ch hx hy hch
      have := h x y ch hx hy hch
      rw [hx5] at this
      exact this

theorem tile_input_and_output_offsets_witness :
    0 < 4 ∧
    (((tile_loop_head 4 9 grid_args 1 2).x5
        = 3 * (((1 : Nat) : Int) * grid_args.ld_input_row + ((2 : Nat) : Int) * grid_args.ld_input_col) ∧
      (tile_loop_head 4 9 grid_args 1 2).x16
        = (tile_loop_head 4 9 grid_args 1 2).x5 + grid_args.ld_input_row ∧
      (tile_loop_head 4 9 grid_args 1 2).x15
        = (tile_loop_head 4 9 grid_args 1 2).x5 + 2 * grid_args.ld_input_row ∧
      (tile_loop_head 4 9 grid_args 1 2).x14
        = (tile_loop_head 4 9 grid_args 1 2).x5 + 3 * grid_args.ld_input_row ∧
      (tile_loop_head 4 9 grid_args 1 2).x13
        = (tile_loop_head 4 9 grid_args 1 2).x5 + 4 * grid_args.ld_input_row ∧
      (tile_loop_head 4 9 grid_args 1 2).x4 = grid_args.ld_input_col ∧
      (tile_loop_head 4 9 grid_args 1 2).x7 = 2 * grid_args.ld_input_col ∧
      (tile_loop_head 4 9 grid_args 1 2).x8 = 3 * grid_args.ld_input_col ∧
      (tile_loop_head 4 9 grid_args 1 2).x17 = 4 * grid_args.ld_input_col) ∧
    ((tile_loop_head 4 9 grid_args 1 2).x26
        = 3 * (((1 : Nat) : Int) * grid_args.ld_output_row + ((2 : Nat) : Int) * grid_args.ld_output_col) ∧
      (tile_loop_head 4 9 grid_args 1 2).x24
        = (tile_loop_head 4 9 grid_args 1 2).x26 + grid_args.ld_output_row ∧
      (tile_loop_head 4 9 grid_args 1 2).x23
        = (tile_loop_head 4 9 grid_args 1 2).x26 + 2 * grid_args.ld_output_row ∧
      (tile_loop_head 4 9 grid_args 1 2).x27 = grid_args.ld_output_col ∧
      (tile_loop_head 4 9 grid_args 1 2).x25 = 2 * grid_args.ld_output_col) ∧
    (∀ b, (channel_loop 4 9 grid_args (chan_entry 4 9 grid_args 1 2 b)).1
        = chan_entry 4 9 grid_args 1 2 (b + 1) ∧
      (chan_entry 4 9 grid_args 1 2 b).x26
        = (tile_loop_head 4 9 grid_args 1 2).x26 + ((b * 4 : Nat) : Int) ∧
      (chan_entry 4 9 grid_args 1 2 b).x24
        = (tile_loop_head 4 9 grid_args 1 2).x24 + ((b * 4 : Nat) : Int) ∧
      (chan_entry 4 9 grid_args 1 2 b).x23
        = (tile_loop_head 4 9 grid_args 1 2).x23 + ((b * 4 : Nat) : Int)) ∧
    (∃ st nxt lt, tile_loop 4 9 grid_args 1 2 = some (st, nxt, lt) ∧
      (∀ r c ch : Nat, r < 3 → c < 3 → ch < 9 → ∃ v,
        ((tile_loop_head 4 9 grid_args 1 2).x26 + (r : Int) * grid_args.ld_output_row
          + (c : Int) * grid_args.ld_output_col + (ch : Int), v) ∈ st) ∧
      (∀ e ∈ st, ∃ r c ch : Nat, r < 3 ∧ c < 3 ∧ ch < 9 ∧
        e.1 = (tile_loop_head 4 9 grid_args 1 2).x26 + (r : Int) * grid_args.ld_output_row
          + (c : Int) * grid_args.ld_output_col + (ch : Int)) ∧
      (∀ inptr2 : Int → ℚ,
        (∀ x y ch : Nat, x < 5 → y < 5 → ch < 9 →
          inptr2 ((tile_loop_head 4 9 grid_args 1 2).x5 + (x : Int) * grid_args.ld_input_row
              + (y : Int) * grid_args.ld_input_col + (ch : Int))
            = grid_args.inptr ((tile_loop_head 4 9 grid_args 1 2).x5 + (x : Int) * grid_args.ld_input_row
              + (y : Int) * grid_args.ld_input_col + (ch : Int))) →
        tile_loop 4 9 { grid_args with inptr := inptr2 } 1 2
          = tile_loop 4 9 grid_args 1 2))) :=
  ⟨by decide, tile_input_and_output_offsets 4 (by decide) grid_args 9 1 2⟩

theorem channel_loop_mla_fmla (W n_channels : Nat) (a : Args R) (s : Regs R) :
    channel_loop_mla fmla W n_channels a s = channel_loop W n_channels a s := rfl

theorem channel_tail_mla_fmla (W : Nat) (a : Args R) (x2 x3 : Nat) (s : Regs R) :
    channel_tail_mla fmla W a x2 x3 s = channel_tail W a x2 x3 s := rfl

/-- C22: the channel loop body (label `3:`) and the channel tail (label `4:`) compute the same
function.  From the same register state (bias `z25`, weights `z0..z8`, pre-loaded inputs
`z9..z13`, input and output pointers, predicate `p2`, bounds `z15`, `z14`) and the same input
memory, the nine vectors stored by the loop body (`z23, z28, z29, z30, z31, z16, z17, z18, z19`)
and the nine stored by the tail (`z24, z20, z21, z22, z23, z28, z29, z30, z31`) are the same
store events, address by address and lane by lane, in the same order of the nine `st1w`.  The
equality holds with the instruction `fmla` replaced by an arbitrary operation `mla` on its three
operand vectors, so each output applies its nine multiply-accumulate terms in the same order in
both; with `mla = fmla` the parametrised sequences are the two blocks of the kernel, and from
the entry state of a channel block both store the clamped reference values of that block. -/
theorem channel_loop_body_and_tail_compute_same_outputs
    (mla : ZReg R → ZReg R → ZReg R → ZReg R) (W n_channels : Nat) (a : Args R) (x2 x3 : Nat)
    (s : Regs R) :
    (channel_loop W n_channels a s).2.1 = (channel_tail W a x2 x3 s).1 ∧
    (channel_loop_mla mla W n_channels a s).2.1 = (channel_tail_mla mla W a x2 x3 s).1 ∧
    channel_loop_mla fmla W n_channels a s = channel_loop W n_channels a s ∧
    channel_tail_mla fmla W a x2 x3 s = channel_tail W a x2 x3 s ∧
    ∀ b,
      (channel_loop W n_channels a (chan_entry W n_channels a x2 x3 b)).2.1
        = block_stores W n_channels a x2 x3 b ∧
      (channel_tail W a x2 x3 (chan_entry W n_channels a x2 x3 b)).1
        = block_stores W n_channels a x2 x3 b :=
  ⟨rfl, rfl, rfl, rfl, fun b =>
    ⟨channel_loop_stores W n_channels a x2 x3 b, channel_tail_stores W n_channels a x2 x3 b⟩⟩

theorem visited_tiles_head (rows cols : Nat) :
    (visited_tiles rows cols).head? = some (0, 0) := by
  unfold visited_tiles
  by_cases hr : rows = 0
  · simp [hr]
  · obtain ⟨r, rfl⟩ := Nat.exists_eq_succ_of_ne_zero hr
    have hc : max 1 cols = (max 1 cols - 1) + 1 := by omega
    rw [if_neg hr, hc, List.range_succ_eq_map, List.flatMap_cons, List.range_succ_eq_map,
      List.map_cons]
    rfl

theorem visited_tiles_no_cols (rows : Nat) (hr : 1 ≤ rows) :
    visited_tiles rows 0 = (List.range rows).map (fun i => (i, 0)) := by
  unfold visited_tiles
  have hr0 : rows ≠ 0 := by omega
  rw [if_neg hr0]
  have h1 : max 1 0 = 1 := rfl
  rw [h1]
  induction (List.range rows) with
  | nil => rfl
  | cons x xs ih =>
    rw [List.flatMap_cons, ih]
    rfl

/-- C23: the tile loop is a do-while, so the kernel processes at least one tile for every
`n_tile_rows` and `n_tile_cols`, and it terminates for all values.  The tiles processed are
listed, the first is `(0, 0)`, and the stores of the call are the stores of these tiles in
order; with `n_tile_rows = 0` exactly the tile `(0, 0)` is processed and written, whatever
`n_tile_cols` is; with `n_tile_cols = 0` and `n_tile_rows >= 1` exactly the tiles `(i, 0)` for
`0 <= i < n_tile_rows` are processed, in this order. -/
theorem tile_loop_processes_at_least_one_tile (W : Nat) (hW : 0 < W) (a : Args R)
    (n_channels : Nat) :
    ∃ ts : List (Nat × Nat),
      processed_tiles W a n_channels = some ts ∧
      sme2_fp32_nhwc_3x3_s1_output3x3_mla_depthfirst_direct_impl W a n_channels
        = some (ts.flatMap (fun t => tile_stores W n_channels a t.1 t.2)) ∧
      1 ≤ ts.length ∧ ts.head? = some (0, 0) ∧
      (a.n_tile_rows = 0 →
        ts = [(0, 0)] ∧
        sme2_fp32_nhwc_3x3_s1_output3x3_mla_depthfirst_direct_impl W a n_channels
          = some (tile_stores W n_channels a 0 0)) ∧
      (a.n_tile_cols = 0 → 1 ≤ a.n_tile_rows →
        ts = (List.range a.n_tile_rows).map (fun i => (i, 0))) := by
  have hk := kernel_trace W hW a n_channels
  have hh := visited_tiles_head a.n_tile_rows a.n_tile_cols
  refine ⟨visited_tiles a.n_tile_rows a.n_tile_cols, ?_, hk, ?_, hh, ?_, ?_⟩
  · unfold processed_tiles
    rw [tile_loop_tiles_spec W n_channels hW, tile_seq_visited]
  · cases hv : visited_tiles a.n_tile_rows a.n_tile_cols with
    | nil => rw [hv] at hh; cases hh
    | cons x xs => simp
  · intro h0
    have hv : visited_tiles a.n_tile_rows a.n_tile_cols = [(0, 0)] := by
      unfold visited_tiles
      rw [if_pos h0]
    refine ⟨hv, ?_⟩
    rw [hk, hv]
    simp
  · intro hc hr
    rw [hc]
    exact visited_tiles_no_cols _ hr

theorem tile_loop_processes_at_least_one_tile_witness :
    0 < 4 ∧
    ∃ ts : List (Nat × Nat),
      processed_tiles 4 no_rows_args 5 = some ts ∧
      sme2_fp32_nhwc_3x3_s1_output3x3_mla_depthfirst_direct_impl 4 no_rows_args 5
        = some (ts.flatMap (fun t => tile_stores 4 5 no_rows_args t.1 t.2)) ∧
      1 ≤ ts.length ∧ ts.head? = some (0, 0) ∧
      (no_rows_args.n_tile_rows = 0 →
        ts = [(0, 0)] ∧
        sme2_fp32_nhwc_3x3_s1_output3x3_mla_depthfirst_direct_impl 4 no_rows_args 5
          = some (tile_stores 4 5 no_rows_args 0 0)) ∧
      (no_rows_args.n_tile_cols = 0 → 1 ≤ no_rows_args.n_tile_rows →
        ts = (List.range no_rows_args.n_tile_rows).map (fun i => (i, 0))) :=
  ⟨by decide, tile_loop_processes_at_least_one_tile 4 (by decide) no_rows_args 5⟩

end depthwise
end arm_conv

/-! ## GEMM kernel: proofs -/

namespace arm_gemm

variable {R : Type} [LinearOrderedField R]

theorem mem_write_append (buf : Nat → R) (e1 e2 : List (Nat × R)) :
    mem_write buf (e1 ++ e2) = mem_write (mem_write buf e1) e2 := by
  unfold mem_write
  rw [List.foldl_append]

theorem mem_write_range (buf : Nat → R) (x : Nat) (f : Nat → R) :
    ∀ n, mem_write buf ((List.range n).map (fun k => (x + k, f k)))
      = fun a => if x ≤ a ∧ a < x + n then f (a - x) else buf a := by
  intro n
  induction n with
  | zero =>
    funext a
    have h : ¬ (x ≤ a ∧ a < x) := by omega
    simp [mem_write, h]
  | succ n ih =>
    rw [List.range_succ, List.map_append, mem_write_append, ih]
    funext a
    simp only [mem_write, List.map_cons, List.map_nil, List.foldl_cons, List.foldl_nil,
      Function.update_apply]
    by_cases h : a = x + n
    · subst h
      simp
    · simp only [h, if_false]
      by_cases h2 : x ≤ a ∧ a < x + n
      · have h3 : x ≤ a ∧ a < x + (n + 1) := ⟨h2.1, by omega⟩
        simp only [h2, h3, and_self, if_true]
      · have h3 : ¬ (x ≤ a ∧ a < x + (n + 1)) := by omega
        simp only [h2, h3, if_false]

theorem st1w_x4_write (W : Nat) (buf : Nat → R) (z : Nat → ZReg R) (x : Nat) :
    mem_write buf (st1w_x4 W z x)
      = fun a => if x ≤ a ∧ a < x + 4 * W then z ((a - x) / W) ((a - x) % W) else buf a := by
  unfold st1w_x4
  exact mem_write_range buf x (fun k => z (k / W) (k % W)) (4 * W)

theorem range_map_add {α : Type} (a b : Nat) (f : Nat → α) :
    (List.range (a + b)).map f = (List.range a).map f ++ (List.range b).map (fun k => f (a + k)) := by
  rw [List.range_add, List.map_append, List.map_map]
  rfl

theorem addrs_x4_four (W x : Nat) (l : List Nat) :
    l ++ addrs_x4 W x ++ addrs_x4 W (x + 4 * W) ++ addrs_x4 W (x + 8 * W)
        ++ addrs_x4 W (x + 12 * W)
      = l ++ (List.range (16 * W)).map (fun k => x + k) := by
  unfold addrs_x4
  rw [show 16 * W = 4 * W + (4 * W + (4 * W + 4 * W)) by ring, range_map_add, range_map_add,
    range_map_add]
  simp only [List.append_assoc]
  congr 2
  congr 1
  · apply List.map_congr_left; intro k _; ring
  congr 1
  · apply List.map_congr_left; intro k _; ring
  · apply List.map_congr_left; intro k _; ring

theorem slot_off_lt4 (W q r c : Nat) (hr : r < 4) :
    slot_off W q r c = q * (4 * W) + r * W + c := by
  unfold slot_off
  rw [Nat.div_eq_of_lt hr, Nat.mod_eq_of_lt hr]
  ring

theorem slot_off_add4 (W q r c : Nat) :
    slot_off W q (r + 4) c = 16 * W + slot_off W q r c := by
  unfold slot_off
  rw [Nat.add_div_right r (by norm_num : 0 < 4), Nat.add_mod_right]
  ring

theorem refill_rows_in (W x12 : Nat) (buf : Nat → R) (x11 : Nat) (za : ZA R) (q r c : Nat)
    (hq : q < 4) (h1 : x12 ≤ r) (h2 : r < x12 + 4) :
    refill_rows W x12 buf x11 za q r c = buf (x11 + slot_off W q (r - x12) c) := by
  have hr4 : r - x12 < 4 := by omega
  rw [slot_off_lt4 W q _ c hr4]
  have h3 : x12 ≤ r ∧ r < x12 + 4 := ⟨h1, h2⟩
  interval_cases q <;> simp [refill_rows, mova_to_za, ld1w_x4, h3] <;> ring_nf

theorem refill_rows_out (W x12 : Nat) (buf : Nat → R) (x11 : Nat) (za : ZA R) (q r c : Nat)
    (h : ¬ (q < 4 ∧ x12 ≤ r ∧ r < x12 + 4)) :
    refill_rows W x12 buf x11 za q r c = za q r c := by
  simp only [refill_rows, mova_to_za]
  have e3 : ¬ (q = 3 ∧ x12 ≤ r ∧ r < x12 + 4) := by omega
  have e2 : ¬ (q = 2 ∧ x12 ≤ r ∧ r < x12 + 4) := by omega
  have e1 : ¬ (q = 1 ∧ x12 ≤ r ∧ r < x12 + 4) := by omega
  have e0 : ¬ (q = 0 ∧ x12 ≤ r ∧ r < x12 + 4) := by omega
  simp only [e3, e2, e1, e0, if_false]

theorem refill_loop_unfold (W x12 : Nat) (s : State R) :
    refill_loop W x12 s =
      if x12 + 4 < W then
        refill_loop W (x12 + 4)
          { s with za := refill_rows W x12 s.buf s.x11 s.za, x11 := s.x11 + 16 * W,
                   reads := s.reads ++ (List.range (16 * W)).map (fun k => s.x11 + k) }
      else
        { s with za := refill_rows W x12 s.buf s.x11 s.za, x11 := s.x11 + 16 * W,
                 reads := s.reads ++ (List.range (16 * W)).map (fun k => s.x11 + k) } := by
  rw [refill_loop]
  simp only [addrs_x4_four]
  rfl

theorem refill_loop_spec (W : Nat) :
    ∀ (k x12 : Nat) (s : State R), x12 + 4 * k = W → 0 < k →
      ∃ Z : ZA R,
        refill_loop W x12 s
          = { s with za := Z, x11 := s.x11 + 16 * W * k,
                     reads := s.reads ++ (List.range (16 * W * k)).map (fun i => s.x11 + i) } ∧
        (∀ q r c, q < 4 → x12 ≤ r → r < W →
          Z q r c = s.buf (s.x11 + slot_off W q (r - x12) c)) ∧
        (∀ q r c, ¬ (q < 4 ∧ x12 ≤ r ∧ r < W) → Z q r c = s.za q r c) := by
  intro k
  induction k with
  | zero => intro x12 s _ h; omega
  | succ k ih =>
    intro x12 s hx _
    rw [refill_loop_unfold]
    by_cases hk : k = 0
    · subst hk
      have hlt : ¬ (x12 + 4 < W) := by omega
      simp only [hlt, if_false]
      refine ⟨refill_rows W x12 s.buf s.x11 s.za, ?_, ?_, ?_⟩
      · simp
      · intro q r c hq h1 h2
        exact refill_rows_in W x12 _ _ _ q r c hq h1 (by omega)
      · intro q r c hn
        exact refill_rows_out W x12 _ _ _ q r c (by omega)
    · have hlt : x12 + 4 < W := by omega
      simp only [hlt, if_true]
      obtain ⟨Z, hZ, hin, hout⟩ := ih (x12 + 4)
        { s with za := refill_rows W x12 s.buf s.x11 s.za, x11 := s.x11 + 16 * W,
                 reads := s.reads ++ (List.range (16 * W)).map (fun k => s.x11 + k) }
        (by omega) (by omega)
      refine ⟨Z, ?_, ?_, ?_⟩
      · rw [hZ]
        simp only [State.mk.injEq, true_and, and_true]
        constructor
        · ring
        · rw [show 16 * W * (k + 1) = 16 * W + 16 * W * k by ring, range_map_add,
            List.append_assoc]
          congr 2
          apply List.map_congr_left
          intro i _
          ring
      · intro q r c hq h1 h2
        by_cases h4 : x12 + 4 ≤ r
        · rw [hin q r c hq h4 h2]
          simp only
          rw [show r - x12 = (r - (x12 + 4)) + 4 by omega, slot_off_add4]
          congr 1
          ring
        · rw [hout q r c (by omega)]
          exact refill_rows_in W x12 _ _ _ q r c hq h1 (by omega)
      · intro q r c hn
        rw [hout q r c (by omega)]
        exact refill_rows_out W x12 _ _ _ q r c (by omega)

theorem store_rows_out (W x12 : Nat) (za : ZA R) (x10 : Nat) (buf : Nat → R) (a : Nat)
    (h : ¬ (x10 ≤ a ∧ a < x10 + 16 * W)) :
    mem_write buf (store_rows_ev W x12 za x10) a = buf a := by
  unfold store_rows_ev
  rw [mem_write_append, mem_write_append, mem_write_append, st1w_x4_write, st1w_x4_write,
    st1w_x4_write, st1w_x4_write]
  have e3 : ¬ (x10 + 12 * W ≤ a ∧ a < x10 + 12 * W + 4 * W) := by omega
  have e2 : ¬ (x10 + 8 * W ≤ a ∧ a < x10 + 8 * W + 4 * W) := by omega
  have e1 : ¬ (x10 + 4 * W ≤ a ∧ a < x10 + 4 * W + 4 * W) := by omega
  have e0 : ¬ (x10 ≤ a ∧ a < x10 + 4 * W) := by omega
  simp only [e3, e2, e1, e0, if_false]

theorem store_rows_at (W x12 : Nat) (za : ZA R) (x10 : Nat) (buf : Nat → R) (q k : Nat)
    (hq : q < 4) (hk : k < 4 * W) :
    mem_write buf (store_rows_ev W x12 za x10) (x10 + q * (4 * W) + k)
      = za q (x12 + k / W) (k % W) := by
  unfold store_rows_ev
  rw [mem_write_append, mem_write_append, mem_write_append, st1w_x4_write, st1w_x4_write,
    st1w_x4_write, st1w_x4_write]
  interval_cases q
  · have e3 : ¬ (x10 + 12 * W ≤ x10 + 0 * (4 * W) + k ∧
        x10 + 0 * (4 * W) + k < x10 + 12 * W + 4 * W) := by omega
    have e2 : ¬ (x10 + 8 * W ≤ x10 + 0 * (4 * W) + k ∧
        x10 + 0 * (4 * W) + k < x10 + 8 * W + 4 * W) := by omega
    have e1 : ¬ (x10 + 4 * W ≤ x10 + 0 * (4 * W) + k ∧
        x10 + 0 * (4 * W) + k < x10 + 4 * W + 4 * W) := by omega
    have e0 : x10 ≤ x10 + 0 * (4 * W) + k ∧ x10 + 0 * (4 * W) + k < x10 + 4 * W := by omega
    have ea : x10 + 0 * (4 * W) + k - x10 = k := by omega
    simp only [e3, e2, e1, e0, and_self, if_true, if_false, ea, mova_from_za]
  · have e3 : ¬ (x10 + 12 * W ≤ x10 + 1 * (4 * W) + k ∧
        x10 + 1 * (4 * W) + k < x10 + 12 * W + 4 * W) := by omega
    have e2 : ¬ (x10 + 8 * W ≤ x10 + 1 * (4 * W) + k ∧
        x10 + 1 * (4 * W) + k < x10 + 8 * W + 4 * W) := by omega
    have e1 : x10 + 4 * W ≤ x10 + 1 * (4 * W) + k ∧
        x10 + 1 * (4 * W) + k < x10 + 4 * W + 4 * W := by omega
    have ea : x10 + 1 * (4 * W) + k - (x10 + 4 * W) = k := by omega
    simp only [e3, e2, e1, and_self, if_true, if_false, ea, mova_from_za]
  · have e3 : ¬ (x10 + 12 * W ≤ x10 + 2 * (4 * W) + k ∧
        x10 + 2 * (4 * W) + k < x10 + 12 * W + 4 * W) := by omega
    have e2 : x10 + 8 * W ≤ x10 + 2 * (4 * W) + k ∧
        x10 + 2 * (4 * W) + k < x10 + 8 * W + 4 * W := by omega
    have ea : x10 + 2 * (4 * W) + k - (x10 + 8 * W) = k := by omega
    simp only [e3, e2, and_self, if_true, if_false, ea, mova_from_za]
  · have e3 : x10 + 12 * W ≤ x10 + 3 * (4 * W) + k ∧
        x10 + 3 * (4 * W) + k < x10 + 12 * W + 4 * W := by omega
    have ea : x10 + 3 * (4 * W) + k - (x10 + 12 * W) = k := by omega
    simp only [e3, and_self, if_true, ea, mova_from_za]

theorem store_rows_slot (W x12 : Nat) (za : ZA R) (x10 : Nat) (buf : Nat → R) (q r c : Nat)
    (hq : q < 4) (h1 : x12 ≤ r) (h2 : r < x12 + 4) (hc : c < W) :
    mem_write buf (store_rows_ev W x12 za x10) (x10 + slot_off W q (r - x12) c)
      = za q r c := by
  have hr4 : r - x12 < 4 := by omega
  rw [slot_off_lt4 W q _ c hr4]
  have hk : (r - x12) * W + c < 4 * W := by
    have : (r - x12) * W ≤ 3 * W := Nat.mul_le_mul_right W (by omega)
    omega
  have h := store_rows_at W x12 za x10 buf q ((r - x12) * W + c) hq hk
  have hW : 0 < W := by omega
  rw [show (r - x12) * W + c = c + W * (r - x12) by ring, Nat.add_mul_div_left _ _ hW,
    Nat.div_eq_of_lt hc, Nat.add_mul_mod_self_left, Nat.mod_eq_of_lt hc, Nat.zero_add,
    show x12 + (r - x12) = r by omega] at h
  rw [← h]
  congr 1
  ring

theorem store_rows_events (W x12 : Nat) (za : ZA R) (x10 : Nat) (buf : Nat → R) :
    store_rows_ev W x12 za x10
      = (List.range (16 * W)).map
          (fun i => (x10 + i, mem_write buf (store_rows_ev W x12 za x10) (x10 + i))) := by
  rw [show 16 * W = 4 * W + (4 * W + (4 * W + 4 * W)) by ring, range_map_add, range_map_add,
    range_map_add]
  conv_lhs => unfold store_rows_ev st1w_x4
  simp only [List.append_assoc]
  refine congr (congrArg _ ?_) (congr (congrArg _ ?_) (congr (congrArg _ ?_) ?_))
  all_goals
    apply List.map_congr_left
    intro k hk
    rw [List.mem_range] at hk
  · have h := store_rows_at W x12 za x10 buf 0 k (by omega) hk
    simp only [Nat.zero_mul, Nat.add_zero] at h
    rw [h]; rfl
  · have h := store_rows_at W x12 za x10 buf 1 k (by omega) hk
    rw [show x10 + (4 * W + k) = x10 + 1 * (4 * W) + k by ring, h]
    simp only [mova_from_za, Prod.mk.injEq, and_true]
    ring
  · have h := store_rows_at W x12 za x10 buf 2 k (by omega) hk
    rw [show x10 + (4 * W + (4 * W + k)) = x10 + 2 * (4 * W) + k by ring, h]
    simp only [mova_from_za, Prod.mk.injEq, and_true]
    ring
  · have h := store_rows_at W x12 za x10 buf 3 k (by omega) hk
    rw [show x10 + (4 * W + (4 * W + (4 * W + k))) = x10 + 3 * (4 * W) + k by ring, h]
    simp only [mova_from_za, Prod.mk.injEq, and_true]
    ring

theorem store_only_loop_unfold (W x12 : Nat) (s : State R) :
    store_only_loop W x12 s =
      if x12 + 4 < W then
        store_only_loop W (x12 + 4)
          { s with x10 := s.x10 + 16 * W,
                   buf := mem_write s.buf (store_rows_ev W x12 s.za s.x10),
                   writes := s.writes ++ store_rows_ev W x12 s.za s.x10 }
      else
        { s with x10 := s.x10 + 16 * W,
                 buf := mem_write s.buf (store_rows_ev W x12 s.za s.x10),
                 writes := s.writes ++ store_rows_ev W x12 s.za s.x10 } := by
  rw [store_only_loop]
  rfl

theorem store_only_loop_spec (W : Nat) :
    ∀ (k x12 : Nat) (s : State R), x12 + 4 * k = W → 0 < k →
      ∃ Bf : Nat → R,
        store_only_loop W x12 s
          = { s with x10 := s.x10 + 16 * W * k, buf := Bf,
                     writes := s.writes
                       ++ (List.range (16 * W * k)).map (fun i => (s.x10 + i, Bf (s.x10 + i))) } ∧
        (∀ a, ¬ (s.x10 ≤ a ∧ a < s.x10 + 16 * W * k) → Bf a = s.buf a) ∧
        (∀ q r c, q < 4 → x12 ≤ r → r < W → c < W →
          Bf (s.x10 + slot_off W q (r - x12) c) = s.za q r c) := by
  intro k
  induction k with
  | zero => intro x12 s _ h; omega
  | succ k ih =>
    intro x12 s hx _
    rw [store_only_loop_unfold]
    by_cases hk : k = 0
    · subst hk
      have hlt : ¬ (x12 + 4 < W) := by omega
      simp only [hlt, if_false]
      refine ⟨mem_write s.buf (store_rows_ev W x12 s.za s.x10), ?_, ?_, ?_⟩
      · simp only [State.mk.injEq, true_and, and_true, Nat.zero_add, Nat.mul_one]
        rw [← store_rows_events]
      · intro a ha
        exact store_rows_out W x12 _ _ _ a (by omega)
      · intro q r c hq h1 h2 hc
        exact store_rows_slot W x12 _ _ _ q r c hq h1 (by omega) hc
    · have hlt : x12 + 4 < W := by omega
      simp only [hlt, if_true]
      obtain ⟨Bf, hB, hout, hin⟩ := ih (x12 + 4)
        { s with x10 := s.x10 + 16 * W,
                 buf := mem_write s.buf (store_rows_ev W x12 s.za s.x10),
                 writes := s.writes ++ store_rows_ev W x12 s.za s.x10 }
        (by omega) (by omega)
      simp only at hout hin
      have hfirst : ∀ i, i < 16 * W →
          Bf (s.x10 + i) = mem_write s.buf (store_rows_ev W x12 s.za s.x10) (s.x10 + i) := by
        intro i hi
        exact hout (s.x10 + i) (by omega)
      refine ⟨Bf, ?_, ?_, ?_⟩
      · rw [hB]
        simp only [State.mk.injEq, true_and, and_true]
        constructor
        · ring
        · rw [show 16 * W * (k + 1) = 16 * W + 16 * W * k by ring, range_map_add,
            List.append_assoc]
          congr 1
          congr 1
          · rw [store_rows_events W x12 s.za s.x10 s.buf]
            apply List.map_congr_left
            intro i hi
            rw [List.mem_range] at hi
            rw [hfirst i hi]
          · apply List.map_congr_left
            intro i _
            simp only [Prod.mk.injEq]
            constructor
            · ring
            · congr 1; ring
      · intro a ha
        have hmul : 16 * W * (k + 1) = 16 * W + 16 * W * k := by ring
        rw [hout a (by omega)]
        exact store_rows_out W x12 _ _ _ a (by omega)
      · intro q r c hq h1 h2 hc
        by_cases h4 : x12 + 4 ≤ r
        · have h := hin q r c hq h4 h2 hc
          rw [← h, show r - x12 = (r - (x12 + 4)) + 4 by omega, slot_off_add4]
          congr 1
          ring
        · have hr4 : r - x12 < 4 := by omega
          have hb : slot_off W q (r - x12) c < 16 * W := by
            rw [slot_off_lt4 W q _ c hr4]
            have : (r - x12) * W ≤ 3 * W := Nat.mul_le_mul_right W (by omega)
            have : q * (4 * W) ≤ 3 * (4 * W) := Nat.mul_le_mul_right _ (by omega)
            omega
          rw [hfirst _ hb]
          exact store_rows_slot W x12 _ _ _ q r c hq h1 (by omega) hc

theorem store_refill_loop_unfold (W x12 : Nat) (s : State R) :
    store_refill_loop W x12 s =
      if x12 + 4 < W then
        store_refill_loop W (x12 + 4)
          { s with za := refill_rows W x12 s.buf s.x11 s.za, x11 := s.x11 + 16 * W,
                   x10 := s.x10 + 16 * W,
                   reads := s.reads ++ (List.range (16 * W)).map (fun k => s.x11 + k),
                   buf := mem_write s.buf (store_rows_ev W x12 s.za s.x10),
                   writes := s.writes ++ store_rows_ev W x12 s.za s.x10 }
      else
        { s with za := refill_rows W x12 s.buf s.x11 s.za, x11 := s.x11 + 16 * W,
                 x10 := s.x10 + 16 * W,
                 reads := s.reads ++ (List.range (16 * W)).map (fun k => s.x11 + k),
                 buf := mem_write s.buf (store_rows_ev W x12 s.za s.x10),
                 writes := s.writes ++ store_rows_ev W x12 s.za s.x10 } := by
  rw [store_refill_loop]
  simp only [addrs_x4_four]
  rfl

theorem store_refill_loop_spec (W : Nat) :
    ∀ (k x12 : Nat) (s : State R), x12 + 4 * k = W → 0 < k → s.x10 + 16 * W * k ≤ s.x11 →
      ∃ (Z : ZA R) (Bf : Nat → R),
        store_refill_loop W x12 s
          = { s with za := Z, x11 := s.x11 + 16 * W * k, x10 := s.x10 + 16 * W * k,
                     reads := s.reads ++ (List.range (16 * W * k)).map (fun i => s.x11 + i),
                     buf := Bf,
                     writes := s.writes
                       ++ (List.range (16 * W * k)).map (fun i => (s.x10 + i, Bf (s.x10 + i))) } ∧
        (∀ q r c, q < 4 → x12 ≤ r → r < W →
          Z q r c = s.buf (s.x11 + slot_off W q (r - x12) c)) ∧
        (∀ q r c, ¬ (q < 4 ∧ x12 ≤ r ∧ r < W) → Z q r c = s.za q r c) ∧
        (∀ a, ¬ (s.x10 ≤ a ∧ a < s.x10 + 16 * W * k) → Bf a = s.buf a) ∧
        (∀ q r c, q < 4 → x12 ≤ r → r < W → c < W →
          Bf (s.x10 + slot_off W q (r - x12) c) = s.za q r c) := by
  intro k
  induction k with
  | zero => intro x12 s _ h; omega
  | succ k ih =>
    intro x12 s hx _ hsep
    have hmul : 16 * W * (k + 1) = 16 * W + 16 * W * k := by ring
    rw [store_refill_loop_unfold]
    by_cases hk : k = 0
    · subst hk
      have hlt : ¬ (x12 + 4 < W) := by omega
      simp only [hlt, if_false]
      refine ⟨refill_rows W x12 s.buf s.x11 s.za,
        mem_write s.buf (store_rows_ev W x12 s.za s.x10), ?_, ?_, ?_, ?_, ?_⟩
      · simp only [State.mk.injEq, true_and, and_true, Nat.zero_add, Nat.mul_one]
        rw [← store_rows_events]
      · intro q r c hq h1 h2
        exact refill_rows_in W x12 _ _ _ q r c hq h1 (by omega)
      · intro q r c hn
        exact refill_rows_out W x12 _ _ _ q r c (by omega)
      · intro a ha
        exact store_rows_out W x12 _ _ _ a (by omega)
      · intro q r c hq h1 h2 hc
        exact store_rows_slot W x12 _ _ _ q r c hq h1 (by omega) hc
    · have hlt : x12 + 4 < W := by omega
      simp only [hlt, if_true]
      obtain ⟨Z, Bf, hB, hzin, hzout, hout, hin⟩ := ih (x12 + 4)
        { s with za := refill_rows W x12 s.buf s.x11 s.za, x11 := s.x11 + 16 * W,
                 x10 := s.x10 + 16 * W,
                 reads := s.reads ++ (List.range (16 * W)).map (fun k => s.x11 + k),
                 buf := mem_write s.buf (store_rows_ev W x12 s.za s.x10),
                 writes := s.writes ++ store_rows_ev W x12 s.za s.x10 }
        (by omega) (by omega) (by simp only; omega)
      simp only at hzin hzout hout hin
      have hfirst : ∀ i, i < 16 * W →
          Bf (s.x10 + i) = mem_write s.buf (store_rows_ev W x12 s.za s.x10) (s.x10 + i) := by
        intro i hi
        exact hout (s.x10 + i) (by omega)
      refine ⟨Z, Bf, ?_, ?_, ?_, ?_, ?_⟩
      · rw [hB]
        simp only [State.mk.injEq, true_and, and_true]
        refine ⟨by ring, by ring, ?_, ?_⟩
        · rw [hmul, range_map_add, List.append_assoc]
          congr 2
          apply List.map_congr_left
          intro i _
          ring
        · rw [hmul, range_map_add, List.append_assoc]
          congr 1
          congr 1
          · rw [store_rows_events W x12 s.za s.x10 s.buf]
            apply List.map_congr_left
            intro i hi
            rw [List.mem_range] at hi
            rw [hfirst i hi]
          · apply List.map_congr_left
            intro i _
            simp only [Prod.mk.injEq]
            constructor
            · ring
            · congr 1; ring
      · intro q r c hq h1 h2
        by_cases h4 : x12 + 4 ≤ r
        · rw [hzin q r c hq h4 h2, store_rows_out W x12 _ _ _ _ (by omega),
            show r - x12 = (r - (x12 + 4)) + 4 by omega, slot_off_add4]
          congr 1
          ring
        · rw [hzout q r c (by omega)]
          exact refill_rows_in W x12 _ _ _ q r c hq h1 (by omega)
      · intro q r c hn
        rw [hzout q r c (by omega)]
        exact refill_rows_out W x12 _ _ _ q r c (by omega)
      · intro a ha
        rw [hout a (by omega)]
        exact store_rows_out W x12 _ _ _ a (by omega)
      · intro q r c hq h1 h2 hc
        by_cases h4 : x12 + 4 ≤ r
        · have h := hin q r c hq h4 h2 hc
          rw [refill_rows_out W x12 _ _ _ q r c (by omega)] at h
          rw [← h, show r - x12 = (r - (x12 + 4)) + 4 by omega, slot_off_add4]
          congr 1
          ring
        · have hr4 : r - x12 < 4 := by omega
          have hb : slot_off W q (r - x12) c < 16 * W := by
            rw [slot_off_lt4 W q _ c hr4]
            have : (r - x12) * W ≤ 3 * W := Nat.mul_le_mul_right W (by omega)
            have : q * (4 * W) ≤ 3 * (4 * W) := Nat.mul_le_mul_right _ (by omega)
            omega
          rw [hfirst _ hb]
          exact store_rows_slot W x12 _ _ _ q r c hq h1 (by omega) hc

theorem k_oddments_add (W : Nat) (a : KernelArgs R) :
    ∀ (m n : Nat) (s : ZA R × Nat × Nat),
      k_oddments W a (m + n) s = k_oddments W a n (k_oddments W a m s) := by
  intro m
  induction m with
  | zero => intro n s; simp [k_oddments]
  | succ m ih =>
    intro n s
    obtain ⟨za, x24, x23⟩ := s
    rw [show m + 1 + n = (m + n) + 1 by omega]
    simp only [k_oddments]
    rw [ih]

theorem k_oddments_ptr (W : Nat) (a : KernelArgs R) :
    ∀ (n : Nat) (za : ZA R) (x24 x23 : Nat),
      (k_oddments W a n (za, x24, x23)).2 = (x24 + n * (2 * W), x23 + n * (8 * W)) := by
  intro n
  induction n with
  | zero => intro za x24 x23; simp [k_oddments]
  | succ n ih =>
    intro za x24 x23
    simp only [k_oddments]
    rw [ih]
    simp only [Prod.mk.injEq]
    constructor <;> ring

theorem k_oddments_za (W : Nat) (a : KernelArgs R) :
    ∀ (n : Nat) (za : ZA R) (x24 x23 q r c : Nat),
      (k_oddments W a n (za, x24, x23)).1 q r c
        = if q < 4 then za q r c + dot W a x24 x23 n q r c else za q r c := by
  intro n
  induction n with
  | zero => intro za x24 x23 q r c; simp [k_oddments, dot]
  | succ n ih =>
    intro za x24 x23 q r c
    simp only [k_oddments]
    rw [ih]
    by_cases hq : q < 4
    · simp only [hq, if_true]
      have hd : dot W a x24 x23 (n + 1) q r c
          = (a.A (x24 + 2 * r) * a.B (x23 + q * (2 * W) + 2 * c)
              + a.A (x24 + (2 * r + 1)) * a.B (x23 + q * (2 * W) + (2 * c + 1)))
            + dot W a (x24 + 2 * W) (x23 + 4 * (2 * W)) n q r c := by
        unfold dot
        rw [Finset.sum_range_succ', add_comm]
        congr 1
        · simp
        · apply Finset.sum_congr rfl
          intro s _
          ring_nf
      rw [hd]
      interval_cases q <;> simp [fmopa, ld1h, ld1h_x4] <;> ring_nf
    · have e0 : q ≠ 0 := by omega
      have e1 : q ≠ 1 := by omega
      have e2 : q ≠ 2 := by omega
      have e3 : q ≠ 3 := by omega
      simp [hq, fmopa, e0, e1, e2, e3]

theorem k_pipeline (W : Nat) (a : KernelArgs R) :
    ∀ (n : Nat) (za : ZA R) (x24 x23 : Nat),
      (k_loop_tail (k_loop W a n (k_preload W a za x24 x23)),
        (k_loop W a n (k_preload W a za x24 x23)).x24,
        (k_loop W a n (k_preload W a za x24 x23)).x23)
      = k_oddments W a (4 * (n + 1)) (za, x24, x23) := by
  intro n
  induction n with
  | zero =>
    intro za x24 x23
    simp only [k_loop, k_oddments, k_loop_tail, k_preload]
    ring_nf
  | succ n ih =>
    intro za x24 x23
    have hb : k_loop_body W a (k_preload W a za x24 x23)
        = k_preload W a (k_oddments W a 4 (za, x24, x23)).1
            (k_oddments W a 4 (za, x24, x23)).2.1 (k_oddments W a 4 (za, x24, x23)).2.2 := by
      simp only [k_loop_body, k_oddments, k_preload]
      ring_nf
    rw [k_loop, hb, ih, show 4 * (n + 1 + 1) = 4 + 4 * (n + 1) by ring, k_oddments_add]

theorem k_reduce_spec (W : Nat) (a : KernelArgs R) (s : State R) :
    k_reduce W a s
      = { s with
          za := fun q r c =>
            if q < 4 then
              s.za q r c + dot W a s.x24 (s.x27 * (a.kstride_bytes / 2)) (ksteps a.K) q r c
            else s.za q r c,
          x24 := s.x24 + ksteps a.K * (2 * W) } := by
  have h1 : (a.K + 1) >>> 1 = ksteps a.K := by
    simp [Nat.shiftRight_eq_div_pow, ksteps]
  have h2 : ksteps a.K >>> 2 = ksteps a.K / 4 := by
    simp [Nat.shiftRight_eq_div_pow]
  have h3 : ksteps a.K &&& 3 = ksteps a.K % 4 := Nat.and_pow_two_sub_one_eq_mod _ 2
  have hr : (k_oddments W a (ksteps a.K &&& 3)
      (if ksteps a.K >>> 2 = 0 then (s.za, s.x24, s.x27 * (a.kstride_bytes / 2) + 0)
       else
        (k_loop_tail (k_loop W a (ksteps a.K >>> 2 - 1)
            (k_preload W a s.za s.x24 (s.x27 * (a.kstride_bytes / 2) + 0))),
          (k_loop W a (ksteps a.K >>> 2 - 1)
            (k_preload W a s.za s.x24 (s.x27 * (a.kstride_bytes / 2) + 0))).x24,
          (k_loop W a (ksteps a.K >>> 2 - 1)
            (k_preload W a s.za s.x24 (s.x27 * (a.kstride_bytes / 2) + 0))).x23)))
      = k_oddments W a (ksteps a.K) (s.za, s.x24, s.x27 * (a.kstride_bytes / 2)) := by
    rw [h2, h3, Nat.add_zero]
    by_cases h0 : ksteps a.K / 4 = 0
    · simp only [h0, if_true]
      have : ksteps a.K % 4 = ksteps a.K := by omega
      rw [this]
    · simp only [h0, if_false]
      rw [k_pipeline, ← k_oddments_add]
      congr 1
      omega
  unfold k_reduce
  simp only [h1]
  rw [hr]
  simp only [State.mk.injEq, true_and, and_true]
  constructor
  · rw [k_oddments_ptr]
  · funext q r c
    rw [k_oddments_za]

theorem bfc0_of_bit0_clear (x : Nat) (hx : x < 4) (h : x.testBit 0 = false) : bfc0 x = x := by
  interval_cases x
  · rfl
  · exact absurd h (by decide)
  · rfl
  · exact absurd h (by decide)

theorem bfc0_testBit0 (x : Nat) (hx : x < 4) : (bfc0 x).testBit 0 = false := by
  interval_cases x <;> rfl

theorem bfc0_testBit1 (x : Nat) (hx : x < 4) : (bfc0 x).testBit 1 = x.testBit 1 := by
  interval_cases x <;> rfl

theorem prepare_accumulators_spec (W : Nat) (a : KernelArgs R) (s : State R) (hf : s.x13 < 4) :
    prepare_accumulators W a s
      = { s with
          x24 := s.x25,
          x13 := flags_after_test W a s.x28 s.x27 s.x13,
          za := if s.x13.testBit 0 then s.za
                else fun q _ c => if q < 4 then bias_val W a s.x27 q c else 0 } := by
  unfold prepare_accumulators
  by_cases hb : s.x13.testBit 0 = true
  · simp only [hb, if_true, last_block_test, flags_after_test, decide_eq_true_eq]
  · have hb' : s.x13.testBit 0 = false := by simpa using hb
    have hx : flags_after_test W a s.x28 s.x27 s.x13 = s.x13 := by
      simp only [flags_after_test, bfc0_of_bit0_clear _ hf hb', ite_self]
    simp only [hb', Bool.false_eq_true, if_false]
    cases hbias : a.bias with
    | none =>
      simp only [State.mk.injEq, true_and, and_true, hx]
      funext q r c
      simp [bias_val, hbias]
    | some b =>
      simp only [last_block_test, flags_after_test, decide_eq_true_eq, State.mk.injEq, true_and,
        and_true]
      funext q r c
      have e1 : (2 * c + 1) / 2 = c := by omega
      have e2 : (2 * c + 1) % 2 = 1 := by omega
      have e3 : 2 * c / 2 = c := by omega
      have e4 : 2 * c % 2 = 0 := by omega
      by_cases hq : q < 4
      · simp only [hq, if_true, bias_val, hbias]
        interval_cases q <;>
          simp [fmopa, zip1, zip2, whilelt, e1, e2, e3, e4] <;> ring_nf
      · have e0 : q ≠ 0 := by omega
        have e1 : q ≠ 1 := by omega
        have e2 : q ≠ 2 := by omega
        have e3 : q ≠ 3 := by omega
        simp [hq, fmopa, e0, e1, e2, e3]

theorem div_mod_blk (W q c : Nat) (hc : c < W) : (q * W + c) / W = q ∧ (q * W + c) % W = c := by
  have hW : 0 < W := by omega
  constructor
  · rw [Nat.add_comm, Nat.add_mul_div_right _ _ hW, Nat.div_eq_of_lt hc, Nat.zero_add]
  · rw [Nat.add_comm, Nat.add_mul_mod_self_right, Nat.mod_eq_of_lt hc]

theorem st1h_x2_row (W : Nat) (cvt : R → R) (a : KernelArgs R) (za : ZA R) (m n r : Nat)
    (addr : Int) :
    st1h_x2 W m n (4 * r / 4)
        (fun l => fclamp_h (fcvt cvt W (za_b_slice za (4 * r)) (za_b_slice za (4 * r + 1)) l)
          a.min a.max)
        (fun l => fclamp_h (fcvt cvt W (za_b_slice za (4 * r + 2)) (za_b_slice za (4 * r + 3)) l)
          a.min a.max)
        (whilelt n a.N) addr
      = row_stores W cvt a za m n r addr := by
  unfold st1h_x2 row_stores
  rw [show 4 * W = 2 * W + 2 * W by ring, List.range_add, List.filter_append, List.map_append,
    List.filter_map, List.map_map]
  have hr : 4 * r / 4 = r := by omega
  have s0 : 4 * r % 4 = 0 := by omega
  have s1 : (4 * r + 1) % 4 = 1 := by omega
  have s2 : (4 * r + 2) % 4 = 2 := by omega
  have s3 : (4 * r + 3) % 4 = 3 := by omega
  have r1 : (4 * r + 1) / 4 = r := by omega
  have r2 : (4 * r + 2) / 4 = r := by omega
  have r3 : (4 * r + 3) / 4 = r := by omega
  refine congr (congrArg _ ?_) ?_
  · apply List.map_congr_left
    intro l hl
    rw [List.mem_filter, List.mem_range] at hl
    simp only [fcvt, za_b_slice, hr, s0, s1, r1, CStore.mk.injEq, true_and]
    by_cases h : l < W
    · have := div_mod_blk W 0 l h
      simp only [Nat.zero_mul, Nat.zero_add] at this
      simp only [h, if_true, this.1, this.2]
    · have hw : l - W < W := by omega
      have := div_mod_blk W 1 (l - W) hw
      rw [show 1 * W + (l - W) = l by omega] at this
      simp only [h, if_false, this.1, this.2]
  · apply List.map_congr_left
    intro l hl
    rw [List.mem_filter, List.mem_range] at hl
    simp only [Function.comp, fcvt, za_b_slice, hr, s2, s3, r2, r3, CStore.mk.injEq, true_and]
    by_cases h : l < W
    · have := div_mod_blk W 2 l h
      rw [show 2 * W + l = 2 * W + l from rfl] at this
      simp only [h, if_true, this.1, this.2]
    · have hw : l - W < W := by omega
      have := div_mod_blk W 3 (l - W) hw
      rw [show 3 * W + (l - W) = 2 * W + l by omega] at this
      simp only [h, if_false, this.1, this.2]

theorem store_output_loop_spec (W : Nat) (cvt : R → R) (a : KernelArgs R) (za : ZA R)
    (x28 x27 : Nat) (x20 x22 : Int) :
    ∀ (k i : Nat) (x23 : Int), ((i + k : Nat) : Int) = max ((i : Int) + 1) x22 →
      store_output_loop W cvt a za x28 x27 x20 x22 (4 * i) x23
        = (List.range k).flatMap
            (fun d => row_stores W cvt a za x28 x27 (i + d) (x23 + (d : Int) * x20)) := by
  intro k
  induction k with
  | zero => intro i x23 h; omega
  | succ k ih =>
    intro i x23 h
    rw [store_output_loop]
    simp only [st1h_x2_row]
    by_cases hk : k = 0
    · subst hk
      have hlt : ¬ ((4 : Int) * (i : Int) + 4 < x22 * 4) := by omega
      simp [hlt, List.range_succ]
    · have hlt : (4 : Int) * (i : Int) + 4 < x22 * 4 := by omega
      have hc : ((4 * i + 4 : Nat) : Int) < x22 * 4 := by omega
      simp only [hc, if_true]
      rw [show 4 * i + 4 = 4 * (i + 1) by ring, ih (i + 1) (x23 + x20) (by omega),
        List.range_succ_eq_map, List.flatMap_cons, List.flatMap_map]
      simp only [Nat.add_zero, Nat.cast_zero, zero_mul, add_zero]
      congr 1
      apply List.flatMap_congr
      intro d _
      simp only [Function.comp, Nat.succ_eq_add_one]
      congr 1
      · omega
      · push_cast; ring

theorem n_step_iff (W N j : Nat) (hW : 0 < W) :
    4 * W * j + 4 * W < N ↔ j + 1 < nblk_n W N := by
  unfold nblk_n
  have h4 : 0 < 4 * W := by omega
  rw [Nat.add_lt_add_iff_right, Nat.lt_iff_add_one_le (m := j), Nat.le_div_iff_mul_le h4]
  constructor
  · intro h
    have : (j + 1) * (4 * W) = 4 * W * j + 4 * W := by ring
    omega
  · intro h
    have : (j + 1) * (4 * W) = 4 * W * j + 4 * W := by ring
    omega

theorem m_step_iff (W M i : Nat) (hW : 0 < W) :
    W * i + W < M ↔ i + 1 < nblk_m W M := by
  unfold nblk_m
  rw [Nat.add_lt_add_iff_right, Nat.lt_iff_add_one_le (m := i), Nat.le_div_iff_mul_le hW]
  constructor
  · intro h
    have : (i + 1) * W = W * i + W := by ring
    omega
  · intro h
    have : (i + 1) * W = W * i + W := by ring
    omega

theorem m_lt_of_blk (W M i : Nat) (hW : 0 < W) (hM : 0 < M) (hi : i < nblk_m W M) :
    W * i < M := by
  unfold nblk_m at hi
  have h1 : i ≤ (M - 1) / W := by omega
  rw [Nat.le_div_iff_mul_le hW] at h1
  have : i * W = W * i := by ring
  omega

theorem slot_eq (W : Nat) (h4 : 4 ∣ W) : slot W = 4 * W * W := by
  obtain ⟨g, rfl⟩ := h4
  unfold slot
  rw [Nat.mul_div_cancel_left g (by norm_num : 0 < 4)]
  ring

theorem slot_off_lt (W q r c : Nat) (h4 : 4 ∣ W) (hq : q < 4) (hr : r < W) (hc : c < W) :
    slot_off W q r c < slot W := by
  obtain ⟨g, rfl⟩ := h4
  unfold slot slot_off
  rw [Nat.mul_div_cancel_left g (by norm_num : 0 < 4)]
  have h1 : r / 4 < g := by omega
  have h2 : r % 4 < 4 := Nat.mod_lt _ (by norm_num)
  have h3 : r / 4 * (16 * (4 * g)) ≤ (g - 1) * (16 * (4 * g)) :=
    Nat.mul_le_mul_right _ (by omega)
  have h4' : q * (4 * (4 * g)) ≤ 3 * (4 * (4 * g)) := Nat.mul_le_mul_right _ (by omega)
  have h5 : r % 4 * (4 * g) ≤ 3 * (4 * g) := Nat.mul_le_mul_right _ (by omega)
  have h6 : (g - 1) * (16 * (4 * g)) + 16 * (4 * g) = 16 * (4 * g) * g := by
    obtain ⟨g', rfl⟩ : ∃ g', g = g' + 1 := ⟨g - 1, by omega⟩
    simp only [Nat.add_sub_cancel]
    ring
  omega

theorem row_stores_congr (W : Nat) (cvt : R → R) (a : KernelArgs R) (za zb : ZA R)
    (m n r : Nat) (addr : Int) (h : ∀ q c, q < 4 → za q r c = zb q r c) :
    row_stores W cvt a za m n r addr = row_stores W cvt a zb m n r addr := by
  unfold row_stores
  apply List.map_congr_left
  intro l hl
  rw [List.mem_filter, List.mem_range] at hl
  have hq : l / W < 4 := by
    rw [Nat.div_lt_iff_lt_mul (by
      rcases Nat.eq_zero_or_pos W with h0 | h0
      · subst h0; omega
      · exact h0)]
    omega
  rw [h _ _ hq]

theorem fat_eq (W : Nat) (a : KernelArgs R) (i j : Nat) (hW : 0 < W) (hf : a.flags < 4)
    (hP : 0 < a.M ∨ a.flags.testBit 0 = false) (hi : i < nblk_m W a.M) :
    flags_after_test W a (W * i) (4 * W * j) a.flags
      = if (if j + 1 < nblk_n W a.N then i else i + 1) < nblk_m W a.M then a.flags
        else bfc0 a.flags := by
  unfold flags_after_test
  rcases hP with hM | hb
  · by_cases hj : j + 1 < nblk_n W a.N
    · have h1 : 4 * W * j + 4 * W < a.N := (n_step_iff W a.N j hW).2 hj
      have h2 : W * i < a.M := m_lt_of_blk W a.M i hW hM hi
      simp only [hj, h1, if_true, hi, h2]
    · have h1 : ¬ (4 * W * j + 4 * W < a.N) := fun h => hj ((n_step_iff W a.N j hW).1 h)
      simp only [hj, h1, if_false, m_step_iff W a.M i hW]
  · simp only [bfc0_of_bit0_clear _ hf hb, ite_self]

theorem reduce_stage (W : Nat) (cvt : R → R) (a : KernelArgs R) (hW : 0 < W)
    (hf : a.flags < 4) (hP : 0 < a.M ∨ a.flags.testBit 0 = false)
    (i j : Nat) (hi : i < nblk_m W a.M) (s : State R) (hinv : Inv W cvt a i j s) :
    ∃ Z2 : ZA R,
      k_reduce W a (prepare_accumulators W a s)
        = { s with
            x13 := (if (if j + 1 < nblk_n W a.N then i else i + 1) < nblk_m W a.M then a.flags
                    else bfc0 a.flags),
            x24 := (i + 1) * (ksteps a.K * (2 * W)),
            za := Z2 } ∧
      ∀ q r c, q < 4 → r < W → Z2 q r c = acc_final W a i j q r c := by
  obtain ⟨h13, h27, h28, h25, _, _, hza, _, _, _, _, _⟩ := hinv
  simp only [hi, if_true] at h13
  have hp := prepare_accumulators_spec W a s (by rw [h13]; exact hf)
  rw [h27, h28, h13, fat_eq W a i j hW hf hP hi] at hp
  rw [hp, k_reduce_spec]
  refine ⟨fun q r c =>
    if q < 4 then
      (if a.flags.testBit 0 = true then s.za
        else fun q _ c => if q < 4 then bias_val W a (4 * W * j) q c else 0) q r c
        + dot W a s.x25 (4 * W * j * (a.kstride_bytes / 2)) (ksteps a.K) q r c
    else
      (if a.flags.testBit 0 = true then s.za
        else fun q _ c => if q < 4 then bias_val W a (4 * W * j) q c else 0) q r c, ?_, ?_⟩
  · simp only [State.mk.injEq, true_and, and_true, h27, h28]
    rw [h25]; ring
  · intro q r c hq hr
    simp only [hq, if_true, acc_final, acc_init, h25]
    congr 1
    by_cases hb : a.flags.testBit 0 = true
    · simp only [hb, if_true]
      exact hza hb hi q r c hq hr
    · simp only [hb, Bool.false_eq_true, if_false, hq, if_true]

theorem store_output_spec (W : Nat) (cvt : R → R) (a : KernelArgs R) (za : ZA R)
    (x28 x27 : Nat) (x20 : Int) (x23 : Int) :
    store_output_loop W cvt a za x28 x27 x20
        (if (a.M : Int) - (x28 : Int) < (W : Int) then (a.M : Int) - (x28 : Int) else (W : Int))
        0 x23
      = (List.range (max 1 (min (a.M - x28) W))).flatMap
          (fun r => row_stores W cvt a za x28 x27 r (x23 + (r : Int) * x20)) := by
  have h := store_output_loop_spec W cvt a za x28 x27 x20
    (if (a.M : Int) - (x28 : Int) < (W : Int) then (a.M : Int) - (x28 : Int) else (W : Int))
    (max 1 (min (a.M - x28) W)) 0 x23
    (by split <;> omega)
  simp only [Nat.mul_zero, Nat.zero_add] at h
  exact h

theorem blk_stores_eq (W : Nat) (cvt : R → R) (a : KernelArgs R) (hW : 0 < W) (i j : Nat)
    (Z2 : ZA R) (hZ : ∀ q r c, q < 4 → r < W → Z2 q r c = acc_final W a i j q r c) :
    store_output_loop W cvt a Z2 (W * i) (4 * W * j) (a.ldcb / 2)
        (if (a.M : Int) - ((W * i : Nat) : Int) < (W : Int)
          then (a.M : Int) - ((W * i : Nat) : Int) else (W : Int))
        0 (((W * i : Nat) : Int) * (a.ldcb / 2) + (a.C.getD 0 + ((4 * W * j : Nat) : Int)))
      = blk_stores W cvt a i j := by
  rw [store_output_spec]
  unfold blk_stores
  apply List.flatMap_congr
  intro r hr
  rw [List.mem_range] at hr
  apply row_stores_congr
  intro q c hq
  exact hZ q r c hq (by omega)

theorem store_block_suspend_refill (W : Nat) (cvt : R → R) (a : KernelArgs R) (hW : 0 < W)
    (h4 : 4 ∣ W) (s : State R) (h1 : s.x13.testBit 1 = true) (h0 : s.x13.testBit 0 = true)
    (hsep : s.x10 + slot W ≤ s.x11) :
    ∃ (Z : ZA R) (Bf : Nat → R),
      store_block W cvt a s
        = { s with za := Z, x11 := s.x11 + slot W, x10 := s.x10 + slot W,
                   reads := s.reads ++ (List.range (slot W)).map (fun i => s.x11 + i),
                   buf := Bf,
                   writes := s.writes
                     ++ (List.range (slot W)).map (fun i => (s.x10 + i, Bf (s.x10 + i))) } ∧
      (∀ q r c, q < 4 → r < W → Z q r c = s.buf (s.x11 + slot_off W q r c)) ∧
      (∀ k, ¬ (s.x10 ≤ k ∧ k < s.x10 + slot W) → Bf k = s.buf k) ∧
      (∀ q r c, q < 4 → r < W → c < W → Bf (s.x10 + slot_off W q r c) = s.za q r c) := by
  have hk : 0 + 4 * (W / 4) = W := by omega
  have hk0 : 0 < W / 4 := by omega
  obtain ⟨Z, Bf, hE, hzin, _, hout, hin⟩ :=
    store_refill_loop_spec W (W / 4) 0 s hk hk0 hsep
  refine ⟨Z, Bf, ?_, ?_, ?_, ?_⟩
  · unfold store_block
    simp only [h1, h0, if_true]
    exact hE
  · intro q r c hq hr
    exact hzin q r c hq (Nat.zero_le _) hr
  · exact hout
  · intro q r c hq hr hc
    exact hin q r c hq (Nat.zero_le _) hr hc

theorem store_block_suspend_only (W : Nat) (cvt : R → R) (a : KernelArgs R) (hW : 0 < W)
    (h4 : 4 ∣ W) (s : State R) (h1 : s.x13.testBit 1 = true) (h0 : s.x13.testBit 0 = false) :
    ∃ (Bf : Nat → R),
      store_block W cvt a s
        = { s with x10 := s.x10 + slot W, buf := Bf,
                   writes := s.writes
                     ++ (List.range (slot W)).map (fun i => (s.x10 + i, Bf (s.x10 + i))) } ∧
      (∀ k, ¬ (s.x10 ≤ k ∧ k < s.x10 + slot W) → Bf k = s.buf k) ∧
      (∀ q r c, q < 4 → r < W → c < W → Bf (s.x10 + slot_off W q r c) = s.za q r c) := by
  have hk : 0 + 4 * (W / 4) = W := by omega
  have hk0 : 0 < W / 4 := by omega
  obtain ⟨Bf, hE, hout, hin⟩ := store_only_loop_spec W (W / 4) 0 s hk hk0
  refine ⟨Bf, ?_, ?_, ?_⟩
  · unfold store_block
    simp only [h1, h0, if_true, Bool.false_eq_true, if_false]
    exact hE
  · exact hout
  · intro q r c hq hr hc
    exact hin q r c hq (Nat.zero_le _) hr hc

theorem store_block_output_refill (W : Nat) (cvt : R → R) (a : KernelArgs R) (hW : 0 < W)
    (h4 : 4 ∣ W) (s : State R) (h1 : s.x13.testBit 1 = false) (h0 : s.x13.testBit 0 = true) :
    ∃ (Z : ZA R),
      store_block W cvt a s
        = { s with
            c_stores := s.c_stores ++ store_output_loop W cvt a s.za s.x28 s.x27 (a.ldcb / 2)
              (if (a.M : Int) - (s.x28 : Int) < (W : Int) then (a.M : Int) - (s.x28 : Int)
                else (W : Int))
              0 ((s.x28 : Int) * (a.ldcb / 2) + (a.C.getD 0 + (s.x27 : Int))),
            za := Z, x11 := s.x11 + slot W,
            reads := s.reads ++ (List.range (slot W)).map (fun i => s.x11 + i) } ∧
      (∀ q r c, q < 4 → r < W → Z q r c = s.buf (s.x11 + slot_off W q r c)) := by
  have hk : 0 + 4 * (W / 4) = W := by omega
  have hk0 : 0 < W / 4 := by omega
  unfold store_block
  simp only [h1, h0, if_true, Bool.false_eq_true, if_false]
  obtain ⟨Z, hE, hzin, _⟩ := refill_loop_spec W (W / 4) 0
    { s with
      c_stores := s.c_stores ++ store_output_loop W cvt a s.za s.x28 s.x27 (a.ldcb / 2)
        (if (a.M : Int) - (s.x28 : Int) < (W : Int) then (a.M : Int) - (s.x28 : Int)
          else (W : Int))
        0 ((s.x28 : Int) * (a.ldcb / 2) + (a.C.getD 0 + (s.x27 : Int))) } hk hk0
  refine ⟨Z, ?_, ?_⟩
  · exact hE
  · intro q r c hq hr
    exact hzin q r c hq (Nat.zero_le _) hr

theorem store_block_output_only (W : Nat) (cvt : R → R) (a : KernelArgs R) (s : State R)
    (h1 : s.x13.testBit 1 = false) (h0 : s.x13.testBit 0 = false) :
    store_block W cvt a s
      = { s with
          c_stores := s.c_stores ++ store_output_loop W cvt a s.za s.x28 s.x27 (a.ldcb / 2)
            (if (a.M : Int) - (s.x28 : Int) < (W : Int) then (a.M : Int) - (s.x28 : Int)
              else (W : Int))
            0 ((s.x28 : Int) * (a.ldcb / 2) + (a.C.getD 0 + (s.x27 : Int))) } := by
  unfold store_block
  simp only [h1, h0, if_true, Bool.false_eq_true, if_false]

theorem stores_upto_succ (W : Nat) (cvt : R → R) (a : KernelArgs R) (i j : Nat) :
    stores_upto W cvt a i j ++ blk_stores W cvt a i j = stores_upto W cvt a i (j + 1) := by
  unfold stores_upto
  rw [List.range_succ, List.flatMap_append, List.append_assoc]
  simp

theorem stores_upto_row (W : Nat) (cvt : R → R) (a : KernelArgs R) (i : Nat) :
    stores_upto W cvt a i (nblk_n W a.N) = stores_upto W cvt a (i + 1) 0 := by
  unfold stores_upto
  rw [List.range_succ (n := i), List.flatMap_append]
  simp

theorem inv_next (W : Nat) (cvt : R → R) (a : KernelArgs R) (hW : 0 < W)
    (i j : Nat) (hi : i < nblk_m W a.M) (hj : j < nblk_n W a.N) (s3 : State R)
    (e13 : s3.x13 = (if (if j + 1 < nblk_n W a.N then i else i + 1) < nblk_m W a.M
      then a.flags else bfc0 a.flags))
    (e24 : s3.x24 = (i + 1) * (ksteps a.K * (2 * W)))
    (e25 : s3.x25 = i * (ksteps a.K * (2 * W)))
    (e27 : s3.x27 = 4 * W * j) (e28 : s3.x28 = W * i)
    (e11 : s3.x11 = (if a.flags.testBit 0 then
        (if (if j + 1 < nblk_n W a.N then i else i + 1) < nblk_m W a.M
          then i * nblk_n W a.N + j + 1 + 1 else i * nblk_n W a.N + j + 1) * slot W
      else 0))
    (e10 : s3.x10 = (if a.flags.testBit 1 then (i * nblk_n W a.N + j + 1) * slot W else 0))
    (eza : a.flags.testBit 0 = true →
      (if j + 1 < nblk_n W a.N then i else i + 1) < nblk_m W a.M → ∀ q r c, q < 4 → r < W →
      s3.za q r c
        = a.accumulator_buffer ((i * nblk_n W a.N + j + 1) * slot W + slot_off W q r c))
    (ebuf : ∀ k, (a.flags.testBit 1 = true → (i * nblk_n W a.N + j + 1) * slot W ≤ k) →
      s3.buf k = a.accumulator_buffer k)
    (eslots : a.flags.testBit 1 = true → ∀ i' j' q r c, j' < nblk_n W a.N →
      i' * nblk_n W a.N + j' < i * nblk_n W a.N + j + 1 → q < 4 → r < W → c < W →
      s3.buf ((i' * nblk_n W a.N + j') * slot W + slot_off W q r c)
        = acc_final W a i' j' q r c)
    (ecs : s3.c_stores = (if a.flags.testBit 1 then []
      else stores_upto W cvt a i j ++ blk_stores W cvt a i j))
    (erd : s3.reads = (if a.flags.testBit 0 then
        List.range ((if (if j + 1 < nblk_n W a.N then i else i + 1) < nblk_m W a.M
          then i * nblk_n W a.N + j + 1 + 1 else i * nblk_n W a.N + j + 1) * slot W)
      else []))
    (ewr : s3.writes = (if a.flags.testBit 1 then
        (List.range ((i * nblk_n W a.N + j + 1) * slot W)).map (fun k => (k, s3.buf k))
      else [])) :
    (end_block W a s3).2
        = decide ((if j + 1 < nblk_n W a.N then i else i + 1) < nblk_m W a.M) ∧
      Inv W cvt a (if j + 1 < nblk_n W a.N then i else i + 1)
        (if j + 1 < nblk_n W a.N then j + 1 else 0) (end_block W a s3).1 := by
  unfold end_block
  rw [e27, e28]
  by_cases hj1 : j + 1 < nblk_n W a.N
  · have h1 : 4 * W * j + 4 * W < a.N := (n_step_iff W a.N j hW).2 hj1
    simp only [hj1, if_true, hi] at e13 e11 eza erd ⊢
    simp only [h1, if_true, decide_True, true_and]
    have ht : i * nblk_n W a.N + (j + 1) = i * nblk_n W a.N + j + 1 := by ring
    unfold Inv
    simp only [hi, if_true, ht]
    refine ⟨e13, by ring, trivial, e25, e11, e10, fun hb _ => eza hb trivial, ebuf, eslots, ?_, erd,
      ewr⟩
    rw [ecs, stores_upto_succ]
  · have h1 : ¬ (4 * W * j + 4 * W < a.N) := fun h => hj1 ((n_step_iff W a.N j hW).1 h)
    have hjn : j + 1 = nblk_n W a.N := by omega
    simp only [hj1, if_false] at e13 e11 eza erd ⊢
    simp only [h1, if_false, m_step_iff W a.M i hW, true_and]
    have ht : (i + 1) * nblk_n W a.N + 0 = i * nblk_n W a.N + j + 1 := by
      rw [← hjn]; ring
    unfold Inv
    simp only [ht]
    refine ⟨e13, by ring, by ring, e24, e11, e10, eza, ebuf, eslots, ?_, erd, ewr⟩
    rw [ecs, stores_upto_succ, hjn, stores_upto_row]

theorem writes_extend (buf Bf : Nat → R) (n S : Nat)
    (hout : ∀ k, ¬ (n * S ≤ k ∧ k < n * S + S) → Bf k = buf k) :
    (List.range (n * S)).map (fun k => (k, buf k))
        ++ (List.range S).map (fun i => (n * S + i, Bf (n * S + i)))
      = (List.range ((n + 1) * S)).map (fun k => (k, Bf k)) := by
  rw [show (n + 1) * S = n * S + S by ring, List.range_add, List.map_append, List.map_map]
  congr 1
  apply List.map_congr_left
  intro k hk
  rw [List.mem_range] at hk
  rw [hout k (by omega)]

theorem reads_extend (n S : Nat) :
    List.range (n * S) ++ (List.range S).map (fun i => n * S + i) = List.range ((n + 1) * S) := by
  rw [show (n + 1) * S = n * S + S by ring, List.range_add]

theorem blk_index_inj (nb i j i' j' : Nat) (hj : j < nb) (hj' : j' < nb)
    (h : i' * nb + j' = i * nb + j) : i' = i ∧ j' = j := by
  have hnb : 0 < nb := by omega
  have h5 := congrArg (fun x => x / nb) h
  have h6 := congrArg (fun x => x % nb) h
  simp only [Nat.mul_comm _ nb, Nat.mul_add_div hnb, Nat.div_eq_of_lt hj', Nat.div_eq_of_lt hj,
    Nat.mul_add_mod, Nat.mod_eq_of_lt hj', Nat.mod_eq_of_lt hj, Nat.add_zero] at h5 h6
  exact ⟨h5, h6⟩

theorem block_step (W : Nat) (cvt : R → R) (a : KernelArgs R) (hW : 0 < W) (h4 : 4 ∣ W)
    (hf : a.flags < 4) (hP : 0 < a.M ∨ a.flags.testBit 0 = false)
    (i j : Nat) (hi : i < nblk_m W a.M) (hj : j < nblk_n W a.N) (s : State R)
    (hinv : Inv W cvt a i j s) :
    (block W cvt a s).2
        = decide ((if j + 1 < nblk_n W a.N then i else i + 1) < nblk_m W a.M) ∧
      Inv W cvt a (if j + 1 < nblk_n W a.N then i else i + 1)
        (if j + 1 < nblk_n W a.N then j + 1 else 0) (block W cvt a s).1 := by
  obtain ⟨Z2, hs2, hZ2⟩ := reduce_stage W cvt a hW hf hP i j hi s hinv
  obtain ⟨h13, h27, h28, h25, h11, h10, hza, hbuf, hslots, hcs, hrd, hwr⟩ := hinv
  simp only [hi, if_true] at h13 h11 hrd
  unfold block
  rw [hs2]
  have fb1 : (if (if j + 1 < nblk_n W a.N then i else i + 1) < nblk_m W a.M then a.flags
      else bfc0 a.flags).testBit 1 = a.flags.testBit 1 := by
    by_cases h : (if j + 1 < nblk_n W a.N then i else i + 1) < nblk_m W a.M
    · simp only [h, if_true]
    · simp only [h, if_false]
      exact bfc0_testBit1 _ hf
  have hslotpos : 0 < slot W := by rw [slot_eq W h4]; positivity
  by_cases hb1 : a.flags.testBit 1 = true
  · simp only [hb1, if_true] at h10 hcs hwr
    have hbuf' : ∀ k, (i * nblk_n W a.N + j) * slot W ≤ k → s.buf k = a.accumulator_buffer k :=
      fun k hk => hbuf k (fun _ => hk)
    by_cases hb0 : a.flags.testBit 0 = true ∧
        (if j + 1 < nblk_n W a.N then i else i + 1) < nblk_m W a.M
    · obtain ⟨hb0, hn⟩ := hb0
      simp only [hb0, if_true] at h11 hrd
      obtain ⟨Z, Bf, hE, hzin, hout, hin⟩ := store_block_suspend_refill W cvt a hW h4
        { s with
          x13 := (if (if j + 1 < nblk_n W a.N then i else i + 1) < nblk_m W a.M then a.flags
                  else bfc0 a.flags),
          x24 := (i + 1) * (ksteps a.K * (2 * W)), za := Z2 }
        (by rw [fb1]; exact hb1) (by simp only [hn, if_true]; exact hb0)
        (by simp only [h10, h11]; rw [← Nat.add_one_mul])
      rw [hE]
      simp only at hzin hout hin
      apply inv_next W cvt a hW i j hi hj
      · rfl
      · rfl
      · exact h25
      · exact h27
      · exact h28
      · simp only [hb0, hn, if_true, h11]; ring
      · simp only [hb1, if_true, h10]; ring
      · intro _ _ q r c hq hr
        show Z q r c = _
        rw [hzin q r c hq hr, h11]
        exact hbuf' _ (by
          have : (i * nblk_n W a.N + j) * slot W ≤ (i * nblk_n W a.N + j + 1) * slot W :=
            Nat.mul_le_mul_right _ (by omega)
          omega)
      · intro k hk
        show Bf k = _
        have hk' := hk hb1
        have h2 : (i * nblk_n W a.N + j + 1) * slot W
            = (i * nblk_n W a.N + j) * slot W + slot W := by ring
        rw [hout k (by rw [h10]; omega)]
        exact hbuf' k (by omega)
      · intro _ i' j' q r c hj' ht hq hr hc
        show Bf _ = _
        by_cases hlt : i' * nblk_n W a.N + j' < i * nblk_n W a.N + j
        · have hso := slot_off_lt W q r c h4 hq hr hc
          have h3 : (i' * nblk_n W a.N + j') * slot W + slot W
              ≤ (i * nblk_n W a.N + j) * slot W := by
            rw [← Nat.add_one_mul]
            exact Nat.mul_le_mul_right _ (by omega)
          rw [hout _ (by rw [h10]; omega)]
          exact hslots hb1 i' j' q r c hj' hlt hq hr hc
        · have hij := blk_index_inj _ i j i' j' hj hj' (by omega)
          rw [hij.1, hij.2, ← h10, hin q r c hq hr hc]
          exact hZ2 q r c hq hr
      · simp only [hb1, if_true]
        exact hcs
      · show s.reads ++ _ = _
        simp only [hb0, hn, if_true, hrd, h11]
        exact reads_extend _ _
      · show s.writes ++ _ = _
        simp only [hb1, if_true, hwr, h10]
        exact writes_extend s.buf Bf _ _ (by intro k hk; exact hout k (by rw [h10]; exact hk))
    · have fb0 : (if (if j + 1 < nblk_n W a.N then i else i + 1) < nblk_m W a.M then a.flags
          else bfc0 a.flags).testBit 0 = false := by
        by_cases h : (if j + 1 < nblk_n W a.N then i else i + 1) < nblk_m W a.M
        · simp only [h, if_true, and_true] at hb0 ⊢
          simpa using hb0
        · simp only [h, if_false]
          exact bfc0_testBit0 _ hf
      obtain ⟨Bf, hE, hout, hin⟩ := store_block_suspend_only W cvt a hW h4
        { s with
          x13 := (if (if j + 1 < nblk_n W a.N then i else i + 1) < nblk_m W a.M then a.flags
                  else bfc0 a.flags),
          x24 := (i + 1) * (ksteps a.K * (2 * W)), za := Z2 }
        (by rw [fb1]; exact hb1) fb0
      rw [hE]
      simp only at hout hin
      apply inv_next W cvt a hW i j hi hj
      · rfl
      · rfl
      · exact h25
      · exact h27
      · exact h28
      · show s.x11 = _
        rw [h11]
        by_cases hb : a.flags.testBit 0 = true
        · have hn : ¬ (if j + 1 < nblk_n W a.N then i else i + 1) < nblk_m W a.M :=
            fun h => hb0 ⟨hb, h⟩
          simp only [hb, hn, if_true, if_false]
        · simp only [hb, Bool.false_eq_true, if_false]
      · simp only [hb1, if_true, h10]; ring
      · intro hb hn
        exact absurd ⟨hb, hn⟩ hb0
      · intro k hk
        show Bf k = _
        have hk' := hk hb1
        have h2 : (i * nblk_n W a.N + j + 1) * slot W
            = (i * nblk_n W a.N + j) * slot W + slot W := by ring
        rw [hout k (by rw [h10]; omega)]
        exact hbuf' k (by omega)
      · intro _ i' j' q r c hj' ht hq hr hc
        show Bf _ = _
        by_cases hlt : i' * nblk_n W a.N + j' < i * nblk_n W a.N + j
        · have hso := slot_off_lt W q r c h4 hq hr hc
          have h3 : (i' * nblk_n W a.N + j') * slot W + slot W
              ≤ (i * nblk_n W a.N + j) * slot W := by
            rw [← Nat.add_one_mul]
            exact Nat.mul_le_mul_right _ (by omega)
          rw [hout _ (by rw [h10]; omega)]
          exact hslots hb1 i' j' q r c hj' hlt hq hr hc
        · have hij := blk_index_inj _ i j i' j' hj hj' (by omega)
          rw [hij.1, hij.2, ← h10, hin q r c hq hr hc]
          exact hZ2 q r c hq hr
      · simp only [hb1, if_true]
        exact hcs
      · show s.reads = _
        rw [hrd]
        by_cases hb : a.flags.testBit 0 = true
        · have hn : ¬ (if j + 1 < nblk_n W a.N then i else i + 1) < nblk_m W a.M :=
            fun h => hb0 ⟨hb, h⟩
          simp only [hb, hn, if_true, if_false]
        · simp only [hb, Bool.false_eq_true, if_false]
      · show s.writes ++ _ = _
        simp only [hb1, if_true, hwr, h10]
        exact writes_extend s.buf Bf _ _ (by intro k hk; exact hout k (by rw [h10]; exact hk))
  · have hb1' : a.flags.testBit 1 = false := by simpa using hb1
    simp only [hb1', Bool.false_eq_true, if_false] at h10 hcs hwr
    have hbuf' : ∀ k, s.buf k = a.accumulator_buffer k :=
      fun k => hbuf k (fun h => absurd h hb1)
    have hst : s.c_stores ++ store_output_loop W cvt a Z2 s.x28 s.x27 (a.ldcb / 2)
          (if (a.M : Int) - (s.x28 : Int) < (W : Int) then (a.M : Int) - (s.x28 : Int)
            else (W : Int))
          0 ((s.x28 : Int) * (a.ldcb / 2) + (a.C.getD 0 + (s.x27 : Int)))
        = stores_upto W cvt a i j ++ blk_stores W cvt a i j := by
      rw [hcs, h27, h28, blk_stores_eq W cvt a hW i j Z2 hZ2]
    by_cases hb0 : a.flags.testBit 0 = true ∧
        (if j + 1 < nblk_n W a.N then i else i + 1) < nblk_m W a.M
    · obtain ⟨hb0, hn⟩ := hb0
      simp only [hb0, if_true] at h11 hrd
      obtain ⟨Z, hE, hzin⟩ := store_block_output_refill W cvt a hW h4
        { s with
          x13 := (if (if j + 1 < nblk_n W a.N then i else i + 1) < nblk_m W a.M then a.flags
                  else bfc0 a.flags),
          x24 := (i + 1) * (ksteps a.K * (2 * W)), za := Z2 }
        (by rw [fb1]; exact hb1') (by simp only [hn, if_true]; exact hb0)
      rw [hE]
      simp only at hzin
      apply inv_next W cvt a hW i j hi hj
      · rfl
      · rfl
      · exact h25
      · exact h27
      · exact h28
      · simp only [hb0, hn, if_true, h11]; ring
      · simp only [hb1', Bool.false_eq_true, if_false, h10]
      · intro _ _ q r c hq hr
        show Z q r c = _
        rw [hzin q r c hq hr, h11, hbuf']
      · intro k _
        exact hbuf' k
      · intro h
        exact absurd h hb1
      · simp only [hb1', Bool.false_eq_true, if_false]
        exact hst
      · show s.reads ++ _ = _
        simp only [hb0, hn, if_true, hrd, h11]
        exact reads_extend _ _
      · simp only [hb1', Bool.false_eq_true, if_false]
        exact hwr
    · have fb0 : (if (if j + 1 < nblk_n W a.N then i else i + 1) < nblk_m W a.M then a.flags
          else bfc0 a.flags).testBit 0 = false := by
        by_cases h : (if j + 1 < nblk_n W a.N then i else i + 1) < nblk_m W a.M
        · simp only [h, if_true, and_true] at hb0 ⊢
          simpa using hb0
        · simp only [h, if_false]
          exact bfc0_testBit0 _ hf
      rw [store_block_output_only W cvt a _ (by rw [fb1]; exact hb1') fb0]
      apply inv_next W cvt a hW i j hi hj
      · rfl
      · rfl
      · exact h25
      · exact h27
      · exact h28
      · show s.x11 = _
        rw [h11]
        by_cases hb : a.flags.testBit 0 = true
        · have hn : ¬ (if j + 1 < nblk_n W a.N then i else i + 1) < nblk_m W a.M :=
            fun h => hb0 ⟨hb, h⟩
          simp only [hb, hn, if_true, if_false]
        · simp only [hb, Bool.false_eq_true, if_false]
      · simp only [hb1', Bool.false_eq_true, if_false, h10]
      · intro hb hn
        exact absurd ⟨hb, hn⟩ hb0
      · intro k _
        exact hbuf' k
      · intro h
        exact absurd h hb1
      · simp only [hb1', Bool.false_eq_true, if_false]
        exact hst
      · show s.reads = _
        rw [hrd]
        by_cases hb : a.flags.testBit 0 = true
        · have hn : ¬ (if j + 1 < nblk_n W a.N then i else i + 1) < nblk_m W a.M :=
            fun h => hb0 ⟨hb, h⟩
          simp only [hb, hn, if_true, if_false]
        · simp only [hb, Bool.false_eq_true, if_false]
      · simp only [hb1', Bool.false_eq_true, if_false]
        exact hwr

theorem mn_loop_spec (W : Nat) (cvt : R → R) (a : KernelArgs R) (hW : 0 < W) (h4 : 4 ∣ W)
    (hf : a.flags < 4) (hP : 0 < a.M ∨ a.flags.testBit 0 = false) :
    ∀ (fuel i j : Nat) (s : State R), i < nblk_m W a.M → j < nblk_n W a.N →
      Inv W cvt a i j s →
      (nblk_m W a.M - i - 1) * nblk_n W a.N + (nblk_n W a.N - j) ≤ fuel →
      ∃ s', mn_loop W cvt a fuel s = some s' ∧ Inv W cvt a (nblk_m W a.M) 0 s' := by
  intro fuel
  induction fuel with
  | zero =>
    intro i j s hi hj _ hfuel
    omega
  | succ f ih =>
    intro i j s hi hj hinv hfuel
    obtain ⟨hc, hn⟩ := block_step W cvt a hW h4 hf hP i j hi hj s hinv
    rw [mn_loop]
    simp only [hc, decide_eq_true_eq]
    by_cases hj1 : j + 1 < nblk_n W a.N
    · simp only [hj1, if_true, hi] at hn ⊢
      exact ih i (j + 1) _ hi hj1 hn (by omega)
    · simp only [hj1, if_false] at hn ⊢
      by_cases hi1 : i + 1 < nblk_m W a.M
      · simp only [hi1, if_true]
        refine ih (i + 1) 0 _ hi1 (by omega) hn ?_
        obtain ⟨d, hd⟩ : ∃ d, nblk_m W a.M = i + 2 + d := ⟨nblk_m W a.M - (i + 2), by omega⟩
        rw [hd] at hfuel ⊢
        rw [show i + 2 + d - i - 1 = d + 1 by omega] at hfuel
        rw [show i + 2 + d - (i + 1) - 1 = d by omega]
        have : (d + 1) * nblk_n W a.N = d * nblk_n W a.N + nblk_n W a.N := by ring
        omega
      · simp only [hi1, if_false]
        have : i + 1 = nblk_m W a.M := by omega
        rw [this] at hn
        exact ⟨_, rfl, hn⟩

theorem nblk_m_le (W M : Nat) : nblk_m W M ≤ M + 1 := by
  unfold nblk_m
  have := Nat.div_le_self (M - 1) W
  omega

theorem nblk_n_le (W N : Nat) : nblk_n W N ≤ N + 1 := by
  unfold nblk_n
  have := Nat.div_le_self (N - 1) (4 * W)
  omega

theorem nblk_m_pos (W M : Nat) : 0 < nblk_m W M := Nat.succ_pos _

theorem nblk_n_pos (W N : Nat) : 0 < nblk_n W N := Nat.succ_pos _

theorem inv_initial (W : Nat) (cvt : R → R) (a : KernelArgs R) (hW : 0 < W) (h4 : 4 ∣ W) :
    Inv W cvt a 0 0
      (if (initial_state a).x13.testBit 0 then refill_loop W 0 (initial_state a)
       else initial_state a) := by
  have hk : 0 + 4 * (W / 4) = W := by omega
  have hk0 : 0 < W / 4 := by omega
  have hm : 0 < nblk_m W a.M := nblk_m_pos W a.M
  have h13 : (initial_state a).x13 = a.flags := rfl
  rw [h13]
  by_cases hb0 : a.flags.testBit 0 = true
  · obtain ⟨Z, hE, hzin, _⟩ := refill_loop_spec W (W / 4) 0 (initial_state a) hk hk0
    simp only [hb0, if_true]
    rw [hE]
    unfold Inv
    refine ⟨?_, ?_, ?_, ?_, ?_, ?_, ?_, ?_, ?_, ?_, ?_, ?_⟩
    · simp [hm, initial_state]
    · simp [initial_state]
    · simp [initial_state]
    · simp [initial_state]
    · simp [hm, hb0, initial_state, slot]
    · simp [initial_state]
    · intro _ _ q r c hq hr
      simp only
      rw [hzin q r c hq (Nat.zero_le _) hr]
      simp [initial_state]
    · intro k _
      rfl
    · intro _ i' j' q r c _ h
      omega
    · simp [initial_state, stores_upto]
    · simp [hm, hb0, initial_state, slot]
    · simp [initial_state]
  · have hb0' : a.flags.testBit 0 = false := by simpa using hb0
    simp only [hb0', Bool.false_eq_true, if_false]
    unfold Inv
    refine ⟨?_, ?_, ?_, ?_, ?_, ?_, ?_, ?_, ?_, ?_, ?_, ?_⟩
    · simp [hm, initial_state]
    · simp [initial_state]
    · simp [initial_state]
    · simp [initial_state]
    · simp [hb0', initial_state]
    · simp [initial_state]
    · intro h
      exact absurd h hb0
    · intro k _
      rfl
    · intro _ i' j' q r c _ h
      omega
    · simp [initial_state, stores_upto]
    · simp [hb0', initial_state]
    · simp [initial_state]

theorem kernel_asm_spec (W : Nat) (cvt : R → R) (a : KernelArgs R) (hW : 0 < W) (h4 : 4 ∣ W)
    (hf : a.flags < 4) (hP : 0 < a.M ∨ a.flags.testBit 0 = false) :
    ∃ s', kernel_asm W cvt a = some s' ∧ Inv W cvt a (nblk_m W a.M) 0 s' := by
  unfold kernel_asm
  have hm : 0 < nblk_m W a.M := nblk_m_pos W a.M
  have hn : 0 < nblk_n W a.N := nblk_n_pos W a.N
  refine mn_loop_spec W cvt a hW h4 hf hP _ 0 0 _ hm hn (inv_initial W cvt a hW h4) ?_
  have h1 := nblk_m_le W a.M
  have h2 := nblk_n_le W a.N
  have h3 : nblk_m W a.M * nblk_n W a.N ≤ (a.M + 1) * (a.N + 1) := Nat.mul_le_mul h1 h2
  obtain ⟨d, hd⟩ : ∃ d, nblk_m W a.M = d + 1 := ⟨nblk_m W a.M - 1, by omega⟩
  rw [hd] at h3 ⊢
  rw [show d + 1 - 0 - 1 = d by omega, Nat.sub_zero]
  have : (d + 1) * nblk_n W a.N = d * nblk_n W a.N + nblk_n W a.N := by ring
  omega

theorem init_flags (cvt : R → R) (A B : Nat → R) (C : Option Int) (ldc : Int) (M N K : Nat)
    (bias : Option (Nat → R)) (act : Activation R) (accumulate : Bool) (buf : Nat → R) :
    (KernelArgs.init cvt A B C ldc M N K bias act accumulate buf).flags
      = (if accumulate then 1 else 0) + (if C = none then 2 else 0) := by
  cases accumulate <;> cases C <;> simp [KernelArgs.init]

theorem init_flags_lt (cvt : R → R) (A B : Nat → R) (C : Option Int) (ldc : Int) (M N K : Nat)
    (bias : Option (Nat → R)) (act : Activation R) (accumulate : Bool) (buf : Nat → R) :
    (KernelArgs.init cvt A B C ldc M N K bias act accumulate buf).flags < 4 := by
  rw [init_flags]
  cases accumulate <;> cases C <;> simp

theorem init_bit0 (cvt : R → R) (A B : Nat → R) (C : Option Int) (ldc : Int) (M N K : Nat)
    (bias : Option (Nat → R)) (act : Activation R) (accumulate : Bool) (buf : Nat → R) :
    (KernelArgs.init cvt A B C ldc M N K bias act accumulate buf).flags.testBit 0
      = accumulate := by
  rw [init_flags]
  cases accumulate <;> cases C <;> simp

theorem init_bit1 (cvt : R → R) (A B : Nat → R) (C : Option Int) (ldc : Int) (M N K : Nat)
    (bias : Option (Nat → R)) (act : Activation R) (accumulate : Bool) (buf : Nat → R) :
    (KernelArgs.init cvt A B C ldc M N K bias act accumulate buf).flags.testBit 1
      = C.isNone := by
  rw [init_flags]
  cases accumulate <;> cases C <;> first | (simp; done) | (simp; rfl)

/-- C8: for every argument list, bit 0 of `KernelArgs.flags` is set exactly when `accumulate` is
true, bit 1 exactly when `C` is null, and no other bit is set; hence a null `C` forces the
suspend flag, and both flags are set together for `accumulate = true`, `C = nullptr`. -/
theorem kernel_args_flags (cvt : R → R) (A B : Nat → R) (C : Option Int) (ldc : Int)
    (M N K : Nat) (bias : Option (Nat → R)) (act : Activation R) (accumulate : Bool)
    (buf : Nat → R) :
    (KernelArgs.init cvt A B C ldc M N K bias act accumulate buf).flags.testBit 0 = accumulate ∧
    (KernelArgs.init cvt A B C ldc M N K bias act accumulate buf).flags.testBit 1 = C.isNone ∧
    (∀ k, 2 ≤ k →
      (KernelArgs.init cvt A B C ldc M N K bias act accumulate buf).flags.testBit k = false) ∧
    (C = none →
      (KernelArgs.init cvt A B C ldc M N K bias act accumulate buf).flags.testBit 1 = true) ∧
    ((KernelArgs.init cvt A B none ldc M N K bias act true buf).flags.testBit 0 = true ∧
     (KernelArgs.init cvt A B none ldc M N K bias act true buf).flags.testBit 1 = true) := by
  refine ⟨init_bit0 .., init_bit1 .., ?_, ?_, ?_⟩
  · intro k hk
    apply Nat.testBit_eq_false_of_lt
    have h1 := init_flags_lt cvt A B C ldc M N K bias act accumulate buf
    have h2 : 2 ^ 2 ≤ 2 ^ k := Nat.pow_le_pow_right (by norm_num) hk
    omega
  · intro h
    rw [init_bit1, h]
    rfl
  · rw [init_bit0, init_bit1]
    exact ⟨rfl, rfl⟩

/-- C10, counterexample: the upper bound of `BoundedReLU` is not `param1` but `param1`
converted to half precision.  For `param1 = 70000` the constructor stores plus infinity, and
for `param1 = 2049`, which rounds to 2048, it stores 2048. -/
theorem bounded_relu_bound_differs_from_param1 :
    ((KernelArgs.init id ones ones (some 0) 20 5 18 3 none bounded_relu_above_range false
        ones).max = none ∧
      (KernelArgs.init id ones ones (some 0) 20 5 18 3 none bounded_relu_above_range false
        ones).max ≠ some bounded_relu_above_range.param1) ∧
    (round_fp16_binade_11 2049 = 2048 ∧
      (KernelArgs.init round_fp16_binade_11 ones ones (some 0) 20 5 18 3 none
        bounded_relu_inexact false ones).max = some 2048 ∧
      (KernelArgs.init round_fp16_binade_11 ones ones (some 0) 20 5 18 3 none
        bounded_relu_inexact false ones).max ≠ some bounded_relu_inexact.param1) := by
  have h1 : (KernelArgs.init id ones ones (some 0) 20 5 18 3 none bounded_relu_above_range
      false ones).max = none := by
    simp [KernelArgs.init, bounded_relu_above_range, static_cast_fp16]
    norm_num
  have hf : ⌊(2049 : ℚ) / 2⌋ = 1024 := by
    rw [Int.floor_eq_iff]
    norm_num
  have h2 : round_fp16_binade_11 2049 = 2048 := by
    unfold round_fp16_binade_11
    simp only [hf]
    norm_num
  have h3 : (KernelArgs.init round_fp16_binade_11 ones ones (some 0) 20 5 18 3 none
      bounded_relu_inexact false ones).max = some 2048 := by
    have e : (KernelArgs.init round_fp16_binade_11 ones ones (some 0) 20 5 18 3 none
        bounded_relu_inexact false ones).max
        = static_cast_fp16 round_fp16_binade_11 2049 := rfl
    rw [e]
    unfold static_cast_fp16
    rw [if_neg (by norm_num), h2]
  refine ⟨⟨h1, ?_⟩, h2, h3, ?_⟩
  · rw [h1]
    exact fun h => Option.noConfusion h
  · rw [h3]
    intro h
    have := Option.some.inj h
    simp [bounded_relu_inexact] at this

/-- C10: the constructor maps the activation to the clamp bounds: type `None` and every
unrecognised type give `(-infinity, +infinity)`, for which `fclamp` is the identity; `ReLU` gives
`(0, +infinity)`; `BoundedReLU` gives `(0, static_cast<__fp16>(param1))`: for `param1` of 65520
or more the upper bound is plus infinity, and for `param1` between -65520 and 65520 it is
`param1` rounded to half precision (`cvt`), that is `param1` itself when `param1` is a
half-precision number. -/
theorem kernel_args_activation_bounds (cvt : R → R) (A B : Nat → R) (C : Option Int)
    (ldc : Int) (M N K : Nat) (bias : Option (Nat → R)) (act : Activation R)
    (accumulate : Bool) (buf : Nat → R) :
    (act.type = ActivationType.None →
      (KernelArgs.init cvt A B C ldc M N K bias act accumulate buf).min = none ∧
      (KernelArgs.init cvt A B C ldc M N K bias act accumulate buf).max = none) ∧
    (∀ tag, act.type = ActivationType.Other tag →
      (KernelArgs.init cvt A B C ldc M N K bias act accumulate buf).min = none ∧
      (KernelArgs.init cvt A B C ldc M N K bias act accumulate buf).max = none) ∧
    (act.type = ActivationType.ReLU →
      (KernelArgs.init cvt A B C ldc M N K bias act accumulate buf).min = some 0 ∧
      (KernelArgs.init cvt A B C ldc M N K bias act accumulate buf).max = none) ∧
    (act.type = ActivationType.BoundedReLU →
      (KernelArgs.init cvt A B C ldc M N K bias act accumulate buf).min = some 0 ∧
      (KernelArgs.init cvt A B C ldc M N K bias act accumulate buf).max
        = static_cast_fp16 cvt act.param1 ∧
      (65520 ≤ act.param1 →
        (KernelArgs.init cvt A B C ldc M N K bias act accumulate buf).max = none) ∧
      (-65520 < act.param1 → act.param1 < 65520 →
        (KernelArgs.init cvt A B C ldc M N K bias act accumulate buf).max
          = some (cvt act.param1)) ∧
      (-65520 < act.param1 → act.param1 < 65520 → cvt act.param1 = act.param1 →
        (KernelArgs.init cvt A B C ldc M N K bias act accumulate buf).max
          = some act.param1)) ∧
    (∀ v : R, fclamp_h v none none = v) := by
  refine ⟨?_, ?_, ?_, ?_, ?_⟩
  · intro h
    simp [KernelArgs.init, h]
  · intro tag h
    simp [KernelArgs.init, h]
  · intro h
    simp [KernelArgs.init, h]
  · intro h
    have hmax : (KernelArgs.init cvt A B C ldc M N K bias act accumulate buf).max
        = static_cast_fp16 cvt act.param1 := by
      simp [KernelArgs.init, h]
    refine ⟨by simp [KernelArgs.init, h], hmax, ?_, ?_, ?_⟩
    · intro hge
      rw [hmax, static_cast_fp16, if_pos hge]
    · intro _ hlt
      rw [hmax, static_cast_fp16, if_neg (not_le.mpr hlt)]
    · intro _ hlt hex
      rw [hmax, static_cast_fp16, if_neg (not_le.mpr hlt), hex]
  · intro v
    rfl

theorem filter_range_lt (n a N : Nat) :
    (List.range n).filter (fun l => decide (a + l < N)) = List.range (min n (N - a)) := by
  induction n with
  | zero => simp
  | succ n ih =>
    rw [List.range_succ, List.filter_append, ih]
    by_cases h : a + n < N
    · have : min (n + 1) (N - a) = min n (N - a) + 1 := by omega
      rw [this, List.range_succ]
      have h2 : min n (N - a) = n := by omega
      simp [h, h2]
    · have : min (n + 1) (N - a) = min n (N - a) := by omega
      rw [this]
      simp [h]

theorem stores_all (W : Nat) (cvt : R → R) (a : KernelArgs R) :
    stores_upto W cvt a (nblk_m W a.M) 0
      = (List.range (nblk_m W a.M)).flatMap (fun i => (List.range (nblk_n W a.N)).flatMap
          (fun j => blk_stores W cvt a i j)) := by
  simp [stores_upto]

theorem blk_stores_keys (W : Nat) (cvt : R → R) (a : KernelArgs R) (i j : Nat)
    (hi : W * i < a.M) (hW : 0 < W) :
    (blk_stores W cvt a i j).map (fun e => (e.x28, e.x27, e.row, e.lane))
      = (List.range (min W (a.M - W * i))).flatMap (fun r =>
          (List.range (min (4 * W) (a.N - 4 * W * j))).map
            (fun l => (W * i, 4 * W * j, r, l))) := by
  unfold blk_stores row_stores
  rw [show max 1 (min (a.M - W * i) W) = min W (a.M - W * i) by omega, List.map_flatMap]
  apply List.flatMap_congr
  intro r _
  rw [List.map_map, filter_range_lt]
  rfl

theorem c_stores_keys (W : Nat) (cvt : R → R) (a : KernelArgs R) (hW : 0 < W) (hM : 0 < a.M) :
    (stores_upto W cvt a (nblk_m W a.M) 0).map (fun e => (e.x28, e.x27, e.row, e.lane))
      = rect_keys W a.M a.N := by
  rw [stores_all, rect_keys, List.map_flatMap]
  apply List.flatMap_congr
  intro i hi
  rw [List.mem_range] at hi
  rw [List.map_flatMap]
  apply List.flatMap_congr
  intro j _
  exact blk_stores_keys W cvt a i j (m_lt_of_blk W a.M i hW hM hi) hW

theorem mem_rect_keys (W M N : Nat) (k : Nat × Nat × Nat × Nat) :
    k ∈ rect_keys W M N ↔
      ∃ i j r l, i < nblk_m W M ∧ j < nblk_n W N ∧ r < min W (M - W * i) ∧
        l < min (4 * W) (N - 4 * W * j) ∧ k = (W * i, 4 * W * j, r, l) := by
  unfold rect_keys
  simp only [List.mem_flatMap, List.mem_map, List.mem_range]
  constructor
  · rintro ⟨i, hi, j, hj, r, hr, l, hl, rfl⟩
    exact ⟨i, j, r, l, hi, hj, hr, hl, rfl⟩
  · rintro ⟨i, j, r, l, hi, hj, hr, hl, rfl⟩
    exact ⟨i, hi, j, hj, r, hr, l, hl, rfl⟩

theorem rect_keys_nodup (W M N : Nat) (hW : 0 < W) : (rect_keys W M N).Nodup := by
  unfold rect_keys
  rw [List.nodup_flatMap]
  constructor
  · intro i _
    rw [List.nodup_flatMap]
    constructor
    · intro j _
      rw [List.nodup_flatMap]
      constructor
      · intro r _
        apply List.Nodup.map _ (List.nodup_range _)
        intro l1 l2 h
        simpa using h
      · apply List.Pairwise.imp _ (List.pairwise_lt_range _)
        intro r1 r2 hlt
        simp only [Function.onFun, List.disjoint_left, List.mem_map, List.mem_range]
        rintro x ⟨l1, _, rfl⟩ ⟨l2, _, h⟩
        simp only [Prod.mk.injEq] at h
        omega
    · apply List.Pairwise.imp _ (List.pairwise_lt_range _)
      intro j1 j2 hlt
      simp only [Function.onFun, List.disjoint_left, List.mem_flatMap, List.mem_map,
        List.mem_range]
      rintro x ⟨r1, _, l1, _, rfl⟩ ⟨r2, _, l2, _, h⟩
      simp only [Prod.mk.injEq] at h
      have : 4 * W * j2 = 4 * W * j1 := h.2.1
      have h4 : 0 < 4 * W := by omega
      have := Nat.eq_of_mul_eq_mul_left h4 this
      omega
  · apply List.Pairwise.imp _ (List.pairwise_lt_range _)
    intro i1 i2 hlt
    simp only [Function.onFun, List.disjoint_left, List.mem_flatMap, List.mem_map,
      List.mem_range]
    rintro x ⟨j1, _, r1, _, l1, _, rfl⟩ ⟨j2, _, r2, _, l2, _, h⟩
    simp only [Prod.mk.injEq] at h
    have := Nat.eq_of_mul_eq_mul_left hW h.1
    omega

theorem div_of_blk (W i r : Nat) (hr : r < W) : (W * i + r) / W = i := by
  have h := (div_mod_blk W i r hr).1
  rwa [Nat.mul_comm] at h

theorem mem_blk_stores (W : Nat) (cvt : R → R) (a : KernelArgs R) (i j : Nat) (e : CStore R) :
    e ∈ blk_stores W cvt a i j ↔
      ∃ r l, r < max 1 (min (a.M - W * i) W) ∧ l < 4 * W ∧ 4 * W * j + l < a.N ∧
        e = { x28 := W * i, x27 := 4 * W * j, row := r, lane := l,
              addr := ((W * i : Nat) : Int) * (a.ldcb / 2)
                + (a.C.getD 0 + ((4 * W * j : Nat) : Int)) + (r : Int) * (a.ldcb / 2) + (l : Int),
              val := fclamp_h (cvt (acc_final W a i j (l / W) r (l % W))) a.min a.max } := by
  unfold blk_stores row_stores
  simp only [List.mem_flatMap, List.mem_map, List.mem_filter, List.mem_range,
    decide_eq_true_eq]
  constructor
  · rintro ⟨r, hr, l, ⟨hl, hn⟩, rfl⟩
    exact ⟨r, l, hr, hl, hn, rfl⟩
  · rintro ⟨r, l, hr, hl, hn, rfl⟩
    exact ⟨r, hr, l, ⟨hl, hn⟩, rfl⟩

theorem mem_stores_all (W : Nat) (cvt : R → R) (a : KernelArgs R) (e : CStore R) :
    e ∈ stores_upto W cvt a (nblk_m W a.M) 0 ↔
      ∃ i j, i < nblk_m W a.M ∧ j < nblk_n W a.N ∧ e ∈ blk_stores W cvt a i j := by
  rw [stores_all]
  simp only [List.mem_flatMap, List.mem_range]
  constructor
  · rintro ⟨i, hi, j, hj, h⟩
    exact ⟨i, j, hi, hj, h⟩
  · rintro ⟨i, j, hi, hj, h⟩
    exact ⟨i, hi, j, hj, h⟩

/-- Effects of a call that stores to the output array (bit 1 of the flags clear). -/
theorem kernel_asm_output (W : Nat) (cvt : R → R) (a : KernelArgs R) (hW : 0 < W) (h4 : 4 ∣ W)
    (hf : a.flags < 4) (hP : 0 < a.M ∨ a.flags.testBit 0 = false)
    (hb1 : a.flags.testBit 1 = false) :
    ∃ s', kernel_asm W cvt a = some s' ∧
      s'.c_stores = stores_upto W cvt a (nblk_m W a.M) 0 ∧
      s'.writes = [] ∧ (∀ k, s'.buf k = a.accumulator_buffer k) ∧
      s'.reads = (if a.flags.testBit 0 then
        List.range (nblk_m W a.M * nblk_n W a.N * slot W) else []) := by
  obtain ⟨s', hs, h13, h27, h28, h25, h11, h10, hza, hbuf, hslots, hcs, hrd, hwr⟩ :=
    kernel_asm_spec W cvt a hW h4 hf hP
  refine ⟨s', hs, ?_, ?_, ?_, ?_⟩
  · rw [hcs]; simp [hb1]
  · rw [hwr]; simp [hb1]
  · intro k
    apply hbuf
    intro h
    rw [hb1] at h
    exact absurd h (by decide)
  · rw [hrd]
    simp

/-- Effects of a call that suspends to the accumulator buffer (bit 1 of the flags set). -/
theorem kernel_asm_suspend (W : Nat) (cvt : R → R) (a : KernelArgs R) (hW : 0 < W)
    (h4 : 4 ∣ W) (hf : a.flags < 4) (hP : 0 < a.M ∨ a.flags.testBit 0 = false)
    (hb1 : a.flags.testBit 1 = true) :
    ∃ s', kernel_asm W cvt a = some s' ∧ s'.c_stores = [] ∧
      (∀ i j q r c, i < nblk_m W a.M → j < nblk_n W a.N → q < 4 → r < W → c < W →
        s'.buf ((i * nblk_n W a.N + j) * slot W + slot_off W q r c)
          = acc_final W a i j q r c) ∧
      s'.writes = (List.range (nblk_m W a.M * nblk_n W a.N * slot W)).map
        (fun k => (k, s'.buf k)) ∧
      (∀ k, nblk_m W a.M * nblk_n W a.N * slot W ≤ k → s'.buf k = a.accumulator_buffer k) := by
  obtain ⟨s', hs, h13, h27, h28, h25, h11, h10, hza, hbuf, hslots, hcs, hrd, hwr⟩ :=
    kernel_asm_spec W cvt a hW h4 hf hP
  refine ⟨s', hs, ?_, ?_, ?_, ?_⟩
  · rw [hcs]; simp [hb1]
  · intro i j q r c hi hj hq hr hc
    apply hslots hb1 i j q r c hj _ hq hr hc
    have : i * nblk_n W a.N + nblk_n W a.N ≤ nblk_m W a.M * nblk_n W a.N := by
      have h1 : (i + 1) * nblk_n W a.N ≤ nblk_m W a.M * nblk_n W a.N :=
        Nat.mul_le_mul_right _ hi
      rw [Nat.add_mul, Nat.one_mul] at h1
      exact h1
    omega
  · rw [hwr]; simp [hb1]
  · intro k hk
    apply hbuf
    intro _
    simpa using hk

theorem rect_keys_inj (W M N : Nat) (hW : 0 < W) (x y : Nat × Nat × Nat × Nat)
    (hx : x ∈ rect_keys W M N) (hy : y ∈ rect_keys W M N)
    (h : (x.1 + x.2.2.1, x.2.1 + x.2.2.2) = (y.1 + y.2.2.1, y.2.1 + y.2.2.2)) : x = y := by
  rw [mem_rect_keys] at hx hy
  obtain ⟨i, j, r, l, _, _, hr, hl, rfl⟩ := hx
  obtain ⟨i', j', r', l', _, _, hr', hl', rfl⟩ := hy
  simp only [Prod.mk.injEq] at h ⊢
  obtain ⟨h1, h2⟩ := h
  have e1 : i = i' := by
    have a1 := div_of_blk W i r (by omega)
    have a2 := div_of_blk W i' r' (by omega)
    rw [h1] at a1
    omega
  have e2 : j = j' := by
    have a1 := div_of_blk (4 * W) j l (by omega)
    have a2 := div_of_blk (4 * W) j' l' (by omega)
    rw [h2] at a1
    omega
  subst e1
  subst e2
  omega

/-- C4: with a non-null `C`, for every `M >= 1`, every `N` (so every `N >= 1`) and every vector
length `W` (a positive multiple of four 32-bit lanes), the call terminates and its stores to the
output array write every element `(r, c)`, `r < M`, `c < N`, exactly once: no two stores have
the same row and column, every element is stored at `C + r * ldc + c` by the block with origin
`(W * floor(r / W), 4W * floor(c / 4W))`, and every store is to such an element from inside a
block of `W` rows by `4W` columns. -/
theorem gemm_blocks_write_each_output_once (W : Nat) (hW : 0 < W) (h4 : 4 ∣ W) (cvt : R → R)
    (A B : Nat → R) (base ldc : Int) (M N K : Nat) (bias : Option (Nat → R))
    (act : Activation R) (accumulate : Bool) (buf : Nat → R) (hM : 1 ≤ M) :
    ∃ s', sme2_interleaved_nomerge_fp16fp32fp16_mopa_1VLx4VL W cvt A B (some base) ldc M N K
        bias act accumulate buf = some s' ∧
      (s'.c_stores.map (fun e => (e.x28 + e.row, e.x27 + e.lane))).Nodup ∧
      (∀ r c, r < M → c < N → ∃ e ∈ s'.c_stores,
        e.x28 + e.row = r ∧ e.x27 + e.lane = c ∧ e.addr = base + (r : Int) * ldc + (c : Int) ∧
        e.x28 = W * (r / W) ∧ e.x27 = 4 * W * (c / (4 * W))) ∧
      (∀ e ∈ s'.c_stores, e.x28 + e.row < M ∧ e.x27 + e.lane < N ∧
        e.row < W ∧ e.lane < 4 * W ∧ W ∣ e.x28 ∧ 4 * W ∣ e.x27 ∧
        e.addr = base + ((e.x28 + e.row : Nat) : Int) * ldc + ((e.x27 + e.lane : Nat) : Int)) := by
  obtain ⟨s', hs, hcs, -, -, -⟩ := kernel_asm_output W cvt
    (KernelArgs.init cvt A B (some base) ldc M N K bias act accumulate buf) hW h4
    (init_flags_lt ..) (Or.inl hM) (by rw [init_bit1]; rfl)
  have hkeys := c_stores_keys W cvt
    (KernelArgs.init cvt A B (some base) ldc M N K bias act accumulate buf) hW hM
  rw [← hcs] at hkeys
  change _ = rect_keys W M N at hkeys
  have hmem := mem_stores_all W cvt
    (KernelArgs.init cvt A B (some base) ldc M N K bias act accumulate buf)
  rw [← hcs] at hmem
  have hldc : (KernelArgs.init cvt A B (some base) ldc M N K bias act accumulate buf).ldcb / 2
      = ldc := by
    show ldc * 2 / 2 = ldc
    exact Int.mul_ediv_cancel _ (by norm_num)
  refine ⟨s', hs, ?_, ?_, ?_⟩
  · have : s'.c_stores.map (fun e => (e.x28 + e.row, e.x27 + e.lane))
        = (rect_keys W M N).map (fun k => (k.1 + k.2.2.1, k.2.1 + k.2.2.2)) := by
      rw [← hkeys, List.map_map]
      rfl
    rw [this]
    exact List.Nodup.map_on (fun x hx y hy h => rect_keys_inj W M N hW x y hx hy h)
      (rect_keys_nodup W M N hW)
  · intro r c hr hc
    have h4W : 0 < 4 * W := by omega
    have hi : r / W < nblk_m W M := by
      unfold nblk_m
      exact Nat.lt_succ_of_le (Nat.div_le_div_right (by omega))
    have hj : c / (4 * W) < nblk_n W N := by
      unfold nblk_n
      exact Nat.lt_succ_of_le (Nat.div_le_div_right (by omega))
    have hrm := Nat.div_add_mod r W
    have hcm := Nat.div_add_mod c (4 * W)
    have hr1 := Nat.mod_lt r hW
    have hc1 := Nat.mod_lt c h4W
    refine ⟨_, (hmem _).2 ⟨r / W, c / (4 * W), hi, hj,
      (mem_blk_stores W cvt _ _ _ _).2 ⟨r % W, c % (4 * W), ?_, hc1, ?_, rfl⟩⟩, ?_⟩
    · show r % W < max 1 (min (M - W * (r / W)) W)
      omega
    · show 4 * W * (c / (4 * W)) + c % (4 * W) < N
      omega
    · refine ⟨hrm, hcm, ?_, rfl, rfl⟩
      show _ * _ + _ + _ * _ + _ = _
      rw [hldc]
      show ((W * (r / W) : Nat) : Int) * ldc
          + (base + ((4 * W * (c / (4 * W)) : Nat) : Int)) + ((r % W : Nat) : Int) * ldc
          + ((c % (4 * W) : Nat) : Int) = _
      have e1 : (r : Int) = ((W * (r / W) : Nat) : Int) + ((r % W : Nat) : Int) := by
        exact_mod_cast hrm.symm
      have e2 : (c : Int) = ((4 * W * (c / (4 * W)) : Nat) : Int) + ((c % (4 * W) : Nat) : Int) := by
        exact_mod_cast hcm.symm
      rw [e1, e2]
      ring
  · intro e he
    obtain ⟨i, j, hi, hj, hb⟩ := (hmem e).1 he
    obtain ⟨r, l, hr, hl, hn, rfl⟩ := (mem_blk_stores W cvt _ _ _ _).1 hb
    have hWi := m_lt_of_blk W M i hW hM hi
    have hr' : r < max 1 (min (M - W * i) W) := hr
    refine ⟨?_, hn, ?_, hl, Dvd.intro _ rfl, Dvd.intro _ rfl, ?_⟩
    · show W * i + r < M
      omega
    · show r < W
      omega
    · show _ * _ + _ + _ * _ + _ = _
      rw [hldc]
      show ((W * i : Nat) : Int) * ldc + (base + ((4 * W * j : Nat) : Int)) + (r : Int) * ldc
          + (l : Int) = base + ((W * i + r : Nat) : Int) * ldc + ((4 * W * j + l : Nat) : Int)
      push_cast
      ring

theorem gemm_blocks_write_each_output_once_witness :
    0 < 4 ∧ 4 ∣ 4 ∧ 1 ≤ 5 ∧
    ∃ s', sme2_interleaved_nomerge_fp16fp32fp16_mopa_1VLx4VL 4 id ones ones (some 0) 20 5 18 3
        none no_activation false ones = some s' ∧
      (s'.c_stores.map (fun e => (e.x28 + e.row, e.x27 + e.lane))).Nodup ∧
      (∀ r c, r < 5 → c < 18 → ∃ e ∈ s'.c_stores,
        e.x28 + e.row = r ∧ e.x27 + e.lane = c ∧ e.addr = 0 + (r : Int) * 20 + (c : Int) ∧
        e.x28 = 4 * (r / 4) ∧ e.x27 = 4 * 4 * (c / (4 * 4))) ∧
      (∀ e ∈ s'.c_stores, e.x28 + e.row < 5 ∧ e.x27 + e.lane < 18 ∧
        e.row < 4 ∧ e.lane < 4 * 4 ∧ 4 ∣ e.x28 ∧ 4 * 4 ∣ e.x27 ∧
        e.addr = 0 + ((e.x28 + e.row : Nat) : Int) * 20 + ((e.x27 + e.lane : Nat) : Int)) :=
  ⟨by decide, by decide, by decide,
    gemm_blocks_write_each_output_once 4 (by decide) (by decide) id ones ones 0 20 5 18 3
      none no_activation false ones (by decide)⟩

/-- C5: in a call that stores to the output array (`M >= 1`), the block with origin row
`m = W * i` and column `n = 4W * j` stores exactly the rows `r < min(W, M - m)` and in each
exactly the columns `l < min(4W, N - n)`: the list of (block origin, row, lane) of the store
events is this enumeration over the blocks in visit order, so that no store is issued to a row
index `>= M` or a column index `>= N`. -/
theorem gemm_ragged_block_stores_valid_rows_and_columns (W : Nat) (hW : 0 < W) (h4 : 4 ∣ W)
    (cvt : R → R) (A B : Nat → R) (base ldc : Int) (M N K : Nat) (bias : Option (Nat → R))
    (act : Activation R) (accumulate : Bool) (buf : Nat → R) (hM : 0 < M) :
    ∃ s', sme2_interleaved_nomerge_fp16fp32fp16_mopa_1VLx4VL W cvt A B (some base) ldc M N K
        bias act accumulate buf = some s' ∧
      s'.c_stores.map (fun e => (e.x28, e.x27, e.row, e.lane))
        = (List.range (nblk_m W M)).flatMap (fun i =>
            (List.range (nblk_n W N)).flatMap (fun j =>
              (List.range (min W (M - W * i))).flatMap (fun r =>
                (List.range (min (4 * W) (N - 4 * W * j))).map
                  (fun l => (W * i, 4 * W * j, r, l))))) ∧
      (∀ e ∈ s'.c_stores, e.x28 + e.row < M ∧ e.x27 + e.lane < N) := by
  obtain ⟨s', hs, hcs, -, -, -⟩ := kernel_asm_output W cvt
    (KernelArgs.init cvt A B (some base) ldc M N K bias act accumulate buf) hW h4
    (init_flags_lt ..) (Or.inl hM) (by rw [init_bit1]; rfl)
  have hkeys := c_stores_keys W cvt
    (KernelArgs.init cvt A B (some base) ldc M N K bias act accumulate buf) hW hM
  rw [← hcs] at hkeys
  have hmem := mem_stores_all W cvt
    (KernelArgs.init cvt A B (some base) ldc M N K bias act accumulate buf)
  rw [← hcs] at hmem
  refine ⟨s', hs, hkeys, ?_⟩
  intro e he
  obtain ⟨i, j, hi, hj, hb⟩ := (hmem e).1 he
  obtain ⟨r, l, hr, hl, hn, rfl⟩ := (mem_blk_stores W cvt _ _ _ _).1 hb
  have hWi := m_lt_of_blk W M i hW hM hi
  have hr' : r < max 1 (min (M - W * i) W) := hr
  refine ⟨?_, hn⟩
  show W * i + r < M
  omega

theorem gemm_ragged_block_stores_valid_rows_and_columns_witness :
    0 < 4 ∧ 4 ∣ 4 ∧ 0 < 5 ∧
    (nblk_m 4 5 = 2 ∧ min 4 (5 - 4 * 0) = 4 ∧ min 4 (5 - 4 * 1) = 1) ∧
    ∃ s', sme2_interleaved_nomerge_fp16fp32fp16_mopa_1VLx4VL 4 id ones ones (some 0) 20 5 18 3
        none no_activation false ones = some s' ∧
      s'.c_stores.map (fun e => (e.x28, e.x27, e.row, e.lane))
        = (List.range (nblk_m 4 5)).flatMap (fun i =>
            (List.range (nblk_n 4 18)).flatMap (fun j =>
              (List.range (min 4 (5 - 4 * i))).flatMap (fun r =>
                (List.range (min (4 * 4) (18 - 4 * 4 * j))).map
                  (fun l => (4 * i, 4 * 4 * j, r, l))))) ∧
      (∀ e ∈ s'.c_stores, e.x28 + e.row < 5 ∧ e.x27 + e.lane < 18) :=
  ⟨by decide, by decide, by decide, by decide,
    gemm_ragged_block_stores_valid_rows_and_columns 4 (by decide) (by decide) id ones ones 0 20
      5 18 3 none no_activation false ones (by decide)⟩

theorem blk_stores_congr (W : Nat) (cvt : R → R) (a b : KernelArgs R) (i j : Nat) (hW : 0 < W)
    (hM : a.M = b.M) (hN : a.N = b.N) (hl : a.ldcb = b.ldcb) (hC : a.C = b.C)
    (hmin : a.min = b.min) (hmax : a.max = b.max)
    (h : ∀ q r c, q < 4 → r < W → c < W →
      acc_final W a i j q r c = acc_final W b i j q r c) :
    blk_stores W cvt a i j = blk_stores W cvt b i j := by
  unfold blk_stores row_stores
  rw [hM, hN, hl, hC, hmin, hmax]
  apply List.flatMap_congr
  intro r hr
  rw [List.mem_range] at hr
  apply List.map_congr_left
  intro l hl
  rw [List.mem_filter, List.mem_range] at hl
  have hq : l / W < 4 := by
    rw [Nat.div_lt_iff_lt_mul hW]
    omega
  rw [h (l / W) r (l % W) hq (by omega) (Nat.mod_lt _ hW)]

theorem stores_all_congr (W : Nat) (cvt : R → R) (a b : KernelArgs R) (hW : 0 < W)
    (hM : a.M = b.M) (hN : a.N = b.N) (hl : a.ldcb = b.ldcb) (hC : a.C = b.C)
    (hmin : a.min = b.min) (hmax : a.max = b.max)
    (h : ∀ i j q r c, i < nblk_m W a.M → j < nblk_n W a.N → q < 4 → r < W → c < W →
      acc_final W a i j q r c = acc_final W b i j q r c) :
    stores_upto W cvt a (nblk_m W a.M) 0 = stores_upto W cvt b (nblk_m W b.M) 0 := by
  rw [stores_all, stores_all, ← hM, ← hN]
  apply List.flatMap_congr
  intro i hi
  rw [List.mem_range] at hi
  apply List.flatMap_congr
  intro j hj
  rw [List.mem_range] at hj
  exact blk_stores_congr W cvt a b i j hW hM hN hl hC hmin hmax
    (fun q r c hq hr hc => h i j q r c hi hj hq hr hc)

theorem init_kstride (cvt : R → R) (A B : Nat → R) (C : Option Int) (ldc : Int) (M N K : Nat)
    (bias : Option (Nat → R)) (act : Activation R) (accumulate : Bool) (buf : Nat → R) :
    (KernelArgs.init cvt A B C ldc M N K bias act accumulate buf).kstride_bytes / 2
      = roundup K 2 := by
  show roundup K 2 * 2 / 2 = roundup K 2
  exact Nat.mul_div_cancel _ (by norm_num)

theorem acc_final_fresh (W : Nat) (a : KernelArgs R) (i j q r c : Nat)
    (h : a.flags.testBit 0 = false) :
    acc_final W a i j q r c
      = bias_val W a (4 * W * j) q c
        + dot W a (i * (ksteps a.K * (2 * W))) (4 * W * j * (a.kstride_bytes / 2))
            (ksteps a.K) q r c := by
  simp [acc_final, acc_init, h]

/-- C9: with both flags unset (`accumulate = false`, `C` non-null) the call is self-contained
for every `M`, `N` and `K`: it terminates, reads no float of the accumulator buffer, writes none
and leaves the buffer as it was; its stores to `C` are the same for every content of the
buffer; and every stored value is the clamp of the conversion of the accumulator that the call
itself initialised (bias or zero) and reduced over the whole of `K`, every element of the
output being stored so. -/
theorem gemm_unset_flags_call_is_self_contained (W : Nat) (hW : 0 < W) (h4 : 4 ∣ W)
    (cvt : R → R) (A B : Nat → R) (base ldc : Int) (M N K : Nat) (bias : Option (Nat → R))
    (act : Activation R) (buf : Nat → R) :
    ∃ s', sme2_interleaved_nomerge_fp16fp32fp16_mopa_1VLx4VL W cvt A B (some base) ldc M N K
        bias act false buf = some s' ∧
      s'.reads = [] ∧ s'.writes = [] ∧ (∀ k, s'.buf k = buf k) ∧
      (∀ buf2, ∃ s2, sme2_interleaved_nomerge_fp16fp32fp16_mopa_1VLx4VL W cvt A B (some base)
          ldc M N K bias act false buf2 = some s2 ∧ s2.c_stores = s'.c_stores) ∧
      (∀ e ∈ s'.c_stores, ∃ i j, e.x28 = W * i ∧ e.x27 = 4 * W * j ∧
        e.val = fclamp_h (cvt
            (bias_val W (KernelArgs.init cvt A B (some base) ldc M N K bias act false buf)
                (4 * W * j) (e.lane / W) (e.lane % W)
              + dot W (KernelArgs.init cvt A B (some base) ldc M N K bias act false buf)
                  (i * (ksteps K * (2 * W))) (4 * W * j * roundup K 2) (ksteps K)
                  (e.lane / W) e.row (e.lane % W)))
          (KernelArgs.init cvt A B (some base) ldc M N K bias act false buf).min
          (KernelArgs.init cvt A B (some base) ldc M N K bias act false buf).max) ∧
      (∀ r c, r < M → c < N → ∃ e ∈ s'.c_stores, e.x28 + e.row = r ∧ e.x27 + e.lane = c) := by
  have hb0 : ∀ b : Nat → R,
      (KernelArgs.init cvt A B (some base) ldc M N K bias act false b).flags.testBit 0
        = false := fun b => init_bit0 ..
  have hb1 : ∀ b : Nat → R,
      (KernelArgs.init cvt A B (some base) ldc M N K bias act false b).flags.testBit 1
        = false := fun b => by rw [init_bit1]; rfl
  obtain ⟨s', hs, hcs, hwr, hbuf, hrd⟩ := kernel_asm_output W cvt
    (KernelArgs.init cvt A B (some base) ldc M N K bias act false buf) hW h4
    (init_flags_lt ..) (Or.inr (hb0 buf)) (hb1 buf)
  have hmem := mem_stores_all W cvt
    (KernelArgs.init cvt A B (some base) ldc M N K bias act false buf)
  rw [← hcs] at hmem
  refine ⟨s', hs, ?_, hwr, hbuf, ?_, ?_, ?_⟩
  · rw [hrd, hb0 buf]
    rfl
  · intro buf2
    obtain ⟨s2, hs2, hcs2, -, -, -⟩ := kernel_asm_output W cvt
      (KernelArgs.init cvt A B (some base) ldc M N K bias act false buf2) hW h4
      (init_flags_lt ..) (Or.inr (hb0 buf2)) (hb1 buf2)
    refine ⟨s2, hs2, ?_⟩
    rw [hcs2, hcs]
    refine stores_all_congr W cvt
      (KernelArgs.init cvt A B (some base) ldc M N K bias act false buf2)
      (KernelArgs.init cvt A B (some base) ldc M N K bias act false buf) hW rfl rfl rfl rfl
      rfl rfl ?_
    intro i j q r c _ _ _ _ _
    rw [acc_final_fresh W _ i j q r c (hb0 buf2), acc_final_fresh W _ i j q r c (hb0 buf)]
    rfl
  · intro e he
    obtain ⟨i, j, hi, hj, hb⟩ := (hmem e).1 he
    obtain ⟨r, l, hr, hl, hn, rfl⟩ := (mem_blk_stores W cvt _ _ _ _).1 hb
    refine ⟨i, j, rfl, rfl, ?_⟩
    show fclamp_h (cvt (acc_final W _ i j (l / W) r (l % W))) _ _ = _
    rw [acc_final_fresh W _ i j _ r _ (hb0 buf), init_kstride]
    rfl
  · intro r c hr hc
    have h4W : 0 < 4 * W := by omega
    have hi : r / W < nblk_m W M := by
      unfold nblk_m
      exact Nat.lt_succ_of_le (Nat.div_le_div_right (by omega))
    have hj : c / (4 * W) < nblk_n W N := by
      unfold nblk_n
      exact Nat.lt_succ_of_le (Nat.div_le_div_right (by omega))
    have hrm := Nat.div_add_mod r W
    have hcm := Nat.div_add_mod c (4 * W)
    have hr1 := Nat.mod_lt r hW
    have hc1 := Nat.mod_lt c h4W
    refine ⟨_, (hmem _).2 ⟨r / W, c / (4 * W), hi, hj,
      (mem_blk_stores W cvt _ _ _ _).2 ⟨r % W, c % (4 * W), ?_, hc1, ?_, rfl⟩⟩, hrm, hcm⟩
    · show r % W < max 1 (min (M - W * (r / W)) W)
      omega
    · show 4 * W * (c / (4 * W)) + c % (4 * W) < N
      omega

theorem gemm_unset_flags_call_is_self_contained_witness :
    0 < 4 ∧ 4 ∣ 4 ∧
    ∃ s', sme2_interleaved_nomerge_fp16fp32fp16_mopa_1VLx4VL 4 id ones ones (some 0) 20 5 18 3
        none no_activation false ones = some s' ∧
      s'.reads = [] ∧ s'.writes = [] ∧ (∀ k, s'.buf k = ones k) ∧
      (∀ buf2, ∃ s2, sme2_interleaved_nomerge_fp16fp32fp16_mopa_1VLx4VL 4 id ones ones (some 0)
          20 5 18 3 none no_activation false buf2 = some s2 ∧ s2.c_stores = s'.c_stores) ∧
      (∀ e ∈ s'.c_stores, ∃ i j, e.x28 = 4 * i ∧ e.x27 = 4 * 4 * j ∧
        e.val = fclamp_h (id
            (bias_val 4 (KernelArgs.init id ones ones (some 0) 20 5 18 3 none no_activation
                  false ones)
                (4 * 4 * j) (e.lane / 4) (e.lane % 4)
              + dot 4 (KernelArgs.init id ones ones (some 0) 20 5 18 3 none no_activation
                    false ones)
                  (i * (ksteps 3 * (2 * 4))) (4 * 4 * j * roundup 3 2) (ksteps 3)
                  (e.lane / 4) e.row (e.lane % 4)))
          (KernelArgs.init id ones ones (some 0) 20 5 18 3 none no_activation false ones).min
          (KernelArgs.init id ones ones (some 0) 20 5 18 3 none no_activation false ones).max) ∧
      (∀ r c, r < 5 → c < 18 → ∃ e ∈ s'.c_stores, e.x28 + e.row = r ∧ e.x27 + e.lane = c) :=
  ⟨by decide, by decide,
    gemm_unset_flags_call_is_self_contained 4 (by decide) (by decide) id ones ones 0 20 5 18 3
      none no_activation ones⟩

/-- C7: when the suspend flag is set (`C == nullptr`) the call terminates without a store through
`C`, and for every block the accumulator buffer receives the partial sums unchanged: the float
of element `(r, c)` of tile `q` in the slot of the block is the initial accumulator (buffer value
or bias) plus the reduction, with no conversion `cvt` and no clamp; the value written is the
same for every activation. -/
theorem gemm_suspend_writes_partial_sums_unchanged (W : Nat) (hW : 0 < W) (h4 : 4 ∣ W)
    (cvt : R → R) (A B : Nat → R) (ldc : Int) (M N K : Nat) (bias : Option (Nat → R))
    (act : Activation R) (accumulate : Bool) (buf : Nat → R)
    (hP : 0 < M ∨ accumulate = false) :
    ∃ s', sme2_interleaved_nomerge_fp16fp32fp16_mopa_1VLx4VL W cvt A B none ldc M N K
        bias act accumulate buf = some s' ∧
      s'.c_stores = [] ∧
      s'.writes = (List.range (nblk_m W M * nblk_n W N * slot W)).map (fun k => (k, s'.buf k)) ∧
      (∀ i j q r c, i < nblk_m W M → j < nblk_n W N → q < 4 → r < W → c < W →
        s'.buf ((i * nblk_n W N + j) * slot W + slot_off W q r c)
          = (if accumulate then buf ((i * nblk_n W N + j) * slot W + slot_off W q r c)
             else bias_val W (KernelArgs.init cvt A B none ldc M N K bias act accumulate buf)
                    (4 * W * j) q c)
            + dot W (KernelArgs.init cvt A B none ldc M N K bias act accumulate buf)
                (i * (ksteps K * (2 * W))) (4 * W * j * roundup K 2) (ksteps K) q r c) ∧
      (∀ act2, ∃ s2, sme2_interleaved_nomerge_fp16fp32fp16_mopa_1VLx4VL W cvt A B none ldc
          M N K bias act2 accumulate buf = some s2 ∧ s2.c_stores = [] ∧
        ∀ i j q r c, i < nblk_m W M → j < nblk_n W N → q < 4 → r < W → c < W →
          s2.buf ((i * nblk_n W N + j) * slot W + slot_off W q r c)
            = s'.buf ((i * nblk_n W N + j) * slot W + slot_off W q r c)) := by
  have hb0 : ∀ t : Activation R,
      (KernelArgs.init cvt A B none ldc M N K bias t accumulate buf).flags.testBit 0
        = accumulate := fun t => init_bit0 ..
  have hb1 : ∀ t : Activation R,
      (KernelArgs.init cvt A B none ldc M N K bias t accumulate buf).flags.testBit 1
        = true := fun t => by rw [init_bit1]; rfl
  have hP' : ∀ t : Activation R,
      0 < (KernelArgs.init cvt A B none ldc M N K bias t accumulate buf).M ∨
      (KernelArgs.init cvt A B none ldc M N K bias t accumulate buf).flags.testBit 0
        = false := by
    intro t
    rcases hP with h | h
    · exact Or.inl h
    · right; rw [hb0 t]; exact h
  have hval : ∀ (t : Activation R) (i j q r c : Nat),
      acc_final W (KernelArgs.init cvt A B none ldc M N K bias t accumulate buf) i j q r c
        = (if accumulate then buf ((i * nblk_n W N + j) * slot W + slot_off W q r c)
           else bias_val W (KernelArgs.init cvt A B none ldc M N K bias act accumulate buf)
                  (4 * W * j) q c)
          + dot W (KernelArgs.init cvt A B none ldc M N K bias act accumulate buf)
              (i * (ksteps K * (2 * W))) (4 * W * j * roundup K 2) (ksteps K) q r c := by
    intro t i j q r c
    unfold acc_final acc_init
    rw [hb0 t, init_kstride]
    rfl
  obtain ⟨s', hs, hcs, hslots, hwr, -⟩ := kernel_asm_suspend W cvt
    (KernelArgs.init cvt A B none ldc M N K bias act accumulate buf) hW h4
    (init_flags_lt ..) (hP' act) (hb1 act)
  refine ⟨s', hs, hcs, hwr, ?_, ?_⟩
  · intro i j q r c hi hj hq hr hc
    rw [← hval act i j q r c]
    exact hslots i j q r c hi hj hq hr hc
  · intro act2
    obtain ⟨s2, hs2, hcs2, hslots2, -, -⟩ := kernel_asm_suspend W cvt
      (KernelArgs.init cvt A B none ldc M N K bias act2 accumulate buf) hW h4
      (init_flags_lt ..) (hP' act2) (hb1 act2)
    refine ⟨s2, hs2, hcs2, ?_⟩
    intro i j q r c hi hj hq hr hc
    have e1 := hslots i j q r c hi hj hq hr hc
    have e2 := hslots2 i j q r c hi hj hq hr hc
    rw [hval act2 i j q r c] at e2
    rw [hval act i j q r c] at e1
    exact e2.trans e1.symm

theorem gemm_suspend_writes_partial_sums_unchanged_witness :
    0 < 4 ∧ 4 ∣ 4 ∧ (0 < 5 ∨ true = false) ∧
    ∃ s', sme2_interleaved_nomerge_fp16fp32fp16_mopa_1VLx4VL 4 id ones ones none 20 5 18 3
        none bounded_relu true ones = some s' ∧
      s'.c_stores = [] ∧
      s'.writes = (List.range (nblk_m 4 5 * nblk_n 4 18 * slot 4)).map (fun k => (k, s'.buf k)) ∧
      (∀ i j q r c, i < nblk_m 4 5 → j < nblk_n 4 18 → q < 4 → r < 4 → c < 4 →
        s'.buf ((i * nblk_n 4 18 + j) * slot 4 + slot_off 4 q r c)
          = (if true = true then ones ((i * nblk_n 4 18 + j) * slot 4 + slot_off 4 q r c)
             else bias_val 4 (KernelArgs.init id ones ones none 20 5 18 3 none bounded_relu
                    true ones)
                    (4 * 4 * j) q c)
            + dot 4 (KernelArgs.init id ones ones none 20 5 18 3 none bounded_relu true ones)
                (i * (ksteps 3 * (2 * 4))) (4 * 4 * j * roundup 3 2) (ksteps 3) q r c) ∧
      (∀ act2, ∃ s2, sme2_interleaved_nomerge_fp16fp32fp16_mopa_1VLx4VL 4 id ones ones none 20
          5 18 3 none act2 true ones = some s2 ∧ s2.c_stores = [] ∧
        ∀ i j q r c, i < nblk_m 4 5 → j < nblk_n 4 18 → q < 4 → r < 4 → c < 4 →
          s2.buf ((i * nblk_n 4 18 + j) * slot 4 + slot_off 4 q r c)
            = s'.buf ((i * nblk_n 4 18 + j) * slot 4 + slot_off 4 q r c)) :=
  ⟨by decide, by decide, Or.inl (by decide),
    gemm_suspend_writes_partial_sums_unchanged 4 (by decide) (by decide) id ones ones 20 5 18 3
      none bounded_relu true ones (Or.inl (by decide))⟩

theorem block_entry_inv (W : Nat) (cvt : R → R) (a : KernelArgs R) (hW : 0 < W) (h4 : 4 ∣ W)
    (hf : a.flags < 4) (hP : 0 < a.M ∨ a.flags.testBit 0 = false) :
    ∀ t i j, i < nblk_m W a.M → j < nblk_n W a.N → t = i * nblk_n W a.N + j →
      Inv W cvt a i j (block_entry W cvt a t) := by
  intro t
  induction t with
  | zero =>
    intro i j hi hj ht
    have hi0 : i = 0 := by
      rcases Nat.eq_zero_or_pos i with h | h
      · exact h
      · have : nblk_n W a.N ≤ i * nblk_n W a.N := Nat.le_mul_of_pos_left _ h
        omega
    subst hi0
    have hj0 : j = 0 := by omega
    subst hj0
    exact inv_initial W cvt a hW h4
  | succ t ih =>
    intro i j hi hj ht
    rcases Nat.eq_zero_or_pos j with hj0 | hjp
    · subst hj0
      have hip : 0 < i := by
        rcases Nat.eq_zero_or_pos i with h | h
        · subst h; omega
        · exact h
      obtain ⟨i', rfl⟩ : ∃ i', i = i' + 1 := ⟨i - 1, by omega⟩
      have hmul : (i' + 1) * nblk_n W a.N = i' * nblk_n W a.N + nblk_n W a.N := by ring
      have hprev := ih i' (nblk_n W a.N - 1) (by omega) (by omega) (by omega)
      obtain ⟨-, hn⟩ := block_step W cvt a hW h4 hf hP i' (nblk_n W a.N - 1) (by omega)
        (by omega) _ hprev
      have hlast : ¬ (nblk_n W a.N - 1 + 1 < nblk_n W a.N) := by omega
      simp only [hlast, if_false] at hn
      exact hn
    · obtain ⟨j', rfl⟩ : ∃ j', j = j' + 1 := ⟨j - 1, by omega⟩
      have hprev := ih i j' hi (by omega) (by omega)
      obtain ⟨-, hn⟩ := block_step W cvt a hW h4 hf hP i j' hi (by omega) _ hprev
      simp only [hj, if_true] at hn
      exact hn

theorem mn_loop_trace (W : Nat) (cvt : R → R) (a : KernelArgs R) (hW : 0 < W) (h4 : 4 ∣ W)
    (hf : a.flags < 4) (hP : 0 < a.M ∨ a.flags.testBit 0 = false) :
    ∀ fuel t i j, i < nblk_m W a.M → j < nblk_n W a.N → t = i * nblk_n W a.N + j →
      nblk_m W a.M * nblk_n W a.N - t ≤ fuel →
      mn_loop W cvt a fuel (block_entry W cvt a t)
        = some (block_entry W cvt a (nblk_m W a.M * nblk_n W a.N)) := by
  intro fuel
  induction fuel with
  | zero =>
    intro t i j hi hj ht hfuel
    have h1 : (i + 1) * nblk_n W a.N ≤ nblk_m W a.M * nblk_n W a.N :=
      Nat.mul_le_mul_right _ hi
    have hmul : (i + 1) * nblk_n W a.N = i * nblk_n W a.N + nblk_n W a.N := by ring
    omega
  | succ f ih =>
    intro t i j hi hj ht hfuel
    have hinv := block_entry_inv W cvt a hW h4 hf hP t i j hi hj ht
    obtain ⟨hc, -⟩ := block_step W cvt a hW h4 hf hP i j hi hj _ hinv
    have h1 : (i + 1) * nblk_n W a.N ≤ nblk_m W a.M * nblk_n W a.N :=
      Nat.mul_le_mul_right _ hi
    have hmul : (i + 1) * nblk_n W a.N = i * nblk_n W a.N + nblk_n W a.N := by ring
    rw [mn_loop]
    simp only [hc, decide_eq_true_eq]
    show (if _ then mn_loop W cvt a f (block_entry W cvt a (t + 1))
      else some (block_entry W cvt a (t + 1))) = _
    by_cases hj1 : j + 1 < nblk_n W a.N
    · simp only [hj1, if_true, hi]
      exact ih (t + 1) i (j + 1) hi hj1 (by omega) (by omega)
    · simp only [hj1, if_false]
      by_cases hi1 : i + 1 < nblk_m W a.M
      · simp only [hi1, if_true]
        exact ih (t + 1) (i + 1) 0 hi1 (by omega) (by omega) (by omega)
      · simp only [hi1, if_false]
        have e : i + 1 = nblk_m W a.M := by omega
        rw [← e]
        have : t + 1 = (i + 1) * nblk_n W a.N := by omega
        rw [this]

theorem kernel_asm_trace (W : Nat) (cvt : R → R) (a : KernelArgs R) (hW : 0 < W) (h4 : 4 ∣ W)
    (hf : a.flags < 4) (hP : 0 < a.M ∨ a.flags.testBit 0 = false) :
    kernel_asm W cvt a = some (block_entry W cvt a (nblk_m W a.M * nblk_n W a.N)) := by
  have h1 := nblk_m_le W a.M
  have h2 := nblk_n_le W a.N
  have h3 : nblk_m W a.M * nblk_n W a.N ≤ (a.M + 1) * (a.N + 1) := Nat.mul_le_mul h1 h2
  exact mn_loop_trace W cvt a hW h4 hf hP _ 0 0 0 (nblk_m_pos W a.M) (nblk_n_pos W a.N)
    (by simp) (by omega)

/-- C6: the call runs `nblk_m * nblk_n` passes of the block loop, and in pass
`i * nblk_n + j`, the block of origin row `W * i` and column `n = 4W * j`, the accumulator of
element `(r, c)` of tile `q` (block column `q * W + c`) before the first reduction step is: the
float of the block's slot of the accumulator buffer when `accumulate` is set, whatever the bias;
otherwise `bias[n + q * W + c]`, the same for every row `r`, for a non-null bias and a column
below `N`, and zero for a column at or beyond `N`; otherwise zero. -/
theorem gemm_accumulator_initialisation (W : Nat) (hW : 0 < W) (h4 : 4 ∣ W) (cvt : R → R)
    (A B : Nat → R) (C : Option Int) (ldc : Int) (M N K : Nat) (bias : Option (Nat → R))
    (act : Activation R) (accumulate : Bool) (buf : Nat → R)
    (hP : 0 < M ∨ accumulate = false) :
    sme2_interleaved_nomerge_fp16fp32fp16_mopa_1VLx4VL W cvt A B C ldc M N K bias act
        accumulate buf
      = some (block_entry W cvt
          (KernelArgs.init cvt A B C ldc M N K bias act accumulate buf)
          (nblk_m W M * nblk_n W N)) ∧
    ∀ i j q r c, i < nblk_m W M → j < nblk_n W N → q < 4 → r < W → c < W →
      (block_entry W cvt (KernelArgs.init cvt A B C ldc M N K bias act accumulate buf)
          (i * nblk_n W N + j)).x28 = W * i ∧
      (block_entry W cvt (KernelArgs.init cvt A B C ldc M N K bias act accumulate buf)
          (i * nblk_n W N + j)).x27 = 4 * W * j ∧
      (prepare_accumulators W (KernelArgs.init cvt A B C ldc M N K bias act accumulate buf)
          (block_entry W cvt (KernelArgs.init cvt A B C ldc M N K bias act accumulate buf)
            (i * nblk_n W N + j))).za q r c
        = (if accumulate then buf ((i * nblk_n W N + j) * slot W + slot_off W q r c)
           else match bias with
             | none => 0
             | some b =>
               if 4 * W * j + (q * W + c) < N then b (4 * W * j + (q * W + c)) else 0) := by
  have hf := init_flags_lt cvt A B C ldc M N K bias act accumulate buf
  have hb0 := init_bit0 cvt A B C ldc M N K bias act accumulate buf
  have hP' : 0 < (KernelArgs.init cvt A B C ldc M N K bias act accumulate buf).M ∨
      (KernelArgs.init cvt A B C ldc M N K bias act accumulate buf).flags.testBit 0
        = false := by
    rcases hP with h | h
    · exact Or.inl h
    · right; rw [hb0]; exact h
  refine ⟨kernel_asm_trace W cvt _ hW h4 hf hP', ?_⟩
  intro i j q r c hi hj hq hr hc
  obtain ⟨h13, h27, h28, -, -, -, hza, -⟩ := block_entry_inv W cvt
    (KernelArgs.init cvt A B C ldc M N K bias act accumulate buf) hW h4 hf hP'
    (i * nblk_n W N + j) i j hi hj rfl
  have hi' : i < nblk_m W (KernelArgs.init cvt A B C ldc M N K bias act accumulate buf).M := hi
  simp only [hi', if_true] at h13
  refine ⟨h28, h27, ?_⟩
  rw [prepare_accumulators_spec W _ _ (by rw [h13]; exact hf)]
  simp only [h13, hb0]
  cases accumulate with
  | true =>
    simp only [if_true]
    exact hza hb0 hi q r c hq hr
  | false =>
    simp only [Bool.false_eq_true, if_false, hq, if_true, h27]
    rfl

theorem gemm_accumulator_initialisation_witness :
    0 < 4 ∧ 4 ∣ 4 ∧ (0 < 5 ∨ true = false) ∧
    sme2_interleaved_nomerge_fp16fp32fp16_mopa_1VLx4VL 4 id ones ones (some 0) 20 5 18 3
        (some ones) no_activation true ones
      = some (block_entry 4 id
          (KernelArgs.init id ones ones (some 0) 20 5 18 3 (some ones) no_activation true ones)
          (nblk_m 4 5 * nblk_n 4 18)) ∧
    ∀ i j q r c, i < nblk_m 4 5 → j < nblk_n 4 18 → q < 4 → r < 4 → c < 4 →
      (block_entry 4 id
          (KernelArgs.init id ones ones (some 0) 20 5 18 3 (some ones) no_activation true ones)
          (i * nblk_n 4 18 + j)).x28 = 4 * i ∧
      (block_entry 4 id
          (KernelArgs.init id ones ones (some 0) 20 5 18 3 (some ones) no_activation true ones)
          (i * nblk_n 4 18 + j)).x27 = 4 * 4 * j ∧
      (prepare_accumulators 4
          (KernelArgs.init id ones ones (some 0) 20 5 18 3 (some ones) no_activation true ones)
          (block_entry 4 id
            (KernelArgs.init id ones ones (some 0) 20 5 18 3 (some ones) no_activation true
              ones)
            (i * nblk_n 4 18 + j))).za q r c
        = (if true = true then ones ((i * nblk_n 4 18 + j) * slot 4 + slot_off 4 q r c)
           else match some ones with
             | none => 0
             | some b =>
               if 4 * 4 * j + (q * 4 + c) < 18 then b (4 * 4 * j + (q * 4 + c)) else 0) :=
  ⟨by decide, by decide, Or.inl (by decide),
    gemm_accumulator_initialisation 4 (by decide) (by decide) id ones ones (some 0) 20 5 18 3
      (some ones) no_activation true ones (Or.inl (by decide))⟩

theorem sum_pairs (m : Nat) (f : Nat → R) :
    ∑ s in Finset.range m, (f (2 * s) + f (2 * s + 1)) = ∑ x in Finset.range (2 * m), f x := by
  induction m with
  | zero => simp
  | succ m ih =>
    rw [Finset.sum_range_succ, ih, show 2 * (m + 1) = 2 * m + 1 + 1 by ring,
      Finset.sum_range_succ, Finset.sum_range_succ]
    ring

theorem sum_pairs_padded (n : Nat) (f : Nat → R) :
    ∑ s in Finset.range (ksteps n),
        ((if 2 * s < n then f (2 * s) else 0) + (if 2 * s + 1 < n then f (2 * s + 1) else 0))
      = ∑ x in Finset.range n, f x := by
  rcases Nat.even_or_odd' n with ⟨m, rfl | rfl⟩
  · have hk : ksteps (2 * m) = m := by unfold ksteps; omega
    rw [hk, ← sum_pairs]
    apply Finset.sum_congr rfl
    intro s hs
    rw [Finset.mem_range] at hs
    rw [if_pos (by omega), if_pos (by omega)]
  · have hk : ksteps (2 * m + 1) = m + 1 := by unfold ksteps; omega
    rw [hk, Finset.sum_range_succ, Finset.sum_range_succ, ← sum_pairs]
    rw [if_pos (by omega), if_neg (by omega), add_zero]
    congr 1
    apply Finset.sum_congr rfl
    intro s hs
    rw [Finset.mem_range] at hs
    rw [if_pos (by omega), if_pos (by omega)]

theorem dot_panel (W K k0 : Nat) (a : KernelArgs R) (ma mb : Nat → Nat → R)
    (hA : a_panel_holds W K k0 ma a.A) (hB : b_panel_holds W K k0 mb a.B)
    (i j q r c : Nat) (hq : q < 4) (hr : r < W) (hc : c < W) :
    dot W a (i * (ksteps K * (2 * W))) (4 * W * j * roundup K 2) (ksteps K) q r c
      = ∑ x in Finset.range K, ma (i * W + r) (k0 + x) * mb (k0 + x) (4 * W * j + (q * W + c)) := by
  rw [← sum_pairs_padded K (fun x => ma (i * W + r) (k0 + x) * mb (k0 + x) (4 * W * j + (q * W + c)))]
  unfold dot
  apply Finset.sum_congr rfl
  intro s hs
  rw [Finset.mem_range] at hs
  have a0 := hA i s r 0 hs hr (by norm_num)
  have a1 := hA i s r 1 hs hr (by norm_num)
  have b0 := hB j s q c 0 hs hq hc (by norm_num)
  have b1 := hB j s q c 1 hs hq hc (by norm_num)
  simp only [Nat.add_zero] at a0 b0
  rw [a0, a1, b0, b1]
  by_cases h0 : 2 * s < K <;> by_cases h1 : 2 * s + 1 < K <;> simp [h0, h1]

theorem acc_final_panel (W : Nat) (a : KernelArgs R) (k0 : Nat) (ma mb : Nat → Nat → R)
    (hA : a_panel_holds W a.K k0 ma a.A) (hB : b_panel_holds W a.K k0 mb a.B)
    (hs : a.kstride_bytes / 2 = roundup a.K 2)
    (i j q r c : Nat) (hq : q < 4) (hr : r < W) (hc : c < W) :
    acc_final W a i j q r c
      = acc_init W a i j q r c
        + ∑ x in Finset.range a.K,
            ma (i * W + r) (k0 + x) * mb (k0 + x) (4 * W * j + (q * W + c)) := by
  unfold acc_final
  rw [hs, dot_panel W a.K k0 a ma mb hA hB i j q r c hq hr hc]

/-- C3: with exact arithmetic, for every reduction length `K` and every split point `k <= K`
(in particular `0 < k < K`): a call with `C = nullptr` and `accumulate = false` over the first `k`
elements of the reduction axis, followed by a call with `accumulate = true` and a non-null `C`
over the remaining `K - k` elements on the accumulator buffer the first call leaves, issues
exactly the stores to `C` (addresses and values) of a single call with `accumulate = false` over
all `K` elements, for the same matrices, bias and activation.  The panels hold the matrices
`ma` and `mb` in the order the kernel reads them. -/
theorem gemm_split_reduction_equals_single_call (W : Nat) (hW : 0 < W) (h4 : 4 ∣ W)
    (cvt : R → R) (ma mb : Nat → Nat → R) (A1 B1 A2 B2 A B : Nat → R) (base ldc : Int)
    (M N K k : Nat) (bias : Option (Nat → R)) (act : Activation R) (buf0 buf : Nat → R)
    (hk : k ≤ K) (hM : 0 < M)
    (hA1 : a_panel_holds W k 0 ma A1) (hB1 : b_panel_holds W k 0 mb B1)
    (hA2 : a_panel_holds W (K - k) k ma A2) (hB2 : b_panel_holds W (K - k) k mb B2)
    (hA : a_panel_holds W K 0 ma A) (hB : b_panel_holds W K 0 mb B) :
    ∃ s1 s2 s,
      sme2_interleaved_nomerge_fp16fp32fp16_mopa_1VLx4VL W cvt A1 B1 none ldc M N k bias act
        false buf0 = some s1 ∧
      sme2_interleaved_nomerge_fp16fp32fp16_mopa_1VLx4VL W cvt A2 B2 (some base) ldc M N
        (K - k) bias act true s1.buf = some s2 ∧
      sme2_interleaved_nomerge_fp16fp32fp16_mopa_1VLx4VL W cvt A B (some base) ldc M N K bias
        act false buf = some s ∧
      s1.c_stores = [] ∧ s2.c_stores = s.c_stores := by
  obtain ⟨s1, hs1, hcs1, hslots, -, -⟩ := kernel_asm_suspend W cvt
    (KernelArgs.init cvt A1 B1 none ldc M N k bias act false buf0) hW h4
    (init_flags_lt ..) (Or.inr (init_bit0 ..)) (by rw [init_bit1]; rfl)
  obtain ⟨s2, hs2, hcs2, -, -, -⟩ := kernel_asm_output W cvt
    (KernelArgs.init cvt A2 B2 (some base) ldc M N (K - k) bias act true s1.buf) hW h4
    (init_flags_lt ..) (Or.inl hM) (by rw [init_bit1]; rfl)
  obtain ⟨s, hs, hcs, -, -, -⟩ := kernel_asm_output W cvt
    (KernelArgs.init cvt A B (some base) ldc M N K bias act false buf) hW h4
    (init_flags_lt ..) (Or.inr (init_bit0 ..)) (by rw [init_bit1]; rfl)
  refine ⟨s1, s2, s, hs1, hs2, hs, hcs1, ?_⟩
  rw [hcs2, hcs]
  refine stores_all_congr W cvt
    (KernelArgs.init cvt A2 B2 (some base) ldc M N (K - k) bias act true s1.buf)
    (KernelArgs.init cvt A B (some base) ldc M N K bias act false buf) hW rfl rfl rfl rfl
    rfl rfl ?_
  intro i j q r c hi hj hq hr hc
  have e1 := hslots i j q r c hi hj hq hr hc
  rw [acc_final_panel W _ 0 ma mb hA1 hB1 (init_kstride ..) i j q r c hq hr hc] at e1
  rw [acc_final_panel W _ k ma mb hA2 hB2 (init_kstride ..) i j q r c hq hr hc,
    acc_final_panel W _ 0 ma mb hA hB (init_kstride ..) i j q r c hq hr hc]
  have i2 : acc_init W
      (KernelArgs.init cvt A2 B2 (some base) ldc M N (K - k) bias act true s1.buf) i j q r c
      = s1.buf ((i * nblk_n W N + j) * slot W + slot_off W q r c) := by
    unfold acc_init
    rw [init_bit0]
    rfl
  have i1 : acc_init W (KernelArgs.init cvt A1 B1 none ldc M N k bias act false buf0) i j q r c
      = bias_val W (KernelArgs.init cvt A B (some base) ldc M N K bias act false buf)
          (4 * W * j) q c := by
    unfold acc_init
    rw [init_bit0]
    rfl
  have i0 : acc_init W (KernelArgs.init cvt A B (some base) ldc M N K bias act false buf)
        i j q r c
      = bias_val W (KernelArgs.init cvt A B (some base) ldc M N K bias act false buf)
          (4 * W * j) q c := by
    unfold acc_init
    rw [init_bit0]
    rfl
  rw [i2, i0]
  rw [i1] at e1
  have e1' : s1.buf ((i * nblk_n W N + j) * slot W + slot_off W q r c) = _ := e1
  rw [e1']
  have hK : (KernelArgs.init cvt A B (some base) ldc M N K bias act false buf).K
      = k + (K - k) := by
    show K = k + (K - k)
    omega
  rw [hK, Finset.sum_range_add]
  simp only [Nat.zero_add]
  show _ + ∑ x in Finset.range k, _ + ∑ x in Finset.range (K - k), _ = _
  ring

theorem ones_a_panel (W K k0 : Nat) (hK : K % 2 = 0) :
    a_panel_holds W K k0 ones_matrix ones := by
  intro ib s r e hs _ he
  unfold ksteps at hs
  have : 2 * s + e < K := by omega
  rw [if_pos this]
  rfl

theorem ones_b_panel (W K k0 : Nat) (hK : K % 2 = 0) :
    b_panel_holds W K k0 ones_matrix ones := by
  intro jb s q c e hs _ _ he
  unfold ksteps at hs
  have : 2 * s + e < K := by omega
  rw [if_pos this]
  rfl

theorem gemm_split_reduction_equals_single_call_witness :
    0 < 4 ∧ 4 ∣ 4 ∧ 2 ≤ 6 ∧ 0 < 5 ∧
    a_panel_holds 4 2 0 ones_matrix ones ∧ b_panel_holds 4 2 0 ones_matrix ones ∧
    a_panel_holds 4 (6 - 2) 2 ones_matrix ones ∧ b_panel_holds 4 (6 - 2) 2 ones_matrix ones ∧
    a_panel_holds 4 6 0 ones_matrix ones ∧ b_panel_holds 4 6 0 ones_matrix ones ∧
    ∃ s1 s2 s,
      sme2_interleaved_nomerge_fp16fp32fp16_mopa_1VLx4VL 4 id ones ones none 20 5 18 2
        (some ones) bounded_relu false ones = some s1 ∧
      sme2_interleaved_nomerge_fp16fp32fp16_mopa_1VLx4VL 4 id ones ones (some 0) 20 5 18
        (6 - 2) (some ones) bounded_relu true s1.buf = some s2 ∧
      sme2_interleaved_nomerge_fp16fp32fp16_mopa_1VLx4VL 4 id ones ones (some 0) 20 5 18 6
        (some ones) bounded_relu false ones = some s ∧
      s1.c_stores = [] ∧ s2.c_stores = s.c_stores :=
  ⟨by decide, by decide, by decide, by decide,
    ones_a_panel 4 2 0 rfl, ones_b_panel 4 2 0 rfl,
    ones_a_panel 4 (6 - 2) 2 rfl, ones_b_panel 4 (6 - 2) 2 rfl,
    ones_a_panel 4 6 0 rfl, ones_b_panel 4 6 0 rfl,
    gemm_split_reduction_equals_single_call 4 (by decide) (by decide) id ones_matrix
      ones_matrix ones ones ones ones ones ones 0 20 5 18 6 2 (some ones) bounded_relu ones ones
      (by decide) (by decide)
      (ones_a_panel 4 2 0 rfl) (ones_b_panel 4 2 0 rfl)
      (ones_a_panel 4 (6 - 2) 2 rfl) (ones_b_panel 4 (6 - 2) 2 rfl)
      (ones_a_panel 4 6 0 rfl) (ones_b_panel 4 6 0 rfl)⟩

theorem k_oddments_plain (W : Nat) (a : KernelArgs R) (x24 x23 : Nat) (za : ZA R) :
    ∀ n, k_oddments W a n (za, x24, x23)
      = (plain_k_loop W a x24 x23 n za, x24 + n * (2 * W), x23 + n * (8 * W)) := by
  intro n
  induction n with
  | zero => simp [k_oddments, plain_k_loop]
  | succ n ih =>
    rw [k_oddments_add, ih]
    simp only [k_oddments, plain_k_loop, single_step, Prod.mk.injEq]
    refine ⟨?_, by ring, by ring⟩
    rw [show x23 + n * (8 * W) = x23 + n * (4 * (2 * W)) by ring]

theorem k_reduce_pipeline (W : Nat) (a : KernelArgs R) (s : State R) :
    k_reduce W a s
      = { s with
          za := (k_oddments W a (ksteps a.K % 4)
            (if ksteps a.K / 4 = 0 then (s.za, s.x24, s.x27 * (a.kstride_bytes / 2))
             else
              (k_loop_tail (k_loop W a (ksteps a.K / 4 - 1)
                  (k_preload W a s.za s.x24 (s.x27 * (a.kstride_bytes / 2)))),
                (k_loop W a (ksteps a.K / 4 - 1)
                  (k_preload W a s.za s.x24 (s.x27 * (a.kstride_bytes / 2)))).x24,
                (k_loop W a (ksteps a.K / 4 - 1)
                  (k_preload W a s.za s.x24 (s.x27 * (a.kstride_bytes / 2)))).x23))).1,
          x24 := (k_oddments W a (ksteps a.K % 4)
            (if ksteps a.K / 4 = 0 then (s.za, s.x24, s.x27 * (a.kstride_bytes / 2))
             else
              (k_loop_tail (k_loop W a (ksteps a.K / 4 - 1)
                  (k_preload W a s.za s.x24 (s.x27 * (a.kstride_bytes / 2)))),
                (k_loop W a (ksteps a.K / 4 - 1)
                  (k_preload W a s.za s.x24 (s.x27 * (a.kstride_bytes / 2)))).x24,
                (k_loop W a (ksteps a.K / 4 - 1)
                  (k_preload W a s.za s.x24 (s.x27 * (a.kstride_bytes / 2)))).x23))).2.1 } := by
  have h1 : (a.K + 1) >>> 1 = ksteps a.K := by
    simp [Nat.shiftRight_eq_div_pow, ksteps]
  have h2 : ksteps a.K >>> 2 = ksteps a.K / 4 := by
    simp [Nat.shiftRight_eq_div_pow]
  have h3 : ksteps a.K &&& 3 = ksteps a.K % 4 := Nat.and_pow_two_sub_one_eq_mod _ 2
  unfold k_reduce
  simp only [h1, h2, h3, Nat.add_zero]

theorem pipeline_plain (W : Nat) (a : KernelArgs R) (za : ZA R) (x24 x23 n : Nat) :
    k_oddments W a (n % 4)
      (if n / 4 = 0 then (za, x24, x23)
       else
        (k_loop_tail (k_loop W a (n / 4 - 1) (k_preload W a za x24 x23)),
          (k_loop W a (n / 4 - 1) (k_preload W a za x24 x23)).x24,
          (k_loop W a (n / 4 - 1) (k_preload W a za x24 x23)).x23))
      = (plain_k_loop W a x24 x23 n za, x24 + n * (2 * W), x23 + n * (8 * W)) := by
  rw [← k_oddments_plain]
  by_cases h0 : n / 4 = 0
  · simp only [h0, if_true]
    have : n % 4 = n := by omega
    rw [this]
  · simp only [h0, if_false]
    rw [k_pipeline, ← k_oddments_add]
    congr 1
    omega

/-- C18: for every `K >= 0` the reduction of one block performs `ceil(K / 2)` outer-product
accumulation steps into each of the four tiles, step `s` on `A` vector `s` and `B` vector group
`s`, in increasing `s`: the preloads, `floor(ceil(K / 2) / 4) - 1` passes of the pipelined K loop
and the K loop tail, followed by `ceil(K / 2) mod 4` passes of the oddments loop, leave the ZA
array (and the `A` pointer) of a plain loop of `ceil(K / 2)` single steps in the same order; so
do the pipelined part and the oddments loop each on their own. -/
theorem k_loop_pipeline_equals_plain_loop (W : Nat) (a : KernelArgs R) (s : State R) :
    (a.K ≤ 2 * ksteps a.K ∧ 2 * ksteps a.K ≤ a.K + 1) ∧
    k_reduce W a s
      = { s with
          za := (k_oddments W a (ksteps a.K % 4)
            (if ksteps a.K / 4 = 0 then (s.za, s.x24, s.x27 * (a.kstride_bytes / 2))
             else
              (k_loop_tail (k_loop W a (ksteps a.K / 4 - 1)
                  (k_preload W a s.za s.x24 (s.x27 * (a.kstride_bytes / 2)))),
                (k_loop W a (ksteps a.K / 4 - 1)
                  (k_preload W a s.za s.x24 (s.x27 * (a.kstride_bytes / 2)))).x24,
                (k_loop W a (ksteps a.K / 4 - 1)
                  (k_preload W a s.za s.x24 (s.x27 * (a.kstride_bytes / 2)))).x23))).1,
          x24 := (k_oddments W a (ksteps a.K % 4)
            (if ksteps a.K / 4 = 0 then (s.za, s.x24, s.x27 * (a.kstride_bytes / 2))
             else
              (k_loop_tail (k_loop W a (ksteps a.K / 4 - 1)
                  (k_preload W a s.za s.x24 (s.x27 * (a.kstride_bytes / 2)))),
                (k_loop W a (ksteps a.K / 4 - 1)
                  (k_preload W a s.za s.x24 (s.x27 * (a.kstride_bytes / 2)))).x24,
                (k_loop W a (ksteps a.K / 4 - 1)
                  (k_preload W a s.za s.x24 (s.x27 * (a.kstride_bytes / 2)))).x23))).2.1 } ∧
    k_reduce W a s
      = { s with
          za := plain_k_loop W a s.x24 (s.x27 * (a.kstride_bytes / 2)) (ksteps a.K) s.za,
          x24 := s.x24 + ksteps a.K * (2 * W) } ∧
    (∀ (g : Nat) (za : ZA R) (x24 x23 : Nat),
      k_loop_tail (k_loop W a g (k_preload W a za x24 x23))
        = plain_k_loop W a x24 x23 (4 * (g + 1)) za) ∧
    (∀ (n : Nat) (za : ZA R) (x24 x23 : Nat),
      (k_oddments W a n (za, x24, x23)).1 = plain_k_loop W a x24 x23 n za) := by
  refine ⟨?_, k_reduce_pipeline W a s, ?_, ?_, ?_⟩
  · unfold ksteps
    omega
  · rw [k_reduce_pipeline, pipeline_plain]
  · intro g za x24 x23
    have h := k_pipeline W a g za x24 x23
    rw [k_oddments_plain] at h
    exact congrArg Prod.fst h
  · intro n za x24 x23
    rw [k_oddments_plain]

theorem nblk_n_ceil (W N : Nat) (hW : 0 < W) (hN : 1 ≤ N) :
    nblk_n W N = (N + 4 * W - 1) / (4 * W) := by
  unfold nblk_n
  have e : N + 4 * W - 1 = (N - 1) + 4 * W := by omega
  rw [e, Nat.add_div_right _ (by omega : 0 < 4 * W)]

theorem block_entry_succ_inv (W : Nat) (cvt : R → R) (a : KernelArgs R) (hW : 0 < W)
    (h4 : 4 ∣ W) (hf : a.flags < 4) (hP : 0 < a.M ∨ a.flags.testBit 0 = false)
    (i j : Nat) (hi : i < nblk_m W a.M) (hj : j < nblk_n W a.N) :
    ∃ i2 j2, i2 * nblk_n W a.N + j2 = i * nblk_n W a.N + j + 1 ∧
      Inv W cvt a i2 j2 (block_entry W cvt a (i * nblk_n W a.N + j + 1)) := by
  have hinv := block_entry_inv W cvt a hW h4 hf hP (i * nblk_n W a.N + j) i j hi hj rfl
  obtain ⟨-, hn⟩ := block_step W cvt a hW h4 hf hP i j hi hj _ hinv
  refine ⟨if j + 1 < nblk_n W a.N then i else i + 1,
    if j + 1 < nblk_n W a.N then j + 1 else 0, ?_, hn⟩
  by_cases h : j + 1 < nblk_n W a.N
  · simp only [h, if_true]
    omega
  · simp only [h, if_false]
    have : j + 1 = nblk_n W a.N := by omega
    rw [Nat.add_mul, Nat.one_mul]
    omega

/-- C19: the accumulator-buffer position of a block is its index in visit order.  With `W`
lanes per vector and `M, N >= 1`, the block visited in pass `t = i * ceil(N / 4W) + j` (row block
`i`, column block `j`) has, when `accumulate` is set, its accumulators loaded from the slot of
`4 * W * W` floats at float offset `t * 4 * W * W` of `accumulator_buffer`, the read pointer
`x11` standing one slot further; when `C` is null its partial sums are stored to the slot at the
same offset, the write pointer `x10` moving from `t * 4 * W * W` to `(t + 1) * 4 * W * W`. -/
theorem accumulator_slot_is_block_index (W : Nat) (hW : 0 < W) (h4 : 4 ∣ W) (cvt : R → R)
    (A B : Nat → R) (C : Option Int) (ldc : Int) (M N K : Nat) (bias : Option (Nat → R))
    (act : Activation R) (accumulate : Bool) (buf : Nat → R) (hM : 1 ≤ M) (hN : 1 ≤ N) :
    slot W = 4 * W * W ∧ nblk_n W N = (N + 4 * W - 1) / (4 * W) ∧
    sme2_interleaved_nomerge_fp16fp32fp16_mopa_1VLx4VL W cvt A B C ldc M N K bias act
        accumulate buf
      = some (block_entry W cvt (KernelArgs.init cvt A B C ldc M N K bias act accumulate buf)
          (nblk_m W M * nblk_n W N)) ∧
    ∀ i j, i < nblk_m W M → j < nblk_n W N →
      (block_entry W cvt (KernelArgs.init cvt A B C ldc M N K bias act accumulate buf) (i *
          nblk_n W N + j)).x28 = W * i ∧ (block_entry W cvt (KernelArgs.init cvt A B C ldc M N K
              bias act accumulate buf) (i * nblk_n W N + j)).x27 = 4 * W * j ∧
      (accumulate = true →
        (block_entry W cvt (KernelArgs.init cvt A B C ldc M N K bias act accumulate buf) (i *
            nblk_n W N + j)).x11 = (i * nblk_n W N + j + 1) * (4 * W * W) ∧
        (block_entry W cvt (KernelArgs.init cvt A B C ldc M N K bias act accumulate buf) (i *
            nblk_n W N + j)).reads = List.range ((i * nblk_n W N + j + 1) * (4 * W * W)) ∧
        ∀ q r c, q < 4 → r < W → c < W →
          slot_off W q r c < 4 * W * W ∧
          (block_entry W cvt (KernelArgs.init cvt A B C ldc M N K bias act accumulate buf) (i *
              nblk_n W N + j)).za q r c = buf ((i * nblk_n W N + j) * (4 * W * W) + slot_off W q
                  r c)) ∧
      (C = none →
        (block_entry W cvt (KernelArgs.init cvt A B C ldc M N K bias act accumulate buf) (i *
            nblk_n W N + j)).x10 = (i * nblk_n W N + j) * (4 * W * W) ∧
        (block_entry W cvt (KernelArgs.init cvt A B C ldc M N K bias act accumulate buf) (i *
            nblk_n W N + j)).writes.map Prod.fst = List.range ((i * nblk_n W N + j) * (4 * W * W)) ∧
        (block_entry W cvt (KernelArgs.init cvt A B C ldc M N K bias act accumulate buf) (i *
            nblk_n W N + j + 1)).x10 = (i * nblk_n W N + j + 1) * (4 * W * W) ∧
        (block_entry W cvt (KernelArgs.init cvt A B C ldc M N K bias act accumulate buf) (i *
            nblk_n W N + j + 1)).writes.map Prod.fst = List.range ((i * nblk_n W N + j + 1) * (4
                * W * W)) ∧
        ∀ q r c, q < 4 → r < W → c < W →
          (block_entry W cvt (KernelArgs.init cvt A B C ldc M N K bias act accumulate buf) (i *
              nblk_n W N + j + 1)).buf ((i * nblk_n W N + j) * (4 * W * W) + slot_off W q r c)
            = acc_final W (KernelArgs.init cvt A B C ldc M N K bias act accumulate buf) i j q r c) := by
  have hs := slot_eq W h4
  have key : ∀ (C : Option Int) (accumulate : Bool) (i j : Nat), i < nblk_m W M →
      j < nblk_n W N →
      Inv W cvt (KernelArgs.init cvt A B C ldc M N K bias act accumulate buf) i j
        (block_entry W cvt (KernelArgs.init cvt A B C ldc M N K bias act accumulate buf)
          (i * nblk_n W N + j)) ∧
      ∃ i2 j2, i2 * nblk_n W N + j2 = i * nblk_n W N + j + 1 ∧
        Inv W cvt (KernelArgs.init cvt A B C ldc M N K bias act accumulate buf) i2 j2
          (block_entry W cvt (KernelArgs.init cvt A B C ldc M N K bias act accumulate buf)
            (i * nblk_n W N + j + 1)) := by
    intro C accumulate i j hi hj
    exact ⟨block_entry_inv W cvt _ hW h4 (init_flags_lt ..) (Or.inl hM) _ i j hi hj rfl,
      block_entry_succ_inv W cvt _ hW h4 (init_flags_lt ..) (Or.inl hM) i j hi hj⟩
  refine ⟨hs, nblk_n_ceil W N hW hN,
    kernel_asm_trace W cvt _ hW h4 (init_flags_lt ..) (Or.inl hM), ?_⟩
  intro i j hi hj
  have hN0 : ∀ (C : Option Int) (accumulate : Bool),
      (KernelArgs.init cvt A B C ldc M N K bias act accumulate buf).N = N := fun _ _ => rfl
  have hM0 : ∀ (C : Option Int) (accumulate : Bool),
      (KernelArgs.init cvt A B C ldc M N K bias act accumulate buf).M = M := fun _ _ => rfl
  have hB0 : ∀ (C : Option Int) (accumulate : Bool),
      (KernelArgs.init cvt A B C ldc M N K bias act accumulate buf).accumulator_buffer
        = buf := fun _ _ => rfl
  refine ⟨(key C accumulate i j hi hj).1.2.2.1, (key C accumulate i j hi hj).1.2.1, ?_, ?_⟩
  · intro hacc
    subst hacc
    obtain ⟨⟨-, -, -, -, h11, -, hza, -, -, -, hrd, -⟩, -⟩ := key C true i j hi hj
    have hb0 := init_bit0 cvt A B C ldc M N K bias act true buf
    simp only [hb0, hN0, hM0, hB0, hi, if_true, hs] at h11 hrd hza
    refine ⟨h11, hrd, ?_⟩
    intro q r c hq hr hc
    refine ⟨?_, hza trivial trivial q r c hq hr⟩
    rw [← hs]
    exact slot_off_lt W q r c h4 hq hr hc
  · intro hC
    subst hC
    obtain ⟨⟨-, -, -, -, -, h10, -, -, -, -, -, hwr⟩,
      i2, j2, ht, -, -, -, -, -, h10n, -, -, hslots, -, -, hwrn⟩ := key none accumulate i j hi hj
    have hb1 : (KernelArgs.init cvt A B none ldc M N K bias act accumulate buf).flags.testBit 1
        = true := by rw [init_bit1]; rfl
    simp only [hb1, hN0, hM0, if_true, hs, ht] at h10 hwr h10n hwrn hslots
    refine ⟨h10, ?_, h10n, ?_, ?_⟩
    · rw [hwr, List.map_map]
      exact List.map_id _
    · rw [hwrn, List.map_map]
      exact List.map_id _
    · intro q r c hq hr hc
      exact hslots trivial i j q r c hj (Nat.lt_succ_self _) hq hr hc

theorem accumulator_slot_is_block_index_witness :
    0 < 4 ∧ 4 ∣ 4 ∧ 1 ≤ 5 ∧ 1 ≤ 18 ∧
    (slot 4 = 4 * 4 * 4 ∧ nblk_n 4 18 = (18 + 4 * 4 - 1) / (4 * 4) ∧
    sme2_interleaved_nomerge_fp16fp32fp16_mopa_1VLx4VL 4 id ones ones none 20 5 18 3 none
        no_activation
        true ones
      = some (block_entry 4 id (KernelArgs.init id ones ones none 20 5 18 3 none no_activation
          true ones) (nblk_m 4 5 * nblk_n 4 18)) ∧
    ∀ i j, i < nblk_m 4 5 → j < nblk_n 4 18 →
      (block_entry 4 id (KernelArgs.init id ones ones none 20 5 18 3 none no_activation true
          ones) (i * nblk_n 4 18 + j)).x28 = 4 * i ∧ (block_entry 4 id (KernelArgs.init id ones
              ones none 20 5 18 3 none no_activation true ones) (i * nblk_n 4 18 + j)).x27 = 4 *
                  4 * j ∧
      (true = true →
        (block_entry 4 id (KernelArgs.init id ones ones none 20 5 18 3 none no_activation true
            ones) (i * nblk_n 4 18 + j)).x11 = (i * nblk_n 4 18 + j + 1) * (4 * 4 * 4) ∧
        (block_entry 4 id (KernelArgs.init id ones ones none 20 5 18 3 none no_activation true
            ones) (i * nblk_n 4 18 + j)).reads = List.range ((i * nblk_n 4 18 + j + 1) * (4 * 4 *
                4)) ∧
        ∀ q r c, q < 4 → r < 4 → c < 4 →
          slot_off 4 q r c < 4 * 4 * 4 ∧
          (block_entry 4 id (KernelArgs.init id ones ones none 20 5 18 3 none no_activation true
              ones) (i * nblk_n 4 18 + j)).za q r c = ones ((i * nblk_n 4 18 + j) * (4 * 4 * 4) +
                  slot_off 4 q r c)) ∧
      ((none : Option Int) = none →
        (block_entry 4 id (KernelArgs.init id ones ones none 20 5 18 3 none no_activation true
            ones) (i * nblk_n 4 18 + j)).x10 = (i * nblk_n 4 18 + j) * (4 * 4 * 4) ∧
        (block_entry 4 id (KernelArgs.init id ones ones none 20 5 18 3 none no_activation true
            ones) (i * nblk_n 4 18 + j)).writes.map Prod.fst = List.range ((i * nblk_n 4 18 + j)
                * (4 * 4 * 4)) ∧
        (block_entry 4 id (KernelArgs.init id ones ones none 20 5 18 3 none no_activation true
            ones) (i * nblk_n 4 18 + j + 1)).x10 = (i * nblk_n 4 18 + j + 1) * (4 * 4 * 4) ∧
        (block_entry 4 id (KernelArgs.init id ones ones none 20 5 18 3 none no_activation true
            ones) (i * nblk_n 4 18 + j + 1)).writes.map Prod.fst = List.range ((i * nblk_n 4 18 +
                j + 1) * (4 * 4 * 4)) ∧
        ∀ q r c, q < 4 → r < 4 → c < 4 →
          (block_entry 4 id (KernelArgs.init id ones ones none 20 5 18 3 none no_activation true
              ones) (i * nblk_n 4 18 + j + 1)).buf ((i * nblk_n 4 18 + j) * (4 * 4 * 4) +
                  slot_off 4 q r c)
            = acc_final 4 (KernelArgs.init id ones ones none 20 5 18 3 none no_activation true
                ones) i j q r c)) :=
  ⟨by decide, by decide, by decide, by decide,
    accumulator_slot_is_block_index 4 (by decide) (by decide) id ones ones none 20 5 18 3 none
      no_activation true ones (by decide) (by decide)⟩

theorem store_rows_ev_congr (W x12 : Nat) (za zb : ZA R) (x10 : Nat)
    (h : ∀ q r c, x12 ≤ r → za q r c = zb q r c) :
    store_rows_ev W x12 za x10 = store_rows_ev W x12 zb x10 := by
  have e : ∀ q, mova_from_za q x12 za = mova_from_za q x12 zb := by
    intro q
    funext i c
    exact h q (x12 + i) c (by omega)
  unfold store_rows_ev
  rw [e 0, e 1, e 2, e 3]

theorem store_refill_loop_buf (W : Nat) :
    ∀ (k x12 : Nat) (s t : State R), x12 + 4 * k = W → 0 < k → s.x10 = t.x10 →
      s.buf = t.buf → (∀ q r c, x12 ≤ r → s.za q r c = t.za q r c) →
      (store_refill_loop W x12 s).buf = (store_only_loop W x12 t).buf := by
  intro k
  induction k with
  | zero => intro x12 s t _ h; omega
  | succ k ih =>
    intro x12 s t hx _ h10 hbuf hza
    rw [store_refill_loop_unfold, store_only_loop_unfold]
    have hev : store_rows_ev W x12 s.za s.x10 = store_rows_ev W x12 t.za t.x10 := by
      rw [h10]
      exact store_rows_ev_congr W x12 s.za t.za t.x10 hza
    by_cases hk : k = 0
    · subst hk
      have hlt : ¬ (x12 + 4 < W) := by omega
      simp only [hlt, if_false]
      rw [hev, hbuf]
    · have hlt : x12 + 4 < W := by omega
      simp only [hlt, if_true]
      apply ih (x12 + 4) _ _ (by omega) (by omega)
      · show s.x10 + 16 * W = t.x10 + 16 * W
        rw [h10]
      · show mem_write s.buf _ = mem_write t.buf _
        rw [hev, hbuf]
      · intro q r c hr
        show refill_rows W x12 s.buf s.x11 s.za q r c = t.za q r c
        rw [refill_rows_out W x12 _ _ _ q r c (by omega)]
        exact hza q r c (by omega)

/-- C20: spill and reload use the same slot layout and round-trip.  For every state of the four
`W x W` accumulator tiles, after either store path (store only, or store and refill) the slot at
the write pointer holds element `(r, c)` of tile `q` at float offset
`(r / 4) * 16W + q * 4W + (r % 4) * W + c`, that is, for each group of four rows the four rows of
tile 0, then of tile 1, tile 2 and tile 3; and the load loop run on that slot, from any ZA
contents, restores every element to the value it had when stored. -/
theorem spill_and_reload_round_trip (W : Nat) (hW : 0 < W) (h4 : 4 ∣ W) (s : State R)
    (z : ZA R) :
    (∀ q r c, slot_off W q r c = (r / 4) * (16 * W) + q * (4 * W) + (r % 4) * W + c) ∧
    (∀ q r c, q < 4 → r < W → c < W →
      (store_only_loop W 0 s).buf (s.x10 + slot_off W q r c) = s.za q r c ∧
      (refill_loop W 0 { store_only_loop W 0 s with x11 := s.x10, za := z }).za q r c
        = s.za q r c) ∧
    (∀ q r c, q < 4 → r < W → c < W →
      (store_refill_loop W 0 s).buf (s.x10 + slot_off W q r c) = s.za q r c ∧
      (refill_loop W 0 { store_refill_loop W 0 s with x11 := s.x10, za := z }).za q r c
        = s.za q r c) := by
  have hk : 0 + 4 * (W / 4) = W := by omega
  have hk0 : 0 < W / 4 := by omega
  obtain ⟨Bf, hB, -, hin⟩ := store_only_loop_spec W (W / 4) 0 s hk hk0
  have hbuf : (store_only_loop W 0 s).buf = Bf := by rw [hB]
  have hbuf2 : (store_refill_loop W 0 s).buf = Bf := by
    rw [store_refill_loop_buf W (W / 4) 0 s s hk hk0 rfl rfl (fun _ _ _ _ => rfl), hbuf]
  have hload : ∀ (t : State R), t.buf = Bf → ∀ q r c, q < 4 → r < W → c < W →
      (refill_loop W 0 { t with x11 := s.x10, za := z }).za q r c = s.za q r c := by
    intro t ht q r c hq hr hc
    obtain ⟨Z, hZ, hzin, -⟩ := refill_loop_spec W (W / 4) 0
      { t with x11 := s.x10, za := z } hk hk0
    rw [hZ]
    show Z q r c = _
    rw [hzin q r c hq (Nat.zero_le _) hr]
    show t.buf (s.x10 + slot_off W q (r - 0) c) = _
    rw [ht]
    exact hin q r c hq (Nat.zero_le _) hr hc
  refine ⟨fun _ _ _ => rfl, ?_, ?_⟩
  · intro q r c hq hr hc
    refine ⟨?_, hload _ hbuf q r c hq hr hc⟩
    rw [hbuf]
    exact hin q r c hq (Nat.zero_le _) hr hc
  · intro q r c hq hr hc
    refine ⟨?_, hload _ hbuf2 q r c hq hr hc⟩
    rw [hbuf2]
    exact hin q r c hq (Nat.zero_le _) hr hc

theorem spill_and_reload_round_trip_witness :
    0 < 4 ∧ 4 ∣ 4 ∧
    ((∀ q r c, slot_off 4 q r c = (r / 4) * (16 * 4) + q * (4 * 4) + (r % 4) * 4 + c) ∧
    (∀ q r c, q < 4 → r < 4 → c < 4 →
      (store_only_loop 4 0 sample_state).buf (sample_state.x10 + slot_off 4 q r c)
        = sample_state.za q r c ∧
      (refill_loop 4 0 { store_only_loop 4 0 sample_state with
          x11 := sample_state.x10, za := fun _ _ _ => 0 }).za q r c
        = sample_state.za q r c) ∧
    (∀ q r c, q < 4 → r < 4 → c < 4 →
      (store_refill_loop 4 0 sample_state).buf (sample_state.x10 + slot_off 4 q r c)
        = sample_state.za q r c ∧
      (refill_loop 4 0 { store_refill_loop 4 0 sample_state with
          x11 := sample_state.x10, za := fun _ _ _ => 0 }).za q r c
        = sample_state.za q r c)) :=
  ⟨by decide, by decide,
    spill_and_reload_round_trip 4 (by decide) (by decide) sample_state (fun _ _ _ => 0)⟩

theorem roundup_two (K : Nat) : roundup K 2 = 2 * ksteps K := by
  unfold roundup ksteps
  split <;> omega

theorem nblk_m_ceil (W M : Nat) (hW : 0 < W) (hM : 1 ≤ M) :
    nblk_m W M = (M + W - 1) / W := by
  unfold nblk_m
  have e : M + W - 1 = (M - 1) + W := by omega
  rw [e, Nat.add_div_right _ hW]

theorem prepare_accumulators_x24 (W : Nat) (a : KernelArgs R) (s : State R) :
    (prepare_accumulators W a s).x24 = s.x25 := by
  unfold prepare_accumulators
  simp only [last_block_test]
  split
  · rfl
  · split <;> rfl

theorem block_entry_next_inv (W : Nat) (cvt : R → R) (a : KernelArgs R) (hW : 0 < W)
    (h4 : 4 ∣ W) (hf : a.flags < 4) (hP : 0 < a.M ∨ a.flags.testBit 0 = false)
    (i j : Nat) (hi : i < nblk_m W a.M) (hj : j < nblk_n W a.N) :
    Inv W cvt a (if j + 1 < nblk_n W a.N then i else i + 1)
      (if j + 1 < nblk_n W a.N then j + 1 else 0)
      (block_entry W cvt a (i * nblk_n W a.N + j + 1)) := by
  have hinv := block_entry_inv W cvt a hW h4 hf hP (i * nblk_n W a.N + j) i j hi hj rfl
  exact (block_step W cvt a hW h4 hf hP i j hi hj _ hinv).2

/-- C24: the operand pointers are consistent with the panel strides, for every `K >= 0` and
every vector length (`W` lanes of 32 bits, a vector of `4 * W` bytes; pointers count 16-bit
elements, two bytes each).  `kstride_bytes = roundup(K, 2) * 2`, and `roundup(K, 2)` is twice
the number `ceil(K / 2)` of reduction steps.  The reduction of a block starts its `B` pointer
at element `n * kstride_bytes / 2`, byte `n * kstride_bytes`, for the block at column `n`, and
the pipeline advances it by `ceil(K / 2)` steps of four vectors, `4 * W * kstride_bytes` bytes,
which is where the panel of the next column block starts.  The `A` pointer advances by
`ceil(K / 2)` vectors, `W * roundup(K, 2) * 2` bytes.  Every column block of row block `i`
restarts `A` from the same saved pointer, `i` times that amount, and the saved pointer moves to
the end of the `A` data just read only after the last column block of the row block. -/
theorem operand_pointers_follow_panel_strides (W : Nat) (hW : 0 < W) (h4 : 4 ∣ W) (cvt : R → R)
    (A B : Nat → R) (C : Option Int) (ldc : Int) (M N K : Nat) (bias : Option (Nat → R))
    (act : Activation R) (accumulate : Bool) (buf : Nat → R)
    (hP : 0 < M ∨ accumulate = false) :
    ((KernelArgs.init cvt A B C ldc M N K bias act accumulate buf).kstride_bytes = roundup K 2 * 2
        ∧ roundup K 2 = 2 * ksteps K ∧
      ksteps K = (K + 1) / 2) ∧
    (∀ s : State R,
      (k_oddments W (KernelArgs.init cvt A B C ldc M N K bias act accumulate buf) (ksteps K % 4)
          (if ksteps K / 4 = 0 then (s.za, s.x24, s.x27 * ((KernelArgs.init cvt A B C ldc M N K
              bias act accumulate buf).kstride_bytes / 2))
           else
            (k_loop_tail (k_loop W (KernelArgs.init cvt A B C ldc M N K bias act accumulate buf)
                (ksteps K / 4 - 1)
                (k_preload W (KernelArgs.init cvt A B C ldc M N K bias act accumulate buf) s.za
                    s.x24 (s.x27 * ((KernelArgs.init cvt A B C ldc M N K bias act accumulate
                        buf).kstride_bytes / 2)))),
              (k_loop W (KernelArgs.init cvt A B C ldc M N K bias act accumulate buf) (ksteps K / 4
                  - 1)
                (k_preload W (KernelArgs.init cvt A B C ldc M N K bias act accumulate buf) s.za
                    s.x24 (s.x27 * ((KernelArgs.init cvt A B C ldc M N K bias act accumulate
                        buf).kstride_bytes / 2)))).x24,
              (k_loop W (KernelArgs.init cvt A B C ldc M N K bias act accumulate buf) (ksteps K / 4
                  - 1)
                (k_preload W (KernelArgs.init cvt A B C ldc M N K bias act accumulate buf) s.za
                    s.x24 (s.x27 * ((KernelArgs.init cvt A B C ldc M N K bias act accumulate
                        buf).kstride_bytes / 2)))).x23))).2.2
        = s.x27 * ((KernelArgs.init cvt A B C ldc M N K bias act accumulate buf).kstride_bytes / 2)
            + ksteps K * (8 * W) ∧
      2 * (s.x27 * ((KernelArgs.init cvt A B C ldc M N K bias act accumulate buf).kstride_bytes /
          2)) = s.x27 * (KernelArgs.init cvt A B C ldc M N K bias act accumulate buf).kstride_bytes
              ∧
      2 * (ksteps K * (8 * W)) = ksteps K * (4 * (4 * W)) ∧
      2 * (ksteps K * (8 * W)) = 4 * W * (KernelArgs.init cvt A B C ldc M N K bias act accumulate
          buf).kstride_bytes ∧
      (s.x27 + 4 * W) * ((KernelArgs.init cvt A B C ldc M N K bias act accumulate
          buf).kstride_bytes / 2)
        = s.x27 * ((KernelArgs.init cvt A B C ldc M N K bias act accumulate buf).kstride_bytes / 2)
            + ksteps K * (8 * W) ∧
      (k_reduce W (KernelArgs.init cvt A B C ldc M N K bias act accumulate buf) s).x24 = s.x24 +
          ksteps K * (2 * W) ∧
      2 * (ksteps K * (2 * W)) = ksteps K * (4 * W) ∧
      2 * (ksteps K * (2 * W)) = W * roundup K 2 * 2 ∧
      (prepare_accumulators W (KernelArgs.init cvt A B C ldc M N K bias act accumulate buf) s).x24
          = s.x25) ∧
    ∀ i j, i < nblk_m W M → j < nblk_n W N →
      (block_entry W cvt (KernelArgs.init cvt A B C ldc M N K bias act accumulate buf) (i * nblk_n
          W N + j)).x27 = 4 * W * j ∧
      (block_entry W cvt (KernelArgs.init cvt A B C ldc M N K bias act accumulate buf) (i * nblk_n
          W N + j)).x25 = i * (ksteps K * (2 * W)) ∧
      (prepare_accumulators W (KernelArgs.init cvt A B C ldc M N K bias act accumulate buf)
          (block_entry W cvt (KernelArgs.init cvt A B C ldc M N K bias act accumulate buf) (i *
              nblk_n W N + j))).x24
        = i * (ksteps K * (2 * W)) ∧
      (k_reduce W (KernelArgs.init cvt A B C ldc M N K bias act accumulate buf)
          (prepare_accumulators W (KernelArgs.init cvt A B C ldc M N K bias act accumulate buf)
              (block_entry W cvt (KernelArgs.init cvt A B C ldc M N K bias act accumulate buf) (i *
                  nblk_n W N + j)))).x24
        = (i + 1) * (ksteps K * (2 * W)) ∧
      (block_entry W cvt (KernelArgs.init cvt A B C ldc M N K bias act accumulate buf) (i * nblk_n
          W N + j + 1)).x25
        = (if j + 1 < nblk_n W N then i else i + 1) * (ksteps K * (2 * W)) := by
  have hf := init_flags_lt cvt A B C ldc M N K bias act accumulate buf
  have hb0 := init_bit0 cvt A B C ldc M N K bias act accumulate buf
  have hP' : 0 < (KernelArgs.init cvt A B C ldc M N K bias act accumulate buf).M ∨ (KernelArgs.init
      cvt A B C ldc M N K bias act accumulate buf).flags.testBit 0 = false := by
    rcases hP with h | h
    · exact Or.inl h
    · right; rw [hb0]; exact h
  have hks : (KernelArgs.init cvt A B C ldc M N K bias act accumulate buf).kstride_bytes = roundup
      K 2 * 2 := rfl
  have hk2 := init_kstride cvt A B C ldc M N K bias act accumulate buf
  have hr := roundup_two K
  refine ⟨⟨hks, hr, rfl⟩, ?_, ?_⟩
  · intro s
    refine ⟨?_, ?_, by ring, ?_, ?_, ?_, by ring, ?_, prepare_accumulators_x24 W _ s⟩
    · rw [pipeline_plain]
    · rw [hks, Nat.mul_div_cancel _ (by norm_num : 0 < 2)]
      ring
    · rw [hks, hr]
      ring
    · rw [hk2, hr]
      ring
    · exact congrArg State.x24 (k_reduce_spec W _ s)
    · rw [hr]
      ring
  · intro i j hi hj
    have hinv := block_entry_inv W cvt (KernelArgs.init cvt A B C ldc M N K bias act accumulate
        buf) hW h4 hf hP' (i * nblk_n W N + j) i j hi hj rfl
    have hnext := block_entry_next_inv W cvt (KernelArgs.init cvt A B C ldc M N K bias act
        accumulate buf) hW h4 hf hP' i j hi hj
    obtain ⟨-, -, -, h25n, -⟩ := hnext
    obtain ⟨Z2, hred, -⟩ := reduce_stage W cvt (KernelArgs.init cvt A B C ldc M N K bias act
        accumulate buf) hW hf hP' i j hi _ hinv
    obtain ⟨-, h27, -, h25, -⟩ := hinv
    refine ⟨h27, h25, ?_, ?_, h25n⟩
    · rw [prepare_accumulators_x24, h25]
      rfl
    · exact congrArg State.x24 hred

theorem operand_pointers_follow_panel_strides_witness :
    0 < 4 ∧ 4 ∣ 4 ∧ (0 < 5 ∨ true = false) ∧
    (((KernelArgs.init id ones ones (some 0) 20 5 18 3 (some ones) no_activation true
        ones).kstride_bytes = roundup 3 2 * 2 ∧ roundup 3 2 = 2 * ksteps 3 ∧
      ksteps 3 = (3 + 1) / 2) ∧
    (∀ s : State ℚ,
      (k_oddments 4 (KernelArgs.init id ones ones (some 0) 20 5 18 3 (some ones) no_activation true
          ones) (ksteps 3 % 4)
          (if ksteps 3 / 4 = 0 then (s.za, s.x24, s.x27 * ((KernelArgs.init id ones ones (some 0)
              20 5 18 3 (some ones) no_activation true ones).kstride_bytes / 2))
           else
            (k_loop_tail (k_loop 4 (KernelArgs.init id ones ones (some 0) 20 5 18 3 (some ones)
                no_activation true ones) (ksteps 3 / 4 - 1)
                (k_preload 4 (KernelArgs.init id ones ones (some 0) 20 5 18 3 (some ones)
                    no_activation true ones) s.za s.x24 (s.x27 * ((KernelArgs.init id ones ones
                        (some 0) 20 5 18 3 (some ones) no_activation true ones).kstride_bytes /
                            2)))),
              (k_loop 4 (KernelArgs.init id ones ones (some 0) 20 5 18 3 (some ones) no_activation
                  true ones) (ksteps 3 / 4 - 1)
                (k_preload 4 (KernelArgs.init id ones ones (some 0) 20 5 18 3 (some ones)
                    no_activation true ones) s.za s.x24 (s.x27 * ((KernelArgs.init id ones ones
                        (some 0) 20 5 18 3 (some ones) no_activation true ones).kstride_bytes /
                            2)))).x24,
              (k_loop 4 (KernelArgs.init id ones ones (some 0) 20 5 18 3 (some ones) no_activation
                  true ones) (ksteps 3 / 4 - 1)
                (k_preload 4 (KernelArgs.init id ones ones (some 0) 20 5 18 3 (some ones)
                    no_activation true ones) s.za s.x24 (s.x27 * ((KernelArgs.init id ones ones
                        (some 0) 20 5 18 3 (some ones) no_activation true ones).kstride_bytes /
                            2)))).x23))).2.2
        = s.x27 * ((KernelArgs.init id ones ones (some 0) 20 5 18 3 (some ones) no_activation true
            ones).kstride_bytes / 2) + ksteps 3 * (8 * 4) ∧
      2 * (s.x27 * ((KernelArgs.init id ones ones (some 0) 20 5 18 3 (some ones) no_activation true
          ones).kstride_bytes / 2)) = s.x27 * (KernelArgs.init id ones ones (some 0) 20 5 18 3
              (some ones) no_activation true ones).kstride_bytes ∧
      2 * (ksteps 3 * (8 * 4)) = ksteps 3 * (4 * (4 * 4)) ∧
      2 * (ksteps 3 * (8 * 4)) = 4 * 4 * (KernelArgs.init id ones ones (some 0) 20 5 18 3 (some
          ones) no_activation true ones).kstride_bytes ∧
      (s.x27 + 4 * 4) * ((KernelArgs.init id ones ones (some 0) 20 5 18 3 (some ones) no_activation
          true ones).kstride_bytes / 2)
        = s.x27 * ((KernelArgs.init id ones ones (some 0) 20 5 18 3 (some ones) no_activation true
            ones).kstride_bytes / 2) + ksteps 3 * (8 * 4) ∧
      (k_reduce 4 (KernelArgs.init id ones ones (some 0) 20 5 18 3 (some ones) no_activation true
          ones) s).x24 = s.x24 + ksteps 3 * (2 * 4) ∧
      2 * (ksteps 3 * (2 * 4)) = ksteps 3 * (4 * 4) ∧
      2 * (ksteps 3 * (2 * 4)) = 4 * roundup 3 2 * 2 ∧
      (prepare_accumulators 4 (KernelArgs.init id ones ones (some 0) 20 5 18 3 (some ones)
          no_activation true ones) s).x24 = s.x25) ∧
    ∀ i j, i < nblk_m 4 5 → j < nblk_n 4 18 →
      (block_entry 4 id (KernelArgs.init id ones ones (some 0) 20 5 18 3 (some ones) no_activation
          true ones) (i * nblk_n 4 18 + j)).x27 = 4 * 4 * j ∧
      (block_entry 4 id (KernelArgs.init id ones ones (some 0) 20 5 18 3 (some ones) no_activation
          true ones) (i * nblk_n 4 18 + j)).x25 = i * (ksteps 3 * (2 * 4)) ∧
      (prepare_accumulators 4 (KernelArgs.init id ones ones (some 0) 20 5 18 3 (some ones)
          no_activation true ones) (block_entry 4 id (KernelArgs.init id ones ones (some 0) 20 5 18
              3 (some ones) no_activation true ones) (i * nblk_n 4 18 + j))).x24
        = i * (ksteps 3 * (2 * 4)) ∧
      (k_reduce 4 (KernelArgs.init id ones ones (some 0) 20 5 18 3 (some ones) no_activation true
          ones) (prepare_accumulators 4 (KernelArgs.init id ones ones (some 0) 20 5 18 3 (some
              ones) no_activation true ones) (block_entry 4 id (KernelArgs.init id ones ones (some
                  0) 20 5 18 3 (some ones) no_activation true ones) (i * nblk_n 4 18 + j)))).x24
        = (i + 1) * (ksteps 3 * (2 * 4)) ∧
      (block_entry 4 id (KernelArgs.init id ones ones (some 0) 20 5 18 3 (some ones) no_activation
          true ones) (i * nblk_n 4 18 + j + 1)).x25
        = (if j + 1 < nblk_n 4 18 then i else i + 1) * (ksteps 3 * (2 * 4))) :=
  ⟨by decide, by decide, Or.inl (by decide),
    operand_pointers_follow_panel_strides 4 (by decide) (by decide) id ones ones (some 0) 20 5 18
      3 (some ones) no_activation true ones (Or.inl (by decide))⟩

theorem blk_last_iff (m n i j : Nat) (hi : i < m) (hj : j < n) :
    i * n + j + 1 < m * n ↔ (if j + 1 < n then i else i + 1) < m := by
  have h1 : (i + 1) * n ≤ m * n := Nat.mul_le_mul_right n hi
  have e1 : (i + 1) * n = i * n + n := by ring
  by_cases h : j + 1 < n
  · simp only [h, if_true, hi, iff_true]
    omega
  · simp only [h, if_false]
    constructor
    · intro hlt
      by_contra hc
      have hm : m = i + 1 := by omega
      rw [hm] at hlt
      omega
    · intro hlt
      have h2 : (i + 2) * n ≤ m * n := Nat.mul_le_mul_right n hlt
      have e2 : (i + 2) * n = i * n + 2 * n := by ring
      omega

theorem store_refill_loop_gap (W : Nat) :
    ∀ (n x12 : Nat) (s : State R), W - x12 ≤ n →
      (store_refill_loop W x12 s).x11 + s.x10 = (store_refill_loop W x12 s).x10 + s.x11 := by
  intro n
  induction n with
  | zero =>
    intro x12 s h
    rw [store_refill_loop_unfold]
    have hn : ¬ x12 + 4 < W := by omega
    simp only [hn, if_false]
    omega
  | succ n ih =>
    intro x12 s h
    rw [store_refill_loop_unfold]
    by_cases hc : x12 + 4 < W
    · simp only [hc, if_true]
      have := ih (x12 + 4)
        { s with za := refill_rows W x12 s.buf s.x11 s.za, x11 := s.x11 + 16 * W,
                 x10 := s.x10 + 16 * W,
                 reads := s.reads ++ (List.range (16 * W)).map (fun k => s.x11 + k),
                 buf := mem_write s.buf (store_rows_ev W x12 s.za s.x10),
                 writes := s.writes ++ store_rows_ev W x12 s.za s.x10 } (by omega)
      simp only at this
      omega
    · simp only [hc, if_false]
      omega

/-- C21: with `accumulate` set and `M, N >= 1` the kernel reads exactly as many slots of the
accumulator buffer as there are blocks, `ceil(M / W) * ceil(N / 4W)` slots of `4 * W * W`
floats: the addresses read by the call are exactly those below that many slots.  Slot 0 is read
before the block loop; at the entry of block `t` the slots `0..t` have been read; after block
`t` slot `t + 1` has been read when block `t` is not the last, and nothing more when it is,
because the last-block test leaves bit 0 of the flags set exactly when block `t` is not the
last, and block `t` is the last exactly when `n + 4W >= N` and `m + W >= M`.  When `C` is null
the write pointer `x10` is exactly one slot behind the read pointer `x11` at the entry of every
block, and a run of the store-and-refill loop keeps the distance between them. -/
theorem accumulator_slots_read_equal_number_of_blocks (W : Nat) (hW : 0 < W) (h4 : 4 ∣ W)
    (cvt : R → R) (A B : Nat → R) (C : Option Int) (ldc : Int) (M N K : Nat)
    (bias : Option (Nat → R)) (act : Activation R) (buf : Nat → R) (hM : 1 ≤ M)
    (hN : 1 ≤ N) :
    (nblk_m W M = (M + W - 1) / W ∧ nblk_n W N = (N + 4 * W - 1) / (4 * W) ∧
      slot W = 4 * W * W) ∧
    sme2_interleaved_nomerge_fp16fp32fp16_mopa_1VLx4VL W cvt A B C ldc M N K bias act true buf
      = some (block_entry W cvt (KernelArgs.init cvt A B C ldc M N K bias act true buf) (nblk_m W M
          * nblk_n W N)) ∧
    (block_entry W cvt (KernelArgs.init cvt A B C ldc M N K bias act true buf) (nblk_m W M * nblk_n
        W N)).reads
      = List.range (nblk_m W M * nblk_n W N * (4 * W * W)) ∧
    (∀ k, k ∈ (block_entry W cvt (KernelArgs.init cvt A B C ldc M N K bias act true buf) (nblk_m W
        M * nblk_n W N)).reads
      ↔ k < nblk_m W M * nblk_n W N * (4 * W * W)) ∧
    (block_entry W cvt (KernelArgs.init cvt A B C ldc M N K bias act true buf) (0)).reads =
        List.range (4 * W * W) ∧
    (∀ i j, i < nblk_m W M → j < nblk_n W N →
      i * nblk_n W N + j < nblk_m W M * nblk_n W N ∧
      (block_entry W cvt (KernelArgs.init cvt A B C ldc M N K bias act true buf) (i * nblk_n W N +
          j)).x28 = W * i ∧
      (block_entry W cvt (KernelArgs.init cvt A B C ldc M N K bias act true buf) (i * nblk_n W N +
          j)).x27 = 4 * W * j ∧
      (i * nblk_n W N + j + 1 = nblk_m W M * nblk_n W N
        ↔ N ≤ 4 * W * j + 4 * W ∧ M ≤ W * i + W) ∧
      (block_entry W cvt (KernelArgs.init cvt A B C ldc M N K bias act true buf) (i * nblk_n W N +
          j)).reads
        = List.range ((i * nblk_n W N + j + 1) * (4 * W * W)) ∧
      (block_entry W cvt (KernelArgs.init cvt A B C ldc M N K bias act true buf) (i * nblk_n W N +
          j)).x13.testBit 0 = true ∧
      (prepare_accumulators W (KernelArgs.init cvt A B C ldc M N K bias act true buf) (block_entry
          W cvt (KernelArgs.init cvt A B C ldc M N K bias act true buf) (i * nblk_n W N +
              j))).x13.testBit 0
        = decide (i * nblk_n W N + j + 1 < nblk_m W M * nblk_n W N) ∧
      (block_entry W cvt (KernelArgs.init cvt A B C ldc M N K bias act true buf) (i * nblk_n W N +
          j + 1)).reads
        = List.range ((if i * nblk_n W N + j + 1 < nblk_m W M * nblk_n W N
            then i * nblk_n W N + j + 2 else i * nblk_n W N + j + 1) * (4 * W * W)) ∧
      (C = none →
        (block_entry W cvt (KernelArgs.init cvt A B C ldc M N K bias act true buf) (i * nblk_n W N
            + j)).x10 = (i * nblk_n W N + j) * (4 * W * W) ∧
        (block_entry W cvt (KernelArgs.init cvt A B C ldc M N K bias act true buf) (i * nblk_n W N
            + j)).x11
          = (block_entry W cvt (KernelArgs.init cvt A B C ldc M N K bias act true buf) (i * nblk_n
              W N + j)).x10 + 4 * W * W)) ∧
    ∀ (x12 : Nat) (s : State R), s.x11 = s.x10 + 4 * W * W →
      (store_refill_loop W x12 s).x11 = (store_refill_loop W x12 s).x10 + 4 * W * W := by
  have hs := slot_eq W h4
  have hf := init_flags_lt cvt A B C ldc M N K bias act true buf
  have hb0 := init_bit0 cvt A B C ldc M N K bias act true buf
  have hP' : 0 < (KernelArgs.init cvt A B C ldc M N K bias act true buf).M ∨ (KernelArgs.init cvt A
      B C ldc M N K bias act true buf).flags.testBit 0 = false := Or.inl hM
  have hN0 : (KernelArgs.init cvt A B C ldc M N K bias act true buf).N = N := rfl
  have hM0 : (KernelArgs.init cvt A B C ldc M N K bias act true buf).M = M := rfl
  have hmp := nblk_m_pos W M
  have hnp := nblk_n_pos W N
  have htr := kernel_asm_trace W cvt (KernelArgs.init cvt A B C ldc M N K bias act true buf) hW h4
      hf hP'
  have hlast := block_entry_next_inv W cvt (KernelArgs.init cvt A B C ldc M N K bias act true buf)
      hW h4 hf hP' (nblk_m W M - 1)
    (nblk_n W N - 1) (by rw [hM0]; omega) (by rw [hN0]; omega)
  have hT : (nblk_m W M - 1) * nblk_n W N + (nblk_n W N - 1) + 1
      = nblk_m W M * nblk_n W N := by
    obtain ⟨m, hm⟩ : ∃ m, nblk_m W M = m + 1 := ⟨nblk_m W M - 1, by omega⟩
    rw [hm, Nat.add_sub_cancel, Nat.add_mul, Nat.one_mul]
    omega
  have hrT : (block_entry W cvt (KernelArgs.init cvt A B C ldc M N K bias act true buf) (nblk_m W M
      * nblk_n W N)).reads
      = List.range (nblk_m W M * nblk_n W N * (4 * W * W)) := by
    obtain ⟨-, -, -, -, -, -, -, -, -, -, hrd, -⟩ := hlast
    have hc1 : ¬ (nblk_n W N - 1 + 1 < nblk_n W N) := by omega
    have hc2 : ¬ (nblk_m W M - 1 + 1 < nblk_m W M) := by omega
    simp only [hN0, hM0, hc1, hc2, if_false, hb0, if_true, hs, hT, Nat.add_zero] at hrd
    rw [hrd]
    congr 2
  refine ⟨⟨nblk_m_ceil W M hW hM, nblk_n_ceil W N hW hN, hs⟩, htr, hrT, ?_, ?_, ?_, ?_⟩
  · intro k
    rw [hrT, List.mem_range]
  · obtain ⟨-, -, -, -, -, -, -, -, -, -, hrd, -⟩ :=
      block_entry_inv W cvt (KernelArgs.init cvt A B C ldc M N K bias act true buf) hW h4 hf hP' 0
          0 0 hmp hnp (by simp)
    simp only [hN0, hM0, hmp, hb0, if_true, hs] at hrd
    rw [hrd]
    congr 1
    omega
  · intro i j hi hj
    have hinv := block_entry_inv W cvt (KernelArgs.init cvt A B C ldc M N K bias act true buf) hW
        h4 hf hP' (i * nblk_n W N + j) i j hi hj rfl
    have hnext := block_entry_next_inv W cvt (KernelArgs.init cvt A B C ldc M N K bias act true
        buf) hW h4 hf hP' i j hi hj
    have hli := blk_last_iff (nblk_m W M) (nblk_n W N) i j hi hj
    obtain ⟨h13, h27, h28, -, h11, h10, -, -, -, -, hrd, -⟩ := hinv
    obtain ⟨-, -, -, -, -, -, -, -, -, -, hrdn, -⟩ := hnext
    simp only [hN0, hM0, hi, hb0, if_true, hs] at h13 h11 hrd hrdn
    have hlt : i * nblk_n W N + j < nblk_m W M * nblk_n W N := by
      have h1 : (i + 1) * nblk_n W N ≤ nblk_m W M * nblk_n W N := Nat.mul_le_mul_right _ hi
      have e1 : (i + 1) * nblk_n W N = i * nblk_n W N + nblk_n W N := by ring
      omega
    refine ⟨hlt, h28, h27, ?_, hrd, ?_, ?_, ?_, ?_⟩
    · have hn := n_step_iff W N j hW
      have hm := m_step_iff W M i hW
      constructor
      · intro he
        have hnl : ¬ (if j + 1 < nblk_n W N then i else i + 1) < nblk_m W M := by
          rw [← hli]
          omega
        by_cases hj1 : j + 1 < nblk_n W N
        · simp only [hj1, if_true] at hnl
          exact absurd hi hnl
        · simp only [hj1, if_false] at hnl
          constructor
          · by_contra hc
            exact hj1 (hn.1 (by omega))
          · by_contra hc
            exact hnl (hm.1 (by omega))
      · rintro ⟨hNn, hMm⟩
        have hj1 : ¬ j + 1 < nblk_n W N := fun h => by have := hn.2 h; omega
        have hi1 : ¬ i + 1 < nblk_m W M := fun h => by have := hm.2 h; omega
        have hnl : ¬ (i * nblk_n W N + j + 1 < nblk_m W M * nblk_n W N) := by
          rw [hli]
          simp only [hj1, if_false]
          exact hi1
        omega
    · rw [h13]
      exact hb0
    · rw [prepare_accumulators_spec W _ _ (by rw [h13]; exact hf), h13, h28, h27]
      show (flags_after_test W (KernelArgs.init cvt A B C ldc M N K bias act true buf) (W * i) (4 *
          W * j) (KernelArgs.init cvt A B C ldc M N K bias act true buf).flags).testBit 0 = _
      rw [fat_eq W (KernelArgs.init cvt A B C ldc M N K bias act true buf) i j hW hf hP' hi]
      by_cases hc : i * nblk_n W N + j + 1 < nblk_m W M * nblk_n W N
      · have hc' := hli.1 hc
        simp only [hN0, hM0, hc', if_true, hc, decide_True]
        exact hb0
      · have hc' : ¬ (if j + 1 < nblk_n W N then i else i + 1) < nblk_m W M :=
          fun h => hc (hli.2 h)
        simp only [hN0, hM0, hc', if_false, hc, decide_False]
        exact bfc0_testBit0 _ hf
    · rw [hrdn]
      by_cases hc : i * nblk_n W N + j + 1 < nblk_m W M * nblk_n W N
      · have hc' := hli.1 hc
        simp only [hc', if_true, hc]
        congr 2
        by_cases hj1 : j + 1 < nblk_n W N
        · simp only [hj1, if_true]
          omega
        · simp only [hj1, if_false]
          have : j + 1 = nblk_n W N := by omega
          rw [Nat.add_mul, Nat.one_mul]
          omega
      · have hc' : ¬ (if j + 1 < nblk_n W N then i else i + 1) < nblk_m W M :=
          fun h => hc (hli.2 h)
        simp only [hc', if_false, hc]
        congr 2
        by_cases hj1 : j + 1 < nblk_n W N
        · simp only [hj1, if_true]
          omega
        · simp only [hj1, if_false]
          have : j + 1 = nblk_n W N := by omega
          rw [Nat.add_mul, Nat.one_mul]
          omega
    · intro hC
      subst hC
      have hb1 : (KernelArgs.init cvt A B none ldc M N K bias act true buf).flags.testBit 1 = true
          := by
        rw [init_bit1]; rfl
      simp only [hN0, hM0, hb1, if_true, hs] at h10
      refine ⟨h10, ?_⟩
      rw [h11, h10]
      ring
  · intro x12 s hx
    have hg := store_refill_loop_gap W (W - x12) x12 s (Nat.le_refl _)
    omega

theorem accumulator_slots_read_equal_number_of_blocks_witness :
    0 < 4 ∧ 4 ∣ 4 ∧ 1 ≤ 5 ∧ 1 ≤ 18 ∧
    ((nblk_m 4 5 = (5 + 4 - 1) / 4 ∧ nblk_n 4 18 = (18 + 4 * 4 - 1) / (4 * 4) ∧
      slot 4 = 4 * 4 * 4) ∧
    sme2_interleaved_nomerge_fp16fp32fp16_mopa_1VLx4VL 4 id ones ones none 20 5 18 3 none
        no_activation true ones
      = some (block_entry 4 id (KernelArgs.init id ones ones none 20 5 18 3 none no_activation true
          ones) (nblk_m 4 5 * nblk_n 4 18)) ∧
    (block_entry 4 id (KernelArgs.init id ones ones none 20 5 18 3 none no_activation true ones)
        (nblk_m 4 5 * nblk_n 4 18)).reads
      = List.range (nblk_m 4 5 * nblk_n 4 18 * (4 * 4 * 4)) ∧
    (∀ k, k ∈ (block_entry 4 id (KernelArgs.init id ones ones none 20 5 18 3 none no_activation
        true ones) (nblk_m 4 5 * nblk_n 4 18)).reads
      ↔ k < nblk_m 4 5 * nblk_n 4 18 * (4 * 4 * 4)) ∧
    (block_entry 4 id (KernelArgs.init id ones ones none 20 5 18 3 none no_activation true ones)
        (0)).reads = List.range (4 * 4 * 4) ∧
    (∀ i j, i < nblk_m 4 5 → j < nblk_n 4 18 →
      i * nblk_n 4 18 + j < nblk_m 4 5 * nblk_n 4 18 ∧
      (block_entry 4 id (KernelArgs.init id ones ones none 20 5 18 3 none no_activation true ones)
          (i * nblk_n 4 18 + j)).x28 = 4 * i ∧
      (block_entry 4 id (KernelArgs.init id ones ones none 20 5 18 3 none no_activation true ones)
          (i * nblk_n 4 18 + j)).x27 = 4 * 4 * j ∧
      (i * nblk_n 4 18 + j + 1 = nblk_m 4 5 * nblk_n 4 18
        ↔ 18 ≤ 4 * 4 * j + 4 * 4 ∧ 5 ≤ 4 * i + 4) ∧
      (block_entry 4 id (KernelArgs.init id ones ones none 20 5 18 3 none no_activation true ones)
          (i * nblk_n 4 18 + j)).reads
        = List.range ((i * nblk_n 4 18 + j + 1) * (4 * 4 * 4)) ∧
      (block_entry 4 id (KernelArgs.init id ones ones none 20 5 18 3 none no_activation true ones)
          (i * nblk_n 4 18 + j)).x13.testBit 0 = true ∧
      (prepare_accumulators 4 (KernelArgs.init id ones ones none 20 5 18 3 none no_activation true
          ones) (block_entry 4 id (KernelArgs.init id ones ones none 20 5 18 3 none no_activation
              true ones) (i * nblk_n 4 18 + j))).x13.testBit 0
        = decide (i * nblk_n 4 18 + j + 1 < nblk_m 4 5 * nblk_n 4 18) ∧
      (block_entry 4 id (KernelArgs.init id ones ones none 20 5 18 3 none no_activation true ones)
          (i * nblk_n 4 18 + j + 1)).reads
        = List.range ((if i * nblk_n 4 18 + j + 1 < nblk_m 4 5 * nblk_n 4 18
            then i * nblk_n 4 18 + j + 2 else i * nblk_n 4 18 + j + 1) * (4 * 4 * 4)) ∧
      ((none : Option Int) = none →
        (block_entry 4 id (KernelArgs.init id ones ones none 20 5 18 3 none no_activation true
            ones) (i * nblk_n 4 18 + j)).x10 = (i * nblk_n 4 18 + j) * (4 * 4 * 4) ∧
        (block_entry 4 id (KernelArgs.init id ones ones none 20 5 18 3 none no_activation true
            ones) (i * nblk_n 4 18 + j)).x11
          = (block_entry 4 id (KernelArgs.init id ones ones none 20 5 18 3 none no_activation true
              ones) (i * nblk_n 4 18 + j)).x10 + 4 * 4 * 4)) ∧
    ∀ (x12 : Nat) (s : State ℚ), s.x11 = s.x10 + 4 * 4 * 4 →
      (store_refill_loop 4 x12 s).x11 = (store_refill_loop 4 x12 s).x10 + 4 * 4 * 4) :=
  ⟨by decide, by decide, by decide, by decide,
    accumulator_slots_read_equal_number_of_blocks 4 (by decide) (by decide) id ones ones none 20
      5 18 3 none no_activation ones (by decide) (by decide)⟩

end arm_gemm

/-! ## Activation clamp of both kernels -/

section Clamp

variable {R : Type} [LinearOrderedField R]

theorem clamp_order (v lo hi : R) (h : lo ≤ hi) : min (max v lo) hi = max (min v hi) lo := by
  rcases le_total v lo with h1 | h1 <;> rcases le_total v hi with h2 | h2
  · rw [max_eq_right h1, min_eq_left h, min_eq_left h2, max_eq_right h1]
  · rw [max_eq_right h1, min_eq_left h, min_eq_right h2, max_eq_right (h2.trans h1)]
  · rw [max_eq_left h1, min_eq_left h2, max_eq_left h1]
  · rw [max_eq_left h1, min_eq_right h2, max_eq_left h]

theorem fclamp_h_order (v : R) (lo hi : Option R)
    (h : ∀ l u, lo = some l → hi = some u → l ≤ u) :
    arm_gemm.fclamp_h v lo hi = arm_gemm.clamp_max_min v lo hi := by
  cases lo with
  | none => cases hi <;> rfl
  | some l =>
    cases hi with
    | none => rfl
    | some u => exact clamp_order v l u (h l u rfl rfl)

theorem conv_ref_crossed (i j r c ch : Nat) :
    arm_conv.depthwise.conv_ref 4 arm_conv.depthwise.crossed_bounds_args i j r c ch = 0 := by
  simp [arm_conv.depthwise.conv_ref, arm_conv.depthwise.bias_of, arm_conv.depthwise.weight_of,
    arm_conv.depthwise.input_at, arm_conv.depthwise.crossed_bounds_args]

/-- C2, counterexample: for the bounds `activationMin = 1`, `activationMax = 0` and the finalized
value `v = 0` (zero input, zero bias and weights) the depthwise kernel stores `0` at every output
position, whereas `max(min(v, activationMax), activationMin)` is `1`. -/
theorem clamp_formula_fails_for_crossed_bounds :
    ∃ st, arm_conv.depthwise.sme2_fp32_nhwc_3x3_s1_output3x3_mla_depthfirst_direct_impl 4
        arm_conv.depthwise.crossed_bounds_args 1 = some st ∧
      (∀ r c, r < 3 → c < 3 →
        (arm_conv.depthwise.out_offset arm_conv.depthwise.crossed_bounds_args 0 0 r c 0, (0 : ℚ))
          ∈ st) ∧
      (∀ e ∈ st, e.2 = 0) ∧
      (∀ i j r c,
        max (min (arm_conv.depthwise.conv_ref 4 arm_conv.depthwise.crossed_bounds_args i j r c 0)
            arm_conv.depthwise.crossed_bounds_args.max)
          arm_conv.depthwise.crossed_bounds_args.min = 1) := by
  have hval : ∀ i j r c ch,
      min (max (arm_conv.depthwise.conv_ref 4 arm_conv.depthwise.crossed_bounds_args i j r c ch)
          arm_conv.depthwise.crossed_bounds_args.min)
        arm_conv.depthwise.crossed_bounds_args.max = 0 := by
    intro i j r c ch
    rw [conv_ref_crossed]
    simp [arm_conv.depthwise.crossed_bounds_args]
  refine ⟨_, arm_conv.depthwise.kernel_trace 4 (by decide)
    arm_conv.depthwise.crossed_bounds_args 1, ?_, ?_, ?_⟩
  · intro r c hr hc
    rw [List.mem_flatMap]
    refine ⟨(0, 0), arm_conv.depthwise.mem_visited_tiles _ _ 0 0 (by decide) (by decide), ?_⟩
    rw [arm_conv.depthwise.mem_tile_stores 4 1 (by decide)]
    exact ⟨r, c, 0, hr, hc, by decide, by rw [hval]⟩
  · intro e he
    rw [List.mem_flatMap] at he
    obtain ⟨t, _, ht⟩ := he
    obtain ⟨r, c, ch, _, _, _, heq⟩ :=
      (arm_conv.depthwise.mem_tile_stores 4 1 (by decide) _ t.1 t.2 e).1 ht
    rw [heq]
    exact hval ..
  · intro i j r c
    rw [conv_ref_crossed]
    simp [arm_conv.depthwise.crossed_bounds_args]

/-- C2, amended: for all finalized values and all activation bounds with
`activationMin <= activationMax` the value each kernel stores is
`max(min(v, activationMax), activationMin)`: in the depthwise kernel at all nine output
positions of every tile and every channel, `v` being the convolution value, and in the GEMM
kernel for every element stored through `C`, `v` being the converted accumulator. -/
theorem stored_value_is_clamp_for_ordered_bounds (W : Nat) (hW : 0 < W) (h4 : 4 ∣ W)
    (a : arm_conv.depthwise.Args R) (n_channels : Nat) (hb : a.min ≤ a.max)
    (cvt : R → R) (A B : Nat → R) (base ldc : Int) (M N K : Nat) (bias : Option (Nat → R))
    (act : arm_gemm.Activation R) (accumulate : Bool) (buf : Nat → R)
    (hP : 0 < M ∨ accumulate = false)
    (hg : ∀ lo hi,
      (arm_gemm.KernelArgs.init cvt A B (some base) ldc M N K bias act accumulate buf).min
        = some lo →
      (arm_gemm.KernelArgs.init cvt A B (some base) ldc M N K bias act accumulate buf).max
        = some hi → lo ≤ hi) :
    (∃ st, arm_conv.depthwise.sme2_fp32_nhwc_3x3_s1_output3x3_mla_depthfirst_direct_impl W a
        n_channels = some st ∧
      (∀ i j r c ch, i < a.n_tile_rows → j < a.n_tile_cols → r < 3 → c < 3 →
        ch < n_channels →
        (arm_conv.depthwise.out_offset a i j r c ch,
          max (min (arm_conv.depthwise.conv_ref W a i j r c ch) a.max) a.min) ∈ st) ∧
      (∀ e ∈ st, ∃ i j r c ch, r < 3 ∧ c < 3 ∧ ch < n_channels ∧
        e = (arm_conv.depthwise.out_offset a i j r c ch,
          max (min (arm_conv.depthwise.conv_ref W a i j r c ch) a.max) a.min))) ∧
    (∃ s', arm_gemm.sme2_interleaved_nomerge_fp16fp32fp16_mopa_1VLx4VL W cvt A B (some base)
        ldc M N K bias act accumulate buf = some s' ∧
      ∀ e ∈ s'.c_stores, ∃ i j, e.x28 = W * i ∧ e.x27 = 4 * W * j ∧
        e.val = arm_gemm.clamp_max_min
          (cvt (arm_gemm.acc_final W
            (arm_gemm.KernelArgs.init cvt A B (some base) ldc M N K bias act accumulate buf)
            i j (e.lane / W) e.row (e.lane % W)))
          (arm_gemm.KernelArgs.init cvt A B (some base) ldc M N K bias act accumulate buf).min
          (arm_gemm.KernelArgs.init cvt A B (some base) ldc M N K bias act accumulate
            buf).max) := by
  constructor
  · refine ⟨_, arm_conv.depthwise.kernel_trace W hW a n_channels, ?_, ?_⟩
    · intro i j r c ch hi hj hr hc hch
      rw [List.mem_flatMap]
      refine ⟨(i, j), arm_conv.depthwise.mem_visited_tiles _ _ i j hi hj, ?_⟩
      rw [arm_conv.depthwise.mem_tile_stores W n_channels hW]
      exact ⟨r, c, ch, hr, hc, hch, by rw [clamp_order _ _ _ hb]⟩
    · intro e he
      rw [List.mem_flatMap] at he
      obtain ⟨t, _, ht⟩ := he
      obtain ⟨r, c, ch, hr, hc, hch, heq⟩ :=
        (arm_conv.depthwise.mem_tile_stores W n_channels hW a t.1 t.2 e).1 ht
      exact ⟨t.1, t.2, r, c, ch, hr, hc, hch, by rw [heq, clamp_order _ _ _ hb]⟩
  · have hP' : 0 < (arm_gemm.KernelArgs.init cvt A B (some base) ldc M N K bias act accumulate
          buf).M ∨
        (arm_gemm.KernelArgs.init cvt A B (some base) ldc M N K bias act accumulate
          buf).flags.testBit 0 = false := by
      rcases hP with h | h
      · exact Or.inl h
      · right; rw [arm_gemm.init_bit0]; exact h
    obtain ⟨s', hs, hcs, -, -, -⟩ := arm_gemm.kernel_asm_output W cvt
      (arm_gemm.KernelArgs.init cvt A B (some base) ldc M N K bias act accumulate buf) hW h4
      (arm_gemm.init_flags_lt ..) hP' (by rw [arm_gemm.init_bit1]; rfl)
    have hmem := arm_gemm.mem_stores_all W cvt
      (arm_gemm.KernelArgs.init cvt A B (some base) ldc M N K bias act accumulate buf)
    rw [← hcs] at hmem
    refine ⟨s', hs, ?_⟩
    intro e he
    obtain ⟨i, j, _, _, hblk⟩ := (hmem e).1 he
    obtain ⟨r, l, _, _, _, rfl⟩ := (arm_gemm.mem_blk_stores W cvt _ _ _ _).1 hblk
    exact ⟨i, j, rfl, rfl, fclamp_h_order _ _ _ hg⟩

theorem stored_value_is_clamp_for_ordered_bounds_witness :
    0 < 4 ∧ 4 ∣ 4 ∧ arm_conv.depthwise.sample_args.min ≤ arm_conv.depthwise.sample_args.max ∧
    (0 < 5 ∨ false = false) ∧
    (∀ lo hi,
      (arm_gemm.KernelArgs.init id arm_gemm.ones arm_gemm.ones (some 0) 20 5 18 3 none
        arm_gemm.bounded_relu false arm_gemm.ones).min = some lo →
      (arm_gemm.KernelArgs.init id arm_gemm.ones arm_gemm.ones (some 0) 20 5 18 3 none
        arm_gemm.bounded_relu false arm_gemm.ones).max = some hi → lo ≤ hi) ∧
    ((∃ st, arm_conv.depthwise.sme2_fp32_nhwc_3x3_s1_output3x3_mla_depthfirst_direct_impl 4
        arm_conv.depthwise.sample_args 1 = some st ∧
      (∀ i j r c ch, i < arm_conv.depthwise.sample_args.n_tile_rows →
        j < arm_conv.depthwise.sample_args.n_tile_cols → r < 3 → c < 3 → ch < 1 →
        (arm_conv.depthwise.out_offset arm_conv.depthwise.sample_args i j r c ch,
          max (min (arm_conv.depthwise.conv_ref 4 arm_conv.depthwise.sample_args i j r c ch)
            arm_conv.depthwise.sample_args.max) arm_conv.depthwise.sample_args.min) ∈ st) ∧
      (∀ e ∈ st, ∃ i j r c ch, r < 3 ∧ c < 3 ∧ ch < 1 ∧
        e = (arm_conv.depthwise.out_offset arm_conv.depthwise.sample_args i j r c ch,
          max (min (arm_conv.depthwise.conv_ref 4 arm_conv.depthwise.sample_args i j r c ch)
            arm_conv.depthwise.sample_args.max) arm_conv.depthwise.sample_args.min))) ∧
    (∃ s', arm_gemm.sme2_interleaved_nomerge_fp16fp32fp16_mopa_1VLx4VL 4 id arm_gemm.ones
        arm_gemm.ones (some 0) 20 5 18 3 none arm_gemm.bounded_relu false arm_gemm.ones
          = some s' ∧
      ∀ e ∈ s'.c_stores, ∃ i j, e.x28 = 4 * i ∧ e.x27 = 4 * 4 * j ∧
        e.val = arm_gemm.clamp_max_min
          (id (arm_gemm.acc_final 4
            (arm_gemm.KernelArgs.init id arm_gemm.ones arm_gemm.ones (some 0) 20 5 18 3 none
              arm_gemm.bounded_relu false arm_gemm.ones)
            i j (e.lane / 4) e.row (e.lane % 4)))
          (arm_gemm.KernelArgs.init id arm_gemm.ones arm_gemm.ones (some 0) 20 5 18 3 none
            arm_gemm.bounded_relu false arm_gemm.ones).min
          (arm_gemm.KernelArgs.init id arm_gemm.ones arm_gemm.ones (some 0) 20 5 18 3 none
            arm_gemm.bounded_relu false arm_gemm.ones).max)) :=
  have hb : arm_conv.depthwise.sample_args.min ≤ arm_conv.depthwise.sample_args.max := by
    simp [arm_conv.depthwise.sample_args]
  have hg : ∀ lo hi,
      (arm_gemm.KernelArgs.init id arm_gemm.ones arm_gemm.ones (some 0) 20 5 18 3 none
        arm_gemm.bounded_relu false arm_gemm.ones).min = some lo →
      (arm_gemm.KernelArgs.init id arm_gemm.ones arm_gemm.ones (some 0) 20 5 18 3 none
        arm_gemm.bounded_relu false arm_gemm.ones).max = some hi → lo ≤ hi := by
    intro lo hi h1 h2
    simp [arm_gemm.KernelArgs.init, arm_gemm.bounded_relu] at h1 h2
    have e : arm_gemm.static_cast_fp16 id (6 : ℚ) = some 6 := by
      unfold arm_gemm.static_cast_fp16
      rw [if_neg (by norm_num)]
      rfl
    rw [e] at h2
    have h3 := Option.some.inj h2
    rw [← h1, ← h3]
    norm_num
  ⟨by decide, by decide, hb, Or.inl (by decide), hg,
    stored_value_is_clamp_for_ordered_bounds 4 (by decide) (by decide)
      arm_conv.depthwise.sample_args 1 hb id arm_gemm.ones arm_gemm.ones 0 20 5 18 3 none
      arm_gemm.bounded_relu false arm_gemm.ones (Or.inl (by decide)) hg⟩

end Clamp

/-! ## Tensor memory manager: proofs -/

namespace arm_compute

theorem misaligned_alignment_spec (data : Nat) (hd : data ≠ 0) :
    ∀ (fuel A : Nat), 0 < A → data + 2 ≤ fuel + A → 1 ≤ fuel →
      ∃ A2, misaligned_alignment data fuel A = some A2 ∧ check_aligned data A2 = false := by
  intro fuel
  induction fuel with
  | zero =>
    intro A _ _ h1
    omega
  | succ f ih =>
    intro A hA hle _
    rw [misaligned_alignment]
    by_cases hc : check_aligned data A = true
    · simp only [hc, if_true]
      have hdiv : A ∣ data := by
        unfold check_aligned at hc
        exact Nat.dvd_of_mod_eq_zero (by simpa using hc)
      have hle2 : A ≤ data := Nat.le_of_dvd (Nat.pos_of_ne_zero hd) hdiv
      exact ih (A + 1) (by omega) (by omega) (by omega)
    · have hc2 : check_aligned data A = false := by simpa using hc
      simp only [hc2, Bool.false_eq_true, if_false]
      exact ⟨A, rfl, hc2⟩

theorem import_memory_fails_iff (t : Tensor) (memory : Nat) :
    (TensorAllocator.import_memory t memory).1 = false ↔
      (memory = 0 ∨ check_aligned memory t.alignment = false ∨ t.memory_group = true) := by
  unfold TensorAllocator.import_memory
  by_cases h0 : memory = 0
  · simp [h0]
  · by_cases ha : check_aligned memory t.alignment = true
    · by_cases hg : t.memory_group = true
      · simp [h0, ha, hg]
      · simp [h0, ha, hg]
    · simp [h0, ha]

theorem import_memory_failure (t : Tensor) (memory : Nat)
    (h : (TensorAllocator.import_memory t memory).1 = false) :
    (TensorAllocator.import_memory t memory).2 = t := by
  unfold TensorAllocator.import_memory at h ⊢
  by_cases h0 : memory = 0
  · simp [h0]
  · by_cases ha : check_aligned memory t.alignment = true
    · by_cases hg : t.memory_group = true
      · simp [h0, ha, hg]
      · simp [h0, ha, hg] at h
    · simp [h0, ha]

/-- C12: `import_memory` returns a false status in each of the three cases (null pointer,
pointer not aligned to the configured alignment, tensor with an associated memory group) and in
no other; whenever it fails the tensor is left unmodified, so `is_resizable()` stays true and the
bound buffer pointer is unchanged.  The three negative cases of `TEST_CASE(ImportMemory)` hold
for every non-null `data`. -/
theorem import_memory_failure_leaves_tensor_unmodified (t : Tensor) (memory : Nat) :
    ((memory = 0 ∨ check_aligned memory t.alignment = false ∨ t.memory_group = true) →
      (TensorAllocator.import_memory t memory).1 = false) ∧
    ((TensorAllocator.import_memory t memory).1 = false →
      (memory = 0 ∨ check_aligned memory t.alignment = false ∨ t.memory_group = true) ∧
      (TensorAllocator.import_memory t memory).2 = t ∧
      (TensorAllocator.import_memory t memory).2.buffer = t.buffer ∧
      (t.is_resizable = true →
        (TensorAllocator.import_memory t memory).2.is_resizable = true)) ∧
    (∀ default_alignment data, data ≠ 0 →
      ImportMemory_negative default_alignment data = some true) := by
  refine ⟨(import_memory_fails_iff t memory).2, ?_, ?_⟩
  · intro h
    have e := import_memory_failure t memory h
    refine ⟨(import_memory_fails_iff t memory).1 h, e, by rw [e], ?_⟩
    intro hr
    rw [e]
    exact hr
  · intro default_alignment data hd
    obtain ⟨A2, hA, hmis⟩ := misaligned_alignment_spec data hd (data + 2) 339 (by norm_num)
      (by omega) (by omega)
    unfold ImportMemory_negative
    simp only [hA]
    have h1 : ∀ t : Tensor, (TensorAllocator.import_memory t 0).1 = false :=
      fun t => (import_memory_fails_iff t 0).2 (Or.inl rfl)
    have h2 : (TensorAllocator.import_memory
        (TensorAllocator.init Tensor.empty 24 16 3 4 A2) data).1 = false :=
      (import_memory_fails_iff _ data).2 (Or.inr (Or.inl hmis))
    have h3 : (TensorAllocator.import_memory
        (TensorAllocator.set_associated_memory_group Tensor.empty) data).1 = false :=
      (import_memory_fails_iff _ data).2 (Or.inr (Or.inr rfl))
    rw [import_memory_failure _ _ h2, import_memory_failure _ _ h3,
      import_memory_failure _ _ (h1 _), h1, h2, h3]
    rfl

theorem import_memory_success (t : Tensor) (memory : Nat) (hg : t.memory_group = false)
    (hp : memory ≠ 0) (ha : check_aligned memory t.alignment = true) :
    TensorAllocator.import_memory t memory
      = (true, { t with buffer := memory, ownership := some Ownership.Imported,
                        is_resizable := false }) := by
  unfold TensorAllocator.import_memory
  simp [hp, ha, hg]

theorem allocate_some (sys : Nat → Nat → Option Nat) (t t2 : Tensor)
    (h : TensorAllocator.allocate sys t = some t2) :
    ∃ p, p ≠ 0 ∧ check_aligned p t.alignment = true ∧
      t2 = { t with buffer := p, ownership := some Ownership.Owned, is_resizable := false } := by
  unfold TensorAllocator.allocate at h
  cases hs : sys t.total_size t.alignment with
  | none => simp [hs] at h
  | some p =>
    simp only [hs] at h
    by_cases hc : p ≠ 0 ∧ check_aligned p t.alignment = true
    · rw [if_pos hc] at h
      exact ⟨p, hc.1, hc.2, (Option.some.inj h).symm⟩
    · rw [if_neg hc] at h
      exact absurd h (by simp)

theorem check_aligned_unspecified (p : Nat) : check_aligned p unspecified_alignment = true := by
  simp [check_aligned, unspecified_alignment, Nat.mod_one]

theorem allocate_success (sys : Nat → Nat → Option Nat) (t : Tensor) (q : Nat)
    (hs : sys t.total_size t.alignment = some q) (hq : q ≠ 0)
    (ha : check_aligned q t.alignment = true) :
    TensorAllocator.allocate sys t
      = some { t with buffer := q, ownership := some Ownership.Owned, is_resizable := false } := by
  unfold TensorAllocator.allocate
  simp only [hs]
  rw [if_pos ⟨hq, ha⟩]

/-- C13: for every tensor without a memory group and every non-null pointer `p` aligned to the
tensor's alignment, `import_memory(p)` succeeds and leaves `is_resizable()` false and
`buffer() == p`; a subsequent `free()` leaves `is_resizable()` true and `buffer() == nullptr`,
and so does `free()` after an `allocate()`, which succeeds whenever the system returns a
non-null address aligned to the tensor's alignment (an owned buffer).  For a tensor initialised
without an alignment every non-null pointer qualifies: the positive case of
`TEST_CASE(ImportMemory)` and the import and release of `TEST_CASE(ImportMemoryMallocPadded)`
hold for every non-null pointer, the allocator assertions of `TEST_CASE(ImportMemoryMalloc)` for
every non-null pointer aligned to 64. -/
theorem import_then_free_round_trip (t : Tensor) (p : Nat) (hg : t.memory_group = false)
    (hp : p ≠ 0) (ha : check_aligned p t.alignment = true) :
    (TensorAllocator.import_memory t p).1 = true ∧
    (TensorAllocator.import_memory t p).2.is_resizable = false ∧
    (TensorAllocator.import_memory t p).2.buffer = p ∧
    (TensorAllocator.free (TensorAllocator.import_memory t p).2).is_resizable = true ∧
    (TensorAllocator.free (TensorAllocator.import_memory t p).2).buffer = 0 ∧
    (∀ sys t2, TensorAllocator.allocate sys t = some t2 →
      t2.is_resizable = false ∧ t2.buffer ≠ 0 ∧
      (TensorAllocator.free t2).is_resizable = true ∧ (TensorAllocator.free t2).buffer = 0) ∧
    (∀ sys q, sys t.total_size t.alignment = some q → q ≠ 0 →
      check_aligned q t.alignment = true →
      ∃ t2, TensorAllocator.allocate sys t = some t2 ∧ t2.buffer = q) ∧
    (∀ width height channels element_size data,
      check_aligned data (TensorAllocator.init Tensor.empty width height channels element_size
        unspecified_alignment).alignment = true ∧
      check_aligned data Tensor.empty.alignment = true) ∧
    (∀ data, data ≠ 0 → ImportMemory_positive data = true) ∧
    (∀ aligned_ptr, aligned_ptr ≠ 0 → check_aligned aligned_ptr 64 = true →
      ImportMemoryMalloc aligned_ptr = true) ∧
    (∀ raw_data, raw_data ≠ 0 → ImportMemoryMallocPadded_import raw_data = some true) := by
  rw [import_memory_success t p hg hp ha]
  refine ⟨rfl, rfl, rfl, rfl, rfl, ?_, ?_, ?_, ?_, ?_, ?_⟩
  · intro sys t2 h
    obtain ⟨q, hq, -, rfl⟩ := allocate_some sys t t2 h
    exact ⟨rfl, hq, rfl, rfl⟩
  · intro sys q hs hq haq
    exact ⟨_, allocate_success sys t q hs hq haq, rfl⟩
  · intro width height channels element_size data
    exact ⟨check_aligned_unspecified data, check_aligned_unspecified data⟩
  · intro data hd
    have e := import_memory_success
      (TensorAllocator.init Tensor.empty 24 16 3 4 unspecified_alignment) data rfl hd
      (check_aligned_unspecified data)
    simp [ImportMemory_positive, e, TensorAllocator.free]
  · intro aligned_ptr hd hal
    have e := import_memory_success
      (TensorAllocator.init Tensor.empty 24 16 3 4 64) aligned_ptr rfl hd hal
    simp [ImportMemoryMalloc, e, TensorAllocator.free]
  · intro raw_data hd
    simp [ImportMemoryMallocPadded_import, TensorInfo.extend_padding, fresh_tensor,
      TensorAllocator.init, Tensor.empty, TensorAllocator.import_memory, hd,
      check_aligned, unspecified_alignment, TensorAllocator.free, Nat.mod_one]

theorem import_then_free_round_trip_witness :
    fresh_tensor.memory_group = false ∧ 4099 ≠ 0 ∧
    check_aligned 4099 fresh_tensor.alignment = true ∧
    ((TensorAllocator.import_memory fresh_tensor 4099).1 = true ∧
    (TensorAllocator.import_memory fresh_tensor 4099).2.is_resizable = false ∧
    (TensorAllocator.import_memory fresh_tensor 4099).2.buffer = 4099 ∧
    (TensorAllocator.free (TensorAllocator.import_memory fresh_tensor 4099).2).is_resizable
      = true ∧
    (TensorAllocator.free (TensorAllocator.import_memory fresh_tensor 4099).2).buffer = 0 ∧
    (∀ sys t2, TensorAllocator.allocate sys fresh_tensor = some t2 →
      t2.is_resizable = false ∧ t2.buffer ≠ 0 ∧
      (TensorAllocator.free t2).is_resizable = true ∧ (TensorAllocator.free t2).buffer = 0) ∧
    (∀ sys q, sys fresh_tensor.total_size fresh_tensor.alignment = some q → q ≠ 0 →
      check_aligned q fresh_tensor.alignment = true →
      ∃ t2, TensorAllocator.allocate sys fresh_tensor = some t2 ∧ t2.buffer = q) ∧
    (∀ width height channels element_size data,
      check_aligned data (TensorAllocator.init Tensor.empty width height channels element_size
        unspecified_alignment).alignment = true ∧
      check_aligned data Tensor.empty.alignment = true) ∧
    (∀ data, data ≠ 0 → ImportMemory_positive data = true) ∧
    (∀ aligned_ptr, aligned_ptr ≠ 0 → check_aligned aligned_ptr 64 = true →
      ImportMemoryMalloc aligned_ptr = true) ∧
    (∀ raw_data, raw_data ≠ 0 → ImportMemoryMallocPadded_import raw_data = some true)) :=
  ⟨rfl, by decide, by decide,
    import_then_free_round_trip fresh_tensor 4099 rfl (by decide) (by decide)⟩

/-- C14: for every successful `allocate()` on a tensor initialised with alignment `A` the buffer
is non-null, `alignment()` equals `A` and the buffer address is a multiple of `A`
(address mod `A` is zero); so the assertions of `TEST_CASE(AlignedAlloc)`, `A = 1024`, hold
whenever its allocation succeeds. -/
theorem allocate_returns_aligned_buffer (sys : Nat → Nat → Option Nat) (t t2 : Tensor)
    (h : TensorAllocator.allocate sys t = some t2) :
    t2.buffer ≠ 0 ∧ TensorAllocator.alignment t2 = t.alignment ∧
    t2.buffer % t.alignment = 0 ∧ t2.is_resizable = false ∧
    t2.ownership = some Ownership.Owned ∧
    (∀ sys2, AlignedAlloc sys2 ≠ some false) := by
  obtain ⟨q, hq, hal, rfl⟩ := allocate_some sys t t2 h
  refine ⟨hq, rfl, ?_, rfl, rfl, ?_⟩
  · unfold check_aligned at hal
    simpa using hal
  · intro sys2
    show (match TensorAllocator.allocate sys2
        (TensorAllocator.init Tensor.empty 24 16 3 4 1024) with
      | none => none
      | some t => some (t.buffer != 0 && TensorAllocator.alignment t == 1024
          && check_aligned t.buffer 1024)) ≠ some false
    cases ha : TensorAllocator.allocate sys2 (TensorAllocator.init Tensor.empty 24 16 3 4 1024)
      with
    | none => simp
    | some t3 =>
      obtain ⟨q, hq, hal, rfl⟩ := allocate_some sys2 _ t3 ha
      have hal2 : check_aligned q 1024 = true := hal
      simp [hq, hal2, TensorAllocator.alignment, TensorAllocator.init]

theorem allocate_returns_aligned_buffer_witness :
    TensorAllocator.allocate (fun _ a => some (3 * a))
        (TensorAllocator.init Tensor.empty 24 16 3 4 1024)
      = some { TensorAllocator.init Tensor.empty 24 16 3 4 1024 with
               buffer := 3072, ownership := some Ownership.Owned, is_resizable := false } ∧
    ((3072 : Nat) ≠ 0 ∧ (1024 : Nat) = 1024 ∧ 3072 % 1024 = 0 ∧
      AlignedAlloc (fun _ a => some (3 * a)) = some true) :=
  have h : TensorAllocator.allocate (fun _ a => some (3 * a))
        (TensorAllocator.init Tensor.empty 24 16 3 4 1024)
      = some { TensorAllocator.init Tensor.empty 24 16 3 4 1024 with
               buffer := 3072, ownership := some Ownership.Owned, is_resizable := false } := by
    decide
  have r := allocate_returns_aligned_buffer (fun _ a => some (3 * a))
    (TensorAllocator.init Tensor.empty 24 16 3 4 1024) _ h
  ⟨h, r.1, r.2.1, r.2.2.1, by decide⟩

/-- C15: for every resizable tensor and every requested padding `p`, `extend_padding(p)`
succeeds and leaves each margin (top, right, bottom, left) at least its value before the call
and at least the requested value; the logical extents are unchanged, no stride shrinks, and the
resulting strides are at least the logical extent plus the margins (of the next-inner dimension,
in units of its stride; in elements for a positive element size).  On a tensor with no prior
padding `padding()` equals `p` exactly, as `TEST_CASE(ImportMemoryMallocPadded)` validates for
`p = (3, 5, 2, 4)`. -/
theorem extend_padding_is_monotonic (t : Tensor) (p : PaddingSize)
    (h : t.is_resizable = true) :
    ∃ t2, TensorInfo.extend_padding t p = some t2 ∧
      (t.padding.top ≤ t2.padding.top ∧ t.padding.right ≤ t2.padding.right ∧
        t.padding.bottom ≤ t2.padding.bottom ∧ t.padding.left ≤ t2.padding.left) ∧
      (p.top ≤ t2.padding.top ∧ p.right ≤ t2.padding.right ∧
        p.bottom ≤ t2.padding.bottom ∧ p.left ≤ t2.padding.left) ∧
      (t2.width = t.width ∧ t2.height = t.height ∧ t2.channels = t.channels) ∧
      (t.strides.1 ≤ t2.strides.1 ∧ t.strides.2.1 ≤ t2.strides.2.1 ∧
        t.strides.2.2 ≤ t2.strides.2.2) ∧
      ((t2.width + t2.padding.left + t2.padding.right) * t2.strides.1 ≤ t2.strides.2.1 ∧
        (t2.height + t2.padding.top + t2.padding.bottom) * t2.strides.2.1 ≤ t2.strides.2.2 ∧
        (1 ≤ t.element_size →
          t2.width + t2.padding.left + t2.padding.right ≤ t2.strides.2.1)) ∧
      (t.padding = { top := 0, right := 0, bottom := 0, left := 0 } → t2.padding = p) ∧
      ImportMemoryMallocPadded_padding = some true := by
  refine ⟨_, by unfold TensorInfo.extend_padding; rw [if_pos h], ?_, ?_, ?_, ?_, ?_, ?_, ?_⟩
  · exact ⟨le_max_left _ _, le_max_left _ _, le_max_left _ _, le_max_left _ _⟩
  · exact ⟨le_max_right _ _, le_max_right _ _, le_max_right _ _, le_max_right _ _⟩
  · exact ⟨rfl, rfl, rfl⟩
  · have h1 : (t.padding.left + t.width + t.padding.right) * t.element_size
        ≤ (max t.padding.left p.left + t.width + max t.padding.right p.right)
          * t.element_size :=
      Nat.mul_le_mul_right _ (by
        have := le_max_left t.padding.left p.left
        have := le_max_left t.padding.right p.right
        omega)
    refine ⟨le_refl _, h1, ?_⟩
    exact Nat.mul_le_mul (by
      have := le_max_left t.padding.top p.top
      have := le_max_left t.padding.bottom p.bottom
      show t.padding.top + t.height + t.padding.bottom
        ≤ max t.padding.top p.top + t.height + max t.padding.bottom p.bottom
      omega) h1
  · refine ⟨?_, ?_, ?_⟩
    · show (t.width + max t.padding.left p.left + max t.padding.right p.right) * t.element_size
        ≤ (max t.padding.left p.left + t.width + max t.padding.right p.right) * t.element_size
      exact Nat.mul_le_mul_right _ (by omega)
    · show (t.height + max t.padding.top p.top + max t.padding.bottom p.bottom)
          * ((max t.padding.left p.left + t.width + max t.padding.right p.right)
            * t.element_size)
        ≤ (max t.padding.top p.top + t.height + max t.padding.bottom p.bottom)
          * ((max t.padding.left p.left + t.width + max t.padding.right p.right)
            * t.element_size)
      exact Nat.mul_le_mul_right _ (by omega)
    · intro he
      show t.width + max t.padding.left p.left + max t.padding.right p.right
        ≤ (max t.padding.left p.left + t.width + max t.padding.right p.right) * t.element_size
      calc t.width + max t.padding.left p.left + max t.padding.right p.right
          = (max t.padding.left p.left + t.width + max t.padding.right p.right) * 1 := by
            rw [Nat.mul_one]; omega
        _ ≤ (max t.padding.left p.left + t.width + max t.padding.right p.right)
              * t.element_size := Nat.mul_le_mul_left _ he
  · intro h0
    show ({ top := max t.padding.top p.top, right := max t.padding.right p.right,
            bottom := max t.padding.bottom p.bottom, left := max t.padding.left p.left }
          : PaddingSize) = p
    rw [h0]
    simp
  · decide

theorem extend_padding_is_monotonic_witness :
    fresh_tensor.is_resizable = true ∧
    (∃ t2, TensorInfo.extend_padding fresh_tensor enforced_padding = some t2 ∧
      (fresh_tensor.padding.top ≤ t2.padding.top ∧ fresh_tensor.padding.right ≤ t2.padding.right ∧
        fresh_tensor.padding.bottom ≤ t2.padding.bottom ∧ fresh_tensor.padding.left ≤ t2.padding.left) ∧
      (enforced_padding.top ≤ t2.padding.top ∧ enforced_padding.right ≤ t2.padding.right ∧
        enforced_padding.bottom ≤ t2.padding.bottom ∧ enforced_padding.left ≤ t2.padding.left) ∧
      (t2.width = fresh_tensor.width ∧ t2.height = fresh_tensor.height ∧ t2.channels = fresh_tensor.channels) ∧
      (fresh_tensor.strides.1 ≤ t2.strides.1 ∧ fresh_tensor.strides.2.1 ≤ t2.strides.2.1 ∧
        fresh_tensor.strides.2.2 ≤ t2.strides.2.2) ∧
      ((t2.width + t2.padding.left + t2.padding.right) * t2.strides.1 ≤ t2.strides.2.1 ∧
        (t2.height + t2.padding.top + t2.padding.bottom) * t2.strides.2.1 ≤ t2.strides.2.2 ∧
        (1 ≤ fresh_tensor.element_size →
          t2.width + t2.padding.left + t2.padding.right ≤ t2.strides.2.1)) ∧
      (fresh_tensor.padding = { top := 0, right := 0, bottom := 0, left := 0 } → t2.padding = enforced_padding) ∧
      ImportMemoryMallocPadded_padding = some true) :=
  ⟨rfl, extend_padding_is_monotonic fresh_tensor enforced_padding rfl⟩

end arm_compute
